import Mathlib

/-! # Shallow embedding of `firmware/pcm_record.c`

The recording pipeline of the firmware is embedded as pure functions over an
explicit state record `PcmRec` holding the file's static variables.

Conventions of the embedding:

* `unsigned long` and `size_t` are 32-bit words on the firmware's targets; they
  are natural numbers and every arithmetic operation on them is reduced
  modulo `2 ^ 32` (`uadd`, `usub`, `umul`).
* `int` variables (ring indices, buffer positions, file descriptors) are
  integers; the code keeps them far below the range where signed overflow
  could occur.
* a pointer to a chunk header is the slot index of the chunk in the encoder
  buffer (`GET_ENC_CHUNK(index)`), so `get_chunk_index` is the identity.
* the encoder is an external collaborator reached through the registered
  callback `enc_events_callback`; it is a parameter (`Encoder`) of every
  function that invokes the callback. Each invocation is recorded in the ghost
  field `trace`, which the encoder cannot alter.
* the build is the regular one: `PCMREC_PARANOID` is not defined, so the
  paranoid macros expand to nothing.
-/

namespace PcmRecord

/-! ## Machine words -/

/-- Number of values of an `unsigned long` / `size_t` on the 32-bit targets. -/
def ULONG_RANGE : Nat := 2 ^ 32

/-- Unsigned 32-bit addition. -/
def uadd (a b : Nat) : Nat := (a + b) % ULONG_RANGE

/-- Unsigned 32-bit subtraction. -/
def usub (a b : Nat) : Nat := (a % ULONG_RANGE + ULONG_RANGE - b % ULONG_RANGE) % ULONG_RANGE

/-- Unsigned 32-bit multiplication. -/
def umul (a b : Nat) : Nat := (a * b) % ULONG_RANGE

/-- Bitwise complement of a 32-bit word (`~x`). -/
def unot (x : Nat) : Nat := 0xFFFFFFFF ^^^ (x % ULONG_RANGE)

/-- The test `(long)x < 0` on a 32-bit word: the top bit is set. -/
def long_negative (x : Nat) : Prop := 2 ^ 31 ≤ x % ULONG_RANGE

instance (x : Nat) : Decidable (long_negative x) := by
  unfold long_negative; exact inferInstance

/-! ## Constants of headers that are not part of the sources at hand

The values are those of the firmware's headers (`kernel.h`, `file.h`,
`audio.h`, `enc_base.h`, `pcm_record.h`); the proofs below use them only
through the bit they stand for. -/

/-- Modelled from the spec: `HZ` (kernel.h, absent), the number of ticks of the
"time unit" per second. -/
def HZ : Nat := 100

/-- Modelled from the spec: `MAX_PATH` (file.h, absent), the fixed length of a
path string of the filename queue. -/
def MAX_PATH : Nat := 260

/-- Modelled from the spec: `PCM_MAX_FEED_SIZE` (pcm_record.h, absent), the
"fixed maximum feed size" of one pull, also the size of the guard region. -/
def PCM_MAX_FEED_SIZE : Nat := 20000

/-- Modelled from the spec: `ENC_CHUNK_HDR_SIZE` (enc_base.h, absent), the size
of the chunk header (flags, encoded-byte count, sample count, payload
pointer). -/
def ENC_CHUNK_HDR_SIZE : Nat := 16

/-- Modelled from the spec: chunk flag *start-of-file* (enc_base.h, absent). -/
def CHUNKF_START_FILE : Nat := 0x0001
/-- Modelled from the spec: chunk flag *end-of-file* (enc_base.h, absent). -/
def CHUNKF_END_FILE : Nat := 0x0002
/-- Modelled from the spec: chunk flag *pre-record origin* (enc_base.h, absent). -/
def CHUNKF_PRERECORD : Nat := 0x0010
/-- Modelled from the spec: chunk flag *abort* (enc_base.h, absent). -/
def CHUNKF_ABORT : Nat := 0x0020
/-- Modelled from the spec: chunk flag *error* (enc_base.h, absent); it is the
sign bit, which is why the code also tests it as `(long)flags < 0`. -/
def CHUNKF_ERROR : Nat := 0x80000000

/-- Modelled from the spec: warning bit, capture (pcm) buffer overflow
(pcm_record.h, absent). -/
def PCMREC_W_PCM_BUFFER_OVF : Nat := 0x00000001
/-- Modelled from the spec: warning bit, encoder chunk ring overflow
(pcm_record.h, absent). -/
def PCMREC_W_ENC_BUFFER_OVF : Nat := 0x00000002
/-- Modelled from the spec: error bit, encoder load failure (pcm_record.h, absent). -/
def PCMREC_E_LOAD_ENCODER : Nat := 0x80001000
/-- Modelled from the spec: error bit, encoder-reported error (pcm_record.h, absent). -/
def PCMREC_E_ENCODER : Nat := 0x80002000
/-- Modelled from the spec: error bit, filename queue desynchronised from the
start markers (pcm_record.h, absent). -/
def PCMREC_E_FNQ_DESYNC : Nat := 0x80004000

/-- Modelled from the spec: status bit *paused* (audio.h, absent). -/
def AUDIO_STATUS_PAUSE : Nat := 0x0002
/-- Modelled from the spec: status bit *recording* (audio.h, absent). -/
def AUDIO_STATUS_RECORD : Nat := 0x0004
/-- Modelled from the spec: status bit *pre-recording* (audio.h, absent). -/
def AUDIO_STATUS_PRERECORD : Nat := 0x0008
/-- Modelled from the spec: status bit *error* (audio.h, absent). -/
def AUDIO_STATUS_ERROR : Nat := 0x0010
/-- Modelled from the spec: status bit *warning* (audio.h, absent). -/
def AUDIO_STATUS_WARNING : Nat := 0x0020

/-- Buffer parameter `PCM_NUM_CHUNKS`. -/
def PCM_NUM_CHUNKS : Nat := 256
/-- Buffer parameter `PCM_CHUNK_SIZE`. -/
def PCM_CHUNK_SIZE : Nat := 8192
/-- Wraparound mask `PCM_CHUNK_MASK`. -/
def PCM_CHUNK_MASK : Nat := PCM_NUM_CHUNKS * PCM_CHUNK_SIZE - 1
/-- Minimum number of paths the filename queue holds, `FNQ_MIN_NUM_PATHS`. -/
def FNQ_MIN_NUM_PATHS : Nat := 16

/-- Modelled from the spec: `ALIGN_UP_P2(n, p2)` (system.h, absent), `n`
rounded up to a multiple of `2 ^ p2`, in 32-bit arithmetic. -/
def ALIGN_UP_P2 (n p2 : Nat) : Nat := (((n + (2 ^ p2 - 1)) % ULONG_RANGE) / 2 ^ p2) * 2 ^ p2

/-- Modelled from the spec: `ALIGN_DOWN(n, a)` (system.h, absent), `n` rounded
down to a multiple of `a`. -/
def ALIGN_DOWN (n a : Int) : Int := Int.tdiv n a * a

/-! ## Data model -/

/-- Header of one encoded chunk, `struct enc_chunk_hdr`. `enc_data = none` is
the null payload pointer. -/
structure enc_chunk_hdr where
  flags : Nat
  enc_size : Nat
  num_pcm : Nat
  enc_data : Option Nat
deriving DecidableEq, Repr

/-- Event data sent to the encoder on file events, `struct enc_file_event_data`.
`chunk` is the slot index of the chunk pointed to. -/
structure enc_file_event_data where
  chunk : Int
  new_enc_size : Nat
  new_num_pcm : Nat
  filename : String
  rec_file : Int
  num_pcm_samples : Nat
deriving DecidableEq, Repr

/-- Event data sent to the encoder on a stream transition,
`struct enc_buffer_event_data`. -/
structure enc_buffer_event_data where
  flags : Nat
  pre_chunk : Option Int
  chunk : Int
deriving DecidableEq, Repr

/-- Events delivered through `enc_events_callback`. -/
inductive enc_events where
  | ENC_START_FILE
  | ENC_WRITE_CHUNK
  | ENC_END_FILE
  | ENC_REC_NEW_STREAM
deriving DecidableEq, Repr

/-- Ghost record of one invocation of `enc_events_callback`: the event, the
flags word passed (`data.flags` for a new stream, the chunk's flags for a file
event), the chunk passed with a copy of its header, and the filename, file
handle and per-file sample count in the event data as the call is made. -/
structure enc_call where
  event : enc_events
  flags : Nat
  chunk : Int
  hdr : enc_chunk_hdr
  filename : String
  rec_file : Int
  num_pcm_samples : Nat
deriving DecidableEq, Repr

/-- The static variables of `pcm_record.c`, the two buffers it lays out, the
pieces of the environment it reads (`current_tick`, `ata_spinup_time`, the
thread priority) and ghost logs of its calls to the outside. -/
structure PcmRec where
  /- General recording state -/
  is_recording : Bool
  is_paused : Bool
  errors : Nat
  warnings : Nat
  /- Stats on encoded data for current file -/
  num_rec_bytes : Nat
  num_rec_samples : Nat
  rec_fdata : enc_file_event_data
  /- Current settings -/
  rec_source : Int
  rec_frequency : Int
  sample_rate : Nat
  num_channels : Int
  enc_config_afmt : Int
  pre_record_ticks : Nat
  /- Buffers -/
  rec_buffer_size : Nat
  pcm_buffer : Nat
  enc_buffer : Nat
  dma_wr_pos : Int
  pcm_rd_pos : Int
  dma_lock : Bool
  enc_wr_index : Int
  enc_rd_index : Int
  enc_num_chunks : Int
  enc_chunk_size : Nat
  enc_sample_rate : Nat
  wav_queue_empty : Bool
  /- File flushing -/
  write_threshold : Int
  panic_threshold : Int
  spinup_time : Int
  last_flush_tick : Nat
  /- Filename queue -/
  fn_queue_addr : Nat
  fn_queue : Int → String
  fnq_size : Int
  fnq_rd_pos : Int
  fnq_wr_pos : Int
  /- Memory: chunk headers by slot index, capture bytes by offset -/
  chunks : Int → enc_chunk_hdr
  pcm_data : Nat → Nat
  /- Environment -/
  current_tick : Nat
  ata_spinup_time : Int
  thread_priority : Int
  /- Ghost logs -/
  trace : List enc_call
  closed : List Int
  fsynced : List Int

/-- The external encoder: what its registered callback does to the recorder on
a file event (the event data is `rec_fdata`, part of the state) and on a
stream transition (the event data is local to `pcmrec_new_stream` and handed
back), and what its own thread does when the recorder thread yields. -/
structure Encoder where
  file_event : enc_events → PcmRec → PcmRec
  new_stream : enc_buffer_event_data → PcmRec → enc_buffer_event_data × PcmRec
  on_yield : PcmRec → PcmRec

/-- `GET_ENC_CHUNK(index)`. -/
def GET_ENC_CHUNK (s : PcmRec) (index : Int) : enc_chunk_hdr := s.chunks index

/-- Store a header into the slot `index` of the encoder buffer. -/
def set_chunk (s : PcmRec) (index : Int) (c : enc_chunk_hdr) : PcmRec :=
  { s with chunks := fun j => if j = index then c else s.chunks j }

/-- Assign the flags word of the chunk in slot `index`. -/
def set_flags (s : PcmRec) (index : Int) (f : Nat) : PcmRec :=
  set_chunk s index { s.chunks index with flags := f }

/-- `INC_ENC_INDEX(index)`: `if (++index >= enc_num_chunks) index = 0;`. -/
def INC_ENC_INDEX (enc_num_chunks index : Int) : Int :=
  if index + 1 ≥ enc_num_chunks then 0 else index + 1

/-- `DEC_ENC_INDEX(index)`: `if (--index < 0) index = enc_num_chunks - 1;`. -/
def DEC_ENC_INDEX (enc_num_chunks index : Int) : Int :=
  if index - 1 < 0 then enc_num_chunks - 1 else index - 1

/-! ## Status -/

/-- `pcm_rec_status`. -/
def pcm_rec_status (s : PcmRec) : Nat :=
  let ret := 0
  let ret := if s.is_recording then ret ||| AUDIO_STATUS_RECORD
             else if s.pre_record_ticks ≠ 0 then ret ||| AUDIO_STATUS_PRERECORD
             else ret
  let ret := if s.is_paused then ret ||| AUDIO_STATUS_PAUSE else ret
  let ret := if s.errors ≠ 0 then ret ||| AUDIO_STATUS_ERROR else ret
  let ret := if s.warnings ≠ 0 then ret ||| AUDIO_STATUS_WARNING else ret
  ret

/-! ## Encoder hand-off: chunk ring -/

/-- `enc_get_chunk`: the chunk at the write index keeps only a carried-over
start-of-file flag and is stamped pre-record when not recording. The result is
the new state; the returned pointer is the slot `enc_wr_index`. -/
def enc_get_chunk (s : PcmRec) : PcmRec :=
  let chunk := s.enc_wr_index
  let s := set_flags s chunk ((GET_ENC_CHUNK s chunk).flags &&& CHUNKF_START_FILE)
  if ¬ s.is_recording then
    set_flags s chunk ((GET_ENC_CHUNK s chunk).flags ||| CHUNKF_PRERECORD)
  else s

/-- `enc_finish_chunk`. -/
def enc_finish_chunk (s : PcmRec) : PcmRec :=
  let chunk := GET_ENC_CHUNK s s.enc_wr_index
  let s := if long_negative chunk.flags then
             { s with errors := s.errors ||| PCMREC_E_ENCODER }
           else s
  /- advance enc_wr_index to the next encoder chunk -/
  let s := { s with enc_wr_index := INC_ENC_INDEX s.enc_num_chunks s.enc_wr_index }
  if s.enc_rd_index ≠ s.enc_wr_index then
    { s with num_rec_bytes := uadd s.num_rec_bytes chunk.enc_size,
             num_rec_samples := uadd s.num_rec_samples chunk.num_pcm }
  else if s.is_recording then
    /- buffer full: keep current position - but put up warning flag -/
    { s with warnings := s.warnings ||| PCMREC_W_ENC_BUFFER_OVF,
             enc_wr_index := DEC_ENC_INDEX s.enc_num_chunks s.enc_wr_index }
  else
    /- advance enc_rd_index for prerecording -/
    { s with enc_rd_index := INC_ENC_INDEX s.enc_num_chunks s.enc_rd_index }

/-- One chunk pushed by the encoder: `enc_get_chunk`, then the encoder fills
the header of the chunk it was handed (`fill`, any change of the header), then
`enc_finish_chunk`. -/
def encode_chunk (fill : enc_chunk_hdr → enc_chunk_hdr) (s : PcmRec) : PcmRec :=
  let s := enc_get_chunk s
  let s := set_chunk s s.enc_wr_index (fill (GET_ENC_CHUNK s s.enc_wr_index))
  enc_finish_chunk s

/-- Consecutive pushes, one per element of `fills`, nothing drained in between. -/
def encode_chunks : List (enc_chunk_hdr → enc_chunk_hdr) → PcmRec → PcmRec
  | [], s => s
  | fill :: fills, s => encode_chunks fills (encode_chunk fill s)

/-- Number of ready chunks as `pcmrec_flush` computes it. -/
def num_ready (s : PcmRec) : Int :=
  let n := s.enc_wr_index - s.enc_rd_index
  if n < 0 then n + s.enc_num_chunks else n

/-! ## Conversions between `int` and 32-bit words -/

/-- An `int` converted to `unsigned long` / `size_t`. -/
def to_ulong (i : Int) : Nat := (i % (2 ^ 32 : Int)).toNat

/-- A 32-bit word converted to `int` (two's complement). -/
def to_int (x : Nat) : Int :=
  if 2 ^ 31 ≤ x % ULONG_RANGE then (x % ULONG_RANGE : Nat) - (2 ^ 32 : Int)
  else (x % ULONG_RANGE : Nat)

/-! ## Filename queue -/

/-- `strncpy(dst, src, n)` seen as the string that lands in `dst`: at most `n`
characters of `src`. -/
def strncpy (src : String) (n : Nat) : String := ⟨src.data.take n⟩

/-- `pcmrec_fnq_is_empty`. -/
def pcmrec_fnq_is_empty (s : PcmRec) : Bool := decide (s.fnq_rd_pos = s.fnq_wr_pos)

/-- `pcmrec_fnq_set_empty`. -/
def pcmrec_fnq_set_empty (s : PcmRec) : PcmRec := { s with fnq_rd_pos := s.fnq_wr_pos }

/-- `pcmrec_fnq_is_full`. -/
def pcmrec_fnq_is_full (s : PcmRec) : Bool :=
  let size := s.fnq_wr_pos - s.fnq_rd_pos
  let size := if size < 0 then size + s.fnq_size else size
  decide (size ≥ s.fnq_size - MAX_PATH)

/-- A queue position moved one path forward: `if ((pos += MAX_PATH) >= fnq_size) pos = 0;`. -/
def fnq_advance (fnq_size pos : Int) : Int :=
  if pos + MAX_PATH ≥ fnq_size then 0 else pos + MAX_PATH

/-- `pcmrec_fnq_add_filename`: queue another filename, overwriting the oldest
one if full. The boolean is the function's return value. -/
def pcmrec_fnq_add_filename (filename : String) (s : PcmRec) : Bool × PcmRec :=
  let queue : Int → String := fun j =>
    if j = s.fnq_wr_pos then strncpy filename MAX_PATH else s.fn_queue j
  let s := { s with fn_queue := queue }
  let s := { s with fnq_wr_pos := fnq_advance s.fnq_size s.fnq_wr_pos }
  if s.fnq_rd_pos ≠ s.fnq_wr_pos then (true, s)
  else
    /- queue full -/
    (true, { s with fnq_rd_pos := fnq_advance s.fnq_size s.fnq_rd_pos })

/-- `pcmrec_fnq_replace_tail`: replace the last filename added. -/
def pcmrec_fnq_replace_tail (filename : String) (s : PcmRec) : Bool × PcmRec :=
  if pcmrec_fnq_is_empty s then (false, s)
  else
    let pos := s.fnq_wr_pos - MAX_PATH
    let pos := if pos < 0 then s.fnq_size - MAX_PATH else pos
    let queue : Int → String := fun j =>
      if j = pos then strncpy filename MAX_PATH else s.fn_queue j
    (true, { s with fn_queue := queue })

/-- `pcmrec_fnq_get_filename`: pull the next filename from the queue. The
result is the return value, the string copied to the caller's buffer (none
when nothing is copied: empty queue, or `want = false` for a null buffer) and
the new state. -/
def pcmrec_fnq_get_filename (want : Bool) (s : PcmRec) : Bool × Option String × PcmRec :=
  if pcmrec_fnq_is_empty s then (false, none, s)
  else
    let copied := if want then some (strncpy (s.fn_queue s.fnq_rd_pos) MAX_PATH) else none
    (true, copied, { s with fnq_rd_pos := fnq_advance s.fnq_size s.fnq_rd_pos })

/-- Number of paths held by the filename queue. -/
def fnq_count (s : PcmRec) : Int :=
  let size := s.fnq_wr_pos - s.fnq_rd_pos
  (if size < 0 then size + s.fnq_size else size) / MAX_PATH

/-- `pcmrec_close_file`: close the descriptor held in a variable; the result
is the variable's new value. A negative value is preserved. -/
def pcmrec_close_file (fd : Int) (s : PcmRec) : Int × PcmRec :=
  if fd < 0 then (fd, s)
  else (-1, { s with closed := s.closed ++ [fd] })

/-! ## Data flushing -/

/-- The registered callback invoked for a file event with `&rec_fdata`. -/
def enc_events_callback (enc : Encoder) (event : enc_events) (s : PcmRec) : PcmRec :=
  let call : enc_call :=
    { event := event,
      flags := (s.chunks s.rec_fdata.chunk).flags,
      chunk := s.rec_fdata.chunk,
      hdr := s.chunks s.rec_fdata.chunk,
      filename := s.rec_fdata.filename,
      rec_file := s.rec_fdata.rec_file,
      num_pcm_samples := s.rec_fdata.num_pcm_samples }
  { enc.file_event event s with trace := s.trace ++ [call] }

/-- The registered callback invoked for `ENC_REC_NEW_STREAM` with the local
event data, which the encoder may update. -/
def enc_events_callback_new_stream (enc : Encoder) (data : enc_buffer_event_data)
    (s : PcmRec) : enc_buffer_event_data × PcmRec :=
  let call : enc_call :=
    { event := enc_events.ENC_REC_NEW_STREAM,
      flags := data.flags,
      chunk := data.chunk,
      hdr := s.chunks data.chunk,
      filename := "",
      rec_file := s.rec_fdata.rec_file,
      num_pcm_samples := s.rec_fdata.num_pcm_samples }
  ((enc.new_stream data s).1, { (enc.new_stream data s).2 with trace := s.trace ++ [call] })

/-- `pcmrec_update_sizes_inl` (and `pcmrec_update_sizes`, which only calls it). -/
def pcmrec_update_sizes (prev_enc_size prev_num_pcm : Nat) (s : PcmRec) : PcmRec :=
  let size_diff := usub s.rec_fdata.new_enc_size prev_enc_size
  let s := if s.rec_fdata.new_enc_size ≠ prev_enc_size then
             { s with num_rec_bytes := uadd s.num_rec_bytes size_diff }
           else s
  let pcm_diff := usub s.rec_fdata.new_num_pcm prev_num_pcm
  if s.rec_fdata.new_num_pcm ≠ prev_num_pcm then
    { s with num_rec_samples := uadd s.num_rec_samples pcm_diff }
  else s

/-- First part of `pcmrec_start_file`, up to the callback: pull the filename
that matches this start marker, record a desynchronised queue or a file still
open (`curr_rec_file`) as an error, flag the chunk when an error is pending
and point the event data at the filename. -/
def pcmrec_start_file_pull (curr_rec_file : Int) (s : PcmRec) : PcmRec :=
  /- must always pull the filename that matches with this queue -/
  let got := pcmrec_fnq_get_filename true s
  let s := got.2.2
  let filename := if got.1 then got.2.1.getD "" else ""
  let s := if ¬ got.1 then { s with errors := s.errors ||| PCMREC_E_FNQ_DESYNC }
           else if s.errors ≠ 0 then s
           else if curr_rec_file ≥ 0 then
             { s with errors := s.errors ||| PCMREC_E_FNQ_DESYNC }
           else s
  let s := if s.errors ≠ 0 then
             set_flags s s.rec_fdata.chunk
               ((s.chunks s.rec_fdata.chunk).flags ||| CHUNKF_ERROR)
           else s
  { s with rec_fdata := { s.rec_fdata with filename := filename } }

/-- Last part of `pcmrec_start_file`, after the callback: take over an error
flagged by the encoder, on error close the file that was open on entry and end
the file at this chunk, else account for sizes the encoder changed; finally
clear the start flag. -/
def pcmrec_start_file_finish (enc_size num_pcm : Nat) (curr_rec_file : Int)
    (s : PcmRec) : PcmRec :=
  let s := if s.errors = 0 ∧ (s.chunks s.rec_fdata.chunk).flags &&& CHUNKF_ERROR ≠ 0 then
             { s with errors := s.errors ||| PCMREC_E_ENCODER }
           else s
  let s := if s.errors ≠ 0 then
             let s := (pcmrec_close_file curr_rec_file s).2
             /- Write no more to this file -/
             set_flags s s.rec_fdata.chunk
               ((s.chunks s.rec_fdata.chunk).flags ||| CHUNKF_END_FILE)
           else pcmrec_update_sizes enc_size num_pcm s
  set_flags s s.rec_fdata.chunk
    ((s.chunks s.rec_fdata.chunk).flags &&& unot CHUNKF_START_FILE)

/-- `pcmrec_start_file`. -/
def pcmrec_start_file (enc : Encoder) (s : PcmRec) : PcmRec :=
  let enc_size := s.rec_fdata.new_enc_size
  let num_pcm := s.rec_fdata.new_num_pcm
  let curr_rec_file := s.rec_fdata.rec_file
  let s := pcmrec_start_file_pull curr_rec_file s
  /- encoder can set error flag here and should increase enc_new_size and
     pcm_new_size to reflect additional data written if any -/
  let s := enc_events_callback enc enc_events.ENC_START_FILE s
  pcmrec_start_file_finish enc_size num_pcm curr_rec_file s

/-- `pcmrec_write_chunk`. -/
def pcmrec_write_chunk (enc : Encoder) (s : PcmRec) : PcmRec :=
  let enc_size := s.rec_fdata.new_enc_size
  let num_pcm := s.rec_fdata.new_num_pcm
  let s := if s.errors ≠ 0 then
             set_flags s s.rec_fdata.chunk
               ((s.chunks s.rec_fdata.chunk).flags ||| CHUNKF_ERROR)
           else s
  let s := enc_events_callback enc enc_events.ENC_WRITE_CHUNK s
  if ¬ long_negative (s.chunks s.rec_fdata.chunk).flags then
    pcmrec_update_sizes enc_size num_pcm s
  else if s.errors = 0 then
    { s with errors := s.errors ||| PCMREC_E_ENCODER }
  else s

/-- `pcmrec_end_file`. -/
def pcmrec_end_file (enc : Encoder) (s : PcmRec) : PcmRec :=
  let enc_size := s.rec_fdata.new_enc_size
  let num_pcm := s.rec_fdata.new_num_pcm
  let s := enc_events_callback enc enc_events.ENC_END_FILE s
  let s := if s.errors = 0 then
             if (s.chunks s.rec_fdata.chunk).flags &&& CHUNKF_ERROR ≠ 0 then
               { s with errors := s.errors ||| PCMREC_E_ENCODER }
             else pcmrec_update_sizes enc_size num_pcm s
           else s
  /- Force file close if error -/
  let s := if s.errors ≠ 0 then
             let r := pcmrec_close_file s.rec_fdata.rec_file s
             { r.2 with rec_fdata := { r.2.rec_fdata with rec_file := r.1 } }
           else s
  set_flags s s.rec_fdata.chunk
    ((s.chunks s.rec_fdata.chunk).flags &&& unot CHUNKF_END_FILE)

/-- The local variables of the loop of `pcmrec_flush`. -/
structure flush_vars where
  i : Int
  num : Int
  prio : Int
  flush_num : Nat

/-- One pass through the body of the `for` loop of `pcmrec_flush`; the boolean
tells whether the loop was left by `break`. -/
def pcmrec_flush_body (enc : Encoder) (num_ready : Int) (start_tick : Nat)
    (v : flush_vars) (s : PcmRec) : Bool × flush_vars × PcmRec :=
  /- losing ground - boost priority until finished -/
  let boost := v.prio = -1 ∧
    (v.num ≥ s.panic_threshold ∨ usub s.current_tick start_tick > 10 * HZ)
  let v := if boost then { v with prio := s.thread_priority } else v
  let s := if boost then { s with thread_priority := s.thread_priority - 1 } else s
  let fdata : enc_file_event_data :=
    { s.rec_fdata with
      chunk := s.enc_rd_index,
      new_enc_size := (GET_ENC_CHUNK s s.enc_rd_index).enc_size,
      new_num_pcm := (GET_ENC_CHUNK s s.enc_rd_index).num_pcm }
  let s := { s with rec_fdata := fdata }
  let start := (s.chunks s.rec_fdata.chunk).flags &&& CHUNKF_START_FILE ≠ 0
  let s := if start then pcmrec_start_file enc s else s
  let flush_num := if start then usub v.flush_num 1 else v.flush_num
  /- stop on next loop - must write this chunk if it has data -/
  let i := if start ∧ flush_num = 0 then num_ready else v.i
  let v := { v with flush_num := flush_num, i := i }
  let s := pcmrec_write_chunk enc s
  let s := if (s.chunks s.rec_fdata.chunk).flags &&& CHUNKF_END_FILE ≠ 0 then
             pcmrec_end_file enc s
           else s
  let s := { s with enc_rd_index := INC_ENC_INDEX s.enc_num_chunks s.enc_rd_index }
  if s.errors ≠ 0 then (true, v, s)
  else
    let num := s.enc_wr_index - s.enc_rd_index
    let num := if num < 0 then num + s.enc_num_chunks else num
    let v := if v.prio = -1 then { v with num := num } else v
    (false, { v with i := v.i + 1 }, s)

/-- The `for (i = 0; i < num_ready; i++)` loop of `pcmrec_flush`. `i` starts
at 0 and grows with every pass, so `num_ready` passes of fuel are never used
up before the loop condition fails. -/
def pcmrec_flush_loop (enc : Encoder) (num_ready : Int) (start_tick : Nat) :
    Nat → flush_vars → PcmRec → flush_vars × PcmRec
  | 0, v, s => (v, s)
  | fuel + 1, v, s =>
    if v.i < num_ready then
      let r := pcmrec_flush_body enc num_ready start_tick v s
      if r.1 then r.2 else pcmrec_flush_loop enc num_ready start_tick fuel r.2.1 r.2.2
    else (v, s)

/-- The write threshold computed by `pcmrec_flush` for a spin-up time, before
clamping: the subtraction is done on `int`, the quotient in 64-bit unsigned
arithmetic (its operands `enc_chunk_size - 1` and `enc_chunk_size * HZ` in
32-bit arithmetic). -/
def flush_threshold (s : PcmRec) (st : Nat) : Int :=
  s.enc_num_chunks -
    to_int ((((5 * HZ + st) * 4 * s.sample_rate + usub s.enc_chunk_size 1) % 2 ^ 64)
              / (umul s.enc_chunk_size HZ))

/-- `pcmrec_flush`. `flush_num` is the `unsigned` argument, so the "flush
everything" request `-1` is `0xFFFFFFFF`. `cpu_boost` has no effect on the
state modelled here. -/
def pcmrec_flush (enc : Encoder) (flush_num : Nat) (s : PcmRec) : PcmRec :=
  let num_ready := num_ready s
  let go (num : Int) (s : PcmRec) : PcmRec :=
    let start_tick := s.current_tick
    let r := pcmrec_flush_loop enc num_ready start_tick num_ready.toNat
      { i := 0, num := num, prio := -1, flush_num := flush_num } s
    let s := r.2
    /- sync file -/
    let s := if s.rec_fdata.rec_file ≥ 0 then
               { s with fsynced := s.fsynced ++ [s.rec_fdata.rec_file] }
             else s
    /- return to original priority -/
    let s := if r.1.prio ≠ -1 then { s with thread_priority := r.1.prio } else s
    { s with last_flush_tick := s.current_tick }
  if flush_num = 0 then
    if ¬ s.is_recording then s
    else
      let s := if s.ata_spinup_time ≠ s.spinup_time then
                 /- spinup time has changed, calculate new write threshold -/
                 let st := to_ulong s.ata_spinup_time
                 let s := { s with spinup_time := s.ata_spinup_time }
                 let st := if st < 2 * HZ then 2 * HZ
                           else if st > 10 * HZ then 10 * HZ else st
                 let s := { s with write_threshold := flush_threshold s st }
                 if s.write_threshold < 0 then { s with write_threshold := 0 }
                 else if s.write_threshold > s.panic_threshold then
                   { s with write_threshold := s.panic_threshold }
                 else s
               else s
      if num_ready < s.write_threshold then s
      else
        /- if we're getting called too much and this isn't forced, boost stat -/
        let num := if usub s.current_tick s.last_flush_tick < HZ / 2
                   then s.panic_threshold else num_ready
        go num s
  else go num_ready s

/-! ## Stream transitions -/

/-- Which filename-queue operation `pcmrec_new_stream` selected (`fnq_add_fn`). -/
inductive fnq_add_kind where
  | replace_tail
  | add_filename
deriving DecidableEq, Repr

/-- The statistics loop of `pcmrec_new_stream`:
`while (i != enc_wr_index) { add chunk i; INC_ENC_INDEX(i); }`.
The loop ends only when `i` reaches the write index; `none` is fuel used up. -/
def new_stream_stats : Nat → Int → PcmRec → Option PcmRec
  | fuel, i, s =>
    if i = s.enc_wr_index then some s
    else match fuel with
      | 0 => none
      | fuel + 1 =>
        new_stream_stats fuel (INC_ENC_INDEX s.enc_num_chunks i)
          { s with num_rec_bytes := uadd s.num_rec_bytes (GET_ENC_CHUNK s i).enc_size,
                   num_rec_samples := uadd s.num_rec_samples (GET_ENC_CHUNK s i).num_pcm }

/-- The "end chunk" part of `pcmrec_new_stream`: the result is the state, the
possibly reduced `flags` and `data.chunk`. -/
def new_stream_end (flags : Nat) (s : PcmRec) : PcmRec × Nat × Int :=
  let chunk := s.enc_wr_index
  if flags &&& CHUNKF_END_FILE ≠ 0 then
    let s := set_flags s chunk
      ((GET_ENC_CHUNK s chunk).flags &&& (CHUNKF_START_FILE ||| CHUNKF_END_FILE))
    if (GET_ENC_CHUNK s chunk).flags &&& CHUNKF_START_FILE ≠ 0 then
      /- cannot start and end on same unprocessed chunk -/
      (s, flags &&& unot CHUNKF_END_FILE, chunk)
    else if s.enc_rd_index = s.enc_wr_index then
      /- all data flushed but file not ended - chunk will be left empty -/
      let s := set_chunk s chunk { flags := 0, enc_size := 0, num_pcm := 0, enc_data := none }
      let s := { s with enc_wr_index := INC_ENC_INDEX s.enc_num_chunks s.enc_wr_index }
      (s, flags, s.enc_wr_index)
    else
      let last := GET_ENC_CHUNK s (DEC_ENC_INDEX s.enc_num_chunks s.enc_wr_index)
      if last.flags &&& CHUNKF_END_FILE ≠ 0 then
        /- end already processed and marked - can't end twice -/
        (s, flags &&& unot CHUNKF_END_FILE, chunk)
      else (s, flags, chunk)
  else (s, flags, chunk)

/-- The "start chunk" part of `pcmrec_new_stream`, run when `flags` asks for a
start: the result is the state, `start`, `data.pre_chunk` and `fnq_add_fn`. -/
def new_stream_start (flags : Nat) (pre_index : Int) (chunk : Int) (s : PcmRec) :
    PcmRec × Int × Option Int × fnq_add_kind :=
  let pre := flags &&& CHUNKF_PRERECORD ≠ 0
  let start := if pre then pre_index else chunk
  let pre_chunk := if pre then some pre_index else none
  let mask := if pre then CHUNKF_START_FILE ||| CHUNKF_PRERECORD else CHUNKF_START_FILE
  let s := set_flags s start ((GET_ENC_CHUNK s start).flags &&& mask)
  /- if encoder hasn't yet processed the last start - abort the start of the
     previous file queued or else it will be empty and invalid -/
  let fn := if (GET_ENC_CHUNK s start).flags &&& CHUNKF_START_FILE ≠ 0
            then fnq_add_kind.replace_tail else fnq_add_kind.add_filename
  (s, start, pre_chunk, fn)

/-- `pcmrec_new_stream`. `filename = none` is the null pointer; `fuel` bounds
the statistics loop. `queue_reply` (the release of the sender) has no effect on
the state modelled here. -/
def pcmrec_new_stream (enc : Encoder) (fuel : Nat) (filename : Option String)
    (flags : Nat) (pre_index : Int) (s : PcmRec) : Option PcmRec :=
  /- end chunk -/
  let e := new_stream_end flags s
  let s := e.1
  let flags := e.2.1
  let chunk := e.2.2
  /- start chunk -/
  let has_start := flags &&& CHUNKF_START_FILE ≠ 0
  let st := new_stream_start flags pre_index chunk s
  let s := if has_start then st.1 else s
  let start : Option Int := if has_start then some st.2.1 else none
  let pre_chunk : Option Int := if has_start then st.2.2.1 else none
  let fnq_add_fn := st.2.2.2
  let r := enc_events_callback_new_stream enc
    { flags := flags, pre_chunk := pre_chunk, chunk := chunk } s
  let data := r.1
  let s := r.2
  let s := if flags &&& CHUNKF_END_FILE ≠ 0 then
             let prev := DEC_ENC_INDEX s.enc_num_chunks data.chunk
             set_flags s prev ((GET_ENC_CHUNK s prev).flags ||| CHUNKF_END_FILE)
           else s
  match start with
  | none => some s
  | some start =>
    let stats : Option (PcmRec × Int) :=
      if flags &&& CHUNKF_PRERECORD = 0 then
        /- get stats on data added to start - sort of a prerecord operation -/
        (new_stream_stats fuel data.chunk { s with num_rec_bytes := 0, num_rec_samples := 0 }).map
          (fun s =>
            (set_flags s start ((GET_ENC_CHUNK s start).flags &&& unot CHUNKF_START_FILE),
             data.chunk))
      else some (s, start)
    stats.map (fun (x : PcmRec × Int) =>
      let s := x.1
      let start := x.2
      let s := set_flags s start ((GET_ENC_CHUNK s start).flags ||| CHUNKF_START_FILE)
      /- flush all pending files out if full and adding -/
      let s := if fnq_add_fn = fnq_add_kind.add_filename ∧ pcmrec_fnq_is_full s then
                 pcmrec_flush enc 0xFFFFFFFF s
               else s
      match fnq_add_fn with
      | fnq_add_kind.replace_tail => (pcmrec_fnq_replace_tail (filename.getD "") s).2
      | fnq_add_kind.add_filename => (pcmrec_fnq_add_filename (filename.getD "") s).2)

/-! ## Event handlers of the pcmrec thread -/

/-- `pcmrec_init`. `buffer` and `buffer_size` are what
`audio_get_recording_buffer` returns; `pcm_init_recording` is the hardware's
business. -/
def pcmrec_init (buffer buffer_size : Nat) (s : PcmRec) : PcmRec :=
  let pcm_buffer := ALIGN_UP_P2 buffer 4
  let enc_buffer :=
    uadd pcm_buffer (ALIGN_UP_P2 (PCM_NUM_CHUNKS * PCM_CHUNK_SIZE + PCM_MAX_FEED_SIZE) 2)
  { s with
    rec_fdata := { s.rec_fdata with rec_file := -1 },
    warnings := 0, errors := 0,
    dma_lock := true, pcm_rd_pos := 0, dma_wr_pos := 0,
    enc_wr_index := 0, enc_rd_index := 0,
    fnq_rd_pos := 0, fnq_wr_pos := 0,
    num_rec_bytes := 0, num_rec_samples := 0,
    pre_record_ticks := 0,
    is_recording := false, is_paused := false,
    pcm_buffer := pcm_buffer, enc_buffer := enc_buffer,
    rec_buffer_size := usub buffer_size (usub pcm_buffer buffer) }

/-- `pcmrec_close`. -/
def pcmrec_close (s : PcmRec) : PcmRec :=
  { s with dma_lock := true, pre_record_ticks := 0, warnings := 0 }

/-- The fields of `struct audio_recording_options` the handler reads;
`enc_afmt` stands for `rec_format_afmt[enc_config.rec_format]`. -/
structure audio_recording_options where
  rec_source : Int
  rec_frequency : Int
  rec_channels : Int
  rec_prerecord_time : Nat
  enc_afmt : Int

/-- `pcmrec_set_recording_options` (build without S/PDIF input).
`rec_freq_sampr` is the target's table of sample rates and `load_ok` the
result of `audio_load_encoder`. -/
def pcmrec_set_recording_options (rec_freq_sampr : Int → Nat) (load_ok : Bool)
    (options : audio_recording_options) (s : PcmRec) : PcmRec :=
  /- stop DMA transfer -/
  let s := { s with dma_lock := true }
  let s := { s with
    rec_frequency := options.rec_frequency,
    rec_source := options.rec_source,
    num_channels := if options.rec_channels = 1 then 1 else 2,
    pre_record_ticks := umul options.rec_prerecord_time HZ,
    enc_config_afmt := options.enc_afmt }
  /- set sample rate from frequency selection -/
  let s := { s with sample_rate := rec_freq_sampr s.rec_frequency }
  if load_ok then
    /- start DMA transfer -/
    { s with dma_lock := decide (s.pre_record_ticks = 0) }
  else
    { s with errors := s.errors ||| PCMREC_E_LOAD_ENCODER }

/-- The backward walk of `pcmrec_record` over the pre-recorded chunks:
`for (; avail_pre_chunks-- > 0;)`. The result is `rd_start`,
`pre_sample_ticks` and the state with the counters added up. -/
def prerecord_walk (pre_record_sample_ticks : Nat) :
    Nat → Int → Int → Nat → PcmRec → Int × Nat × PcmRec
  | 0, _, rd_start, pre_sample_ticks, s => (rd_start, pre_sample_ticks, s)
  | avail + 1, i, rd_start, pre_sample_ticks, s =>
    let i := DEC_ENC_INDEX s.enc_num_chunks i
    let chunk := GET_ENC_CHUNK s i
    /- must have data to be counted -/
    if chunk.enc_data = none then
      prerecord_walk pre_record_sample_ticks avail i rd_start pre_sample_ticks s
    else
      let chunk_sample_ticks := umul chunk.num_pcm HZ
      let rd_start := i
      let pre_sample_ticks := uadd pre_sample_ticks chunk_sample_ticks
      let s := { s with num_rec_bytes := uadd s.num_rec_bytes chunk.enc_size,
                        num_rec_samples := uadd s.num_rec_samples chunk.num_pcm }
      /- stop here if enough already -/
      if pre_sample_ticks ≥ pre_record_sample_ticks then (rd_start, pre_sample_ticks, s)
      else prerecord_walk pre_record_sample_ticks avail i rd_start pre_sample_ticks s

/-- The number of available pre-recorded chunks `pcmrec_record` computes:
`(enc_wr_index - enc_rd_index + enc_num_chunks) % enc_num_chunks` on `int`
(C remainder), stored in an `unsigned long`. -/
def avail_pre_chunks (s : PcmRec) : Nat :=
  to_ulong (Int.tmod (s.enc_wr_index - s.enc_rd_index + s.enc_num_chunks) s.enc_num_chunks)

/-- `pcmrec_record`: start recording (not gapless) or split stream (gapless). -/
def pcmrec_record (enc : Encoder) (fuel : Nat) (filename : String) (s : PcmRec) :
    Option PcmRec :=
  /- reset stats -/
  let s := { s with num_rec_bytes := 0, num_rec_samples := 0 }
  if s.is_recording then
    /- already recording, just split the stream -/
    pcmrec_new_stream enc fuel (some filename) (CHUNKF_START_FILE ||| CHUNKF_END_FILE) 0 s
  else
    let s := { s with spinup_time := -1, warnings := 0 }
    let w := if s.pre_record_ticks ≠ 0 then
               prerecord_walk (umul s.enc_sample_rate s.pre_record_ticks)
                 (avail_pre_chunks s) s.enc_wr_index s.enc_wr_index 0 s
             else (s.enc_wr_index, 0, s)
    let rd_start := w.1
    let pre_sample_ticks := w.2.1
    let s := w.2.2
    let s := { s with enc_rd_index := rd_start }
    /- filename queue should be empty -/
    let s := if ¬ pcmrec_fnq_is_empty s then pcmrec_fnq_set_empty s else s
    let s := { s with dma_lock := false, is_paused := false, is_recording := true }
    pcmrec_new_stream enc fuel (some filename)
      (CHUNKF_START_FILE ||| (if pre_sample_ticks > 0 then CHUNKF_PRERECORD else 0))
      s.enc_rd_index s

/-- The wait of `pcmrec_stop` for the encoder to finish the remaining data:
`while (errors == 0 && !wav_queue_empty) yield();`. Each `yield` lets the
encoder's thread run; `none` is fuel used up. -/
def wait_for_encoder (enc : Encoder) : Nat → PcmRec → Option PcmRec
  | fuel, s =>
    if s.errors = 0 ∧ s.wav_queue_empty = false then
      match fuel with
      | 0 => none
      | fuel + 1 => wait_for_encoder enc fuel (enc.on_yield s)
    else some s

/-- Last part of `pcmrec_stop`, after the end marker is in place: flush what
the encoder added, drop a pending filename, abort the chunk in the making,
empty the filename queue, make sure the file is closed and go idle. -/
def pcmrec_stop_finish (enc : Encoder) (s : PcmRec) : PcmRec :=
  /- flush anything else encoder added -/
  let s := pcmrec_flush enc 0xFFFFFFFF s
  /- remove any pending file start not yet processed - should be at most one
     at enc_wr_index -/
  let s := (pcmrec_fnq_get_filename false s).2.2
  /- encoder should abort any chunk it was in midst of processing -/
  let s := set_flags s s.enc_wr_index CHUNKF_ABORT
  /- filename queue should be empty -/
  let s := if ¬ pcmrec_fnq_is_empty s then pcmrec_fnq_set_empty s else s
  /- be absolutely sure the file is closed -/
  let s := if s.errors ≠ 0 then
             (pcmrec_close_file s.rec_fdata.rec_file s).2
           else s
  let s := { s with rec_fdata := { s.rec_fdata with rec_file := -1 } }
  { s with is_recording := false, is_paused := false,
           dma_lock := decide (s.pre_record_ticks = 0) }

/-- `pcmrec_stop`. -/
def pcmrec_stop (enc : Encoder) (fuel : Nat) (s : PcmRec) : Option PcmRec :=
  if ¬ s.is_recording then some s
  else
    /- lock dma write position -/
    let s := { s with dma_lock := true }
    /- flush all available data first to avoid overflow while waiting for
       encoding to finish -/
    let s := pcmrec_flush enc 0xFFFFFFFF s
    /- wait for encoder to finish remaining data -/
    (wait_for_encoder enc fuel s).bind (fun s =>
    /- end stream at last data -/
    (pcmrec_new_stream enc fuel none CHUNKF_END_FILE 0 s).map (pcmrec_stop_finish enc))

/-- `pcmrec_pause`. -/
def pcmrec_pause (s : PcmRec) : PcmRec :=
  if ¬ s.is_recording then s
  else if s.is_paused then s
  else { s with dma_lock := true, is_paused := true }

/-- `pcmrec_resume`. -/
def pcmrec_resume (s : PcmRec) : PcmRec :=
  if ¬ s.is_recording then s
  else if ¬ s.is_paused then s
  else { s with is_paused := false, is_recording := true, dma_lock := false }

/-! ## Encoder set-up -/

/-- The fields of `struct enc_parameters`: the encoder's inputs and the buffer
geometry handed back. -/
structure enc_parameters where
  afmt : Int
  chunk_size : Nat
  enc_sample_rate : Nat
  reserve_bytes : Nat
  enc_buffer : Nat
  buf_chunk_size : Nat
  num_chunks : Int
  reserve_buffer : Option Nat
deriving DecidableEq, Repr

/-- `enc_set_parameters`: `none` is the null pointer (the encoder terminates).
Addresses are numbers; the chunk headers of all slots get their flags
cleared, and the write index ends at 0 (the loop counts it down from
`enc_num_chunks`). The two quotients by `enc_chunk_size` are defined in C only
for a positive slot size: a requested `chunk_size` of `2 ^ 32 - 19` and above
wraps the slot size to 0 and the C code divides by zero, where the division
used here yields 0. What is proved about the geometry below therefore assumes
a positive slot size or at least one chunk. -/
def enc_set_parameters (params : Option enc_parameters) (s : PcmRec) :
    Option enc_parameters × PcmRec :=
  match params with
  | none =>
    /- Encoder is terminating -/
    (none, { s with enc_config_afmt := 0, enc_sample_rate := 0 })
  | some params =>
    /- addition of the header is always implied - chunk size 4-byte aligned -/
    let enc_chunk_size := ALIGN_UP_P2 (ENC_CHUNK_HDR_SIZE + params.chunk_size) 2
    let resbytes := ALIGN_UP_P2 params.reserve_bytes 2
    let bufsize := usub (usub (usub s.rec_buffer_size (usub s.enc_buffer s.pcm_buffer)) resbytes)
                        (FNQ_MIN_NUM_PATHS * MAX_PATH)
    let enc_num_chunks := to_int (bufsize / enc_chunk_size)
    /- get real amount used by encoder chunks -/
    let bufsize := umul (to_ulong enc_num_chunks) enc_chunk_size
    /- panic boost thread priority at 1 second remaining -/
    let panic := to_int (usub (to_ulong enc_num_chunks)
      (uadd (umul 4 s.sample_rate) (usub enc_chunk_size 1) / enc_chunk_size))
    let panic_threshold := if panic < 0 then 0 else panic
    /- calculate reserve buffer start and return pointer to encoder -/
    let reserve_buffer := if resbytes > 0 then some (s.enc_buffer + bufsize) else none
    let bufsize := if resbytes > 0 then uadd bufsize resbytes else bufsize
    let out : enc_parameters :=
      { params with enc_buffer := s.enc_buffer, buf_chunk_size := enc_chunk_size,
                    num_chunks := enc_num_chunks, reserve_buffer := reserve_buffer }
    /- place filename queue at end of buffer using up whatever remains -/
    let fn_queue_addr := s.enc_buffer + bufsize
    let fnq_size : Int := (s.pcm_buffer : Int) + (s.rec_buffer_size : Int) - (fn_queue_addr : Int)
    let fnq_size := ALIGN_DOWN fnq_size (MAX_PATH : Int)
    /- init all chunk headers and reset indexes -/
    let cleared : Int → enc_chunk_hdr := fun j =>
      if 0 ≤ j ∧ j < enc_num_chunks then { s.chunks j with flags := 0 } else s.chunks j
    let enc_wr_index := if enc_num_chunks > 0 then 0 else enc_num_chunks
    (some out,
     { s with
       enc_sample_rate := params.enc_sample_rate,
       pcm_rd_pos := s.dma_wr_pos,
       enc_config_afmt := params.afmt,
       enc_chunk_size := enc_chunk_size,
       enc_num_chunks := enc_num_chunks,
       panic_threshold := panic_threshold,
       fnq_rd_pos := 0, fnq_wr_pos := 0,
       fn_queue_addr := fn_queue_addr,
       fnq_size := fnq_size,
       enc_rd_index := 0,
       enc_wr_index := enc_wr_index,
       chunks := cleared })

/-! ## Encoder hand-off: capture data -/

/-- `enc_get_pcm_data`: the result is the offset of the returned pointer in
`pcm_buffer` (`none` is the null pointer) and the new state. `x & PCM_CHUNK_MASK`
is the remainder modulo the ring size, the mask being a power of two minus 1.
The copy to the guard region moves the first `pcm_rd_pos` bytes of the ring
just past its end. -/
def enc_get_pcm_data (size : Nat) (s : PcmRec) : Option Int × PcmRec :=
  let wp := s.dma_wr_pos
  let avail := to_ulong ((wp - s.pcm_rd_pos) % ((PCM_CHUNK_MASK : Int) + 1))
  /- limit the requested pcm data size -/
  let size := if size > PCM_MAX_FEED_SIZE then PCM_MAX_FEED_SIZE else size
  if avail ≥ size then
    let ptr := s.pcm_rd_pos
    let next_pos := (s.pcm_rd_pos + (size : Int)) % ((PCM_CHUNK_MASK : Int) + 1)
    let s := { s with pcm_rd_pos := next_pos }
    /- ptr must point to continous data at wraparound position -/
    let ring := PCM_NUM_CHUNKS * PCM_CHUNK_SIZE
    let mirrored : Nat → Nat := fun k =>
      if ring ≤ k ∧ k < ring + to_ulong s.pcm_rd_pos then s.pcm_data (k - ring)
      else s.pcm_data k
    let s := if to_ulong s.pcm_rd_pos < size then { s with pcm_data := mirrored } else s
    (some ptr, { s with wav_queue_empty := false })
  else
    /- not enough data available - encoder should idle -/
    (none, { s with wav_queue_empty := true })

/-! ## The round-trip scenario -/

/-- The recording options of the scenario: line-in (source 1), the frequency
index 0 (44100 Hz in `freq_44100`), 2 channels, no pre-recording. -/
def round_trip_options : audio_recording_options :=
  { rec_source := 1, rec_frequency := 0, rec_channels := 2, rec_prerecord_time := 0,
    enc_afmt := 0 }

/-- A sample-rate table whose entry 0 is 44100 Hz. -/
def freq_44100 (_ : Int) : Nat := 44100

/-- The session up to the point where the encoder is loaded and has set its
parameters: `init`, `setOptions`, and the encoder's `enc_set_parameters`.
The ghost logs start empty. -/
def round_trip_setup (buffer buffer_size : Nat) (params : enc_parameters) (s : PcmRec) :
    PcmRec :=
  let s := { s with trace := [], closed := [], fsynced := [] }
  let s := pcmrec_init buffer buffer_size s
  let s := pcmrec_set_recording_options freq_44100 true round_trip_options s
  (enc_set_parameters (some params) s).2

/-- The round trip after the set-up: record "a.wav", 10 chunks of `S` samples
(`fills_a`), record "b.wav" (a gapless split), 5 chunks (`fills_b`), stop. -/
def round_trip_run (enc : Encoder) (fuel : Nat)
    (fills_a fills_b : List (enc_chunk_hdr → enc_chunk_hdr)) (s : PcmRec) : Option PcmRec :=
  (pcmrec_record enc fuel "a.wav" s).bind (fun s =>
  (pcmrec_record enc fuel "b.wav" (encode_chunks fills_a s)).bind (fun s =>
  pcmrec_stop enc fuel (encode_chunks fills_b s)))

/-! ## Encoder hand-off: returning capture data -/

/-- `enc_unget_pcm_data`: the result is the function's return value and the new
state. Raising and restoring the interrupt level changes nothing that is
modelled here: it only keeps `pcm_rec_have_more` from running in between. -/
def enc_unget_pcm_data (size : Nat) (s : PcmRec) : Nat × PcmRec :=
  if s.pcm_rd_pos ≠ s.dma_wr_pos then
    /- disallow backing up into current DMA write chunk -/
    let old_avail := to_ulong
      ((s.pcm_rd_pos - s.dma_wr_pos - (PCM_CHUNK_SIZE : Int)) % ((PCM_CHUNK_MASK : Int) + 1))
    /- limit size to amount of old data remaining -/
    let size := if size > old_avail then old_avail else size
    let next_pos := (s.pcm_rd_pos - (size : Int)) % ((PCM_CHUNK_MASK : Int) + 1)
    (size, { s with pcm_rd_pos := next_pos })
  else (size, s)

/-! ## Capture notification (interrupt context) -/

/-- Modelled from the spec: `DMA_REC_ERROR_DMA` (pcm_record.h, absent), the
status with which the hardware layer reports a failed transfer. -/
def DMA_REC_ERROR_DMA : Int := -1

/-- The messages of `pcmrec_queue` (the anonymous enum of the file). -/
inductive pcmrec_msg where
  | PCMREC_NULL
  | PCMREC_INIT
  | PCMREC_CLOSE
  | PCMREC_OPTIONS
  | PCMREC_RECORD
  | PCMREC_STOP
  | PCMREC_PAUSE
  | PCMREC_RESUME
deriving DecidableEq, Repr

/-- What `pcm_rec_have_more` does besides updating the statics: its return
value, the messages it posts to `pcmrec_queue` (`queue_post`), and the transfer
it arms, if any (`pcm_record_more`: the offset of the chunk in `pcm_buffer` and
the size). -/
structure have_more_result where
  ret : Int
  posted : List pcmrec_msg
  armed : Option (Int × Nat)
  state : PcmRec

/-- The common exit of `pcm_rec_have_more`:
`pcm_record_more(GET_PCM_CHUNK(dma_wr_pos), PCM_CHUNK_SIZE); return 0;`. -/
def have_more_rearm (s : PcmRec) : have_more_result :=
  { ret := 0, posted := [], armed := some (s.dma_wr_pos, PCM_CHUNK_SIZE), state := s }

/-- `pcm_rec_have_more`, the callback for when more data is ready, called in
interrupt context. -/
def pcm_rec_have_more (status : Int) (s : PcmRec) : have_more_result :=
  if status < 0 then
    /- some error condition -/
    if status = DMA_REC_ERROR_DMA then
      /- Flush recorded data to disk and stop recording -/
      { ret := -1, posted := [pcmrec_msg.PCMREC_STOP], armed := none, state := s }
    else
      /- else try again next transmission -/
      have_more_rearm s
  else if ¬ s.dma_lock then
    /- advance write position -/
    let next_pos := (s.dma_wr_pos + (PCM_CHUNK_SIZE : Int)) % ((PCM_CHUNK_MASK : Int) + 1)
    /- set pcm ovf if read position is inside current write chunk -/
    let s := if to_ulong (s.pcm_rd_pos - next_pos) < PCM_CHUNK_SIZE then
               { s with warnings := s.warnings ||| PCMREC_W_PCM_BUFFER_OVF }
             else s
    have_more_rearm { s with dma_wr_pos := next_pos }
  else have_more_rearm s

/-! ## Status surface -/

/-- `pcm_rec_error_clear`: clear all errors and warnings. -/
def pcm_rec_error_clear (s : PcmRec) : PcmRec :=
  { s with errors := 0, warnings := 0 }

/-- `pcm_rec_get_warnings`: the warnings that have occurred since recording
started. -/
def pcm_rec_get_warnings (s : PcmRec) : Nat := s.warnings

/-- `audio_recorded_time`: the recorded time in ticks. The product is formed in
`unsigned long long` (64 bits), the quotient is cast to `long` and returned as
`unsigned long` (32 bits). -/
def audio_recorded_time (s : PcmRec) : Nat :=
  if ¬ s.is_recording ∨ s.enc_sample_rate = 0 then 0
  else
    /- return actual recorded time a la encoded data even if encoder rate
       doesn't match the pcm rate -/
    ((HZ * s.num_rec_samples) % 2 ^ 64 / s.enc_sample_rate) % ULONG_RANGE

/-- `audio_num_recorded_bytes`: the number of bytes encoded to output. -/
def audio_num_recorded_bytes (s : PcmRec) : Nat :=
  if ¬ s.is_recording then 0 else s.num_rec_bytes

/-- The capture transfer `pcmrec_set_recording_options` leaves behind: it
stops the running transfer first (`pcm_stop_recording`) and starts one at the
write position (`pcm_record_data` with `GET_PCM_CHUNK(dma_wr_pos)` and
`PCM_CHUNK_SIZE`) only when the encoder loaded. -/
def set_recording_options_transfer (load_ok : Bool) (s : PcmRec) : Option (Int × Nat) :=
  if load_ok then some (s.dma_wr_pos, PCM_CHUNK_SIZE) else none

/-! ## Concrete states used to exercise the definitions -/

/-- The state at power-on: C statics are zero-initialised, `rec_fdata.rec_file`
and `spinup_time` start at `-1`; the buffer memory is taken to be all zero. -/
def boot_state : PcmRec :=
  { is_recording := false, is_paused := false, errors := 0, warnings := 0,
    num_rec_bytes := 0, num_rec_samples := 0,
    rec_fdata := { chunk := 0, new_enc_size := 0, new_num_pcm := 0, filename := "",
                   rec_file := -1, num_pcm_samples := 0 },
    rec_source := 0, rec_frequency := 0, sample_rate := 0, num_channels := 0,
    enc_config_afmt := 0, pre_record_ticks := 0,
    rec_buffer_size := 0, pcm_buffer := 0, enc_buffer := 0,
    dma_wr_pos := 0, pcm_rd_pos := 0, dma_lock := false,
    enc_wr_index := 0, enc_rd_index := 0, enc_num_chunks := 0, enc_chunk_size := 0,
    enc_sample_rate := 0, wav_queue_empty := false,
    write_threshold := 0, panic_threshold := 0, spinup_time := -1, last_flush_tick := 0,
    fn_queue_addr := 0, fn_queue := fun _ => "", fnq_size := 0, fnq_rd_pos := 0, fnq_wr_pos := 0,
    chunks := fun _ => { flags := 0, enc_size := 0, num_pcm := 0, enc_data := none },
    pcm_data := fun _ => 0,
    current_tick := 0, ata_spinup_time := 0, thread_priority := 0,
    trace := [], closed := [], fsynced := [] }

/-- A ring of 4 chunks with 3 of them ready (write index 2, read index 3),
recording; the chunk at the write index is filled with 5 bytes / 7 samples. -/
def full_ring_recording : PcmRec :=
  { boot_state with
    is_recording := true, enc_num_chunks := 4, enc_wr_index := 2, enc_rd_index := 3,
    chunks := fun i => if i = 2 then { flags := 0, enc_size := 5, num_pcm := 7, enc_data := some 0 }
                       else { flags := 0, enc_size := 0, num_pcm := 0, enc_data := none } }

/-- The same full ring while only pre-recording. -/
def full_ring_prerecording : PcmRec :=
  { full_ring_recording with is_recording := false, pre_record_ticks := 5 * HZ }

/-- A ring of 4 chunks holding one ready chunk (write index 1, read index 0),
recording; the chunk at the write index is filled with 5 bytes / 7 samples. -/
def roomy_ring_recording : PcmRec :=
  { boot_state with
    is_recording := true, enc_num_chunks := 4, enc_wr_index := 1, enc_rd_index := 0,
    chunks := fun i => if i = 1 then { flags := 0, enc_size := 5, num_pcm := 7, enc_data := some 0 }
                       else { flags := 0, enc_size := 0, num_pcm := 0, enc_data := none } }

/-- The header the encoder receives from `enc_get_chunk` in state `s`. -/
def chunk_handed_out (s : PcmRec) : enc_chunk_hdr :=
  GET_ENC_CHUNK (enc_get_chunk s) s.enc_wr_index

/-- An encoder fill that stores a payload of `enc_size` bytes encoding
`num_pcm` samples at `data` and leaves the flags it was handed. -/
def fill_payload (enc_size num_pcm data : Nat) (c : enc_chunk_hdr) : enc_chunk_hdr :=
  { c with enc_size := enc_size, num_pcm := num_pcm, enc_data := some data }

/-- The slots a flush would visit: `k` slots from `index` on, in ring order. -/
def ready_slots (enc_num_chunks : Int) : Nat → Int → List Int
  | 0, _ => []
  | k + 1, index => index :: ready_slots enc_num_chunks k (INC_ENC_INDEX enc_num_chunks index)

/-- The chunks that are ready to be flushed, oldest first. -/
def ready_chunks (s : PcmRec) : List enc_chunk_hdr :=
  (ready_slots s.enc_num_chunks (num_ready s).toNat s.enc_rd_index).map (GET_ENC_CHUNK s)

/-- An empty ring of 4 chunks during a recording. -/
def empty_ring4_recording : PcmRec :=
  { boot_state with is_recording := true, enc_num_chunks := 4 }

/-- Six pushes; push `i` carries `10 * i` bytes encoding `i` samples. -/
def six_pushes : List (enc_chunk_hdr → enc_chunk_hdr) :=
  [fill_payload 10 1 0, fill_payload 20 2 0, fill_payload 30 3 0,
   fill_payload 40 4 0, fill_payload 50 5 0, fill_payload 60 6 0]

/-- What `enc_get_chunk` leaves of a header during a recording: everything but
the flags other than start-of-file. -/
def kept_start (c : enc_chunk_hdr) : enc_chunk_hdr :=
  { c with flags := c.flags &&& CHUNKF_START_FILE }

/-- Frame condition on the encoder's file-event callback: it works on the event
data and the chunk memory it is handed, and has no access to the recorder's
filename queue, its error word, or the chunk pointer of the event data. -/
def file_event_local (enc : Encoder) : Prop :=
  ∀ (ev : enc_events) (s : PcmRec),
    (enc.file_event ev s).fnq_rd_pos = s.fnq_rd_pos ∧
    (enc.file_event ev s).fnq_wr_pos = s.fnq_wr_pos ∧
    (enc.file_event ev s).fnq_size = s.fnq_size ∧
    (enc.file_event ev s).fn_queue = s.fn_queue ∧
    (enc.file_event ev s).errors = s.errors ∧
    (enc.file_event ev s).rec_fdata.chunk = s.rec_fdata.chunk

/-- An encoder modelled on the firmware's file-writing encoders: on a file
start it opens the file (descriptor 3) and resets its sample count unless the
chunk carries the error flag, on a chunk write it counts the chunk's samples,
on a file end it closes the file; a stream transition needs no action of it;
when given the processor it asks for `1024` bytes of capture data. -/
def file_encoder : Encoder :=
  { file_event := fun ev s =>
      match ev with
      | enc_events.ENC_START_FILE =>
        if (s.chunks s.rec_fdata.chunk).flags &&& CHUNKF_ERROR ≠ 0 then s
        else { s with rec_fdata := { s.rec_fdata with rec_file := 3, num_pcm_samples := 0 } }
      | enc_events.ENC_WRITE_CHUNK =>
        if (s.chunks s.rec_fdata.chunk).flags &&& CHUNKF_ERROR ≠ 0 then s
        else
          let total := uadd s.rec_fdata.num_pcm_samples (s.chunks s.rec_fdata.chunk).num_pcm
          { s with rec_fdata := { s.rec_fdata with num_pcm_samples := total } }
      | enc_events.ENC_END_FILE =>
        { s with rec_fdata := { s.rec_fdata with rec_file := -1 } }
      | enc_events.ENC_REC_NEW_STREAM => s,
    new_stream := fun data s => (data, s),
    on_yield := fun s => (enc_get_pcm_data 1024 s).2 }

/-- A recorder about to flush the chunk in slot 0, which carries the start
flag, with the names "a.wav" and "b.wav" queued (queue of 16 paths). -/
def start_pending : PcmRec :=
  { boot_state with
    is_recording := true, enc_num_chunks := 4, enc_wr_index := 2, enc_rd_index := 0,
    fnq_size := 16 * 260, fnq_rd_pos := 0, fnq_wr_pos := 520,
    fn_queue := fun j => if j = 0 then "a.wav" else if j = 260 then "b.wav" else "",
    chunks := fun i => if i = 0 then { flags := 1, enc_size := 5, num_pcm := 7, enc_data := some 0 }
                       else { flags := 0, enc_size := 6, num_pcm := 7, enc_data := some 0 } }

/-- The same recorder with an empty filename queue. -/
def start_pending_no_name : PcmRec :=
  { start_pending with fnq_wr_pos := 0 }

/-- What a file event of the trace says about the files: the event, the
filename for a file start, and the sample count of the chunk for a chunk
write. -/
def file_event_summary (c : enc_call) : enc_events × String × Nat :=
  (c.event,
   if c.event = enc_events.ENC_START_FILE then c.filename else "",
   if c.event = enc_events.ENC_WRITE_CHUNK then c.hdr.num_pcm else 0)

/-- The file events (start, write, end) among the encoder calls `tr`, in order. -/
def file_events (tr : List enc_call) : List (enc_events × String × Nat) :=
  (tr.filter (fun c => decide (c.event ≠ enc_events.ENC_REC_NEW_STREAM))).map file_event_summary

/-- The state `t` differs from `s` at most in the fields the flush loop writes
when the encoder is `file_encoder`: the thread priority, the event data, the
read position of the filename queue, the chunk headers, the read index, the
trace, the log of synced files and the tick of the last flush. -/
def flush_frame (s t : PcmRec) : Prop :=
  t = { s with thread_priority := t.thread_priority, rec_fdata := t.rec_fdata,
               fnq_rd_pos := t.fnq_rd_pos, chunks := t.chunks,
               enc_rd_index := t.enc_rd_index, trace := t.trace,
               fsynced := t.fsynced, last_flush_tick := t.last_flush_tick }

/-- Encoder parameters for exercising the round trip: chunks of 1000 payload
bytes, no reserve bytes. -/
def round_trip_params : enc_parameters :=
  { afmt := 0, chunk_size := 1000, enc_sample_rate := 44100, reserve_bytes := 0,
    enc_buffer := 0, buf_chunk_size := 0, num_chunks := 0, reserve_buffer := none }

/-- The file events the round trip must deliver: "a.wav" is started, receives
10 chunks of `S` samples and is ended; "b.wav" is started, receives 5 chunks
of `S` samples and the empty chunk that carries its end marker, and is ended. -/
def round_trip_events (S : Nat) : List (enc_events × String × Nat) :=
  [(enc_events.ENC_START_FILE, "a.wav", 0)]
    ++ List.replicate 10 (enc_events.ENC_WRITE_CHUNK, "", S)
    ++ [(enc_events.ENC_END_FILE, "", 0), (enc_events.ENC_START_FILE, "b.wav", 0)]
    ++ List.replicate 5 (enc_events.ENC_WRITE_CHUNK, "", S)
    ++ [(enc_events.ENC_WRITE_CHUNK, "", 0), (enc_events.ENC_END_FILE, "", 0)]

/-- Frame condition on the encoder's new-stream callback: it prepares its own
stream state and chunk payload, and leaves the ring indices and the flags
words of the chunk headers to the recorder. -/
def new_stream_keeps_ring (enc : Encoder) : Prop :=
  ∀ (data : enc_buffer_event_data) (s : PcmRec),
    (enc.new_stream data s).2.enc_wr_index = s.enc_wr_index ∧
    (enc.new_stream data s).2.enc_rd_index = s.enc_rd_index ∧
    ∀ j, ((enc.new_stream data s).2.chunks j).flags = (s.chunks j).flags

/-- A recording that has just been started: the chunk at the write index is
marked as the start of "a.wav" and nothing has been encoded into it yet. -/
def start_at_write : PcmRec :=
  { boot_state with
    is_recording := true, enc_num_chunks := 4, enc_wr_index := 1, enc_rd_index := 1,
    fnq_size := 16 * 260, fnq_rd_pos := 0, fnq_wr_pos := 260,
    fn_queue := fun j => if j = 0 then "a.wav" else "",
    chunks := fun i => if i = 1 then { flags := 1, enc_size := 0, num_pcm := 0, enc_data := none }
                       else { flags := 0, enc_size := 0, num_pcm := 0, enc_data := none } }

/-- The slot `k` places behind the write index `wr` in a ring of `n` chunks. -/
def slot_behind (n wr : Int) (k : Nat) : Int := (wr - k) % n

/-- Total of the `enc_size` fields of the `c` chunks directly behind the write
index, newest first. -/
def bytes_behind (chunks : Int → enc_chunk_hdr) (n wr : Int) : Nat → Nat
  | 0 => 0
  | c + 1 => bytes_behind chunks n wr c + (chunks (slot_behind n wr (c + 1))).enc_size

/-- The number of pre-recorded chunks the specification asks Record to select:
`min(N, ceil(T * R / S))` for `N` ready chunks of `S` samples, a window of `T`
seconds and the sample rate `R`. -/
def spec_pre_chunks (N T R S : Nat) : Nat := min N ((T * R + S - 1) / S)

/-- Frame condition on the encoder's new-stream callback for Record: it hands
back the chunk pointer it was given and leaves the ring indices, the recorder's
byte and sample counters and the filename queue's bookkeeping alone. -/
def new_stream_keeps_counters (enc : Encoder) : Prop :=
  ∀ (data : enc_buffer_event_data) (s : PcmRec),
    (enc.new_stream data s).1.chunk = data.chunk ∧
    (enc.new_stream data s).2.enc_wr_index = s.enc_wr_index ∧
    (enc.new_stream data s).2.enc_rd_index = s.enc_rd_index ∧
    (enc.new_stream data s).2.num_rec_bytes = s.num_rec_bytes ∧
    (enc.new_stream data s).2.num_rec_samples = s.num_rec_samples ∧
    (enc.new_stream data s).2.fnq_rd_pos = s.fnq_rd_pos ∧
    (enc.new_stream data s).2.fnq_wr_pos = s.fnq_wr_pos ∧
    (enc.new_stream data s).2.fnq_size = s.fnq_size

/-- An idle recorder that is pre-recording at the encoder sample rate `R` with
a window of `ticks` ticks: a ring of 4 chunks of which slots 0 and 1 are ready
(write index 2, read index 0), every chunk holding 10 bytes of payload that
encode `S` samples. -/
def prerecorded_ring (R ticks S : Nat) : PcmRec :=
  { boot_state with
    pre_record_ticks := ticks, enc_sample_rate := R,
    enc_num_chunks := 4, enc_wr_index := 2, enc_rd_index := 0,
    fnq_size := 16 * 260,
    chunks := fun _ => { flags := 0, enc_size := 10, num_pcm := S, enc_data := some 0 } }

/-- The number of captured bytes the encoder has not pulled yet, as the
specification words it: `(dma_wr_pos - pcm_rd_pos) mod (256 * 8192)`. -/
def pcm_available (s : PcmRec) : Int := (s.dma_wr_pos - s.pcm_rd_pos) % (256 * 8192)

/-- One chunk of capture data in the ring, nothing pulled yet: the write
position one chunk ahead of the read position. -/
def one_chunk_captured : PcmRec :=
  { boot_state with dma_wr_pos := 8192, pcm_rd_pos := 0 }

/-- The slot size the specification asks of `enc_set_parameters`:
`ENC_CHUNK_HDR_SIZE + chunk_size` rounded up to a multiple of 4. -/
def spec_slot_size (chunk_size : Nat) : Nat :=
  (ENC_CHUNK_HDR_SIZE + chunk_size + 3) / 4 * 4

/-- The bytes available to the chunk ring as the specification words them:
`rec_buffer_size` minus the capture ring with its guard (the distance from
`pcm_buffer` to `enc_buffer`), minus the reserve bytes rounded up to 4, minus
`16 * MAX_PATH` for the filename queue. -/
def spec_available (reserve_bytes : Nat) (s : PcmRec) : Nat :=
  s.rec_buffer_size - (s.enc_buffer - s.pcm_buffer) - (reserve_bytes + 3) / 4 * 4
    - 16 * MAX_PATH

/-- The filename queue is laid out as `enc_set_parameters` leaves it and the
queue operations keep it: the size a multiple of `MAX_PATH`, both positions
multiples of `MAX_PATH` inside the queue. -/
def fnq_well_formed (s : PcmRec) : Prop :=
  s.fnq_size % (MAX_PATH : Int) = 0 ∧
  (0 ≤ s.fnq_rd_pos ∧ s.fnq_rd_pos < s.fnq_size ∧ s.fnq_rd_pos % (MAX_PATH : Int) = 0) ∧
  (0 ≤ s.fnq_wr_pos ∧ s.fnq_wr_pos < s.fnq_size ∧ s.fnq_wr_pos % (MAX_PATH : Int) = 0)

instance (s : PcmRec) : Decidable (fnq_well_formed s) := by
  unfold fnq_well_formed; exact inferInstance

/-- The position of the entry of the filename queue that was appended last. -/
def fnq_tail (s : PcmRec) : Int :=
  if s.fnq_wr_pos - (MAX_PATH : Int) < 0 then s.fnq_size - (MAX_PATH : Int)
  else s.fnq_wr_pos - (MAX_PATH : Int)

/-- A start marker at the write index with no name in the filename queue. -/
def start_at_write_no_name : PcmRec :=
  { start_at_write with fnq_wr_pos := 0 }

/-- Every bit that is set in `a` is set in `b`. -/
def bits_subset (a b : Nat) : Prop := a &&& b = a

instance (a b : Nat) : Decidable (bits_subset a b) := by
  unfold bits_subset; exact inferInstance

/-- The encoder clears no bit of a status word `sel` of the recorder (`errors`
or `warnings`): these are statics of the recorder which the encoder reaches
only through `enc_finish_chunk`, `enc_get_pcm_data` and the like, none of
which clears a bit. -/
def encoder_keeps (sel : PcmRec → Nat) (enc : Encoder) : Prop :=
  (∀ ev s, bits_subset (sel s) (sel (enc.file_event ev s))) ∧
  (∀ d s, bits_subset (sel s) (sel (enc.new_stream d s).2)) ∧
  (∀ s, bits_subset (sel s) (sel (enc.on_yield s)))

/-- First part of one pass of the flush loop, a restatement of the head of
`pcmrec_flush_body`: the priority boost, and the chunk at the read index made
the current chunk of the event data. -/
def flush_pass_prepare (start_tick : Nat) (v : flush_vars) (s : PcmRec) : PcmRec :=
  let boost := v.prio = -1 ∧
    (v.num ≥ s.panic_threshold ∨ usub s.current_tick start_tick > 10 * HZ)
  let s := if boost then { s with thread_priority := s.thread_priority - 1 } else s
  let fdata : enc_file_event_data :=
    { s.rec_fdata with
      chunk := s.enc_rd_index,
      new_enc_size := (GET_ENC_CHUNK s s.enc_rd_index).enc_size,
      new_num_pcm := (GET_ENC_CHUNK s s.enc_rd_index).num_pcm }
  { s with rec_fdata := fdata }

/-- Middle part of one pass of the flush loop, a restatement of the events of
`pcmrec_flush_body`: the start of a file if the current chunk asks for it, the
write of the chunk, the end of the file if the chunk asks for it. -/
def flush_pass_events (enc : Encoder) (s : PcmRec) : PcmRec :=
  let s := if (s.chunks s.rec_fdata.chunk).flags &&& CHUNKF_START_FILE ≠ 0
           then pcmrec_start_file enc s else s
  let s := pcmrec_write_chunk enc s
  if (s.chunks s.rec_fdata.chunk).flags &&& CHUNKF_END_FILE ≠ 0 then
    pcmrec_end_file enc s
  else s

/-- The writing part of `pcmrec_flush` (its local `go`), restated on its own:
the loop over the ready chunks, the file sync, the return to the original
priority and the time stamp. -/
def flush_run (enc : Encoder) (num_ready : Int) (flush_num : Nat) (num : Int)
    (s : PcmRec) : PcmRec :=
  let start_tick := s.current_tick
  let r := pcmrec_flush_loop enc num_ready start_tick num_ready.toNat
    { i := 0, num := num, prio := -1, flush_num := flush_num } s
  let s := r.2
  let s := if s.rec_fdata.rec_file ≥ 0 then
             { s with fsynced := s.fsynced ++ [s.rec_fdata.rec_file] }
           else s
  let s := if r.1.prio ≠ -1 then { s with thread_priority := r.1.prio } else s
  { s with last_flush_tick := s.current_tick }

/-- The write-threshold update of `pcmrec_flush` when the spin-up time has
changed, restated on its own. -/
def flush_spinup (s : PcmRec) : PcmRec :=
  if s.ata_spinup_time ≠ s.spinup_time then
    let st := to_ulong s.ata_spinup_time
    let s := { s with spinup_time := s.ata_spinup_time }
    let st := if st < 2 * HZ then 2 * HZ
              else if st > 10 * HZ then 10 * HZ else st
    let s := { s with write_threshold := flush_threshold s st }
    if s.write_threshold < 0 then { s with write_threshold := 0 }
    else if s.write_threshold > s.panic_threshold then
      { s with write_threshold := s.panic_threshold }
    else s
  else s

/-- First half of `pcmrec_new_stream`, restated on its own: the end chunk, the
start chunk, the call of the encoder and the end mark on the chunk before the
one the encoder handed back. The result is the event data and the state. -/
def new_stream_notify (enc : Encoder) (flags : Nat) (pre_index : Int) (s : PcmRec) :
    enc_buffer_event_data × PcmRec :=
  let e := new_stream_end flags s
  let s := e.1
  let flags := e.2.1
  let chunk := e.2.2
  let has_start := flags &&& CHUNKF_START_FILE ≠ 0
  let st := new_stream_start flags pre_index chunk s
  let s := if has_start then st.1 else s
  let pre_chunk : Option Int := if has_start then st.2.2.1 else none
  let r := enc_events_callback_new_stream enc
    { flags := flags, pre_chunk := pre_chunk, chunk := chunk } s
  let data := r.1
  let s := r.2
  let s := if flags &&& CHUNKF_END_FILE ≠ 0 then
             let prev := DEC_ENC_INDEX s.enc_num_chunks data.chunk
             set_flags s prev ((GET_ENC_CHUNK s prev).flags ||| CHUNKF_END_FILE)
           else s
  (data, s)

/-- Last step of `pcmrec_new_stream` for a start, restated on its own: the
start mark on the chunk `x.2`, the flush of a full filename queue before an
append, and the queue operation selected. -/
def new_stream_queue (enc : Encoder) (filename : Option String) (fnq_add_fn : fnq_add_kind)
    (x : PcmRec × Int) : PcmRec :=
  let s := x.1
  let start := x.2
  let s := set_flags s start ((GET_ENC_CHUNK s start).flags ||| CHUNKF_START_FILE)
  let s := if fnq_add_fn = fnq_add_kind.add_filename ∧ pcmrec_fnq_is_full s then
             pcmrec_flush enc 0xFFFFFFFF s
           else s
  match fnq_add_fn with
  | fnq_add_kind.replace_tail => (pcmrec_fnq_replace_tail (filename.getD "") s).2
  | fnq_add_kind.add_filename => (pcmrec_fnq_add_filename (filename.getD "") s).2

/-- The preparation of `pcmrec_record` for a start from idle, restated on its
own: the reset of the counters, of the spin-up time and of the warnings, the
walk over the pre-recorded chunks, the read index put on the first of them,
the filename queue emptied and the recording flags set. The result is the
state the stream transition starts from and `pre_sample_ticks`. -/
def record_idle_prepare (s : PcmRec) : PcmRec × Nat :=
  let s := { s with num_rec_bytes := 0, num_rec_samples := 0 }
  let s := { s with spinup_time := -1, warnings := 0 }
  let w := if s.pre_record_ticks ≠ 0 then
             prerecord_walk (umul s.enc_sample_rate s.pre_record_ticks)
               (avail_pre_chunks s) s.enc_wr_index s.enc_wr_index 0 s
           else (s.enc_wr_index, 0, s)
  let s := w.2.2
  let s := { s with enc_rd_index := w.1 }
  let s := if ¬ pcmrec_fnq_is_empty s then pcmrec_fnq_set_empty s else s
  ({ s with dma_lock := false, is_paused := false, is_recording := true }, w.2.1)

/-- An idle recorder (ring of 4 chunks, filename queue of 16 paths) on which
the capture-overflow warning is up. -/
def warned_idle : PcmRec :=
  { boot_state with
    warnings := PCMREC_W_PCM_BUFFER_OVF, enc_num_chunks := 4, fnq_size := 16 * 260 }

/-- An encoder whose chunk writes fail: on a chunk write it raises the error
flag of the chunk it was handed, as the firmware's encoders do when the write
to the file fails; it takes no other action, adds no chunk, and finds no
capture data when given the processor. -/
def failing_encoder : Encoder :=
  { file_event := fun ev s =>
      match ev with
      | enc_events.ENC_WRITE_CHUNK =>
        set_flags s s.rec_fdata.chunk ((s.chunks s.rec_fdata.chunk).flags ||| CHUNKF_ERROR)
      | _ => s,
    new_stream := fun data s => (data, s),
    on_yield := fun s => { s with wav_queue_empty := true } }

/-- Validity of the ring indices: the ring has at least one slot and fewer than
`2 ^ 31` (the indices are `int`), and both indices name a slot. -/
def ring_valid (s : PcmRec) : Prop :=
  0 < s.enc_num_chunks ∧ s.enc_num_chunks < 2 ^ 31 ∧
  (0 ≤ s.enc_rd_index ∧ s.enc_rd_index < s.enc_num_chunks) ∧
  (0 ≤ s.enc_wr_index ∧ s.enc_wr_index < s.enc_num_chunks)

instance (s : PcmRec) : Decidable (ring_valid s) := by
  unfold ring_valid; exact inferInstance

/-- Frame condition on an encoder that adds no chunks during the callbacks: its
callbacks leave the ring indices and the size of the ring alone, and what its
thread does when given the processor keeps the indices valid. -/
def encoder_keeps_indices (enc : Encoder) : Prop :=
  (∀ ev s, (enc.file_event ev s).enc_rd_index = s.enc_rd_index ∧
    (enc.file_event ev s).enc_wr_index = s.enc_wr_index ∧
    (enc.file_event ev s).enc_num_chunks = s.enc_num_chunks) ∧
  (∀ d s, (enc.new_stream d s).2.enc_rd_index = s.enc_rd_index ∧
    (enc.new_stream d s).2.enc_wr_index = s.enc_wr_index ∧
    (enc.new_stream d s).2.enc_num_chunks = s.enc_num_chunks) ∧
  (∀ s, ring_valid s → ring_valid (enc.on_yield s))

/-- The geometry of the chunk ring: read index, write index and size. -/
def ring3 (s : PcmRec) : Int × Int × Int :=
  (s.enc_rd_index, s.enc_wr_index, s.enc_num_chunks)

/-- The loop variables of `pcmrec_flush_body` after the handling of a start,
restated on their own: the priority saved by a boost, `flush_num` decremented
at a start, and `i` put on `num_ready` when `flush_num` reached zero there. -/
def flush_pass_vars (num_ready : Int) (start_tick : Nat) (v : flush_vars) (s : PcmRec) :
    flush_vars :=
  let boost := v.prio = -1 ∧
    (v.num ≥ s.panic_threshold ∨ usub s.current_tick start_tick > 10 * HZ)
  let p := flush_pass_prepare start_tick v s
  let v := if boost then { v with prio := s.thread_priority } else v
  let start := (p.chunks p.rec_fdata.chunk).flags &&& CHUNKF_START_FILE ≠ 0
  let flush_num := if start then usub v.flush_num 1 else v.flush_num
  let i := if start ∧ flush_num = 0 then num_ready else v.i
  { v with flush_num := flush_num, i := i }

/-- The file encoder at the end of the capture data: its file events are those
of `file_encoder`, and when given the processor it finds no data left. -/
def starved_file_encoder : Encoder :=
  { file_encoder with on_yield := fun s => { s with wav_queue_empty := true } }

/-- The chunk in slot `j` carries the start-of-file flag. -/
def has_start (s : PcmRec) (j : Int) : Bool :=
  decide ((s.chunks j).flags &&& CHUNKF_START_FILE ≠ 0)

/-- The ring position `j` lies in `enc_rd_index .. enc_wr_index` (inclusive),
going round the ring from the read index. -/
def in_ready (s : PcmRec) (j : Int) : Prop :=
  if s.enc_rd_index ≤ s.enc_wr_index then s.enc_rd_index ≤ j ∧ j ≤ s.enc_wr_index
  else s.enc_rd_index ≤ j ∨ j ≤ s.enc_wr_index

instance (s : PcmRec) (j : Int) : Decidable (in_ready s j) := by
  unfold in_ready; exact inferInstance

/-- The number of slots `0 .. n - 1` on which `f` holds. -/
def count_slots (n : Nat) (f : Int → Bool) : Nat :=
  ((List.range n).filter (fun (k : Nat) => f (k : Int))).length

/-- The bookkeeping of the filename queue: read position, write position, size. -/
def fnq3 (s : PcmRec) : Int × Int × Int := (s.fnq_rd_pos, s.fnq_wr_pos, s.fnq_size)

/-- What the correspondence between filenames and start markers depends on:
the start flags of the ring, its geometry, the bookkeeping of the filename
queue and the recording flag. -/
def qstate (s : PcmRec) : (Int → Bool) × (Int × Int × Int) × (Int × Int × Int) × Bool :=
  (has_start s, ring3 s, fnq3 s, s.is_recording)

/-- Frame condition on an encoder whose callbacks change no flags: the file
events, the stream transition and what its thread does when given the
processor leave the start flags, the ring indices, the filename queue's
bookkeeping and the recording flag alone, and the callbacks hand back the chunk
pointer they were given. -/
def encoder_passive (enc : Encoder) : Prop :=
  (∀ ev s, qstate (enc.file_event ev s) = qstate s ∧
    (enc.file_event ev s).rec_fdata.chunk = s.rec_fdata.chunk) ∧
  (∀ d s, qstate (enc.new_stream d s).2 = qstate s ∧ (enc.new_stream d s).1.chunk = d.chunk) ∧
  (∀ s, qstate (enc.on_yield s) = qstate s)

/-- The filename queue is laid out soundly and holds at least three paths
(`enc_set_parameters` leaves room for `FNQ_MIN_NUM_PATHS`). -/
def fnq_ok (s : PcmRec) : Prop :=
  fnq_well_formed s ∧ 3 * (MAX_PATH : Int) ≤ s.fnq_size

/-- A recording on a ring of a single chunk, drained (both indices 0). -/
def single_slot_ring : PcmRec :=
  { boot_state with is_recording := true, enc_num_chunks := 1 }

/-- The header of a chunk without payload that carries the end marker only. -/
def end_marker_chunk : enc_chunk_hdr :=
  { flags := CHUNKF_END_FILE, enc_size := 0, num_pcm := 0, enc_data := none }

/-- Frame condition on the encoder's new-stream callback: it has no access to
the recorder's filename queue. -/
def new_stream_keeps_queue (enc : Encoder) : Prop :=
  ∀ (data : enc_buffer_event_data) (s : PcmRec),
    fnq3 (enc.new_stream data s).2 = fnq3 s ∧
    (enc.new_stream data s).2.fn_queue = s.fn_queue

/-- A recording whose last finished chunk (slot 1, just before the write index
2) already carries the end marker; slots 0 and 1 are ready and "a.wav" is
queued. -/
def end_marked_ring : PcmRec :=
  { boot_state with
    is_recording := true, enc_num_chunks := 4, enc_wr_index := 2, enc_rd_index := 0,
    fnq_size := 16 * 260, fnq_rd_pos := 0, fnq_wr_pos := 260,
    fn_queue := fun j => if j = 0 then "a.wav" else "",
    chunks := fun i => if i = 1 then { flags := 2, enc_size := 6, num_pcm := 7, enc_data := some 0 }
                       else { flags := 0, enc_size := 5, num_pcm := 7, enc_data := some 0 } }

/-- The chunk writes among the encoder calls `tr`, in order. -/
def write_calls (tr : List enc_call) : List enc_call :=
  tr.filter (fun c => decide (c.event = enc_events.ENC_WRITE_CHUNK))

/-- Frame condition on the encoder's file-event callback: it hands back the
chunk pointer of the event data it was given. -/
def file_event_keeps_chunk (enc : Encoder) : Prop :=
  ∀ (ev : enc_events) (s : PcmRec), (enc.file_event ev s).rec_fdata.chunk = s.rec_fdata.chunk

/-- The ghost record of the file-event call `ev` made in state `s`. -/
def file_event_call (ev : enc_events) (s : PcmRec) : enc_call :=
  { event := ev, flags := (s.chunks s.rec_fdata.chunk).flags, chunk := s.rec_fdata.chunk,
    hdr := s.chunks s.rec_fdata.chunk, filename := s.rec_fdata.filename,
    rec_file := s.rec_fdata.rec_file, num_pcm_samples := s.rec_fdata.num_pcm_samples }

/-- A recording with three ready chunks on which the encoder error is up. -/
def failed_full_ring : PcmRec :=
  { full_ring_recording with errors := PCMREC_E_ENCODER }

/-- Frame condition on the encoder's file-event callback for the file handle:
it leaves the handle and the chunk pointer of the event data untouched, clears
no error bit, and leaves the end-of-file bit of the chunk headers alone. -/
def file_event_keeps_handle (enc : Encoder) : Prop :=
  ∀ (ev : enc_events) (s : PcmRec),
    (enc.file_event ev s).rec_fdata.rec_file = s.rec_fdata.rec_file ∧
    (enc.file_event ev s).rec_fdata.chunk = s.rec_fdata.chunk ∧
    (enc.file_event ev s).closed = s.closed ∧
    bits_subset s.errors (enc.file_event ev s).errors ∧
    ∀ j, ((enc.file_event ev s).chunks j).flags &&& CHUNKF_END_FILE =
      (s.chunks j).flags &&& CHUNKF_END_FILE

/-- An encoder that takes no action on any event, and reports starved input
when given the processor. -/
def idle_encoder : Encoder :=
  { file_event := fun _ s => s,
    new_stream := fun data s => (data, s),
    on_yield := fun s => { s with wav_queue_empty := true } }

/-- The recorder of `start_pending` with the previous file (descriptor 3) still
open: the chunk at the read index is the start of "a.wav". -/
def start_pending_file_open : PcmRec :=
  { start_pending with rec_fdata := { start_pending.rec_fdata with rec_file := 3 } }

/-- The spin-up time `pcmrec_flush` computes the write threshold for:
`ata_spinup_time` as `unsigned long`, clamped to `[2*HZ, 10*HZ]`. -/
def spinup_clamped (s : PcmRec) : Nat :=
  let st := to_ulong s.ata_spinup_time
  if st < 2 * HZ then 2 * HZ else if st > 10 * HZ then 10 * HZ else st

/-- A recording at 44100 Hz on a ring of 2000 chunks of 1016 bytes (panic
threshold 1826, as `enc_set_parameters` computes it) when the disk reports a
spin-up time of 2 seconds for the first time. -/
def spinup_changed_recording : PcmRec :=
  { boot_state with
    is_recording := true, sample_rate := 44100, enc_chunk_size := 1016,
    enc_num_chunks := 2000, panic_threshold := 1826, ata_spinup_time := 200 }

/-- The recorder after `pcmrec_init` on a recording buffer of 2151376 bytes at
address 100, before `enc_set_parameters`. -/
def initialised_state : PcmRec := pcmrec_init 100 2151376 boot_state

/-- Encoder parameters with chunks of 1000 payload bytes and 10 reserve bytes. -/
def reserve_params : enc_parameters :=
  { round_trip_params with reserve_bytes := 10 }

/-- Spec side of the filename queue: the entries met on a walk of `k` slots
from position `pos`, each read as the fixed-length path its slot holds. -/
def fnq_walk (queue : Int → String) (size : Int) : Nat → Int → List String
  | 0, _ => []
  | k + 1, pos => strncpy (queue pos) MAX_PATH :: fnq_walk queue size k (fnq_advance size pos)

/-- Spec side of the filename queue: the list `L` of entries from the read to
the write position. -/
def fnq_list (s : PcmRec) : List String :=
  fnq_walk s.fn_queue s.fnq_size (fnq_count s).toNat s.fnq_rd_pos

/-- Spec side of the filename queue: the number `c` of slots,
`fnq_size / MAX_PATH`. -/
def fnq_slots (s : PcmRec) : Int := s.fnq_size / (MAX_PATH : Int)

/-- Spec side of the filename queue: appending `f` to a bounded FIFO list of
`c` slots, which holds `c - 1` entries at most; the oldest entry is dropped
when the list is full. -/
def spec_fifo_add (c : Int) (L : List String) (f : String) : List String :=
  if (L.length : Int) < c - 1 then L ++ [f] else L.tail ++ [f]

/-- Spec side of the filename queue: popping a FIFO list; the result is the
return value, the entry handed out and the list left. -/
def spec_fifo_get (L : List String) : Bool × Option String × List String :=
  match L with
  | [] => (false, none, [])
  | x :: xs => (true, some x, xs)

/-- The names `pcmrec_fnq_get_filename` hands out when called until it returns
false, `fuel` times at most. -/
def fnq_drain : Nat → PcmRec → List String
  | 0, _ => []
  | fuel + 1, s =>
    match pcmrec_fnq_get_filename true s with
    | (true, some x, t) => x :: fnq_drain fuel t
    | _ => []

/-- The number of slots between two positions of the filename queue, going
round from `pos` to `w`. -/
def fnq_dist (size pos w : Int) : Int :=
  (if w - pos < 0 then w - pos + size else w - pos) / 260

/-- A position of the filename queue: a multiple of `MAX_PATH` inside it. -/
def fnq_pos_ok (size pos : Int) : Prop := 0 ≤ pos ∧ pos < size ∧ pos % 260 = 0

/-- A filename queue of a single slot, empty. -/
def single_slot_queue : PcmRec :=
  { boot_state with fnq_size := 260 }

/-- A name of 261 characters. -/
def long_name : String := ⟨List.replicate 261 'a'⟩

/-- A filename queue whose size (525 bytes) is no multiple of `MAX_PATH`: two
whole slots, one entry between the read position 0 and the write position 260. -/
def ragged_queue : PcmRec :=
  { boot_state with fnq_size := 2 * 260 + 5, fnq_wr_pos := 260 }

/-- An empty filename queue of 16 slots. -/
def empty_queue16 : PcmRec :=
  { boot_state with fnq_size := 16 * 260 }

/-- An idle recorder that is pre-recording (window of 1 second at 44100 Hz)
whose two ready chunks hold payload that encodes no samples. -/
def empty_samples_ring : PcmRec := prerecorded_ring 44100 (1 * HZ) 0

/-- The flags words of the chunks that are ready to be flushed, oldest first. -/
def ready_flags (s : PcmRec) : List Nat := (ready_chunks s).map (fun c => c.flags)

/-- None of the flags words `fl` carries the error flag. -/
def no_error_flag (fl : List Nat) : Prop := ∀ f ∈ fl, f &&& CHUNKF_ERROR = 0

instance (fl : List Nat) : Decidable (no_error_flag fl) := by
  unfold no_error_flag; exact inferInstance

/-- The number of flags words in `fl` that carry the start-of-file flag. -/
def start_markers (fl : List Nat) : Nat :=
  (fl.filter (fun f => decide (f &&& CHUNKF_START_FILE ≠ 0))).length

/-- Whether a file is open after the chunk with flags `f` has been flushed, if
the encoder opens a file at a start marker and closes it at an end marker. -/
def file_open_after (file_open : Bool) (f : Nat) : Bool :=
  if f &&& CHUNKF_END_FILE ≠ 0 then false
  else if f &&& CHUNKF_START_FILE ≠ 0 then true else file_open

/-- The start and end markers of `fl` fit the state of the file: no start
marker is met while a file is open, a file being open when it was open at the
outset or was started by an earlier marker, and has not been ended by an end
marker since. -/
def markers_nested : Bool → List Nat → Bool
  | _, [] => true
  | file_open, f :: fl =>
    (decide (f &&& CHUNKF_START_FILE = 0) || !file_open) &&
      markers_nested (file_open_after file_open f) fl

/-- The ready chunks are in step with the recorder: the filename queue is laid
out soundly, no ready chunk carries the error flag, the queue holds a name for
every start marker among the ready chunks, and the markers fit the state of the
file handle. -/
def flush_in_sync (s : PcmRec) : Prop :=
  fnq_well_formed s ∧ no_error_flag (ready_flags s) ∧
  (start_markers (ready_flags s) : Int) ≤ fnq_count s ∧
  markers_nested (decide (0 ≤ s.rec_fdata.rec_file)) (ready_flags s) = true

instance (s : PcmRec) : Decidable (flush_in_sync s) := by
  unfold flush_in_sync; exact inferInstance

/-- Frame condition on the file-event callback of an encoder that reports no
error and adds no chunks: it leaves the flags words of the chunk headers (so it
raises no error flag), the ring indices, the bookkeeping of the filename queue
and the error word alone, and hands back the chunk pointer of the event data. -/
def file_event_quiet (enc : Encoder) : Prop :=
  ∀ (ev : enc_events) (s : PcmRec),
    (∀ j, ((enc.file_event ev s).chunks j).flags = (s.chunks j).flags) ∧
    ring3 (enc.file_event ev s) = ring3 s ∧
    fnq3 (enc.file_event ev s) = fnq3 s ∧
    (enc.file_event ev s).errors = s.errors ∧
    (enc.file_event ev s).rec_fdata.chunk = s.rec_fdata.chunk

/-- What the recorder expects of the encoder about the file handle: the file is
closed when the end-of-file event returns, and a chunk write opens no file. -/
def file_handle_protocol (enc : Encoder) : Prop :=
  (∀ s, (enc.file_event enc_events.ENC_END_FILE s).rec_fdata.rec_file < 0) ∧
  (∀ s, s.rec_fdata.rec_file < 0 →
    (enc.file_event enc_events.ENC_WRITE_CHUNK s).rec_fdata.rec_file < 0)

/-- An encoder with the file events of `enc` that takes no action on a stream
transition or when given the processor; the flush loop, which raises file
events only, runs alike with both. -/
def file_events_only (enc : Encoder) : Encoder :=
  { file_event := enc.file_event,
    new_stream := fun data s => (data, s),
    on_yield := fun s => s }

/-- Two ready chunks, the first carrying the error flag, "a.wav" and "b.wav"
queued, no file open. -/
def error_flagged_pending : PcmRec :=
  { start_pending with
    chunks := fun i =>
      if i = 0 then { flags := CHUNKF_ERROR, enc_size := 5, num_pcm := 7, enc_data := some 0 }
      else { flags := 0, enc_size := 6, num_pcm := 7, enc_data := some 0 } }

/-- Two ready chunks while the file with descriptor 3 is open: the first ends
that file, the second starts "a.wav". -/
def split_pending_file_open : PcmRec :=
  { start_pending with
    rec_fdata := { start_pending.rec_fdata with rec_file := 3 },
    chunks := fun i =>
      if i = 0 then { flags := CHUNKF_END_FILE, enc_size := 5, num_pcm := 7, enc_data := some 0 }
      else if i = 1 then
        { flags := CHUNKF_START_FILE, enc_size := 6, num_pcm := 7, enc_data := some 0 }
      else { flags := 0, enc_size := 0, num_pcm := 0, enc_data := none } }

/-- Two ready chunks, no file open: a chunk without markers, then the start of
"a.wav". -/
def plain_then_start : PcmRec :=
  { start_pending with
    chunks := fun i =>
      if i = 1 then { flags := CHUNKF_START_FILE, enc_size := 6, num_pcm := 7, enc_data := some 0 }
      else { flags := 0, enc_size := 5, num_pcm := 7, enc_data := some 0 } }

/-- An encoder that reports no error and adds no chunks and closes the file at
the end-of-file event, but opens a file (descriptor 3) on a chunk write when
none is open. -/
def eager_encoder : Encoder :=
  { idle_encoder with
    file_event := fun ev s =>
      match ev with
      | enc_events.ENC_WRITE_CHUNK =>
        if s.rec_fdata.rec_file < 0 then { s with rec_fdata := { s.rec_fdata with rec_file := 3 } }
        else s
      | enc_events.ENC_END_FILE => { s with rec_fdata := { s.rec_fdata with rec_file := -1 } }
      | _ => s }

/-- The recorder `s` on a ring of 8 chunks of which the first 4 are ready. -/
def four_ready (s : PcmRec) : PcmRec :=
  { s with enc_num_chunks := 8, enc_rd_index := 0, enc_wr_index := 4 }

/-- What the encoder's thread does to the recorder's state while it runs: it
hands chunks over through `enc_get_chunk` and `enc_finish_chunk`, any number of
times, and what it changes besides (the payload and the sizes of the chunk it
was handed, the capture ring, its own data) leaves the start flags, the ring
indices, the bookkeeping of the filename queue and the recording flag alone. -/
inductive encoder_steps : PcmRec → PcmRec → Prop where
  | refl (s : PcmRec) : encoder_steps s s
  | get_chunk (s t : PcmRec) : encoder_steps s t → encoder_steps s (enc_get_chunk t)
  | finish_chunk (s t : PcmRec) : encoder_steps s t → encoder_steps s (enc_finish_chunk t)
  | other (s t u : PcmRec) : encoder_steps s t → qstate u = qstate t → encoder_steps s u

/-- Frame condition on an encoder whose callbacks change no flags. The file
events leave the start flags, the ring indices, the filename queue's
bookkeeping and the recording flag alone and hand back the chunk pointer they
were given. The new-stream callback and the encoder's thread, when it is given
the processor, may add chunks, through `enc_get_chunk` and `enc_finish_chunk`
only; the chunk the new-stream callback hands back, when it was given the one
at the write index of a recording, is that chunk or one of those it added (a
slot of the ring at a position `enc_rd_index .. enc_wr_index` of the state it
leaves, and the old write index or none of the positions of the state it
found). -/
def encoder_cooperative (enc : Encoder) : Prop :=
  (∀ ev s, qstate (enc.file_event ev s) = qstate s ∧
    (enc.file_event ev s).rec_fdata.chunk = s.rec_fdata.chunk) ∧
  (∀ d s, encoder_steps s (enc.new_stream d s).2 ∧
    (d.chunk = s.enc_wr_index → s.is_recording = true → ring_valid s →
      (0 ≤ (enc.new_stream d s).1.chunk ∧
        (enc.new_stream d s).1.chunk < s.enc_num_chunks) ∧
      in_ready (enc.new_stream d s).2 (enc.new_stream d s).1.chunk ∧
      ((enc.new_stream d s).1.chunk = s.enc_wr_index ∨
        ¬ in_ready s (enc.new_stream d s).1.chunk))) ∧
  (∀ s, encoder_steps s (enc.on_yield s))

/-- The slots one pass of the flush loop addresses: `GET_ENC_CHUNK(enc_rd_index)`,
which it makes `rec_fdata.chunk`, and `rec_fdata.chunk` as it stands after the
start of the file, the chunk write and the end of the file (the file events
are handed `rec_fdata`). -/
def flush_pass_slots (enc : Encoder) (start_tick : Nat) (v : flush_vars) (s : PcmRec) :
    List Int :=
  let p := flush_pass_prepare start_tick v s
  let a := if (p.chunks p.rec_fdata.chunk).flags &&& CHUNKF_START_FILE ≠ 0
           then pcmrec_start_file enc p else p
  let b := pcmrec_write_chunk enc a
  let c := if (b.chunks b.rec_fdata.chunk).flags &&& CHUNKF_END_FILE ≠ 0
           then pcmrec_end_file enc b else b
  [s.enc_rd_index, p.rec_fdata.chunk, a.rec_fdata.chunk, b.rec_fdata.chunk, c.rec_fdata.chunk]

/-- The slots the loop of `pcmrec_flush` addresses, pass by pass. -/
def flush_loop_slots (enc : Encoder) (num_ready : Int) (start_tick : Nat) :
    Nat → flush_vars → PcmRec → List Int
  | 0, _, _ => []
  | fuel + 1, v, s =>
    if v.i < num_ready then
      flush_pass_slots enc start_tick v s ++
        (if (pcmrec_flush_body enc num_ready start_tick v s).1 then []
         else flush_loop_slots enc num_ready start_tick fuel
           (pcmrec_flush_body enc num_ready start_tick v s).2.1
           (pcmrec_flush_body enc num_ready start_tick v s).2.2)
    else []

/-- The slots `pcmrec_flush` addresses: those of its loop, when it runs. -/
def pcmrec_flush_slots (enc : Encoder) (flush_num : Nat) (s : PcmRec) : List Int :=
  if flush_num = 0 then
    if ¬ s.is_recording then []
    else if num_ready s < (flush_spinup s).write_threshold then []
    else flush_loop_slots enc (num_ready s) (flush_spinup s).current_tick (num_ready s).toNat
      { i := 0,
        num := if usub (flush_spinup s).current_tick (flush_spinup s).last_flush_tick < HZ / 2
               then (flush_spinup s).panic_threshold else num_ready s,
        prio := -1, flush_num := flush_num } (flush_spinup s)
  else flush_loop_slots enc (num_ready s) s.current_tick (num_ready s).toNat
    { i := 0, num := num_ready s, prio := -1, flush_num := flush_num } s

/-- The slots the "end chunk" part of `pcmrec_new_stream` addresses:
`GET_ENC_CHUNK(enc_wr_index)`, and for an end request that is not dropped at
once the slot of the write index moved on (dead end) or the slot before the
write index (`get_prev_chunk`). -/
def new_stream_end_slots (flags : Nat) (s : PcmRec) : List Int :=
  s.enc_wr_index ::
    (if flags &&& CHUNKF_END_FILE ≠ 0 then
      if (GET_ENC_CHUNK s s.enc_wr_index).flags &&& (CHUNKF_START_FILE ||| CHUNKF_END_FILE)
          &&& CHUNKF_START_FILE ≠ 0 then []
      else if s.enc_rd_index = s.enc_wr_index then
        [INC_ENC_INDEX s.enc_num_chunks s.enc_wr_index]
      else [DEC_ENC_INDEX s.enc_num_chunks s.enc_wr_index]
    else [])

/-- The slots the statistics loop of `pcmrec_new_stream` addresses: `data.chunk`
and `GET_ENC_CHUNK(i)` after every `INC_ENC_INDEX(i)`, up to the write index. -/
def new_stream_stats_slots : Nat → Int → PcmRec → List Int
  | fuel, i, s =>
    i :: (if i = s.enc_wr_index then []
      else match fuel with
        | 0 => []
        | fuel + 1 => new_stream_stats_slots fuel (INC_ENC_INDEX s.enc_num_chunks i) s)

/-- The slots the last step of `pcmrec_new_stream` addresses: the chunk that
gets the start mark and those of the flush of a full filename queue. -/
def new_stream_queue_slots (enc : Encoder) (fnq_add_fn : fnq_add_kind) (x : PcmRec × Int) :
    List Int :=
  x.2 ::
    (if fnq_add_fn = fnq_add_kind.add_filename ∧ pcmrec_fnq_is_full
        (set_flags x.1 x.2 ((GET_ENC_CHUNK x.1 x.2).flags ||| CHUNKF_START_FILE)) then
      pcmrec_flush_slots enc 0xFFFFFFFF
        (set_flags x.1 x.2 ((GET_ENC_CHUNK x.1 x.2).flags ||| CHUNKF_START_FILE))
    else [])

/-- The slots `pcmrec_new_stream` addresses: those of the end chunk part; the
start chunk (`pre_index` or `data.chunk`); after the callback, for an end
request, the chunk the encoder handed back (`get_chunk_index(data.chunk)`) and
the one before it, which gets the end mark; for a start that is no pre-record
start the chunks of the statistics loop, the old start chunk and the chunk
handed back; the chunk that gets the start mark and the slots of the flush of
a full filename queue. -/
def pcmrec_new_stream_slots (enc : Encoder) (fuel : Nat) (flags : Nat) (pre_index : Int)
    (s : PcmRec) : List Int :=
  let e := new_stream_end flags s
  let st := new_stream_start e.2.1 pre_index e.2.2 e.1
  let n := new_stream_notify enc flags pre_index s
  new_stream_end_slots flags s ++
  (if e.2.1 &&& CHUNKF_START_FILE ≠ 0 then [st.2.1] else []) ++
  (if e.2.1 &&& CHUNKF_END_FILE ≠ 0 then
    [n.1.chunk, DEC_ENC_INDEX n.2.enc_num_chunks n.1.chunk] else []) ++
  (if e.2.1 &&& CHUNKF_START_FILE ≠ 0 then
    if e.2.1 &&& CHUNKF_PRERECORD = 0 then
      new_stream_stats_slots fuel n.1.chunk n.2 ++
      (match new_stream_stats fuel n.1.chunk
          { n.2 with num_rec_bytes := 0, num_rec_samples := 0 } with
       | none => []
       | some t => st.2.1 :: new_stream_queue_slots enc st.2.2.2
          (set_flags t st.2.1 ((GET_ENC_CHUNK t st.2.1).flags &&& unot CHUNKF_START_FILE),
           n.1.chunk))
    else new_stream_queue_slots enc st.2.2.2 (n.2, st.2.1)
  else [])

/-- The slots `pcmrec_stop` addresses: those of the first flush, of the stream
transition that ends the stream and of the last flush, and the chunk at the
write index, which gets the abort mark. -/
def pcmrec_stop_slots (enc : Encoder) (fuel : Nat) (s : PcmRec) : List Int :=
  if ¬ s.is_recording then []
  else
    pcmrec_flush_slots enc 0xFFFFFFFF { s with dma_lock := true } ++
    (match wait_for_encoder enc fuel (pcmrec_flush enc 0xFFFFFFFF { s with dma_lock := true }) with
     | none => []
     | some a =>
       pcmrec_new_stream_slots enc fuel CHUNKF_END_FILE 0 a ++
       (match pcmrec_new_stream enc fuel none CHUNKF_END_FILE 0 a with
        | none => []
        | some b =>
          pcmrec_flush_slots enc 0xFFFFFFFF b ++
          [(pcmrec_fnq_get_filename false (pcmrec_flush enc 0xFFFFFFFF b)).2.2.enc_wr_index]))

/-- Frame condition on the encoder for index safety: whatever its callbacks
and its thread do, they leave the ring with valid indices and of the same
size. The indices and the size are statics of `pcm_record.c`; the encoder
moves the write index through `enc_get_chunk` and `enc_finish_chunk` only,
which keep the indices valid, so an encoder that adds chunks during the
callbacks or while Stop waits for it meets the condition
(`cooperative_keeps_ring`). -/
def encoder_keeps_ring (enc : Encoder) : Prop :=
  (∀ ev s, ring_valid s → ring_valid (enc.file_event ev s) ∧
    (enc.file_event ev s).enc_num_chunks = s.enc_num_chunks) ∧
  (∀ d s, ring_valid s → ring_valid (enc.new_stream d s).2 ∧
    (enc.new_stream d s).2.enc_num_chunks = s.enc_num_chunks) ∧
  (∀ s, ring_valid s → ring_valid (enc.on_yield s) ∧
    (enc.on_yield s).enc_num_chunks = s.enc_num_chunks)

/-- The state `t` has valid ring indices on a ring of the size of that of `s`. -/
def ring_kept (s t : PcmRec) : Prop :=
  ring_valid t ∧ t.enc_num_chunks = s.enc_num_chunks

/-- An encoder that breaks the interface at a stream transition: its file
events are those of `file_encoder`, and its new-stream callback hands back a
chunk pointer 1000 slots into a buffer it does not own. -/
def stray_encoder : Encoder :=
  { file_encoder with new_stream := fun data s => ({ data with chunk := 1000 }, s) }

end PcmRecord

/-! # Theorems -/

namespace PcmRecord

/-! ## Ring index arithmetic -/

theorem INC_ENC_INDEX_eq_emod (n i : Int) (h0 : 0 ≤ i) (hn : i < n) :
    INC_ENC_INDEX n i = (i + 1) % n := by
  unfold INC_ENC_INDEX
  by_cases h : i + 1 < n
  · rw [Int.emod_eq_of_lt (by omega) h, if_neg (by omega)]
  · have : i + 1 = n := by omega
    rw [this, Int.emod_self, if_pos (le_refl n)]

theorem INC_ENC_INDEX_range (n i : Int) (hn : 1 ≤ n) (h0 : 0 ≤ i) :
    0 ≤ INC_ENC_INDEX n i ∧ INC_ENC_INDEX n i < n := by
  unfold INC_ENC_INDEX
  split <;> omega

theorem DEC_INC_ENC_INDEX (n i : Int) (h0 : 0 ≤ i) (hn : i < n) :
    DEC_ENC_INDEX n (INC_ENC_INDEX n i) = i := by
  unfold INC_ENC_INDEX DEC_ENC_INDEX
  split <;> split <;> omega

theorem lor_land_self (w m : Nat) : (w ||| m) &&& m = m := by
  apply Nat.eq_of_testBit_eq
  intro i
  rw [Nat.testBit_and, Nat.testBit_or]
  cases w.testBit i <;> cases m.testBit i <;> rfl

/-- C1: with `n ≥ 2` chunks, both indices inside the ring, an active recording
and the write index directly behind the read index, `enc_finish_chunk` raises
the encoder-buffer overflow warning and leaves both indices and both counters
as they were; the error word changes only through the encoder-error check of
the chunk's own flags, never through the overflow. (The read index is inside
the ring by the last hypothesis, and the ring size is at least 1 by the
first; no more is needed.) -/
theorem C1_finish_chunk_full_recording (s : PcmRec)
    (hw : 0 ≤ s.enc_wr_index ∧ s.enc_wr_index < s.enc_num_chunks)
    (hrec : s.is_recording = true)
    (hfull : (s.enc_wr_index + 1) % s.enc_num_chunks = s.enc_rd_index) :
    (enc_finish_chunk s).warnings = s.warnings ||| PCMREC_W_ENC_BUFFER_OVF ∧
    (enc_finish_chunk s).warnings &&& PCMREC_W_ENC_BUFFER_OVF = PCMREC_W_ENC_BUFFER_OVF ∧
    (enc_finish_chunk s).enc_wr_index = s.enc_wr_index ∧
    (enc_finish_chunk s).enc_rd_index = s.enc_rd_index ∧
    (enc_finish_chunk s).num_rec_bytes = s.num_rec_bytes ∧
    (enc_finish_chunk s).num_rec_samples = s.num_rec_samples ∧
    (enc_finish_chunk s).errors =
      (if long_negative (GET_ENC_CHUNK s s.enc_wr_index).flags
       then s.errors ||| PCMREC_E_ENCODER else s.errors) ∧
    (¬ long_negative (GET_ENC_CHUNK s s.enc_wr_index).flags →
      (enc_finish_chunk s).errors = s.errors) := by
  have hinc := INC_ENC_INDEX_eq_emod _ _ hw.1 hw.2
  have hdec := DEC_INC_ENC_INDEX _ _ hw.1 hw.2
  rw [hfull] at hinc
  rw [hinc] at hdec
  have hw2 : (s.warnings ||| PCMREC_W_ENC_BUFFER_OVF) &&& PCMREC_W_ENC_BUFFER_OVF
      = PCMREC_W_ENC_BUFFER_OVF := lor_land_self _ _
  by_cases he : long_negative (GET_ENC_CHUNK s s.enc_wr_index).flags <;>
    simp [enc_finish_chunk, he, hinc, hrec, hdec, hw2]

/-- Witness of C1 on a full ring of 4 chunks. -/
theorem C1_finish_chunk_full_recording_witness :
    (enc_finish_chunk full_ring_recording).warnings &&& PCMREC_W_ENC_BUFFER_OVF
      = PCMREC_W_ENC_BUFFER_OVF ∧
    (enc_finish_chunk full_ring_recording).enc_wr_index = 2 ∧
    (enc_finish_chunk full_ring_recording).errors = 0 :=
  have h := C1_finish_chunk_full_recording full_ring_recording
    (by decide) (by decide) (by decide)
  ⟨h.2.1, h.2.2.1, h.2.2.2.2.2.2.2 (by decide)⟩

theorem sub_emod_range (n a b : Int) (ha : 0 ≤ a ∧ a < n) (hb : 0 ≤ b ∧ b < n) :
    (a - b) % n = if a - b < 0 then a - b + n else a - b := by
  split
  · have h : (a - b) % n = (a - b + n) % n := by
      rw [Int.add_emod_self]
    rw [h, Int.emod_eq_of_lt (by omega) (by omega)]
  · rw [Int.emod_eq_of_lt (by omega) (by omega)]

/-- C2: with the write index inside a ring of `n` chunks and directly behind
the read index while not recording (pre-recording), `enc_finish_chunk` moves
both indices one slot forward (mod `n`); the ready count is `n - 1` before and
after, so the oldest chunk is dropped, and the warnings are untouched. -/
theorem C2_finish_chunk_full_prerecording (s : PcmRec)
    (hn : 2 ≤ s.enc_num_chunks)
    (hw : 0 ≤ s.enc_wr_index ∧ s.enc_wr_index < s.enc_num_chunks)
    (hrec : s.is_recording = false)
    (hfull : (s.enc_wr_index + 1) % s.enc_num_chunks = s.enc_rd_index) :
    (enc_finish_chunk s).enc_wr_index = (s.enc_wr_index + 1) % s.enc_num_chunks ∧
    (enc_finish_chunk s).enc_rd_index = (s.enc_rd_index + 1) % s.enc_num_chunks ∧
    (s.enc_wr_index - s.enc_rd_index) % s.enc_num_chunks = s.enc_num_chunks - 1 ∧
    ((enc_finish_chunk s).enc_wr_index - (enc_finish_chunk s).enc_rd_index)
      % s.enc_num_chunks = s.enc_num_chunks - 1 ∧
    num_ready (enc_finish_chunk s) = s.enc_num_chunks - 1 ∧
    (enc_finish_chunk s).enc_num_chunks = s.enc_num_chunks ∧
    (enc_finish_chunk s).warnings = s.warnings := by
  have hinc := INC_ENC_INDEX_eq_emod _ _ hw.1 hw.2
  have hr := INC_ENC_INDEX_range s.enc_num_chunks s.enc_wr_index (by omega) hw.1
  rw [hfull] at hinc
  rw [hinc] at hr
  have hinc2 := INC_ENC_INDEX_eq_emod _ _ hr.1 hr.2
  have hr2 := INC_ENC_INDEX_range s.enc_num_chunks s.enc_rd_index (by omega) hr.1
  have e1 := sub_emod_range s.enc_num_chunks _ _ hw hr
  have e2 := sub_emod_range s.enc_num_chunks _ _ hr hr2
  have key : (enc_finish_chunk s).enc_wr_index = s.enc_rd_index ∧
      (enc_finish_chunk s).enc_rd_index = INC_ENC_INDEX s.enc_num_chunks s.enc_rd_index ∧
      (enc_finish_chunk s).enc_num_chunks = s.enc_num_chunks ∧
      (enc_finish_chunk s).warnings = s.warnings := by
    by_cases he : long_negative (GET_ENC_CHUNK s s.enc_wr_index).flags <;>
      simp [enc_finish_chunk, he, hinc, hrec]
  obtain ⟨k1, k2, k3, k4⟩ := key
  have hI : INC_ENC_INDEX s.enc_num_chunks s.enc_wr_index = s.enc_rd_index := hinc
  have hI2 := hinc2
  unfold INC_ENC_INDEX at hI hI2 hr2
  refine ⟨by rw [k1, hfull], by rw [k2, hinc2], ?_, ?_, ?_, k3, k4⟩
  · rw [e1]; split at hI <;> split <;> omega
  · rw [k1, k2, e2]; split at hI <;> split at hr2 <;> split <;> omega
  · unfold num_ready
    rw [k1, k2, k3]
    simp only []
    split at hI <;> split at hr2 <;> split <;> omega

/-- Witness of C2 on a full ring of 4 chunks in pre-record mode. -/
theorem C2_finish_chunk_full_prerecording_witness :
    (enc_finish_chunk full_ring_prerecording).enc_wr_index = 3 ∧
    (enc_finish_chunk full_ring_prerecording).enc_rd_index = 0 ∧
    (enc_finish_chunk full_ring_prerecording).warnings = 0 :=
  have h := C2_finish_chunk_full_prerecording full_ring_prerecording
    (by decide) (by decide) (by decide) (by decide)
  ⟨h.1, h.2.1, h.2.2.2.2.2.2⟩

/-- The ring indices after `enc_finish_chunk`, case by case. -/
theorem enc_finish_chunk_indices (s : PcmRec) :
    (enc_finish_chunk s).enc_num_chunks = s.enc_num_chunks ∧
    (enc_finish_chunk s).enc_wr_index =
      (if s.enc_rd_index ≠ INC_ENC_INDEX s.enc_num_chunks s.enc_wr_index then
         INC_ENC_INDEX s.enc_num_chunks s.enc_wr_index
       else if s.is_recording = true then
         DEC_ENC_INDEX s.enc_num_chunks (INC_ENC_INDEX s.enc_num_chunks s.enc_wr_index)
       else INC_ENC_INDEX s.enc_num_chunks s.enc_wr_index) ∧
    (enc_finish_chunk s).enc_rd_index =
      (if s.enc_rd_index ≠ INC_ENC_INDEX s.enc_num_chunks s.enc_wr_index then s.enc_rd_index
       else if s.is_recording = true then s.enc_rd_index
       else INC_ENC_INDEX s.enc_num_chunks s.enc_rd_index) := by
  by_cases he : long_negative (GET_ENC_CHUNK s s.enc_wr_index).flags <;>
    by_cases hc : s.enc_rd_index = INC_ENC_INDEX s.enc_num_chunks s.enc_wr_index <;>
    by_cases hrec : s.is_recording = true <;>
    simp [enc_finish_chunk, he, hc, hrec]

/-- C3: for a ring of `n ≥ 2` chunks with both indices inside it, in recording
and in pre-recording mode alike, right after `enc_finish_chunk` the read index
differs from the write index and the ready count `(wr - rd) mod n` lies in
`[1, n - 1]`; the ring size is unchanged and both indices are still inside. -/
theorem C3_finish_chunk_never_empty (s : PcmRec)
    (hn : 2 ≤ s.enc_num_chunks)
    (hw : 0 ≤ s.enc_wr_index ∧ s.enc_wr_index < s.enc_num_chunks)
    (hr : 0 ≤ s.enc_rd_index ∧ s.enc_rd_index < s.enc_num_chunks) :
    (enc_finish_chunk s).enc_rd_index ≠ (enc_finish_chunk s).enc_wr_index ∧
    1 ≤ ((enc_finish_chunk s).enc_wr_index - (enc_finish_chunk s).enc_rd_index)
          % (enc_finish_chunk s).enc_num_chunks ∧
    ((enc_finish_chunk s).enc_wr_index - (enc_finish_chunk s).enc_rd_index)
          % (enc_finish_chunk s).enc_num_chunks ≤ s.enc_num_chunks - 1 ∧
    (enc_finish_chunk s).enc_num_chunks = s.enc_num_chunks ∧
    (0 ≤ (enc_finish_chunk s).enc_wr_index ∧
      (enc_finish_chunk s).enc_wr_index < s.enc_num_chunks) ∧
    (0 ≤ (enc_finish_chunk s).enc_rd_index ∧
      (enc_finish_chunk s).enc_rd_index < s.enc_num_chunks) := by
  obtain ⟨k1, kw, kr⟩ := enc_finish_chunk_indices s
  have key : (0 ≤ (enc_finish_chunk s).enc_wr_index ∧
        (enc_finish_chunk s).enc_wr_index < s.enc_num_chunks) ∧
      (0 ≤ (enc_finish_chunk s).enc_rd_index ∧
        (enc_finish_chunk s).enc_rd_index < s.enc_num_chunks) ∧
      (enc_finish_chunk s).enc_rd_index ≠ (enc_finish_chunk s).enc_wr_index := by
    rw [kw, kr]
    unfold INC_ENC_INDEX DEC_ENC_INDEX
    split_ifs <;> omega
  obtain ⟨k2, k3, k4⟩ := key
  have e := sub_emod_range s.enc_num_chunks _ _ k2 k3
  rw [k1, e]
  refine ⟨k4, ?_, ?_, rfl, k2, k3⟩
  · split <;> omega
  · split <;> omega

/-- Witness of C3 on a full ring of 4 chunks. -/
theorem C3_finish_chunk_never_empty_witness :
    (enc_finish_chunk full_ring_recording).enc_rd_index
      ≠ (enc_finish_chunk full_ring_recording).enc_wr_index :=
  (C3_finish_chunk_never_empty full_ring_recording (by decide) (by decide) (by decide)).1

/-- The warnings and the mode after `enc_finish_chunk`, case by case. -/
theorem enc_finish_chunk_warnings (s : PcmRec) :
    (enc_finish_chunk s).is_recording = s.is_recording ∧
    (enc_finish_chunk s).warnings =
      (if s.enc_rd_index ≠ INC_ENC_INDEX s.enc_num_chunks s.enc_wr_index then s.warnings
       else if s.is_recording = true then s.warnings ||| PCMREC_W_ENC_BUFFER_OVF
       else s.warnings) := by
  by_cases he : long_negative (GET_ENC_CHUNK s s.enc_wr_index).flags <;>
    by_cases hc : s.enc_rd_index = INC_ENC_INDEX s.enc_num_chunks s.enc_wr_index <;>
    by_cases hrec : s.is_recording = true <;>
    simp [enc_finish_chunk, he, hc, hrec]

/-- A push only hands `enc_finish_chunk` a state whose chunk memory differs. -/
theorem encode_chunk_eq (fill : enc_chunk_hdr → enc_chunk_hdr) (s : PcmRec) :
    ∃ g, encode_chunk fill s = enc_finish_chunk { s with chunks := g } := by
  unfold encode_chunk enc_get_chunk
  by_cases hrec : s.is_recording = true
  · exact ⟨_, by simp [hrec, set_flags, set_chunk]; rfl⟩
  · exact ⟨_, by simp [hrec, set_flags, set_chunk]; rfl⟩

/-- One push during a recording: the ready count grows by one without a
warning while the ring has room, and stays with the overflow warning raised
when the ring is full. -/
theorem encode_chunk_recording_step (fill : enc_chunk_hdr → enc_chunk_hdr) (s : PcmRec)
    (hrec : s.is_recording = true)
    (hn : 2 ≤ s.enc_num_chunks)
    (hw : 0 ≤ s.enc_wr_index ∧ s.enc_wr_index < s.enc_num_chunks)
    (hr : 0 ≤ s.enc_rd_index ∧ s.enc_rd_index < s.enc_num_chunks) :
    (encode_chunk fill s).is_recording = true ∧
    (encode_chunk fill s).enc_num_chunks = s.enc_num_chunks ∧
    (0 ≤ (encode_chunk fill s).enc_wr_index ∧
      (encode_chunk fill s).enc_wr_index < s.enc_num_chunks) ∧
    (0 ≤ (encode_chunk fill s).enc_rd_index ∧
      (encode_chunk fill s).enc_rd_index < s.enc_num_chunks) ∧
    (0 ≤ num_ready s ∧ num_ready s ≤ s.enc_num_chunks - 1) ∧
    ((num_ready s + 1 < s.enc_num_chunks ∧
        num_ready (encode_chunk fill s) = num_ready s + 1 ∧
        (encode_chunk fill s).warnings = s.warnings) ∨
     (num_ready s + 1 = s.enc_num_chunks ∧
        num_ready (encode_chunk fill s) = num_ready s ∧
        (encode_chunk fill s).warnings = s.warnings ||| PCMREC_W_ENC_BUFFER_OVF)) := by
  obtain ⟨g, hg⟩ := encode_chunk_eq fill s
  obtain ⟨k1, kw, kr⟩ := enc_finish_chunk_indices { s with chunks := g }
  obtain ⟨kq, kv⟩ := enc_finish_chunk_warnings { s with chunks := g }
  rw [← hg] at k1 kw kr kq kv
  simp only [] at k1 kw kr kq kv
  rw [hrec] at kq
  simp only [hrec, if_true] at kw kr kv
  unfold num_ready
  rw [k1, kw, kr, kv, kq]
  simp only []
  unfold INC_ENC_INDEX DEC_ENC_INDEX
  refine ⟨trivial, trivial, ?_, ?_, ?_, ?_⟩
  · split_ifs <;> omega
  · split_ifs <;> omega
  · split_ifs <;> omega
  · by_cases hc : s.enc_rd_index = INC_ENC_INDEX s.enc_num_chunks s.enc_wr_index
    · right
      unfold INC_ENC_INDEX at hc
      split_ifs at hc ⊢ <;> simp_all <;> omega
    · left
      unfold INC_ENC_INDEX at hc
      split_ifs at hc ⊢ <;> simp_all <;> omega

theorem ovf_bit_after_lor (w : Nat) :
    (w ||| PCMREC_W_ENC_BUFFER_OVF) &&& PCMREC_W_ENC_BUFFER_OVF ≠ 0 := by
  rw [lor_land_self]; decide

/-- Pushes during a recording, stated on the ready count `num_ready`. -/
theorem encode_chunks_overflow_iff (fills : List (enc_chunk_hdr → enc_chunk_hdr)) :
    ∀ s : PcmRec, s.is_recording = true → 2 ≤ s.enc_num_chunks →
      (0 ≤ s.enc_wr_index ∧ s.enc_wr_index < s.enc_num_chunks) →
      (0 ≤ s.enc_rd_index ∧ s.enc_rd_index < s.enc_num_chunks) →
      ((encode_chunks fills s).warnings &&& PCMREC_W_ENC_BUFFER_OVF ≠ 0 ↔
        (s.warnings &&& PCMREC_W_ENC_BUFFER_OVF ≠ 0 ∨
          s.enc_num_chunks ≤ num_ready s + (fills.length : Int))) := by
  induction fills with
  | nil =>
    intro s hrec hn hw hr
    have hb : num_ready s ≤ s.enc_num_chunks - 1 := by
      unfold num_ready; simp only []; split_ifs <;> omega
    simp only [encode_chunks, List.length_nil, Nat.cast_zero, add_zero]
    constructor
    · intro h; exact Or.inl h
    · rintro (h | h)
      · exact h
      · omega
  | cons fill fills ih =>
    intro s hrec hn hw hr
    obtain ⟨q1, q2, q3, q4, q5, q6⟩ := encode_chunk_recording_step fill s hrec hn hw hr
    have ih2 := ih (encode_chunk fill s) q1 (by rw [q2]; exact hn)
      (by rw [q2]; exact q3) (by rw [q2]; exact q4)
    simp only [encode_chunks, List.length_cons, Nat.cast_add, Nat.cast_one]
    rw [ih2, q2]
    rcases q6 with ⟨a, b, c⟩ | ⟨a, b, c⟩
    · rw [b, c]
      constructor
      · rintro (h | h)
        · exact Or.inl h
        · right; omega
      · rintro (h | h)
        · exact Or.inl h
        · right; omega
    · rw [b, c]
      constructor
      · intro _; right; omega
      · intro _; left; exact ovf_bit_after_lor _

/-- C4: during a recording, on a ring of `n ≥ 2` chunks holding
`m = (wr - rd) mod n` ready chunks with the overflow warning clear, after `k`
consecutive pushes (`enc_get_chunk`, the encoder's fill, `enc_finish_chunk`)
with nothing drained in between, the encoder-buffer overflow warning is set if
and only if `m + k ≥ n`. -/
theorem C4_overflow_iff_wrapped (s : PcmRec) (fills : List (enc_chunk_hdr → enc_chunk_hdr))
    (hrec : s.is_recording = true)
    (hn : 2 ≤ s.enc_num_chunks)
    (hw : 0 ≤ s.enc_wr_index ∧ s.enc_wr_index < s.enc_num_chunks)
    (hr : 0 ≤ s.enc_rd_index ∧ s.enc_rd_index < s.enc_num_chunks)
    (hclear : s.warnings &&& PCMREC_W_ENC_BUFFER_OVF = 0) :
    ((encode_chunks fills s).warnings &&& PCMREC_W_ENC_BUFFER_OVF ≠ 0) ↔
      s.enc_num_chunks ≤
        (s.enc_wr_index - s.enc_rd_index) % s.enc_num_chunks + (fills.length : Int) := by
  rw [encode_chunks_overflow_iff fills s hrec hn hw hr, sub_emod_range _ _ _ hw hr]
  have e : num_ready s = if s.enc_wr_index - s.enc_rd_index < 0
      then s.enc_wr_index - s.enc_rd_index + s.enc_num_chunks
      else s.enc_wr_index - s.enc_rd_index := rfl
  rw [e]
  constructor
  · rintro (h | h)
    · exact absurd hclear h
    · exact h
  · intro h; exact Or.inr h

/-- Witness of C4: one ready chunk in a ring of 4, three more pushes wrap. -/
theorem C4_overflow_iff_wrapped_witness :
    (encode_chunks [id, id, id] roomy_ring_recording).warnings
      &&& PCMREC_W_ENC_BUFFER_OVF ≠ 0 :=
  (C4_overflow_iff_wrapped roomy_ring_recording [id, id, id]
    (by decide) (by decide) (by decide) (by decide) (by decide)).2 (by decide)

/-- Normal form of `enc_finish_chunk`: the six fields it may touch. -/
theorem enc_finish_chunk_eq (s : PcmRec) :
    enc_finish_chunk s =
      { s with
        errors := if long_negative (s.chunks s.enc_wr_index).flags
                  then s.errors ||| PCMREC_E_ENCODER else s.errors,
        warnings :=
          if s.enc_rd_index = INC_ENC_INDEX s.enc_num_chunks s.enc_wr_index
              ∧ s.is_recording = true
          then s.warnings ||| PCMREC_W_ENC_BUFFER_OVF else s.warnings,
        num_rec_bytes :=
          if s.enc_rd_index = INC_ENC_INDEX s.enc_num_chunks s.enc_wr_index
          then s.num_rec_bytes
          else uadd s.num_rec_bytes (s.chunks s.enc_wr_index).enc_size,
        num_rec_samples :=
          if s.enc_rd_index = INC_ENC_INDEX s.enc_num_chunks s.enc_wr_index
          then s.num_rec_samples
          else uadd s.num_rec_samples (s.chunks s.enc_wr_index).num_pcm,
        enc_wr_index :=
          if s.enc_rd_index = INC_ENC_INDEX s.enc_num_chunks s.enc_wr_index
              ∧ s.is_recording = true
          then DEC_ENC_INDEX s.enc_num_chunks (INC_ENC_INDEX s.enc_num_chunks s.enc_wr_index)
          else INC_ENC_INDEX s.enc_num_chunks s.enc_wr_index,
        enc_rd_index :=
          if s.enc_rd_index = INC_ENC_INDEX s.enc_num_chunks s.enc_wr_index
              ∧ s.is_recording = false
          then INC_ENC_INDEX s.enc_num_chunks s.enc_rd_index else s.enc_rd_index } := by
  by_cases he : long_negative (s.chunks s.enc_wr_index).flags <;>
    by_cases hc : s.enc_rd_index = INC_ENC_INDEX s.enc_num_chunks s.enc_wr_index <;>
    by_cases hrec : s.is_recording = true <;>
    simp [enc_finish_chunk, GET_ENC_CHUNK, he, hc, hrec]

/-- The header `enc_get_chunk` hands out for a slot holding `c`. -/
theorem enc_get_chunk_eq (s : PcmRec) :
    enc_get_chunk s =
      { s with chunks := fun j =>
          if j = s.enc_wr_index then
            { s.chunks s.enc_wr_index with
              flags := if s.is_recording = true
                       then (s.chunks s.enc_wr_index).flags &&& CHUNKF_START_FILE
                       else (s.chunks s.enc_wr_index).flags &&& CHUNKF_START_FILE
                              ||| CHUNKF_PRERECORD }
          else s.chunks j } := by
  by_cases hrec : s.is_recording = true
  · simp [enc_get_chunk, set_flags, set_chunk, GET_ENC_CHUNK, hrec]
  · simp [enc_get_chunk, set_flags, set_chunk, GET_ENC_CHUNK, hrec]
    funext j
    by_cases hj : j = s.enc_wr_index <;> simp [hj]

/-- C6 (as stated) fails: on a full ring in pre-record mode `enc_finish_chunk`
leaves the write index advanced by one slot, yet the counters do not grow by
the finished chunk's size and sample count. -/
theorem C6_counterexample :
    ¬ (∀ s : PcmRec,
        (enc_finish_chunk s).enc_wr_index = (s.enc_wr_index + 1) % s.enc_num_chunks →
        (enc_finish_chunk s).num_rec_bytes
            = s.num_rec_bytes + (GET_ENC_CHUNK s s.enc_wr_index).enc_size ∧
        (enc_finish_chunk s).num_rec_samples
            = s.num_rec_samples + (GET_ENC_CHUNK s s.enc_wr_index).num_pcm) := by
  intro h
  have h2 := h full_ring_prerecording (by decide)
  revert h2
  decide

/-- C6 (amended): whenever the advanced write index does not collide with the
read index, `enc_finish_chunk` keeps the advance and the counters grow by the
finished chunk's `enc_size` and `num_pcm` in 32-bit arithmetic (exactly so when
the sums fit the word); when it collides while pre-recording the write index
is advanced as well, but the counters are left as they were. -/
theorem C6_finish_chunk_accumulates (s : PcmRec) :
    (s.enc_rd_index ≠ INC_ENC_INDEX s.enc_num_chunks s.enc_wr_index →
      (enc_finish_chunk s).enc_wr_index = INC_ENC_INDEX s.enc_num_chunks s.enc_wr_index ∧
      (enc_finish_chunk s).enc_rd_index = s.enc_rd_index ∧
      (enc_finish_chunk s).num_rec_bytes
        = (s.num_rec_bytes + (GET_ENC_CHUNK s s.enc_wr_index).enc_size) % 2 ^ 32 ∧
      (enc_finish_chunk s).num_rec_samples
        = (s.num_rec_samples + (GET_ENC_CHUNK s s.enc_wr_index).num_pcm) % 2 ^ 32 ∧
      (s.num_rec_bytes + (GET_ENC_CHUNK s s.enc_wr_index).enc_size < 2 ^ 32 →
        (enc_finish_chunk s).num_rec_bytes
          = s.num_rec_bytes + (GET_ENC_CHUNK s s.enc_wr_index).enc_size) ∧
      (s.num_rec_samples + (GET_ENC_CHUNK s s.enc_wr_index).num_pcm < 2 ^ 32 →
        (enc_finish_chunk s).num_rec_samples
          = s.num_rec_samples + (GET_ENC_CHUNK s s.enc_wr_index).num_pcm)) ∧
    (s.enc_rd_index = INC_ENC_INDEX s.enc_num_chunks s.enc_wr_index →
      s.is_recording = false →
      (enc_finish_chunk s).enc_wr_index = INC_ENC_INDEX s.enc_num_chunks s.enc_wr_index ∧
      (enc_finish_chunk s).num_rec_bytes = s.num_rec_bytes ∧
      (enc_finish_chunk s).num_rec_samples = s.num_rec_samples) := by
  rw [enc_finish_chunk_eq]
  constructor
  · intro hc
    simp only [hc, false_and, if_false, GET_ENC_CHUNK, uadd, ULONG_RANGE, true_and]
    exact ⟨fun h => Nat.mod_eq_of_lt h, fun h => Nat.mod_eq_of_lt h⟩
  · intro hc hrec
    simp [hc, hrec]

/-- Witness of C6 (amended): a push with room in the ring, and a push onto a
full ring while pre-recording. -/
theorem C6_finish_chunk_accumulates_witness :
    (enc_finish_chunk roomy_ring_recording).num_rec_bytes = 5 ∧
    (enc_finish_chunk roomy_ring_recording).num_rec_samples = 7 ∧
    (enc_finish_chunk full_ring_prerecording).enc_wr_index = 3 ∧
    (enc_finish_chunk full_ring_prerecording).num_rec_bytes = 0 :=
  have h := C6_finish_chunk_accumulates roomy_ring_recording
  have g := C6_finish_chunk_accumulates full_ring_prerecording
  ⟨(h.1 (by decide)).2.2.2.2.1 (by decide), (h.1 (by decide)).2.2.2.2.2 (by decide),
   (g.2 (by decide) (by decide)).1, (g.2 (by decide) (by decide)).2.1⟩

/-- Normal form of one push. -/
theorem encode_chunk_norm (fill : enc_chunk_hdr → enc_chunk_hdr) (s : PcmRec) :
    encode_chunk fill s =
      { s with
        chunks := fun j => if j = s.enc_wr_index then fill (chunk_handed_out s)
                           else s.chunks j,
        errors := if long_negative (fill (chunk_handed_out s)).flags
                  then s.errors ||| PCMREC_E_ENCODER else s.errors,
        warnings :=
          if s.enc_rd_index = INC_ENC_INDEX s.enc_num_chunks s.enc_wr_index
              ∧ s.is_recording = true
          then s.warnings ||| PCMREC_W_ENC_BUFFER_OVF else s.warnings,
        num_rec_bytes :=
          if s.enc_rd_index = INC_ENC_INDEX s.enc_num_chunks s.enc_wr_index
          then s.num_rec_bytes
          else uadd s.num_rec_bytes (fill (chunk_handed_out s)).enc_size,
        num_rec_samples :=
          if s.enc_rd_index = INC_ENC_INDEX s.enc_num_chunks s.enc_wr_index
          then s.num_rec_samples
          else uadd s.num_rec_samples (fill (chunk_handed_out s)).num_pcm,
        enc_wr_index :=
          if s.enc_rd_index = INC_ENC_INDEX s.enc_num_chunks s.enc_wr_index
              ∧ s.is_recording = true
          then DEC_ENC_INDEX s.enc_num_chunks (INC_ENC_INDEX s.enc_num_chunks s.enc_wr_index)
          else INC_ENC_INDEX s.enc_num_chunks s.enc_wr_index,
        enc_rd_index :=
          if s.enc_rd_index = INC_ENC_INDEX s.enc_num_chunks s.enc_wr_index
              ∧ s.is_recording = false
          then INC_ENC_INDEX s.enc_num_chunks s.enc_rd_index else s.enc_rd_index } := by
  unfold encode_chunk chunk_handed_out
  rw [enc_finish_chunk_eq, enc_get_chunk_eq]
  simp [set_chunk, GET_ENC_CHUNK]
  funext j
  by_cases hj : j = s.enc_wr_index <;> simp [hj]

/-- The header handed out during a recording keeps only the start flag. -/
theorem chunk_handed_out_recording (s : PcmRec) (hrec : s.is_recording = true) :
    chunk_handed_out s =
      { s.chunks s.enc_wr_index with
        flags := (s.chunks s.enc_wr_index).flags &&& CHUNKF_START_FILE } := by
  unfold chunk_handed_out
  rw [enc_get_chunk_eq]
  simp [GET_ENC_CHUNK, hrec]

theorem pcm_rec_status_warning (s : PcmRec) (h : s.warnings ≠ 0) :
    pcm_rec_status s &&& AUDIO_STATUS_WARNING = AUDIO_STATUS_WARNING := by
  unfold pcm_rec_status
  simp only [h, ne_eq, not_false_eq_true, if_true]
  exact lor_land_self _ _

/-- C5 (as stated) fails: after 6 pushes into an empty ring of 4 chunks during
a recording the warning is up, but the ring does not retain 4 chunks and the
retained ones are not the 4 most recent pushes (3, 4, 5, 6): it holds 3 ready
chunks, the 3 oldest pushes. -/
theorem C5_counterexample :
    ¬ (pcm_rec_status (encode_chunks six_pushes empty_ring4_recording)
          &&& AUDIO_STATUS_WARNING ≠ 0 ∧
       (ready_chunks (encode_chunks six_pushes empty_ring4_recording)).length = 4 ∧
       (ready_chunks (encode_chunks six_pushes empty_ring4_recording)).map
          (fun c => c.num_pcm) = [3, 4, 5, 6]) ∧
    (ready_chunks (encode_chunks six_pushes empty_ring4_recording)).map
        (fun c => c.num_pcm) = [1, 2, 3] := by
  decide

/-- C5 (amended): in a ring of 4 chunks that starts empty, during a recording
and without a flush, after 6 pushes (any encoder fills `f1 … f6`) the status
shows the warning bit and the overflow warning is set; exactly 3 chunks are
ready, the 3 oldest pushes in order; the slot at the write index holds the
newest push, written over pushes 4 and 5; and both ring indices are inside
`[0, 4)` after every push. -/
theorem C5_overflow_keeps_oldest (s : PcmRec)
    (f1 f2 f3 f4 f5 f6 : enc_chunk_hdr → enc_chunk_hdr)
    (hn : s.enc_num_chunks = 4) (hrec : s.is_recording = true)
    (hempty : s.enc_rd_index = s.enc_wr_index)
    (hw : 0 ≤ s.enc_wr_index ∧ s.enc_wr_index < 4) :
    pcm_rec_status (encode_chunks [f1, f2, f3, f4, f5, f6] s) &&& AUDIO_STATUS_WARNING
      = AUDIO_STATUS_WARNING ∧
    (encode_chunks [f1, f2, f3, f4, f5, f6] s).warnings &&& PCMREC_W_ENC_BUFFER_OVF
      = PCMREC_W_ENC_BUFFER_OVF ∧
    num_ready (encode_chunks [f1, f2, f3, f4, f5, f6] s) = 3 ∧
    (encode_chunks [f1, f2, f3, f4, f5, f6] s).enc_rd_index = s.enc_rd_index ∧
    (encode_chunks [f1, f2, f3, f4, f5, f6] s).enc_wr_index = (s.enc_wr_index + 3) % 4 ∧
    ready_chunks (encode_chunks [f1, f2, f3, f4, f5, f6] s) =
      [f1 (kept_start (s.chunks s.enc_wr_index)),
       f2 (kept_start (s.chunks ((s.enc_wr_index + 1) % 4))),
       f3 (kept_start (s.chunks ((s.enc_wr_index + 2) % 4)))] ∧
    GET_ENC_CHUNK (encode_chunks [f1, f2, f3, f4, f5, f6] s)
        (encode_chunks [f1, f2, f3, f4, f5, f6] s).enc_wr_index =
      f6 (kept_start (f5 (kept_start (f4 (kept_start
        (s.chunks ((s.enc_wr_index + 3) % 4))))))) ∧
    (∀ k : Nat,
      (0 ≤ (encode_chunks ([f1, f2, f3, f4, f5, f6].take k) s).enc_wr_index ∧
        (encode_chunks ([f1, f2, f3, f4, f5, f6].take k) s).enc_wr_index < 4) ∧
      (0 ≤ (encode_chunks ([f1, f2, f3, f4, f5, f6].take k) s).enc_rd_index ∧
        (encode_chunks ([f1, f2, f3, f4, f5, f6].take k) s).enc_rd_index < 4)) := by
  have hcases : s.enc_wr_index = 0 ∨ s.enc_wr_index = 1 ∨ s.enc_wr_index = 2
      ∨ s.enc_wr_index = 3 := by omega
  have hw2 : ∀ w : Nat, (w ||| PCMREC_W_ENC_BUFFER_OVF) ≠ 0 := by
    intro w h
    have := lor_land_self w PCMREC_W_ENC_BUFFER_OVF
    rw [h] at this
    revert this; decide
  refine ⟨?_, ?_, ?_, ?_, ?_, ?_, ?_, ?_⟩
  · apply pcm_rec_status_warning
    rcases hcases with h | h | h | h <;>
      simp [encode_chunks, encode_chunk_norm, hn, hrec, hempty, h, INC_ENC_INDEX,
        DEC_ENC_INDEX, hw2]
  · rcases hcases with h | h | h | h <;>
      simp [encode_chunks, encode_chunk_norm, hn, hrec, hempty, h, INC_ENC_INDEX,
        DEC_ENC_INDEX, lor_land_self]
  · rcases hcases with h | h | h | h <;>
      simp [encode_chunks, encode_chunk_norm, hn, hrec, hempty, h, INC_ENC_INDEX,
        DEC_ENC_INDEX, num_ready]
  · rcases hcases with h | h | h | h <;>
      simp [encode_chunks, encode_chunk_norm, hn, hrec, hempty, h, INC_ENC_INDEX,
        DEC_ENC_INDEX]
  · rcases hcases with h | h | h | h <;>
      simp [encode_chunks, encode_chunk_norm, hn, hrec, hempty, h, INC_ENC_INDEX,
        DEC_ENC_INDEX]
  · rcases hcases with h | h | h | h <;>
      simp [encode_chunks, encode_chunk_norm, chunk_handed_out_recording, kept_start,
        hn, hrec, hempty, h, INC_ENC_INDEX, DEC_ENC_INDEX, num_ready, ready_chunks,
        ready_slots, GET_ENC_CHUNK]
  · rcases hcases with h | h | h | h <;>
      simp [encode_chunks, encode_chunk_norm, chunk_handed_out_recording, kept_start,
        hn, hrec, hempty, h, INC_ENC_INDEX, DEC_ENC_INDEX, GET_ENC_CHUNK]
  · intro k
    have hk : k = 0 ∨ k = 1 ∨ k = 2 ∨ k = 3 ∨ k = 4 ∨ k = 5 ∨ 6 ≤ k := by omega
    have h6 : 6 ≤ k → [f1, f2, f3, f4, f5, f6].take k = [f1, f2, f3, f4, f5, f6] :=
      fun h => List.take_of_length_le (by simpa using h)
    rcases hk with hk | hk | hk | hk | hk | hk | hk
    all_goals first
      | rw [h6 hk]
      | rw [hk]
    all_goals
      rcases hcases with h | h | h | h <;>
        simp [encode_chunks, encode_chunk_norm, hn, hrec, hempty, h, INC_ENC_INDEX,
          DEC_ENC_INDEX]

/-- Witness of C5 (amended): the empty ring of 4 chunks, with six pushes of 1
to 6 samples. -/
theorem C5_overflow_keeps_oldest_witness :
    (empty_ring4_recording.enc_num_chunks = 4 ∧
      empty_ring4_recording.is_recording = true ∧
      empty_ring4_recording.enc_rd_index = empty_ring4_recording.enc_wr_index ∧
      (0 ≤ empty_ring4_recording.enc_wr_index ∧ empty_ring4_recording.enc_wr_index < 4)) ∧
    pcm_rec_status (encode_chunks
        [fill_payload 10 1 0, fill_payload 20 2 0, fill_payload 30 3 0,
         fill_payload 40 4 0, fill_payload 50 5 0, fill_payload 60 6 0]
        empty_ring4_recording) &&& AUDIO_STATUS_WARNING = AUDIO_STATUS_WARNING ∧
    num_ready (encode_chunks
        [fill_payload 10 1 0, fill_payload 20 2 0, fill_payload 30 3 0,
         fill_payload 40 4 0, fill_payload 50 5 0, fill_payload 60 6 0]
        empty_ring4_recording) = 3 :=
  ⟨⟨rfl, rfl, rfl, by decide⟩,
   (C5_overflow_keeps_oldest empty_ring4_recording
      (fill_payload 10 1 0) (fill_payload 20 2 0) (fill_payload 30 3 0)
      (fill_payload 40 4 0) (fill_payload 50 5 0) (fill_payload 60 6 0)
      rfl rfl rfl (by decide)).1,
   (C5_overflow_keeps_oldest empty_ring4_recording
      (fill_payload 10 1 0) (fill_payload 20 2 0) (fill_payload 30 3 0)
      (fill_payload 40 4 0) (fill_payload 50 5 0) (fill_payload 60 6 0)
      rfl rfl rfl (by decide)).2.2.1⟩

theorem land_unot_self (x m : Nat) (hm : m < 2 ^ 32) : (x &&& unot m) &&& m = 0 := by
  apply Nat.eq_of_testBit_eq
  intro i
  unfold unot ULONG_RANGE
  rw [Nat.mod_eq_of_lt hm]
  simp only [Nat.testBit_and, Nat.testBit_xor, Nat.zero_testBit]
  cases x.testBit i <;> cases h : m.testBit i <;> simp
  have hi : i < 32 := by
    by_contra hge
    have : m < 2 ^ i := lt_of_lt_of_le hm (Nat.pow_le_pow_right (by decide) (by omega))
    rw [Nat.testBit_lt_two_pow this] at h
    exact Bool.false_ne_true h
  have e : (0xFFFFFFFF : Nat) = 2 ^ 32 - 1 := by decide
  rw [e, Nat.testBit_two_pow_sub_one]
  simpa using hi

theorem pcmrec_update_sizes_frame (a b : Nat) (s : PcmRec) :
    (pcmrec_update_sizes a b s).trace = s.trace ∧
    (pcmrec_update_sizes a b s).chunks = s.chunks ∧
    (pcmrec_update_sizes a b s).rec_fdata = s.rec_fdata ∧
    (pcmrec_update_sizes a b s).errors = s.errors ∧
    (pcmrec_update_sizes a b s).fnq_rd_pos = s.fnq_rd_pos ∧
    (pcmrec_update_sizes a b s).fnq_wr_pos = s.fnq_wr_pos ∧
    (pcmrec_update_sizes a b s).fnq_size = s.fnq_size ∧
    (pcmrec_update_sizes a b s).fn_queue = s.fn_queue := by
  unfold pcmrec_update_sizes
  simp only []
  split_ifs <;> simp

theorem enc_events_callback_trace (enc : Encoder) (ev : enc_events) (s : PcmRec) :
    (enc_events_callback enc ev s).trace = s.trace ++
      [{ event := ev, flags := (s.chunks s.rec_fdata.chunk).flags, chunk := s.rec_fdata.chunk,
         hdr := s.chunks s.rec_fdata.chunk, filename := s.rec_fdata.filename,
         rec_file := s.rec_fdata.rec_file, num_pcm_samples := s.rec_fdata.num_pcm_samples }] :=
  rfl

theorem pcmrec_close_file_frame (fd : Int) (s : PcmRec) :
    (pcmrec_close_file fd s).2.trace = s.trace ∧
    (pcmrec_close_file fd s).2.chunks = s.chunks ∧
    (pcmrec_close_file fd s).2.rec_fdata = s.rec_fdata ∧
    (pcmrec_close_file fd s).2.errors = s.errors ∧
    (pcmrec_close_file fd s).2.fnq_rd_pos = s.fnq_rd_pos ∧
    (pcmrec_close_file fd s).2.fnq_wr_pos = s.fnq_wr_pos ∧
    (pcmrec_close_file fd s).2.fnq_size = s.fnq_size ∧
    (pcmrec_close_file fd s).2.fn_queue = s.fn_queue := by
  unfold pcmrec_close_file
  split_ifs <;> simp

theorem pcmrec_start_file_finish_frame (a b : Nat) (fd : Int) (s : PcmRec) :
    (pcmrec_start_file_finish a b fd s).trace = s.trace ∧
    (pcmrec_start_file_finish a b fd s).rec_fdata = s.rec_fdata ∧
    (pcmrec_start_file_finish a b fd s).fnq_rd_pos = s.fnq_rd_pos ∧
    (pcmrec_start_file_finish a b fd s).fnq_wr_pos = s.fnq_wr_pos ∧
    (pcmrec_start_file_finish a b fd s).fnq_size = s.fnq_size ∧
    (pcmrec_start_file_finish a b fd s).fn_queue = s.fn_queue ∧
    ((pcmrec_start_file_finish a b fd s).errors = s.errors ∨
      (pcmrec_start_file_finish a b fd s).errors = s.errors ||| PCMREC_E_ENCODER) ∧
    ((pcmrec_start_file_finish a b fd s).chunks s.rec_fdata.chunk).flags
      &&& CHUNKF_START_FILE = 0 := by
  have hu := fun s => pcmrec_update_sizes_frame a b s
  have hc := fun s => pcmrec_close_file_frame fd s
  have hf := fun x => land_unot_self x CHUNKF_START_FILE (by decide)
  unfold pcmrec_start_file_finish
  simp only []
  split_ifs <;>
    simp [set_flags, set_chunk, hu, hc, hf]

theorem pcmrec_start_file_pull_spec (fd : Int) (s : PcmRec) :
    (pcmrec_start_file_pull fd s).trace = s.trace ∧
    (pcmrec_start_file_pull fd s).rec_fdata.chunk = s.rec_fdata.chunk ∧
    (pcmrec_start_file_pull fd s).fnq_wr_pos = s.fnq_wr_pos ∧
    (pcmrec_start_file_pull fd s).fnq_size = s.fnq_size ∧
    (pcmrec_start_file_pull fd s).fn_queue = s.fn_queue ∧
    (s.fnq_rd_pos ≠ s.fnq_wr_pos →
      (pcmrec_start_file_pull fd s).fnq_rd_pos = fnq_advance s.fnq_size s.fnq_rd_pos ∧
      (pcmrec_start_file_pull fd s).rec_fdata.filename
        = strncpy (s.fn_queue s.fnq_rd_pos) MAX_PATH) ∧
    (s.fnq_rd_pos = s.fnq_wr_pos →
      (pcmrec_start_file_pull fd s).fnq_rd_pos = s.fnq_rd_pos ∧
      (pcmrec_start_file_pull fd s).rec_fdata.filename = "" ∧
      (pcmrec_start_file_pull fd s).errors = s.errors ||| PCMREC_E_FNQ_DESYNC) := by
  by_cases he : s.fnq_rd_pos = s.fnq_wr_pos
  · have hg : pcmrec_fnq_get_filename true s = (false, none, s) := by
      simp [pcmrec_fnq_get_filename, pcmrec_fnq_is_empty, he]
    unfold pcmrec_start_file_pull
    rw [hg]
    simp only [Bool.false_eq_true, not_false_eq_true, if_true, if_false]
    split_ifs <;> simp [set_flags, set_chunk, he]
  · have hg : pcmrec_fnq_get_filename true s =
        (true, some (strncpy (s.fn_queue s.fnq_rd_pos) MAX_PATH),
          { s with fnq_rd_pos := fnq_advance s.fnq_size s.fnq_rd_pos }) := by
      simp [pcmrec_fnq_get_filename, pcmrec_fnq_is_empty, he]
    unfold pcmrec_start_file_pull
    rw [hg]
    simp only [not_true_eq_false, if_true, if_false, Option.getD_some]
    split_ifs <;> simp [set_flags, set_chunk, he]

theorem lor_lor_land_self (w m k : Nat) : ((w ||| m) ||| k) &&& m = m := by
  apply Nat.eq_of_testBit_eq
  intro i
  simp only [Nat.testBit_and, Nat.testBit_or]
  cases w.testBit i <;> cases m.testBit i <;> cases k.testBit i <;> rfl

/-- C8: `pcmrec_start_file`, run by the flush for a chunk flagged start-of-file
(the chunk `rec_fdata.chunk`). With a filename queued it dequeues exactly the
oldest one (the read position moves one path on, the write position and the
stored names stay) and the encoder's start-file event receives that name; with
the queue empty nothing is dequeued, the event receives the empty name and the
error bit `PCMREC_E_FNQ_DESYNC` is set. In both cases the start-of-file flag of
the chunk is clear afterwards. The encoder's callback is any function that
keeps to its event data and the chunk memory (`file_event_local`). -/
theorem C8_start_file_pulls_oldest_name (enc : Encoder) (s : PcmRec)
    (henc : file_event_local enc) :
    (s.fnq_rd_pos ≠ s.fnq_wr_pos →
      (pcmrec_start_file enc s).fnq_rd_pos = fnq_advance s.fnq_size s.fnq_rd_pos ∧
      (pcmrec_start_file enc s).fnq_wr_pos = s.fnq_wr_pos ∧
      (pcmrec_start_file enc s).fn_queue = s.fn_queue ∧
      ∃ call : enc_call,
        (pcmrec_start_file enc s).trace = s.trace ++ [call] ∧
        call.event = enc_events.ENC_START_FILE ∧
        call.chunk = s.rec_fdata.chunk ∧
        call.filename = strncpy (s.fn_queue s.fnq_rd_pos) MAX_PATH) ∧
    (s.fnq_rd_pos = s.fnq_wr_pos →
      (pcmrec_start_file enc s).fnq_rd_pos = s.fnq_rd_pos ∧
      (pcmrec_start_file enc s).fnq_wr_pos = s.fnq_wr_pos ∧
      (pcmrec_start_file enc s).fn_queue = s.fn_queue ∧
      (pcmrec_start_file enc s).errors &&& PCMREC_E_FNQ_DESYNC = PCMREC_E_FNQ_DESYNC ∧
      ∃ call : enc_call,
        (pcmrec_start_file enc s).trace = s.trace ++ [call] ∧
        call.event = enc_events.ENC_START_FILE ∧
        call.chunk = s.rec_fdata.chunk ∧
        call.filename = "") ∧
    (pcmrec_start_file enc s).rec_fdata.chunk = s.rec_fdata.chunk ∧
    ((pcmrec_start_file enc s).chunks s.rec_fdata.chunk).flags &&& CHUNKF_START_FILE = 0 := by
  obtain ⟨p1, p2, p3, p4, p5, p6, p7⟩ := pcmrec_start_file_pull_spec s.rec_fdata.rec_file s
  obtain ⟨c1, c2, c3, c4, c5, c6⟩ :=
    henc enc_events.ENC_START_FILE (pcmrec_start_file_pull s.rec_fdata.rec_file s)
  have ct := enc_events_callback_trace enc enc_events.ENC_START_FILE
    (pcmrec_start_file_pull s.rec_fdata.rec_file s)
  obtain ⟨f1, f2, f3, f4, f5, f6, f7, f8⟩ :=
    pcmrec_start_file_finish_frame s.rec_fdata.new_enc_size s.rec_fdata.new_num_pcm
      s.rec_fdata.rec_file
      (enc_events_callback enc enc_events.ENC_START_FILE
        (pcmrec_start_file_pull s.rec_fdata.rec_file s))
  have e : pcmrec_start_file enc s =
      pcmrec_start_file_finish s.rec_fdata.new_enc_size s.rec_fdata.new_num_pcm
        s.rec_fdata.rec_file
        (enc_events_callback enc enc_events.ENC_START_FILE
          (pcmrec_start_file_pull s.rec_fdata.rec_file s)) := rfl
  have k1 : (enc_events_callback enc enc_events.ENC_START_FILE
      (pcmrec_start_file_pull s.rec_fdata.rec_file s)).rec_fdata.chunk = s.rec_fdata.chunk := by
    show (enc.file_event _ _).rec_fdata.chunk = _
    rw [c6, p2]
  rw [← e] at f1 f2 f3 f4 f5 f6 f7 f8
  rw [k1] at f8
  refine ⟨?_, ?_, ?_, f8⟩
  · intro hne
    obtain ⟨q1, q2⟩ := p6 hne
    refine ⟨?_, ?_, ?_, ?_⟩
    · rw [f3]; show (enc.file_event _ _).fnq_rd_pos = _; rw [c1, q1]
    · rw [f4]; show (enc.file_event _ _).fnq_wr_pos = _; rw [c2, p3]
    · rw [f6]; show (enc.file_event _ _).fn_queue = _; rw [c4, p5]
    · refine ⟨_, by rw [f1, ct, p1], rfl, p2, q2⟩
  · intro heq
    obtain ⟨q1, q2, q3⟩ := p7 heq
    have herr : (enc_events_callback enc enc_events.ENC_START_FILE
        (pcmrec_start_file_pull s.rec_fdata.rec_file s)).errors
          = s.errors ||| PCMREC_E_FNQ_DESYNC := by
      show (enc.file_event _ _).errors = _
      rw [c5, q3]
    refine ⟨?_, ?_, ?_, ?_, ?_⟩
    · rw [f3]; show (enc.file_event _ _).fnq_rd_pos = _; rw [c1, q1]
    · rw [f4]; show (enc.file_event _ _).fnq_wr_pos = _; rw [c2, p3]
    · rw [f6]; show (enc.file_event _ _).fn_queue = _; rw [c4, p5]
    · rcases f7 with h | h
      · rw [h, herr]; exact lor_land_self _ _
      · rw [h, herr]; exact lor_lor_land_self _ _ _
    · refine ⟨_, by rw [f1, ct, p1], rfl, p2, q2⟩
  · rw [f2]; exact k1

theorem file_encoder_local : file_event_local file_encoder := by
  intro ev s
  cases ev <;> simp [file_encoder] <;> split_ifs <;> simp

/-- Witness of C8: the oldest of two queued names is pulled; with an empty queue
the desynchronisation error is raised. -/
theorem C8_start_file_pulls_oldest_name_witness :
    (pcmrec_start_file file_encoder start_pending).fnq_rd_pos = 260 ∧
    (pcmrec_start_file file_encoder start_pending_no_name).errors &&& PCMREC_E_FNQ_DESYNC
      = PCMREC_E_FNQ_DESYNC ∧
    ((pcmrec_start_file file_encoder start_pending).chunks 0).flags &&& CHUNKF_START_FILE = 0 :=
  ⟨((C8_start_file_pulls_oldest_name file_encoder start_pending file_encoder_local).1
      (by decide)).1,
   ((C8_start_file_pulls_oldest_name file_encoder start_pending_no_name
      file_encoder_local).2.1 (by decide)).2.2.2.1,
   (C8_start_file_pulls_oldest_name file_encoder start_pending file_encoder_local).2.2.2⟩

theorem usub_self (x : Nat) : usub x x = 0 := by
  unfold usub ULONG_RANGE
  have h : x % 2 ^ 32 < 2 ^ 32 := Nat.mod_lt _ (by decide)
  omega

/-- One pass of the flush loop over a plain chunk (no start or end flag). -/
theorem flush_body_plain (nr : Int) (st : Nat) (v : flush_vars) (s : PcmRec)
    (c : enc_chunk_hdr)
    (herr : s.errors = 0) (hc : s.chunks s.enc_rd_index = c) (hf : c.flags = 0) :
    ∃ num prio tp,
    pcmrec_flush_body file_encoder nr st v s =
      (false,
       { i := v.i + 1, num := num, prio := prio, flush_num := v.flush_num },
       { s with
         thread_priority := tp,
         rec_fdata := { s.rec_fdata with
                        chunk := s.enc_rd_index, new_enc_size := c.enc_size,
                        new_num_pcm := c.num_pcm,
                        num_pcm_samples := uadd s.rec_fdata.num_pcm_samples c.num_pcm },
         enc_rd_index := INC_ENC_INDEX s.enc_num_chunks s.enc_rd_index,
         trace := s.trace ++
           [{ event := enc_events.ENC_WRITE_CHUNK, flags := 0, chunk := s.enc_rd_index,
              hdr := c, filename := s.rec_fdata.filename, rec_file := s.rec_fdata.rec_file,
              num_pcm_samples := s.rec_fdata.num_pcm_samples }] }) := by
  by_cases hb : v.prio = -1 ∧ (v.num ≥ s.panic_threshold ∨ usub s.current_tick st > 10 * HZ)
  · refine ⟨if s.thread_priority = -1 then
        (if s.enc_wr_index - INC_ENC_INDEX s.enc_num_chunks s.enc_rd_index < 0
         then s.enc_wr_index - INC_ENC_INDEX s.enc_num_chunks s.enc_rd_index + s.enc_num_chunks
         else s.enc_wr_index - INC_ENC_INDEX s.enc_num_chunks s.enc_rd_index)
        else v.num, s.thread_priority, s.thread_priority - 1, ?_⟩
    simp [pcmrec_flush_body, hb, pcmrec_write_chunk, pcmrec_update_sizes,
      enc_events_callback, file_encoder, GET_ENC_CHUNK, herr, hc, hf, long_negative,
      CHUNKF_START_FILE, CHUNKF_END_FILE, CHUNKF_ERROR, set_flags, set_chunk]
    split_ifs <;> simp
  · refine ⟨if v.prio = -1 then
        (if s.enc_wr_index - INC_ENC_INDEX s.enc_num_chunks s.enc_rd_index < 0
         then s.enc_wr_index - INC_ENC_INDEX s.enc_num_chunks s.enc_rd_index + s.enc_num_chunks
         else s.enc_wr_index - INC_ENC_INDEX s.enc_num_chunks s.enc_rd_index)
        else v.num, v.prio, s.thread_priority, ?_⟩
    simp [pcmrec_flush_body, hb, pcmrec_write_chunk, pcmrec_update_sizes,
      enc_events_callback, file_encoder, GET_ENC_CHUNK, herr, hc, hf, long_negative,
      CHUNKF_START_FILE, CHUNKF_END_FILE, CHUNKF_ERROR, set_flags, set_chunk]
    split_ifs <;> simp

/-- One pass of the flush loop over a chunk that starts a file, with a name
queued and no file open. -/
theorem flush_body_start (nr : Int) (st : Nat) (v : flush_vars) (s : PcmRec)
    (c : enc_chunk_hdr)
    (herr : s.errors = 0) (hc : s.chunks s.enc_rd_index = c) (hf : c.flags = 1)
    (hq : s.fnq_rd_pos ≠ s.fnq_wr_pos) (hfile : s.rec_fdata.rec_file = -1)
    (hfn : usub v.flush_num 1 ≠ 0) :
    ∃ num prio tp,
    pcmrec_flush_body file_encoder nr st v s =
      (false,
       { i := v.i + 1, num := num, prio := prio, flush_num := usub v.flush_num 1 },
       { s with
         thread_priority := tp,
         rec_fdata := { chunk := s.enc_rd_index, new_enc_size := c.enc_size,
                        new_num_pcm := c.num_pcm,
                        filename := strncpy (s.fn_queue s.fnq_rd_pos) MAX_PATH,
                        rec_file := 3,
                        num_pcm_samples := uadd 0 c.num_pcm },
         fnq_rd_pos := fnq_advance s.fnq_size s.fnq_rd_pos,
         chunks := fun j => if j = s.enc_rd_index then { c with flags := 0 } else s.chunks j,
         enc_rd_index := INC_ENC_INDEX s.enc_num_chunks s.enc_rd_index,
         trace := s.trace ++
           [{ event := enc_events.ENC_START_FILE, flags := 1, chunk := s.enc_rd_index,
              hdr := c, filename := strncpy (s.fn_queue s.fnq_rd_pos) MAX_PATH,
              rec_file := -1,
              num_pcm_samples := s.rec_fdata.num_pcm_samples },
            { event := enc_events.ENC_WRITE_CHUNK, flags := 0, chunk := s.enc_rd_index,
              hdr := { c with flags := 0 },
              filename := strncpy (s.fn_queue s.fnq_rd_pos) MAX_PATH, rec_file := 3,
              num_pcm_samples := 0 }] }) := by
  by_cases hb : v.prio = -1 ∧ (v.num ≥ s.panic_threshold ∨ usub s.current_tick st > 10 * HZ)
  · refine ⟨if s.thread_priority = -1 then
        (if s.enc_wr_index - INC_ENC_INDEX s.enc_num_chunks s.enc_rd_index < 0
         then s.enc_wr_index - INC_ENC_INDEX s.enc_num_chunks s.enc_rd_index + s.enc_num_chunks
         else s.enc_wr_index - INC_ENC_INDEX s.enc_num_chunks s.enc_rd_index)
        else v.num, s.thread_priority, s.thread_priority - 1, ?_⟩
    simp [pcmrec_flush_body, hb, pcmrec_write_chunk, pcmrec_update_sizes,
      pcmrec_start_file, pcmrec_start_file_pull, pcmrec_start_file_finish,
      pcmrec_fnq_get_filename, pcmrec_fnq_is_empty,
      enc_events_callback, file_encoder, GET_ENC_CHUNK, herr, hc, hf, hq, hfile, hfn,
      long_negative, unot, ULONG_RANGE,
      CHUNKF_START_FILE, CHUNKF_END_FILE, CHUNKF_ERROR, set_flags, set_chunk]
    split_ifs <;> simp
  · refine ⟨if v.prio = -1 then
        (if s.enc_wr_index - INC_ENC_INDEX s.enc_num_chunks s.enc_rd_index < 0
         then s.enc_wr_index - INC_ENC_INDEX s.enc_num_chunks s.enc_rd_index + s.enc_num_chunks
         else s.enc_wr_index - INC_ENC_INDEX s.enc_num_chunks s.enc_rd_index)
        else v.num, v.prio, s.thread_priority, ?_⟩
    simp [pcmrec_flush_body, hb, pcmrec_write_chunk, pcmrec_update_sizes,
      pcmrec_start_file, pcmrec_start_file_pull, pcmrec_start_file_finish,
      pcmrec_fnq_get_filename, pcmrec_fnq_is_empty,
      enc_events_callback, file_encoder, GET_ENC_CHUNK, herr, hc, hf, hq, hfile, hfn,
      long_negative, unot, ULONG_RANGE,
      CHUNKF_START_FILE, CHUNKF_END_FILE, CHUNKF_ERROR, set_flags, set_chunk]
    split_ifs <;> simp

/-- One pass of the flush loop over a chunk that ends a file. -/
theorem flush_body_end (nr : Int) (st : Nat) (v : flush_vars) (s : PcmRec)
    (c : enc_chunk_hdr)
    (herr : s.errors = 0) (hc : s.chunks s.enc_rd_index = c) (hf : c.flags = 2) :
    ∃ num prio tp,
    pcmrec_flush_body file_encoder nr st v s =
      (false,
       { i := v.i + 1, num := num, prio := prio, flush_num := v.flush_num },
       { s with
         thread_priority := tp,
         rec_fdata := { s.rec_fdata with
                        chunk := s.enc_rd_index, new_enc_size := c.enc_size,
                        new_num_pcm := c.num_pcm,
                        rec_file := -1,
                        num_pcm_samples := uadd s.rec_fdata.num_pcm_samples c.num_pcm },
         chunks := fun j => if j = s.enc_rd_index then { c with flags := 0 } else s.chunks j,
         enc_rd_index := INC_ENC_INDEX s.enc_num_chunks s.enc_rd_index,
         trace := s.trace ++
           [{ event := enc_events.ENC_WRITE_CHUNK, flags := 2, chunk := s.enc_rd_index,
              hdr := c, filename := s.rec_fdata.filename, rec_file := s.rec_fdata.rec_file,
              num_pcm_samples := s.rec_fdata.num_pcm_samples },
            { event := enc_events.ENC_END_FILE, flags := 2, chunk := s.enc_rd_index,
              hdr := c, filename := s.rec_fdata.filename, rec_file := s.rec_fdata.rec_file,
              num_pcm_samples := uadd s.rec_fdata.num_pcm_samples c.num_pcm }] }) := by
  have e2 : (2 : Nat) &&& 2147483648 = 0 := by decide
  have e3 : (2 : Nat) &&& 4294967293 = 0 := by decide
  by_cases hb : v.prio = -1 ∧ (v.num ≥ s.panic_threshold ∨ usub s.current_tick st > 10 * HZ)
  · refine ⟨if s.thread_priority = -1 then
        (if s.enc_wr_index - INC_ENC_INDEX s.enc_num_chunks s.enc_rd_index < 0
         then s.enc_wr_index - INC_ENC_INDEX s.enc_num_chunks s.enc_rd_index + s.enc_num_chunks
         else s.enc_wr_index - INC_ENC_INDEX s.enc_num_chunks s.enc_rd_index)
        else v.num, s.thread_priority, s.thread_priority - 1, ?_⟩
    simp [pcmrec_flush_body, hb, pcmrec_write_chunk, pcmrec_update_sizes, pcmrec_end_file,
      enc_events_callback, file_encoder, GET_ENC_CHUNK, herr, hc, hf, e2, e3,
      long_negative, unot, ULONG_RANGE,
      CHUNKF_START_FILE, CHUNKF_END_FILE, CHUNKF_ERROR, set_flags, set_chunk]
    split_ifs <;> simp
  · refine ⟨if v.prio = -1 then
        (if s.enc_wr_index - INC_ENC_INDEX s.enc_num_chunks s.enc_rd_index < 0
         then s.enc_wr_index - INC_ENC_INDEX s.enc_num_chunks s.enc_rd_index + s.enc_num_chunks
         else s.enc_wr_index - INC_ENC_INDEX s.enc_num_chunks s.enc_rd_index)
        else v.num, v.prio, s.thread_priority, ?_⟩
    simp [pcmrec_flush_body, hb, pcmrec_write_chunk, pcmrec_update_sizes, pcmrec_end_file,
      enc_events_callback, file_encoder, GET_ENC_CHUNK, herr, hc, hf, e2, e3,
      long_negative, unot, ULONG_RANGE,
      CHUNKF_START_FILE, CHUNKF_END_FILE, CHUNKF_ERROR, set_flags, set_chunk]
    split_ifs <;> simp

theorem INC_ENC_INDEX_lt (n i : Int) (h : i + 1 < n) : INC_ENC_INDEX n i = i + 1 := by
  unfold INC_ENC_INDEX
  rw [if_neg (by omega)]

theorem file_events_append (a b : List enc_call) :
    file_events (a ++ b) = file_events a ++ file_events b := by
  simp [file_events]


theorem flush_frame_refl (s : PcmRec) : flush_frame s s := rfl

theorem flush_frame_trans (a b c : PcmRec) (h1 : flush_frame a b) (h2 : flush_frame b c) :
    flush_frame a c := by
  unfold flush_frame at *
  rw [h2, h1]

/-- The fields a flush of the file encoder leaves alone. -/
theorem flush_frame_fields (s t : PcmRec) (h : flush_frame s t) :
    t.errors = s.errors ∧ t.enc_wr_index = s.enc_wr_index ∧
    t.enc_num_chunks = s.enc_num_chunks ∧ t.fnq_wr_pos = s.fnq_wr_pos ∧
    t.fnq_size = s.fnq_size ∧ t.fn_queue = s.fn_queue ∧
    t.is_recording = s.is_recording ∧ t.is_paused = s.is_paused ∧
    t.warnings = s.warnings ∧ t.pre_record_ticks = s.pre_record_ticks ∧
    t.wav_queue_empty = s.wav_queue_empty ∧ t.dma_wr_pos = s.dma_wr_pos ∧
    t.pcm_rd_pos = s.pcm_rd_pos ∧ t.current_tick = s.current_tick ∧
    t.closed = s.closed := by
  unfold flush_frame at h
  refine ⟨?_, ?_, ?_, ?_, ?_, ?_, ?_, ?_, ?_, ?_, ?_, ?_, ?_, ?_, ?_⟩ <;>
    (rw [h])

theorem flush_loop_step (nr : Int) (st fuel : Nat) (v v1 : flush_vars) (s s1 : PcmRec)
    (hi : v.i < nr) (hb : pcmrec_flush_body file_encoder nr st v s = (false, v1, s1)) :
    pcmrec_flush_loop file_encoder nr st (fuel + 1) v s
      = pcmrec_flush_loop file_encoder nr st fuel v1 s1 := by
  simp only [pcmrec_flush_loop, hi, if_true, hb]
  simp

/-- The flush loop passing a plain chunk. -/
theorem flush_loop_plain (nr : Int) (st fuel : Nat) (v : flush_vars) (s : PcmRec)
    (herr : s.errors = 0) (hi : v.i < nr)
    (hn : s.enc_rd_index + 1 < s.enc_num_chunks)
    (hf : (s.chunks s.enc_rd_index).flags = 0) :
    ∃ v1 s1 tr,
      pcmrec_flush_loop file_encoder nr st (fuel + 1) v s
        = pcmrec_flush_loop file_encoder nr st fuel v1 s1 ∧
      v1.i = v.i + 1 ∧ v1.flush_num = v.flush_num ∧ flush_frame s s1 ∧
      s1.enc_rd_index = s.enc_rd_index + 1 ∧ s1.fnq_rd_pos = s.fnq_rd_pos ∧
      s1.chunks = s.chunks ∧ s1.rec_fdata.rec_file = s.rec_fdata.rec_file ∧
      s1.trace = s.trace ++ tr ∧
      file_events tr = [(enc_events.ENC_WRITE_CHUNK, "", (s.chunks s.enc_rd_index).num_pcm)] := by
  obtain ⟨num, prio, tp, hb⟩ := flush_body_plain nr st v s (s.chunks s.enc_rd_index) herr rfl hf
  rw [INC_ENC_INDEX_lt _ _ hn] at hb
  refine ⟨_, _, _, flush_loop_step nr st fuel v _ s _ hi hb, rfl, rfl, rfl, rfl, rfl, rfl, rfl,
    rfl, ?_⟩
  simp [file_events, file_event_summary]

/-- The flush loop passing a chunk that starts a file. -/
theorem flush_loop_start (nr : Int) (st fuel : Nat) (v : flush_vars) (s : PcmRec)
    (herr : s.errors = 0) (hi : v.i < nr)
    (hn : s.enc_rd_index + 1 < s.enc_num_chunks)
    (hf : (s.chunks s.enc_rd_index).flags = 1)
    (hq : s.fnq_rd_pos ≠ s.fnq_wr_pos) (hfile : s.rec_fdata.rec_file = -1)
    (hfn : usub v.flush_num 1 ≠ 0) :
    ∃ v1 s1 tr,
      pcmrec_flush_loop file_encoder nr st (fuel + 1) v s
        = pcmrec_flush_loop file_encoder nr st fuel v1 s1 ∧
      v1.i = v.i + 1 ∧ v1.flush_num = usub v.flush_num 1 ∧ flush_frame s s1 ∧
      s1.enc_rd_index = s.enc_rd_index + 1 ∧
      s1.fnq_rd_pos = fnq_advance s.fnq_size s.fnq_rd_pos ∧
      s1.chunks = (fun j => if j = s.enc_rd_index
        then { s.chunks s.enc_rd_index with flags := 0 } else s.chunks j) ∧
      s1.rec_fdata.rec_file = 3 ∧
      s1.trace = s.trace ++ tr ∧
      file_events tr =
        [(enc_events.ENC_START_FILE, strncpy (s.fn_queue s.fnq_rd_pos) MAX_PATH, 0),
         (enc_events.ENC_WRITE_CHUNK, "", (s.chunks s.enc_rd_index).num_pcm)] := by
  obtain ⟨num, prio, tp, hb⟩ :=
    flush_body_start nr st v s (s.chunks s.enc_rd_index) herr rfl hf hq hfile hfn
  rw [INC_ENC_INDEX_lt _ _ hn] at hb
  refine ⟨_, _, _, flush_loop_step nr st fuel v _ s _ hi hb, rfl, rfl, rfl, rfl, rfl, rfl, rfl,
    rfl, ?_⟩
  simp [file_events, file_event_summary]

/-- The flush loop passing a chunk that ends a file. -/
theorem flush_loop_end (nr : Int) (st fuel : Nat) (v : flush_vars) (s : PcmRec)
    (herr : s.errors = 0) (hi : v.i < nr)
    (hn : s.enc_rd_index + 1 < s.enc_num_chunks)
    (hf : (s.chunks s.enc_rd_index).flags = 2) :
    ∃ v1 s1 tr,
      pcmrec_flush_loop file_encoder nr st (fuel + 1) v s
        = pcmrec_flush_loop file_encoder nr st fuel v1 s1 ∧
      v1.i = v.i + 1 ∧ v1.flush_num = v.flush_num ∧ flush_frame s s1 ∧
      s1.enc_rd_index = s.enc_rd_index + 1 ∧ s1.fnq_rd_pos = s.fnq_rd_pos ∧
      s1.chunks = (fun j => if j = s.enc_rd_index
        then { s.chunks s.enc_rd_index with flags := 0 } else s.chunks j) ∧
      s1.rec_fdata.rec_file = -1 ∧
      s1.trace = s.trace ++ tr ∧
      file_events tr =
        [(enc_events.ENC_WRITE_CHUNK, "", (s.chunks s.enc_rd_index).num_pcm),
         (enc_events.ENC_END_FILE, "", 0)] := by
  obtain ⟨num, prio, tp, hb⟩ := flush_body_end nr st v s (s.chunks s.enc_rd_index) herr rfl hf
  rw [INC_ENC_INDEX_lt _ _ hn] at hb
  refine ⟨_, _, _, flush_loop_step nr st fuel v _ s _ hi hb, rfl, rfl, rfl, rfl, rfl, rfl, rfl,
    rfl, ?_⟩
  simp [file_events, file_event_summary]

/-- The flush loop passing `k` plain chunks of `S` samples each. -/
theorem flush_loop_plain_run (nr : Int) (st S m : Nat) :
    ∀ (k : Nat) (v : flush_vars) (s : PcmRec),
      s.errors = 0 → v.i + k ≤ nr → s.enc_rd_index + k < s.enc_num_chunks →
      (∀ j, s.enc_rd_index ≤ j → j < s.enc_rd_index + k →
        (s.chunks j).flags = 0 ∧ (s.chunks j).num_pcm = S) →
      ∃ v1 s1 tr,
        pcmrec_flush_loop file_encoder nr st (k + m) v s
          = pcmrec_flush_loop file_encoder nr st m v1 s1 ∧
        v1.i = v.i + k ∧ v1.flush_num = v.flush_num ∧ flush_frame s s1 ∧
        s1.enc_rd_index = s.enc_rd_index + k ∧ s1.fnq_rd_pos = s.fnq_rd_pos ∧
        s1.chunks = s.chunks ∧ s1.rec_fdata.rec_file = s.rec_fdata.rec_file ∧
        s1.trace = s.trace ++ tr ∧
        file_events tr = List.replicate k (enc_events.ENC_WRITE_CHUNK, "", S) := by
  intro k
  induction k with
  | zero =>
    intro v s _ _ _ _
    exact ⟨v, s, [], by simp, by simp, rfl, flush_frame_refl s, by simp, rfl, rfl, rfl,
      by simp, rfl⟩
  | succ k ih =>
    intro v s herr hi hn hch
    obtain ⟨hf, hS⟩ := hch s.enc_rd_index (le_refl _) (by omega)
    have e1 : k + 1 + m = (k + m) + 1 := by omega
    obtain ⟨v1, s1, tr1, q0, q1, q2, q3, q4, q5, q6, q7, q8, q9⟩ :=
      flush_loop_plain nr st (k + m) v s herr (by omega) (by omega) hf
    obtain ⟨f1, _, f3, _⟩ := flush_frame_fields s s1 q3
    obtain ⟨v2, s2, tr2, r0, r1, r2, r3, r4, r5, r6, r7, r8, r9⟩ :=
      ih v1 s1 (by rw [f1]; exact herr) (by rw [q1]; omega) (by rw [q4, f3]; omega)
        (fun j h1 h2 => by
          rw [q6]
          exact hch j (by rw [q4] at h1; omega) (by rw [q4] at h2; omega))
    refine ⟨v2, s2, tr1 ++ tr2, by rw [e1, q0, r0], by rw [r1, q1]; omega,
      by rw [r2, q2], flush_frame_trans _ _ _ q3 r3, by rw [r4, q4]; omega, by rw [r5, q5],
      by rw [r6, q6], by rw [r7, q7], by rw [r8, q8, List.append_assoc], ?_⟩
    rw [file_events_append, q9, r9, hS]
    rfl

theorem strncpy_short (x : String) (n : Nat) (h : x.length ≤ n) : strncpy x n = x := by
  unfold strncpy
  have : x.data.take n = x.data := List.take_of_length_le h
  rw [this]

/-- The forced flush of the round trip: 15 ready chunks holding file "a.wav"
(chunks 0 to 9) and the start of "b.wav" (chunks 10 to 14). -/
theorem flush_two_files (s : PcmRec) (S : Nat)
    (herr : s.errors = 0) (hw : s.enc_wr_index = 15) (hr : s.enc_rd_index = 0)
    (hn : 16 < s.enc_num_chunks)
    (hfr : s.fnq_rd_pos = 0) (hfw : s.fnq_wr_pos = 520) (hfs : 780 ≤ s.fnq_size)
    (hq0 : s.fn_queue 0 = "a.wav") (hq1 : s.fn_queue 260 = "b.wav")
    (hfile : s.rec_fdata.rec_file = -1)
    (hc0 : (s.chunks 0).flags = 1 ∧ (s.chunks 0).num_pcm = S)
    (hc1 : ∀ j, 1 ≤ j → j < 9 → (s.chunks j).flags = 0 ∧ (s.chunks j).num_pcm = S)
    (hc9 : (s.chunks 9).flags = 2 ∧ (s.chunks 9).num_pcm = S)
    (hc10 : (s.chunks 10).flags = 1 ∧ (s.chunks 10).num_pcm = S)
    (hc11 : ∀ j, 11 ≤ j → j < 15 → (s.chunks j).flags = 0 ∧ (s.chunks j).num_pcm = S) :
    ∃ tr,
      flush_frame s (pcmrec_flush file_encoder 0xFFFFFFFF s) ∧
      (pcmrec_flush file_encoder 0xFFFFFFFF s).enc_rd_index = 15 ∧
      (pcmrec_flush file_encoder 0xFFFFFFFF s).fnq_rd_pos = 520 ∧
      (∀ j, 15 ≤ j → (pcmrec_flush file_encoder 0xFFFFFFFF s).chunks j = s.chunks j) ∧
      (pcmrec_flush file_encoder 0xFFFFFFFF s).rec_fdata.rec_file = 3 ∧
      (pcmrec_flush file_encoder 0xFFFFFFFF s).trace = s.trace ++ tr ∧
      file_events tr =
        [(enc_events.ENC_START_FILE, "a.wav", 0)]
          ++ List.replicate 10 (enc_events.ENC_WRITE_CHUNK, "", S)
          ++ [(enc_events.ENC_END_FILE, "", 0), (enc_events.ENC_START_FILE, "b.wav", 0)]
          ++ List.replicate 5 (enc_events.ENC_WRITE_CHUNK, "", S) := by
  have hsa : strncpy "a.wav" MAX_PATH = "a.wav" := strncpy_short _ _ (by decide)
  have hsb : strncpy "b.wav" MAX_PATH = "b.wav" := strncpy_short _ _ (by decide)
  -- chunk 0 starts "a.wav"
  obtain ⟨v1, s1, tr1, a0, a1, a2, a3, a4, a5, a6, a7, a8, a9⟩ :=
    flush_loop_start 15 s.current_tick 14 { i := 0, num := 15, prio := -1, flush_num := 0xFFFFFFFF }
      s herr (by decide) (by rw [hr]; omega) (by rw [hr]; exact hc0.1)
      (by rw [hfr, hfw]; decide) hfile (by decide)
  obtain ⟨a_err, a_wr, a_n, a_fw, a_fs, a_q, -⟩ := flush_frame_fields s s1 a3
  rw [hr] at a4 a6 a9
  have a4 : s1.enc_rd_index = 1 := by rw [a4]; rfl
  rw [hfr, hq0, hsa, hc0.2] at a9
  rw [hfr] at a5
  have a5' : s1.fnq_rd_pos = 260 := by
    rw [a5]; unfold fnq_advance MAX_PATH; rw [if_neg (by omega)]; rfl
  -- chunks 1 to 8
  obtain ⟨v2, s2, tr2, b0, b1, b2, b3, b4, b5, b6, b7, b8, b9⟩ :=
    flush_loop_plain_run 15 s.current_tick S 6 8 v1 s1 (by rw [a_err]; exact herr)
      (by rw [a1]; decide) (by rw [a4, a_n]; omega)
      (fun j h1 h2 => by
        rw [a4] at h1 h2
        rw [a6]
        have : ¬ j = 0 := by omega
        simp only [this, if_false]
        exact hc1 j (by omega) (by omega))
  obtain ⟨b_err, b_wr, b_n, b_fw, b_fs, b_q, -⟩ := flush_frame_fields s1 s2 b3
  have b4 : s2.enc_rd_index = 9 := by rw [b4, a4]; rfl
  -- chunk 9 ends "a.wav"
  have hs2c : ∀ j, ¬ j = 0 → s2.chunks j = s.chunks j := by
    intro j hj; rw [b6, a6]; simp only [hj, if_false]
  obtain ⟨v3, s3, tr3, c0, c1, c2, c3, c4, c5, c6, c7, c8, c9⟩ :=
    flush_loop_end 15 s.current_tick 5 v2 s2 (by rw [b_err, a_err]; exact herr)
      (by rw [b1, a1]; decide) (by rw [b4, b_n, a_n]; omega)
      (by rw [b4, hs2c _ (by decide)]; exact hc9.1)
  obtain ⟨c_err, c_wr, c_n, c_fw, c_fs, c_q, -⟩ := flush_frame_fields s2 s3 c3
  rw [b4] at c4 c6 c9
  have c4 : s3.enc_rd_index = 10 := by rw [c4]; rfl
  rw [hs2c _ (by decide), hc9.2] at c9
  -- chunk 10 starts "b.wav"
  have hs3c : ∀ j, 10 ≤ j → s3.chunks j = s.chunks j := by
    intro j hj
    rw [c6]
    have : ¬ j = 9 := by omega
    simp only [this, if_false]
    exact hs2c j (by omega)
  have hs3q : s3.fn_queue = s.fn_queue := by rw [c_q, b_q, a_q]
  obtain ⟨v4, s4, tr4, d0, d1, d2, d3, d4, d5, d6, d7, d8, d9⟩ :=
    flush_loop_start 15 s.current_tick 4 v3 s3 (by rw [c_err, b_err, a_err]; exact herr)
      (by rw [c1, b1, a1]; decide) (by rw [c4, c_n, b_n, a_n]; omega)
      (by rw [c4, hs3c _ (by decide)]; exact hc10.1)
      (by rw [c5, b5, a5', c_fw, b_fw, a_fw, hfw]; decide) c7
      (by rw [c2, b2, a2]; decide)
  obtain ⟨d_err, d_wr, d_n, d_fw, d_fs, d_q, -⟩ := flush_frame_fields s3 s4 d3
  rw [c4] at d4 d6 d9
  have d4 : s4.enc_rd_index = 11 := by rw [d4]; rfl
  rw [c5, b5, a5', hs3q, hq1, hsb, hs3c _ (by decide), hc10.2] at d9
  rw [c5, b5, a5', c_fs, b_fs, a_fs] at d5
  have d5' : s4.fnq_rd_pos = 520 := by
    rw [d5]; unfold fnq_advance MAX_PATH; rw [if_neg (by omega)]; rfl
  have hs4c : ∀ j, 11 ≤ j → s4.chunks j = s.chunks j := by
    intro j hj
    rw [d6]
    have : ¬ j = 10 := by omega
    simp only [this, if_false]
    exact hs3c j (by omega)
  -- chunks 11 to 14
  obtain ⟨v5, s5, tr5, e0, e1, e2, e3, e4, e5, e6, e7, e8, e9⟩ :=
    flush_loop_plain_run 15 s.current_tick S 0 4 v4 s4
      (by rw [d_err, c_err, b_err, a_err]; exact herr)
      (by rw [d1, c1, b1, a1]; decide) (by rw [d4, d_n, c_n, b_n, a_n]; omega)
      (fun j h1 h2 => by
        rw [d4] at h1 h2
        rw [hs4c j (by omega)]
        exact hc11 j (by omega) (by omega))
  obtain ⟨e_err, e_wr, e_n, e_fw, e_fs, e_q, -⟩ := flush_frame_fields s4 s5 e3
  have hloop : pcmrec_flush_loop file_encoder 15 s.current_tick 15
      { i := 0, num := 15, prio := -1, flush_num := 0xFFFFFFFF } s = (v5, s5) := by
    have x1 : (15 : Nat) = 14 + 1 := rfl
    have x2 : (14 : Nat) = 8 + 6 := rfl
    have x3 : (6 : Nat) = 5 + 1 := rfl
    have x4 : (5 : Nat) = 4 + 1 := rfl
    have x5 : (4 : Nat) = 4 + 0 := rfl
    rw [x1, a0, x2, b0, x3, c0, x4, d0, x5, e0]
    rfl
  have hfr15 : flush_frame s s5 :=
    flush_frame_trans _ _ _ (flush_frame_trans _ _ _ (flush_frame_trans _ _ _
      (flush_frame_trans _ _ _ a3 b3) c3) d3) e3
  have hnr : num_ready s = 15 := by simp [num_ready, hw, hr]
  have hfl : ∃ tp, pcmrec_flush file_encoder 0xFFFFFFFF s =
      { s5 with fsynced := s5.fsynced ++ [3], thread_priority := tp,
                last_flush_tick := s5.current_tick } := by
    have h3 : s5.rec_fdata.rec_file = 3 := by rw [e7, d7]
    by_cases hp : v5.prio = -1
    · refine ⟨s5.thread_priority, ?_⟩
      simp [pcmrec_flush, hnr, hloop, h3, hp]
    · refine ⟨v5.prio, ?_⟩
      simp [pcmrec_flush, hnr, hloop, h3, hp]
  obtain ⟨tp, hfl⟩ := hfl
  refine ⟨tr1 ++ tr2 ++ tr3 ++ tr4 ++ tr5, ?_, ?_, ?_, ?_, ?_, ?_, ?_⟩
  · rw [hfl]
    unfold flush_frame at hfr15 ⊢
    simp only []
    rw [hfr15]
  · rw [hfl]; simp only []; rw [e4, d4]; rfl
  · rw [hfl]; simp only []; rw [e5, d5']
  · intro j hj
    rw [hfl]; simp only []; rw [e6]; exact hs4c j (by omega)
  · rw [hfl]; simp only []; rw [e7, d7]
  · rw [hfl]; simp only []
    rw [e8, d8, c8, b8, a8]
    simp only [List.append_assoc]
  · simp only [file_events_append, a9, b9, c9, d9, e9]
    rfl

theorem land_one_not_negative (f : Nat) : ¬ long_negative (f &&& CHUNKF_START_FILE) := by
  unfold long_negative ULONG_RANGE CHUNKF_START_FILE
  have h : f &&& 1 ≤ 1 := Nat.and_le_right
  omega

/-- Pushes of payload chunks during a recording with room left in the ring:
the `k` slots from the write index on receive the payload and keep only
their start flag, the write index moves `k` slots on, no warning or error
arises. -/
theorem encode_chunks_payload (b S d : Nat) :
    ∀ (k : Nat) (s : PcmRec),
      s.is_recording = true → s.enc_rd_index ≤ s.enc_wr_index →
      s.enc_wr_index + k < s.enc_num_chunks →
      ∃ C B P,
        encode_chunks (List.replicate k (fill_payload b S d)) s =
          { s with chunks := C, num_rec_bytes := B, num_rec_samples := P,
                   enc_wr_index := s.enc_wr_index + k } ∧
        (∀ j, s.enc_wr_index ≤ j → j < s.enc_wr_index + k →
          C j = { flags := (s.chunks j).flags &&& CHUNKF_START_FILE, enc_size := b,
                  num_pcm := S, enc_data := some d }) ∧
        (∀ j, (j < s.enc_wr_index ∨ s.enc_wr_index + k ≤ j) → C j = s.chunks j) := by
  intro k
  induction k with
  | zero =>
    intro s _ _ _
    refine ⟨s.chunks, s.num_rec_bytes, s.num_rec_samples, ?_, ?_, ?_⟩
    · simp [encode_chunks]
    · intro j h1 h2; simp at h2; omega
    · intro j _; rfl
  | succ k ih =>
    intro s hrec hrw hn
    have hinc : INC_ENC_INDEX s.enc_num_chunks s.enc_wr_index = s.enc_wr_index + 1 := by
      unfold INC_ENC_INDEX; rw [if_neg (by omega)]
    have hne : ¬ s.enc_rd_index = s.enc_wr_index + 1 := by omega
    have hneg : ¬ long_negative (fill_payload b S d (chunk_handed_out s)).flags := by
      rw [chunk_handed_out_recording s hrec]
      exact land_one_not_negative _
    have h1 : encode_chunk (fill_payload b S d) s =
        { s with
          chunks := fun j => if j = s.enc_wr_index then fill_payload b S d (chunk_handed_out s)
                             else s.chunks j,
          num_rec_bytes := uadd s.num_rec_bytes (fill_payload b S d (chunk_handed_out s)).enc_size,
          num_rec_samples :=
            uadd s.num_rec_samples (fill_payload b S d (chunk_handed_out s)).num_pcm,
          enc_wr_index := s.enc_wr_index + 1 } := by
      rw [encode_chunk_norm]
      simp [hinc, hne, hneg]
    obtain ⟨C, B, P, heq, hC1, hC2⟩ := ih (encode_chunk (fill_payload b S d) s)
      (by rw [h1]; exact hrec) (by rw [h1]; simp only []; omega)
      (by rw [h1]; simp only []; omega)
    refine ⟨C, B, P, ?_, ?_, ?_⟩
    · simp only [List.replicate_succ, encode_chunks]
      rw [heq, h1]
      simp only [Nat.cast_add, Nat.cast_one, PcmRec.mk.injEq, and_true, true_and]
      omega
    · intro j hj1 hj2
      by_cases hj : j = s.enc_wr_index
      · have := hC2 j (by rw [h1]; simp only []; left; omega)
        rw [this, h1]
        simp only [hj, if_true]
        rw [chunk_handed_out_recording s hrec]
        rfl
      · have := hC1 j (by rw [h1]; simp only []; omega)
          (by rw [h1]; simp only []; push_cast at hj2; omega)
        rw [this, h1]
        simp only [hj, if_false]
    · intro j hj
      have := hC2 j (by rw [h1]; simp only []; push_cast at hj; omega)
      rw [this, h1]
      have : ¬ j = s.enc_wr_index := by omega
      simp only [this, if_false]

theorem new_stream_stats_done (fuel : Nat) (i : Int) (s : PcmRec) (h : i = s.enc_wr_index) :
    new_stream_stats fuel i s = some s := by
  cases fuel <;> simp [new_stream_stats, h]

/-- Record issued while idle without pre-recording, on a drained ring at slot 0
with an empty filename queue: the chunk at the write index becomes the start
marker and the name is queued. -/
theorem record_start_fresh (s : PcmRec) (fuel : Nat) (name : String)
    (hname : name.length ≤ MAX_PATH)
    (hrec : s.is_recording = false) (hpre : s.pre_record_ticks = 0)
    (hw : s.enc_wr_index = 0) (hflags : (s.chunks 0).flags = 0)
    (hfr : s.fnq_rd_pos = 0) (hfw : s.fnq_wr_pos = 0) (hfs : 780 ≤ s.fnq_size) :
    ∃ s1 call,
      pcmrec_record file_encoder fuel name s = some s1 ∧
      s1 = { s with
             num_rec_bytes := 0, num_rec_samples := 0, spinup_time := -1, warnings := 0,
             enc_rd_index := 0, dma_lock := false, is_paused := false, is_recording := true,
             chunks := fun j => if j = 0 then { s.chunks 0 with flags := 1 } else s.chunks j,
             fn_queue := fun j => if j = 0 then name else s.fn_queue j,
             fnq_wr_pos := 260,
             trace := s.trace ++ [call] } ∧
      call.event = enc_events.ENC_REC_NEW_STREAM := by
  have hs : strncpy name 260 = name := strncpy_short _ _ hname
  have hfs2 : ¬ (s.fnq_size ≤ 260) := by omega
  simp [pcmrec_record, pcmrec_new_stream, hrec, hpre, hw, hfr, hfw, hflags,
    new_stream_end, new_stream_start, new_stream_stats_done, pcmrec_fnq_is_empty,
    pcmrec_fnq_is_full, pcmrec_fnq_add_filename, fnq_advance, MAX_PATH,
    enc_events_callback_new_stream, file_encoder, set_flags, set_chunk, GET_ENC_CHUNK,
    CHUNKF_START_FILE, CHUNKF_END_FILE, CHUNKF_PRERECORD, unot, ULONG_RANGE, hs, hfs2]
  refine ⟨_, ⟨?_, rfl⟩, rfl⟩
  funext j
  by_cases hj : j = 0 <;> simp [hj]

/-- Record issued during a recording (a gapless split) with the write index at
a fresh slot behind finished chunks: the previous chunk becomes the end
marker, the chunk at the write index the start marker, and the name is
appended to the queue holding one name. -/
theorem record_split_fresh (s : PcmRec) (fuel : Nat) (name : String)
    (hname : name.length ≤ MAX_PATH)
    (hrec : s.is_recording = true)
    (hw : s.enc_wr_index = 10) (hr : s.enc_rd_index = 0)
    (hflags : (s.chunks 10).flags = 0) (hprev : (s.chunks 9).flags = 0)
    (hfr : s.fnq_rd_pos = 0) (hfw : s.fnq_wr_pos = 260) (hfs : 780 ≤ s.fnq_size) :
    ∃ s1 call,
      pcmrec_record file_encoder fuel name s = some s1 ∧
      s1 = { s with
             num_rec_bytes := 0, num_rec_samples := 0,
             chunks := fun j => if j = 10 then { s.chunks 10 with flags := 1 }
                                else if j = 9 then { s.chunks 9 with flags := 2 }
                                else s.chunks j,
             fn_queue := fun j => if j = 260 then name else s.fn_queue j,
             fnq_wr_pos := 520,
             trace := s.trace ++ [call] } ∧
      call.event = enc_events.ENC_REC_NEW_STREAM := by
  have hs : strncpy name 260 = name := strncpy_short _ _ hname
  have hfs2 : ¬ (s.fnq_size ≤ 520) := by omega
  have hfs3 : ¬ (s.fnq_size ≤ 260 + 260) := by omega
  simp +decide [pcmrec_record, pcmrec_new_stream, hrec, hw, hr, hfr, hfw, hflags, hprev,
    new_stream_end, new_stream_start, new_stream_stats_done, pcmrec_fnq_is_empty,
    pcmrec_fnq_is_full, pcmrec_fnq_add_filename, fnq_advance, MAX_PATH,
    enc_events_callback_new_stream, file_encoder, set_flags, set_chunk, GET_ENC_CHUNK,
    DEC_ENC_INDEX,
    CHUNKF_START_FILE, CHUNKF_END_FILE, CHUNKF_PRERECORD, unot, ULONG_RANGE, hs, hfs2, hfs3]
  refine ⟨_, ⟨?_, rfl⟩, rfl⟩
  funext j
  by_cases hj : j = 10 <;> by_cases hj2 : j = 9 <;> simp [hj, hj2]

/-- The wait of Stop when the encoder finds no capture data to pull: at most
one yield, after which the input is reported starved. -/
theorem wait_for_starved_encoder (s : PcmRec) (fuel : Nat) (hfuel : 1 ≤ fuel)
    (hdma : s.dma_wr_pos = s.pcm_rd_pos) :
    ∃ q, wait_for_encoder file_encoder fuel s = some { s with wav_queue_empty := q } := by
  by_cases hgo : s.errors = 0 ∧ s.wav_queue_empty = false
  · obtain ⟨f, rfl⟩ : ∃ f, fuel = f + 1 := ⟨fuel - 1, by omega⟩
    refine ⟨true, ?_⟩
    have hy : file_encoder.on_yield s = { s with wav_queue_empty := true } := by
      simp +decide [file_encoder, enc_get_pcm_data, hdma, to_ulong, PCM_MAX_FEED_SIZE]
    rw [wait_for_encoder.eq_def]
    simp only [hgo, and_self, if_true, hy]
    rw [wait_for_encoder.eq_def]
    simp
  · refine ⟨s.wav_queue_empty, ?_⟩
    rw [wait_for_encoder.eq_def]
    simp only [hgo, if_false]

/-- The end marker requested by Stop on a fully drained ring: the chunk at the
write index becomes an empty chunk carrying the end flag and the write index
moves on. -/
theorem new_stream_end_drained (s : PcmRec) (fuel : Nat)
    (hw : s.enc_wr_index = 15) (hr : s.enc_rd_index = 15) (hn : 16 < s.enc_num_chunks)
    (hflags : (s.chunks 15).flags = 0) :
    ∃ call,
      pcmrec_new_stream file_encoder fuel none CHUNKF_END_FILE 0 s =
        some { s with
               chunks := fun j => if j = 15
                 then { flags := 2, enc_size := 0, num_pcm := 0, enc_data := none }
                 else s.chunks j,
               enc_wr_index := 16,
               trace := s.trace ++ [call] } ∧
      call.event = enc_events.ENC_REC_NEW_STREAM := by
  have hn2 : ¬ (s.enc_num_chunks ≤ 16) := by omega
  have hn3 : ¬ (s.enc_num_chunks ≤ 15 + 1) := by omega
  simp +decide [pcmrec_new_stream, hw, hr, hflags, hn2, hn3,
    new_stream_end, new_stream_start, INC_ENC_INDEX, DEC_ENC_INDEX,
    enc_events_callback_new_stream, file_encoder, set_flags, set_chunk, GET_ENC_CHUNK,
    CHUNKF_START_FILE, CHUNKF_END_FILE, CHUNKF_PRERECORD, unot, ULONG_RANGE]
  refine ⟨_, ⟨?_, rfl⟩, rfl⟩
  funext j
  by_cases hj : j = 15 <;> simp [hj]

/-- A forced flush of a single ready chunk that only carries the end flag. -/
theorem flush_one_end (s : PcmRec)
    (herr : s.errors = 0) (hw : s.enc_wr_index = s.enc_rd_index + 1)
    (hn : s.enc_rd_index + 1 < s.enc_num_chunks)
    (hf : (s.chunks s.enc_rd_index).flags = 2) :
    ∃ tr,
      flush_frame s (pcmrec_flush file_encoder 0xFFFFFFFF s) ∧
      (pcmrec_flush file_encoder 0xFFFFFFFF s).enc_rd_index = s.enc_rd_index + 1 ∧
      (pcmrec_flush file_encoder 0xFFFFFFFF s).fnq_rd_pos = s.fnq_rd_pos ∧
      (pcmrec_flush file_encoder 0xFFFFFFFF s).rec_fdata.rec_file = -1 ∧
      (pcmrec_flush file_encoder 0xFFFFFFFF s).trace = s.trace ++ tr ∧
      file_events tr =
        [(enc_events.ENC_WRITE_CHUNK, "", (s.chunks s.enc_rd_index).num_pcm),
         (enc_events.ENC_END_FILE, "", 0)] := by
  obtain ⟨v1, s1, tr1, a0, a1, a2, a3, a4, a5, a6, a7, a8, a9⟩ :=
    flush_loop_end 1 s.current_tick 0 { i := 0, num := 1, prio := -1, flush_num := 0xFFFFFFFF }
      s herr (by decide) hn hf
  have hloop : pcmrec_flush_loop file_encoder 1 s.current_tick 1
      { i := 0, num := 1, prio := -1, flush_num := 0xFFFFFFFF } s = (v1, s1) := by
    have x1 : (1 : Nat) = 0 + 1 := rfl
    rw [x1, a0]
    rfl
  have hnr : num_ready s = 1 := by simp [num_ready, hw]
  have hfl : ∃ tp, pcmrec_flush file_encoder 0xFFFFFFFF s =
      { s1 with thread_priority := tp, last_flush_tick := s1.current_tick } := by
    by_cases hp : v1.prio = -1
    · refine ⟨s1.thread_priority, ?_⟩
      simp [pcmrec_flush, hnr, hloop, a7, hp]
    · refine ⟨v1.prio, ?_⟩
      simp [pcmrec_flush, hnr, hloop, a7, hp]
  obtain ⟨tp, hfl⟩ := hfl
  refine ⟨tr1, ?_, ?_, ?_, ?_, ?_, a9⟩
  · rw [hfl]
    unfold flush_frame at a3 ⊢
    simp only []
    rw [a3]
  · rw [hfl]; exact a4
  · rw [hfl]; exact a5
  · rw [hfl]; exact a7
  · rw [hfl]; exact a8

/-- Stop at the end of the round trip. -/
theorem stop_two_files (s : PcmRec) (fuel S : Nat) (hfuel : 1 ≤ fuel)
    (hrec : s.is_recording = true) (hpre : s.pre_record_ticks = 0)
    (hdma : s.dma_wr_pos = s.pcm_rd_pos)
    (herr : s.errors = 0) (hw : s.enc_wr_index = 15) (hr : s.enc_rd_index = 0)
    (hn : 16 < s.enc_num_chunks)
    (hfr : s.fnq_rd_pos = 0) (hfw : s.fnq_wr_pos = 520) (hfs : 780 ≤ s.fnq_size)
    (hq0 : s.fn_queue 0 = "a.wav") (hq1 : s.fn_queue 260 = "b.wav")
    (hfile : s.rec_fdata.rec_file = -1)
    (hc0 : (s.chunks 0).flags = 1 ∧ (s.chunks 0).num_pcm = S)
    (hc1 : ∀ j, 1 ≤ j → j < 9 → (s.chunks j).flags = 0 ∧ (s.chunks j).num_pcm = S)
    (hc9 : (s.chunks 9).flags = 2 ∧ (s.chunks 9).num_pcm = S)
    (hc10 : (s.chunks 10).flags = 1 ∧ (s.chunks 10).num_pcm = S)
    (hc11 : ∀ j, 11 ≤ j → j < 15 → (s.chunks j).flags = 0 ∧ (s.chunks j).num_pcm = S)
    (hc15 : (s.chunks 15).flags = 0) :
    ∃ s1 tr,
      pcmrec_stop file_encoder fuel s = some s1 ∧
      s1.errors = 0 ∧ s1.is_recording = false ∧ s1.is_paused = false ∧
      s1.warnings = s.warnings ∧ s1.pre_record_ticks = 0 ∧
      s1.trace = s.trace ++ tr ∧
      file_events tr =
        [(enc_events.ENC_START_FILE, "a.wav", 0)]
          ++ List.replicate 10 (enc_events.ENC_WRITE_CHUNK, "", S)
          ++ [(enc_events.ENC_END_FILE, "", 0), (enc_events.ENC_START_FILE, "b.wav", 0)]
          ++ List.replicate 5 (enc_events.ENC_WRITE_CHUNK, "", S)
          ++ [(enc_events.ENC_WRITE_CHUNK, "", 0), (enc_events.ENC_END_FILE, "", 0)] := by
  -- first forced flush
  obtain ⟨tr1, a1, a2, a3, a4, a5, a6, a7⟩ :=
    flush_two_files { s with dma_lock := true } S herr hw hr hn hfr hfw hfs hq0 hq1 hfile
      hc0 hc1 hc9 hc10 hc11
  obtain ⟨sF, hsF⟩ : ∃ x, x = pcmrec_flush file_encoder 0xFFFFFFFF { s with dma_lock := true } :=
    ⟨_, rfl⟩
  rw [← hsF] at a1 a2 a3 a4 a5 a6
  obtain ⟨f_err, f_wr, f_n, f_fw, f_fs, f_q, f_rec, f_pau, f_warn, f_pre, f_wq, f_dw, f_pr,
    f_ct, f_cl⟩ := flush_frame_fields _ _ a1
  simp only [] at f_err f_wr f_n f_fw f_fs f_q f_rec f_pau f_warn f_pre f_wq f_dw f_pr a4 a6
  -- the wait for the encoder
  obtain ⟨q, hwait⟩ := wait_for_starved_encoder sF fuel hfuel (by rw [f_dw, f_pr]; exact hdma)
  -- the end marker
  obtain ⟨call, hns, hcall⟩ := new_stream_end_drained { sF with wav_queue_empty := q } fuel
    (by simp only []; rw [f_wr]; exact hw) a2 (by simp only []; rw [f_n]; exact hn)
    (by simp only []; rw [a4 15 (le_refl _)]; exact hc15)
  -- second forced flush
  obtain ⟨sN, hsN⟩ : ∃ x, x = ({ sF with
      wav_queue_empty := q,
      chunks := fun j => if j = 15
        then { flags := 2, enc_size := 0, num_pcm := 0, enc_data := none }
        else sF.chunks j,
      enc_wr_index := 16,
      trace := sF.trace ++ [call] } : PcmRec) := ⟨_, rfl⟩
  rw [← hsN] at hns
  have n_rd : sN.enc_rd_index = 15 := by rw [hsN]; exact a2
  obtain ⟨tr2, b1, b2, b3, b4, b5, b6⟩ := flush_one_end sN
    (by rw [hsN]; simp only []; rw [f_err]; exact herr)
    (by rw [n_rd, hsN]; rfl)
    (by rw [n_rd, hsN]; simp only []; rw [f_n]; omega)
    (by rw [n_rd, hsN]; rfl)
  obtain ⟨sG, hsG⟩ : ∃ x, x = pcmrec_flush file_encoder 0xFFFFFFFF sN := ⟨_, rfl⟩
  rw [← hsG] at b1 b2 b3 b4 b5
  obtain ⟨g_err, g_wr, g_n, g_fw, g_fs, g_q, g_rec, g_pau, g_warn, g_pre, g_wq, g_dw, g_pr,
    g_ct, g_cl⟩ := flush_frame_fields _ _ b1
  have n_err : sN.errors = 0 := by rw [hsN]; simp only []; rw [f_err]; exact herr
  have n_fw : sN.fnq_wr_pos = 520 := by rw [hsN]; simp only []; rw [f_fw]; exact hfw
  have n_fr : sN.fnq_rd_pos = 520 := by rw [hsN]; exact a3
  have n_tr : sN.trace = s.trace ++ tr1 ++ [call] := by rw [hsN]; simp only []; rw [a6]
  have n_pre : sN.pre_record_ticks = 0 := by rw [hsN]; simp only []; rw [f_pre]; exact hpre
  have n_warn : sN.warnings = s.warnings := by rw [hsN]; simp only []; rw [f_warn]
  have g_empty : pcmrec_fnq_get_filename false sG = (false, none, sG) := by
    simp [pcmrec_fnq_get_filename, pcmrec_fnq_is_empty, b3, g_fw, n_fw, n_fr]
  have hfin : pcmrec_stop_finish file_encoder sN =
      { set_flags sG sG.enc_wr_index CHUNKF_ABORT with
        rec_fdata := { sG.rec_fdata with rec_file := -1 },
        is_recording := false, is_paused := false, dma_lock := true } := by
    unfold pcmrec_stop_finish
    simp only []
    rw [← hsG, g_empty]
    simp [pcmrec_fnq_is_empty, set_flags, set_chunk, b3, g_fw, n_fw, n_fr, g_err, n_err,
      g_pre, n_pre]
  have hstop : pcmrec_stop file_encoder fuel s = some
      { set_flags sG sG.enc_wr_index CHUNKF_ABORT with
        rec_fdata := { sG.rec_fdata with rec_file := -1 },
        is_recording := false, is_paused := false, dma_lock := true } := by
    unfold pcmrec_stop
    rw [if_neg (by rw [hrec]; simp)]
    simp only []
    rw [← hsF, hwait]
    simp only [Option.bind_some, Option.some_bind]
    rw [hns]
    simp only [Option.map_some']
    rw [hfin]
  refine ⟨_, tr1 ++ [call] ++ tr2, hstop, ?_, rfl, rfl, ?_, ?_, ?_, ?_⟩
  · simp only [set_flags, set_chunk]; rw [g_err, n_err]
  · simp only [set_flags, set_chunk]; rw [g_warn, n_warn]
  · simp only [set_flags, set_chunk]; rw [g_pre, n_pre]
  · simp only [set_flags, set_chunk]; rw [b5, n_tr]; simp only [List.append_assoc]
  · have hc : file_events [call] = [] := by
      simp [file_events, hcall]
    have hnum : (sN.chunks sN.enc_rd_index).num_pcm = 0 := by rw [n_rd, hsN]; rfl
    rw [file_events_append, file_events_append, a7, hc, b6, hnum]
    simp only [List.append_nil]

/-- The round trip from a state as the set-up leaves it. -/
theorem round_trip_core (s : PcmRec) (fuel b S d : Nat) (hfuel : 1 ≤ fuel)
    (hrec : s.is_recording = false) (herr : s.errors = 0) (hpre : s.pre_record_ticks = 0)
    (hw : s.enc_wr_index = 0) (hn : 16 < s.enc_num_chunks)
    (hfr : s.fnq_rd_pos = 0) (hfw : s.fnq_wr_pos = 0) (hfs : 780 ≤ s.fnq_size)
    (hflags : ∀ j, 0 ≤ j → j ≤ 15 → (s.chunks j).flags = 0)
    (hfile : s.rec_fdata.rec_file = -1) (hdma : s.dma_wr_pos = s.pcm_rd_pos) :
    ∃ s1 tr,
      round_trip_run file_encoder fuel (List.replicate 10 (fill_payload b S d))
        (List.replicate 5 (fill_payload b S d)) s = some s1 ∧
      s1.errors = 0 ∧ s1.is_recording = false ∧ s1.is_paused = false ∧
      s1.warnings = 0 ∧ s1.pre_record_ticks = 0 ∧
      s1.trace = s.trace ++ tr ∧
      file_events tr =
        [(enc_events.ENC_START_FILE, "a.wav", 0)]
          ++ List.replicate 10 (enc_events.ENC_WRITE_CHUNK, "", S)
          ++ [(enc_events.ENC_END_FILE, "", 0), (enc_events.ENC_START_FILE, "b.wav", 0)]
          ++ List.replicate 5 (enc_events.ENC_WRITE_CHUNK, "", S)
          ++ [(enc_events.ENC_WRITE_CHUNK, "", 0), (enc_events.ENC_END_FILE, "", 0)] := by
  -- record "a.wav"
  obtain ⟨s1, call1, h1, hs1, hcall1⟩ := record_start_fresh s fuel "a.wav" (by decide)
    hrec hpre hw (hflags 0 (by decide) (by decide)) hfr hfw hfs
  have s1_rec : s1.is_recording = true := by rw [hs1]
  have s1_wr : s1.enc_wr_index = 0 := by rw [hs1]; exact hw
  have s1_rd : s1.enc_rd_index = 0 := by rw [hs1]
  have s1_n : s1.enc_num_chunks = s.enc_num_chunks := by rw [hs1]
  have s1_c0 : (s1.chunks 0).flags = 1 := by rw [hs1]; rfl
  have s1_c : ∀ j, 1 ≤ j → j ≤ 15 → (s1.chunks j).flags = 0 := by
    intro j h1 h2
    have hj : ¬ j = 0 := by omega
    rw [hs1]
    simp only [hj, if_false]
    exact hflags j (by omega) h2
  -- 10 chunks
  obtain ⟨C2, B2, P2, h2, hC2a, hC2b⟩ := encode_chunks_payload b S d 10 s1 s1_rec
    (by rw [s1_rd, s1_wr]) (by rw [s1_wr, s1_n]; omega)
  rw [s1_wr] at h2 hC2a hC2b
  obtain ⟨s2, hs2⟩ : ∃ x : PcmRec, x =
      { s1 with
        chunks := C2, num_rec_bytes := B2, num_rec_samples := P2,
        enc_wr_index := 0 + ((10 : Nat) : Int) } := ⟨_, rfl⟩
  rw [← hs2] at h2
  have s2_c : ∀ j, s2.chunks j = C2 j := by intro j; rw [hs2]
  -- record "b.wav"
  obtain ⟨s3, call3, h3, hs3, hcall3⟩ := record_split_fresh s2 fuel "b.wav" (by decide)
    (by rw [hs2]; exact s1_rec) (by rw [hs2]; rfl) (by rw [hs2]; exact s1_rd)
    (by rw [s2_c, hC2b 10 (Or.inr (by decide))]; exact s1_c 10 (by decide) (by decide))
    (by rw [s2_c, hC2a 9 (by decide) (by decide)]
        simp only [s1_c 9 (by decide) (by decide)]; rfl)
    (by rw [hs2, hs1]; exact hfr) (by rw [hs2, hs1]) (by rw [hs2, hs1]; exact hfs)
  have s3_rec : s3.is_recording = true := by rw [hs3, hs2]; exact s1_rec
  have s3_wr : s3.enc_wr_index = 10 := by rw [hs3, hs2]; rfl
  have s3_rd : s3.enc_rd_index = 0 := by rw [hs3, hs2]; exact s1_rd
  have s3_n : s3.enc_num_chunks = s.enc_num_chunks := by rw [hs3, hs2]; exact s1_n
  -- 5 chunks
  obtain ⟨C4, B4, P4, h4, hC4a, hC4b⟩ := encode_chunks_payload b S d 5 s3 s3_rec
    (by rw [s3_rd, s3_wr]; decide) (by rw [s3_wr, s3_n]; omega)
  rw [s3_wr] at h4 hC4a hC4b
  obtain ⟨s4, hs4⟩ : ∃ x : PcmRec, x =
      { s3 with
        chunks := C4, num_rec_bytes := B4, num_rec_samples := P4,
        enc_wr_index := 10 + ((5 : Nat) : Int) } := ⟨_, rfl⟩
  rw [← hs4] at h4
  have s4_c : ∀ j, s4.chunks j = C4 j := by intro j; rw [hs4]
  have s3_low : ∀ j, j < 9 → s3.chunks j = C2 j := by
    intro j hj
    have e1 : ¬ j = 10 := by omega
    have e2 : ¬ j = 9 := by omega
    rw [hs3]
    simp only [e1, e2, if_false]
    exact s2_c j
  have s3_hi : ∀ j, 11 ≤ j → s3.chunks j = C2 j := by
    intro j hj
    have e1 : ¬ j = 10 := by omega
    have e2 : ¬ j = 9 := by omega
    rw [hs3]
    simp only [e1, e2, if_false]
    exact s2_c j
  have z1 : (0 : Nat) &&& CHUNKF_START_FILE = 0 := by decide
  have z2 : (1 : Nat) &&& CHUNKF_START_FILE = 1 := by decide
  -- stop
  obtain ⟨s5, tr5, h5, e_err, e_rec, e_pau, e_warn, e_pre, e_tr, e_ev⟩ :=
    stop_two_files s4 fuel S hfuel
      (by rw [hs4]; exact s3_rec)
      (by rw [hs4, hs3, hs2, hs1]; exact hpre)
      (by rw [hs4, hs3, hs2, hs1]; exact hdma)
      (by rw [hs4, hs3, hs2, hs1]; exact herr)
      (by rw [hs4]; rfl)
      (by rw [hs4]; exact s3_rd)
      (by rw [hs4]; simp only []; rw [s3_n]; exact hn)
      (by rw [hs4, hs3, hs2, hs1]; exact hfr)
      (by rw [hs4, hs3])
      (by rw [hs4, hs3, hs2, hs1]; exact hfs)
      (by rw [hs4, hs3, hs2, hs1]; rfl)
      (by rw [hs4, hs3]; rfl)
      (by rw [hs4, hs3, hs2, hs1]; exact hfile)
      (by rw [s4_c, hC4b 0 (Or.inl (by decide)), s3_low 0 (by decide),
            hC2a 0 (by decide) (by decide), s1_c0]
          exact ⟨z2, rfl⟩)
      (fun j h1 h2 => by
        rw [s4_c, hC4b j (Or.inl (by omega)), s3_low j (by omega),
          hC2a j (by omega) (by omega), s1_c j (by omega) (by omega)]
        exact ⟨z1, rfl⟩)
      (by rw [s4_c, hC4b 9 (Or.inl (by decide)), hs3]
          simp only [s2_c, hC2a 9 (by decide) (by decide)]
          exact ⟨rfl, rfl⟩)
      (by rw [s4_c, hC4a 10 (by decide) (by decide)]
          have : (s3.chunks 10).flags = 1 := by rw [hs3]; rfl
          rw [this]
          exact ⟨z2, rfl⟩)
      (fun j h1 h2 => by
        rw [s4_c, hC4a j (by omega) (by omega), s3_hi j h1,
          hC2b j (Or.inr (by omega)), s1_c j (by omega) (by omega)]
        exact ⟨z1, rfl⟩)
      (by rw [s4_c, hC4b 15 (Or.inr (by decide)), s3_hi 15 (by decide),
            hC2b 15 (Or.inr (by decide))]
          exact s1_c 15 (by decide) (by decide))
  have s4_tr : s4.trace = s.trace ++ [call1] ++ [call3] := by rw [hs4, hs3, hs2, hs1]
  have s4_warn : s4.warnings = 0 := by rw [hs4, hs3, hs2, hs1]
  refine ⟨s5, [call1] ++ [call3] ++ tr5, ?_, e_err, e_rec, e_pau, by rw [e_warn, s4_warn],
    e_pre, by rw [e_tr, s4_tr]; simp only [List.append_assoc], ?_⟩
  · unfold round_trip_run
    rw [h1]
    simp only [Option.bind_some, Option.some_bind]
    rw [h2, h3]
    simp only [Option.bind_some, Option.some_bind]
    rw [h4, h5]
  · have hc1 : file_events [call1] = [] := by simp [file_events, hcall1]
    have hc3 : file_events [call3] = [] := by simp [file_events, hcall3]
    rw [file_events_append, file_events_append, hc1, hc3, e_ev]
    rfl

/-- What `enc_set_parameters` leaves and resets. -/
theorem enc_set_parameters_state (params : enc_parameters) (s : PcmRec) :
    (enc_set_parameters (some params) s).2.is_recording = s.is_recording ∧
    (enc_set_parameters (some params) s).2.errors = s.errors ∧
    (enc_set_parameters (some params) s).2.pre_record_ticks = s.pre_record_ticks ∧
    (enc_set_parameters (some params) s).2.rec_fdata = s.rec_fdata ∧
    (enc_set_parameters (some params) s).2.trace = s.trace ∧
    (enc_set_parameters (some params) s).2.dma_wr_pos = s.dma_wr_pos ∧
    (enc_set_parameters (some params) s).2.pcm_rd_pos = s.dma_wr_pos ∧
    (enc_set_parameters (some params) s).2.fnq_rd_pos = 0 ∧
    (enc_set_parameters (some params) s).2.fnq_wr_pos = 0 ∧
    (enc_set_parameters (some params) s).2.enc_rd_index = 0 ∧
    (enc_set_parameters (some params) s).2.enc_wr_index =
      (if (enc_set_parameters (some params) s).2.enc_num_chunks > 0 then 0
       else (enc_set_parameters (some params) s).2.enc_num_chunks) ∧
    (∀ j, 0 ≤ j → j < (enc_set_parameters (some params) s).2.enc_num_chunks →
      ((enc_set_parameters (some params) s).2.chunks j).flags = 0) := by
  refine ⟨rfl, rfl, rfl, rfl, rfl, rfl, rfl, rfl, rfl, rfl, rfl, ?_⟩
  intro j h1 h2
  show (if 0 ≤ j ∧ j < _ then _ else _ : enc_chunk_hdr).flags = 0
  rw [if_pos ⟨h1, h2⟩]

/-- The state the set-up leaves, given a ring of positive size. -/
theorem round_trip_setup_fresh (buffer buffer_size : Nat) (params : enc_parameters)
    (s0 : PcmRec)
    (hn : 0 < (round_trip_setup buffer buffer_size params s0).enc_num_chunks) :
    (round_trip_setup buffer buffer_size params s0).is_recording = false ∧
    (round_trip_setup buffer buffer_size params s0).errors = 0 ∧
    (round_trip_setup buffer buffer_size params s0).pre_record_ticks = 0 ∧
    (round_trip_setup buffer buffer_size params s0).enc_wr_index = 0 ∧
    (round_trip_setup buffer buffer_size params s0).fnq_rd_pos = 0 ∧
    (round_trip_setup buffer buffer_size params s0).fnq_wr_pos = 0 ∧
    (∀ j, 0 ≤ j → j < (round_trip_setup buffer buffer_size params s0).enc_num_chunks →
      ((round_trip_setup buffer buffer_size params s0).chunks j).flags = 0) ∧
    (round_trip_setup buffer buffer_size params s0).rec_fdata.rec_file = -1 ∧
    (round_trip_setup buffer buffer_size params s0).dma_wr_pos
      = (round_trip_setup buffer buffer_size params s0).pcm_rd_pos ∧
    (round_trip_setup buffer buffer_size params s0).trace = [] := by
  unfold round_trip_setup at hn ⊢
  simp only [] at hn ⊢
  obtain ⟨e1, e2, e3, e4, e5, e6, e7, e8, e9, e10, e11, e12⟩ :=
    enc_set_parameters_state params
      (pcmrec_set_recording_options freq_44100 true round_trip_options
        (pcmrec_init buffer buffer_size { s0 with trace := [], closed := [], fsynced := [] }))
  refine ⟨?_, ?_, ?_, ?_, e8, e9, e12, ?_, ?_, ?_⟩
  · rw [e1]; rfl
  · rw [e2]; rfl
  · rw [e3]; rfl
  · rw [e11, if_pos hn]
  · rw [e4]; rfl
  · rw [e6, e7]
  · rw [e5]; rfl

/-- C7: the round trip. After `init`, `setOptions` (44100 Hz, line-in, 2
channels, no pre-record) and the encoder's set-up, with a chunk ring of more
than 16 slots (and the filename queue at its minimum of 16 paths or more),
the sequence record "a.wav", 10 pushed chunks of `S` samples, record "b.wav",
5 pushed chunks of `S` samples, stop, runs to completion whenever the wait of
Stop may yield at least once (`fuel ≥ 1`). The encoder receives exactly the
file events `round_trip_events S`: a start for "a.wav", 10 chunk writes of `S`
samples, one end; a start for "b.wav", 5 chunk writes of `S` samples, the write
of the empty end-marker chunk, one end. The session ends idle with no error
bit: `errors = 0` and the status word is 0. The encoder is `file_encoder`,
which finds no capture data to pull when Stop waits for it. -/
theorem C7_round_trip (s0 : PcmRec) (buffer buffer_size : Nat) (params : enc_parameters)
    (b S d fuel : Nat) (hfuel : 1 ≤ fuel)
    (hn : 16 < (round_trip_setup buffer buffer_size params s0).enc_num_chunks)
    (hq : ((FNQ_MIN_NUM_PATHS * MAX_PATH : Nat) : Int)
            ≤ (round_trip_setup buffer buffer_size params s0).fnq_size) :
    ∃ s1,
      round_trip_run file_encoder fuel (List.replicate 10 (fill_payload b S d))
        (List.replicate 5 (fill_payload b S d))
        (round_trip_setup buffer buffer_size params s0) = some s1 ∧
      file_events s1.trace = round_trip_events S ∧
      s1.errors = 0 ∧
      pcm_rec_status s1 &&& AUDIO_STATUS_ERROR = 0 ∧
      pcm_rec_status s1 = 0 ∧
      s1.is_recording = false := by
  obtain ⟨f1, f2, f3, f4, f5, f6, f7, f8, f9, f10⟩ :=
    round_trip_setup_fresh buffer buffer_size params s0 (by omega)
  have hq2 : (780 : Int) ≤ (round_trip_setup buffer buffer_size params s0).fnq_size := by
    have : ((FNQ_MIN_NUM_PATHS * MAX_PATH : Nat) : Int) = 4160 := by decide
    omega
  obtain ⟨s1, tr, h1, e_err, e_rec, e_pau, e_warn, e_pre, e_tr, e_ev⟩ :=
    round_trip_core (round_trip_setup buffer buffer_size params s0) fuel b S d hfuel
      f1 f2 f3 f4 hn f5 f6 hq2 (fun j h1 h2 => f7 j h1 (by omega)) f8 f9
  have hst : pcm_rec_status s1 = 0 := by
    simp [pcm_rec_status, e_err, e_rec, e_pau, e_warn, e_pre]
  refine ⟨s1, h1, ?_, e_err, ?_, hst, e_rec⟩
  · rw [e_tr, f10, List.nil_append, e_ev]
    rfl
  · rw [hst]; rfl

/-- Witness of C7: a recording buffer that gives a ring of 29 chunks and a
filename queue of 18 paths. -/
theorem C7_round_trip_witness :
    ∃ s1,
      round_trip_run file_encoder 1 (List.replicate 10 (fill_payload 4096 1024 7))
        (List.replicate 5 (fill_payload 4096 1024 7))
        (round_trip_setup 100 2151376 round_trip_params boot_state) = some s1 ∧
      file_events s1.trace = round_trip_events 1024 ∧
      s1.errors = 0 ∧
      pcm_rec_status s1 &&& AUDIO_STATUS_ERROR = 0 ∧
      pcm_rec_status s1 = 0 ∧
      s1.is_recording = false :=
  C7_round_trip boot_state 100 2151376 round_trip_params 4096 1024 7 1 (by decide)
    (by decide) (by decide)

theorem land_land_of_land (x m b : Nat) (hb : m &&& b = b) : (x &&& m) &&& b = x &&& b := by
  rw [Nat.land_assoc, hb]

theorem file_encoder_keeps_ring : new_stream_keeps_ring file_encoder := by
  intro data s
  exact ⟨rfl, rfl, fun _ => rfl⟩

/-- The "end chunk" part when the chunk at the write index is an unprocessed
start: the end flag is taken out of the request. -/
theorem new_stream_end_on_start (s : PcmRec)
    (hstart : (GET_ENC_CHUNK s s.enc_wr_index).flags &&& CHUNKF_START_FILE ≠ 0) :
    new_stream_end CHUNKF_END_FILE s =
      (set_flags s s.enc_wr_index
          ((GET_ENC_CHUNK s s.enc_wr_index).flags &&& (CHUNKF_START_FILE ||| CHUNKF_END_FILE)),
        0, s.enc_wr_index) := by
  have h1 : ((GET_ENC_CHUNK s s.enc_wr_index).flags &&& (CHUNKF_START_FILE ||| CHUNKF_END_FILE))
      &&& CHUNKF_START_FILE ≠ 0 := by
    rw [land_land_of_land _ _ _ (by decide)]; exact hstart
  have h2 : CHUNKF_END_FILE &&& unot CHUNKF_END_FILE = 0 := by decide
  have h3 : CHUNKF_END_FILE &&& CHUNKF_END_FILE ≠ 0 := by decide
  unfold new_stream_end
  simp only [h3, ne_eq, not_false_eq_true, if_true]
  have h4 : (GET_ENC_CHUNK (set_flags s s.enc_wr_index
        ((GET_ENC_CHUNK s s.enc_wr_index).flags &&& (CHUNKF_START_FILE ||| CHUNKF_END_FILE)))
        s.enc_wr_index).flags
      = (GET_ENC_CHUNK s s.enc_wr_index).flags &&& (CHUNKF_START_FILE ||| CHUNKF_END_FILE) := by
    simp [GET_ENC_CHUNK, set_flags, set_chunk]
  rw [h4, if_pos h1, h2]


/-- C9: when the chunk at the write index carries the start-of-file flag (a
start not yet followed by a finished chunk), `pcmrec_new_stream` called with
only the end-of-file flag returns (whatever the fuel) and drops the end: the
encoder receives one new-stream notification, for the chunk at the write
index, whose flags are 0 (so without the end flag); and, the encoder's callback
leaving ring indices and header flags alone, the write and read index are
unchanged, no chunk of the ring gains the end-of-file flag, and the chunk at
the write index still carries start-of-file. -/
theorem C9_end_on_start_dropped (enc : Encoder) (fuel : Nat) (filename : Option String)
    (pre_index : Int) (s : PcmRec)
    (hstart : (GET_ENC_CHUNK s s.enc_wr_index).flags &&& CHUNKF_START_FILE ≠ 0)
    (henc : new_stream_keeps_ring enc) :
    ∃ s1 call,
      pcmrec_new_stream enc fuel filename CHUNKF_END_FILE pre_index s = some s1 ∧
      s1.trace = s.trace ++ [call] ∧
      call.event = enc_events.ENC_REC_NEW_STREAM ∧
      call.chunk = s.enc_wr_index ∧
      call.flags = 0 ∧
      call.flags &&& CHUNKF_END_FILE = 0 ∧
      s1.enc_wr_index = s.enc_wr_index ∧
      s1.enc_rd_index = s.enc_rd_index ∧
      (∀ j, (GET_ENC_CHUNK s1 j).flags &&& CHUNKF_END_FILE ≠ 0 →
              (GET_ENC_CHUNK s j).flags &&& CHUNKF_END_FILE ≠ 0) ∧
      (GET_ENC_CHUNK s1 s1.enc_wr_index).flags &&& CHUNKF_START_FILE ≠ 0 := by
  obtain ⟨s0, hs0⟩ : ∃ s0, s0 = set_flags s s.enc_wr_index
      ((GET_ENC_CHUNK s s.enc_wr_index).flags &&& (CHUNKF_START_FILE ||| CHUNKF_END_FILE)) :=
    ⟨_, rfl⟩
  have hfl : ∀ j, (s0.chunks j).flags =
      if j = s.enc_wr_index
      then (s.chunks s.enc_wr_index).flags &&& (CHUNKF_START_FILE ||| CHUNKF_END_FILE)
      else (s.chunks j).flags := by
    intro j
    rw [hs0]
    by_cases hj : j = s.enc_wr_index <;> simp [set_flags, set_chunk, GET_ENC_CHUNK, hj]
  have hw0 : s0.enc_wr_index = s.enc_wr_index := by rw [hs0]; rfl
  have hr0 : s0.enc_rd_index = s.enc_rd_index := by rw [hs0]; rfl
  have ht0 : s0.trace = s.trace := by rw [hs0]; rfl
  obtain ⟨hw, hr, hf⟩ := henc { flags := 0, pre_chunk := none, chunk := s.enc_wr_index } s0
  have hrun : pcmrec_new_stream enc fuel filename CHUNKF_END_FILE pre_index s =
      some (enc_events_callback_new_stream enc
        { flags := 0, pre_chunk := none, chunk := s.enc_wr_index } s0).2 := by
    unfold pcmrec_new_stream
    rw [new_stream_end_on_start s hstart, ← hs0]
    simp
  refine ⟨_,
    { event := enc_events.ENC_REC_NEW_STREAM, flags := 0, chunk := s.enc_wr_index,
      hdr := s0.chunks s.enc_wr_index, filename := "",
      rec_file := s0.rec_fdata.rec_file,
      num_pcm_samples := s0.rec_fdata.num_pcm_samples },
    hrun, ?_, rfl, rfl, rfl, Nat.zero_and _, ?_, ?_, ?_, ?_⟩
  · show s0.trace ++ _ = s.trace ++ _
    rw [ht0]
  · show (enc.new_stream _ s0).2.enc_wr_index = _
    rw [hw, hw0]
  · show (enc.new_stream _ s0).2.enc_rd_index = _
    rw [hr, hr0]
  · intro j
    show ((enc.new_stream _ s0).2.chunks j).flags &&& _ ≠ 0 → (s.chunks j).flags &&& _ ≠ 0
    rw [hf j, hfl j]
    by_cases hj : j = s.enc_wr_index
    · rw [if_pos hj, land_land_of_land _ _ _ (by decide), hj]
      exact id
    · rw [if_neg hj]
      exact id
  · show ((enc.new_stream _ s0).2.chunks (enc.new_stream _ s0).2.enc_wr_index).flags &&& _ ≠ 0
    rw [hw, hw0, hf, hfl, if_pos rfl, land_land_of_land _ _ _ (by decide)]
    exact hstart

/-- Witness of C9: a recording that has just been started, with an encoder that
takes note of the notification only. -/
theorem C9_end_on_start_dropped_witness :
    (GET_ENC_CHUNK start_at_write start_at_write.enc_wr_index).flags &&& CHUNKF_START_FILE ≠ 0 ∧
    new_stream_keeps_ring file_encoder ∧
    ∃ s1 call,
      pcmrec_new_stream file_encoder 0 none CHUNKF_END_FILE 0 start_at_write = some s1 ∧
      s1.trace = start_at_write.trace ++ [call] ∧
      call.event = enc_events.ENC_REC_NEW_STREAM ∧
      call.chunk = start_at_write.enc_wr_index ∧
      call.flags = 0 ∧
      call.flags &&& CHUNKF_END_FILE = 0 ∧
      s1.enc_wr_index = start_at_write.enc_wr_index ∧
      s1.enc_rd_index = start_at_write.enc_rd_index ∧
      (∀ j, (GET_ENC_CHUNK s1 j).flags &&& CHUNKF_END_FILE ≠ 0 →
              (GET_ENC_CHUNK start_at_write j).flags &&& CHUNKF_END_FILE ≠ 0) ∧
      (GET_ENC_CHUNK s1 s1.enc_wr_index).flags &&& CHUNKF_START_FILE ≠ 0 :=
  ⟨by decide, file_encoder_keeps_ring,
   C9_end_on_start_dropped file_encoder 0 none 0 start_at_write (by decide)
     file_encoder_keeps_ring⟩

/-- C10 (as stated) fails. (1) Two ready chunks of 42949673 samples each, a
window of 1 second at 44100 Hz: `R * T * HZ = 4410000` fits the machine word
and the claim asks for `min(2, ceil(44100 / 42949673)) = 1` chunk, the read
index one slot behind the write index. The code computes a chunk's sample ticks
as `42949673 * 100` modulo `2 ^ 32`, which is 4, never reaches 4410000, and
selects both chunks: the read index ends 2 slots behind (slot 0) and the sample
counter holds both chunks. (2) With the sample rate 0 the claim asks for
`min(2, 0) = 0` chunks, and the code selects 1. -/
theorem C10_counterexample :
    (44100 * 1 * HZ < 2 ^ 32 ∧
     num_ready (prerecorded_ring 44100 (1 * HZ) 42949673) = 2 ∧
     spec_pre_chunks 2 1 44100 42949673 = 1 ∧
     (pcmrec_record file_encoder 0 "a.wav" (prerecorded_ring 44100 (1 * HZ) 42949673)).map
         (fun s => (s.enc_rd_index, s.num_rec_samples))
       = some (0, 2 * 42949673) ∧
     ¬ ((pcmrec_record file_encoder 0 "a.wav" (prerecorded_ring 44100 (1 * HZ) 42949673)).map
         (fun s => s.enc_rd_index)
       = some (slot_behind 4 2 (spec_pre_chunks 2 1 44100 42949673)))) ∧
    (spec_pre_chunks 2 1 0 1000 = 0 ∧
     (pcmrec_record file_encoder 0 "a.wav" (prerecorded_ring 0 (1 * HZ) 1000)).map
         (fun s => (s.enc_rd_index, s.num_rec_samples))
       = some (1, 1000) ∧
     ¬ ((pcmrec_record file_encoder 0 "a.wav" (prerecorded_ring 0 (1 * HZ) 1000)).map
         (fun s => s.enc_rd_index)
       = some (slot_behind 4 2 (spec_pre_chunks 2 1 0 1000)))) := by
  decide

theorem ceil_div_le_iff (A S k : Nat) (hS : 0 < S) : (A + S - 1) / S ≤ k ↔ A ≤ k * S := by
  rw [← Nat.lt_succ_iff, Nat.div_lt_iff_lt_mul hS]
  have : (k + 1) * S = k * S + S := by ring
  rw [Nat.succ_eq_add_one, this]
  omega

theorem slot_behind_zero (n wr : Int) (hwr : 0 ≤ wr ∧ wr < n) : slot_behind n wr 0 = wr := by
  unfold slot_behind
  simp only [Nat.cast_zero, sub_zero]
  exact Int.emod_eq_of_lt hwr.1 hwr.2

theorem slot_behind_range (n wr : Int) (k : Nat) (hn : 0 < n) :
    0 ≤ slot_behind n wr k ∧ slot_behind n wr k < n :=
  ⟨Int.emod_nonneg _ (by omega), Int.emod_lt_of_pos _ hn⟩

theorem DEC_slot_behind (n wr : Int) (k : Nat) (hn : 0 < n) :
    DEC_ENC_INDEX n (slot_behind n wr k) = slot_behind n wr (k + 1) := by
  have hr := slot_behind_range n wr k hn
  have e : slot_behind n wr (k + 1) = (slot_behind n wr k - 1) % n := by
    unfold slot_behind
    have h1 : wr - ((k + 1 : Nat) : Int) = (wr - k) - 1 := by push_cast; ring
    have h2 : ((wr - k) % n - 1) % n = ((wr - k) % n % n - 1 % n) % n := Int.sub_emod _ _ _
    rw [h1, h2, Int.emod_emod]
    exact Int.sub_emod _ _ _
  rw [e]
  unfold DEC_ENC_INDEX
  split
  · have h0 : slot_behind n wr k = 0 := by omega
    rw [h0]
    have : ((0 : Int) - 1) % n = (0 - 1 + n) % n := by rw [Int.add_emod_self]
    rw [this, Int.emod_eq_of_lt (by omega) (by omega)]
    ring
  · rw [Int.emod_eq_of_lt (by omega) (by omega)]

/-- One step of the backward walk over a chunk that holds data. -/
theorem prerecord_walk_step (target avail : Nat) (i rd acc : _) (st : PcmRec)
    (hdata : (st.chunks (DEC_ENC_INDEX st.enc_num_chunks i)).enc_data ≠ none) :
    prerecord_walk target (avail + 1) i rd acc st =
      if uadd acc (umul (st.chunks (DEC_ENC_INDEX st.enc_num_chunks i)).num_pcm HZ) ≥ target
      then (DEC_ENC_INDEX st.enc_num_chunks i,
            uadd acc (umul (st.chunks (DEC_ENC_INDEX st.enc_num_chunks i)).num_pcm HZ),
            { st with
              num_rec_bytes := uadd st.num_rec_bytes
                (st.chunks (DEC_ENC_INDEX st.enc_num_chunks i)).enc_size,
              num_rec_samples := uadd st.num_rec_samples
                (st.chunks (DEC_ENC_INDEX st.enc_num_chunks i)).num_pcm })
      else prerecord_walk target avail (DEC_ENC_INDEX st.enc_num_chunks i)
            (DEC_ENC_INDEX st.enc_num_chunks i)
            (uadd acc (umul (st.chunks (DEC_ENC_INDEX st.enc_num_chunks i)).num_pcm HZ))
            { st with
              num_rec_bytes := uadd st.num_rec_bytes
                (st.chunks (DEC_ENC_INDEX st.enc_num_chunks i)).enc_size,
              num_rec_samples := uadd st.num_rec_samples
                (st.chunks (DEC_ENC_INDEX st.enc_num_chunks i)).num_pcm } := by
  rw [prerecord_walk]
  simp only [GET_ENC_CHUNK]
  rw [if_neg hdata]

/-- The backward walk over chunks that all hold data and `S` samples: after `m`
chunks that did not reach `A * HZ` sample ticks, with `avail` chunks left, the
walk ends `min (m + avail) (ceil (A / S))` slots behind the write index. -/
theorem prerecord_walk_uniform (A S : Nat) (hS : 0 < S) (n wr : Int) (hn : 0 < n) :
    ∀ (avail m : Nat) (st : PcmRec),
      st.enc_num_chunks = n →
      (∀ k, m < k → k ≤ m + avail →
        (st.chunks (slot_behind n wr k)).enc_data ≠ none ∧
        (st.chunks (slot_behind n wr k)).num_pcm = S) →
      m < (A + S - 1) / S →
      min (m + avail) ((A + S - 1) / S) * S * HZ < 2 ^ 32 →
      st.num_rec_samples = m * S →
      st.num_rec_bytes = bytes_behind st.chunks n wr m % 2 ^ 32 →
      ∃ st1,
        prerecord_walk (A * HZ) avail (slot_behind n wr m) (slot_behind n wr m)
            (m * S * HZ) st
          = (slot_behind n wr (min (m + avail) ((A + S - 1) / S)),
             min (m + avail) ((A + S - 1) / S) * S * HZ, st1) ∧
        st1.num_rec_samples = min (m + avail) ((A + S - 1) / S) * S ∧
        st1.num_rec_bytes
          = bytes_behind st.chunks n wr (min (m + avail) ((A + S - 1) / S)) % 2 ^ 32 ∧
        st1 = { st with num_rec_bytes := st1.num_rec_bytes,
                        num_rec_samples := st1.num_rec_samples } := by
  obtain ⟨C, hC⟩ : ∃ C, C = (A + S - 1) / S := ⟨_, rfl⟩
  have hiff : ∀ k, C ≤ k ↔ A ≤ k * S := fun k => hC ▸ ceil_div_le_iff A S k hS
  rw [← hC]
  have hHZ : 0 < HZ := by decide
  intro avail
  induction avail with
  | zero =>
    intro m st _ _ hm _ hs hb
    have hmin : min (m + 0) C = m := by
      rw [Nat.add_zero]; exact Nat.min_eq_left (Nat.le_of_lt hm)
    rw [hmin]
    exact ⟨st, by rw [prerecord_walk], hs, hb, rfl⟩
  | succ avail ih =>
    intro m st hnn hch hm hov hs hb
    obtain ⟨hdata, hnum⟩ := hch (m + 1) (by omega) (by omega)
    have hdec : DEC_ENC_INDEX st.enc_num_chunks (slot_behind n wr m)
        = slot_behind n wr (m + 1) := by
      rw [hnn]; exact DEC_slot_behind n wr m hn
    have hle : m + 1 ≤ min (m + (avail + 1)) C := by
      apply Nat.le_min.mpr; omega
    have hbound : (m + 1) * S * HZ < 2 ^ 32 :=
      Nat.lt_of_le_of_lt
        (Nat.mul_le_mul_right HZ (Nat.mul_le_mul_right S hle)) hov
    have hexp : (m + 1) * S * HZ = m * S * HZ + S * HZ := by ring
    have hSHZ : S * HZ < 2 ^ 32 := by omega
    have hacc : uadd (m * S * HZ) (umul S HZ) = (m + 1) * S * HZ := by
      unfold uadd umul ULONG_RANGE
      rw [Nat.mod_eq_of_lt hSHZ, ← hexp, Nat.mod_eq_of_lt hbound]
    have hSle : (m + 1) * S ≤ (m + 1) * S * HZ := Nat.le_mul_of_pos_right _ hHZ
    have hsam : uadd st.num_rec_samples S = (m + 1) * S := by
      unfold uadd ULONG_RANGE
      rw [hs, Nat.mod_eq_of_lt (by
        have : (m + 1) * S = m * S + S := by ring
        omega)]
      ring
    have hbyt : uadd st.num_rec_bytes (st.chunks (slot_behind n wr (m + 1))).enc_size
        = bytes_behind st.chunks n wr (m + 1) % 2 ^ 32 := by
      unfold uadd ULONG_RANGE
      rw [hb, Nat.mod_add_mod]
      rfl
    rw [prerecord_walk_step _ _ _ _ _ _ (by rw [hdec]; exact hdata), hdec, hnum, hacc]
    by_cases hstop : A ≤ (m + 1) * S
    · have hCm : C = m + 1 := by
        have := (hiff (m + 1)).mpr hstop
        omega
      have hmin : min (m + (avail + 1)) C = m + 1 := by rw [hCm]; omega
      rw [if_pos (Nat.mul_le_mul_right HZ hstop), hmin]
      exact ⟨_, rfl, hsam, hbyt, rfl⟩
    · have hlt : ¬ ((m + 1) * S * HZ ≥ A * HZ) := by
        intro h
        exact hstop (Nat.le_of_mul_le_mul_right h hHZ)
      have hCm : m + 1 < C := by
        have := (hiff (m + 1)).not.mpr hstop
        omega
      have hidx : m + 1 + avail = m + (avail + 1) := by omega
      rw [if_neg hlt]
      obtain ⟨st1, h1, h2, h3, h4⟩ := ih (m + 1)
        { st with
          num_rec_bytes := uadd st.num_rec_bytes
            (st.chunks (slot_behind n wr (m + 1))).enc_size,
          num_rec_samples := uadd st.num_rec_samples S }
        hnn (fun k hk1 hk2 => hch k (by omega) (by omega)) hCm
        (by rw [hidx]; exact hov) hsam hbyt
      rw [hidx] at h1 h2 h3
      exact ⟨st1, h1, h2, h3, h4⟩

theorem fnq_add_filename_ring (name : String) (s : PcmRec) :
    (pcmrec_fnq_add_filename name s).2.enc_rd_index = s.enc_rd_index ∧
    (pcmrec_fnq_add_filename name s).2.enc_wr_index = s.enc_wr_index ∧
    (pcmrec_fnq_add_filename name s).2.num_rec_bytes = s.num_rec_bytes ∧
    (pcmrec_fnq_add_filename name s).2.num_rec_samples = s.num_rec_samples := by
  unfold pcmrec_fnq_add_filename
  simp only []
  split <;> exact ⟨rfl, rfl, rfl, rfl⟩

theorem fnq_replace_tail_ring (name : String) (s : PcmRec) :
    (pcmrec_fnq_replace_tail name s).2.enc_rd_index = s.enc_rd_index ∧
    (pcmrec_fnq_replace_tail name s).2.enc_wr_index = s.enc_wr_index ∧
    (pcmrec_fnq_replace_tail name s).2.num_rec_bytes = s.num_rec_bytes ∧
    (pcmrec_fnq_replace_tail name s).2.num_rec_samples = s.num_rec_samples := by
  unfold pcmrec_fnq_replace_tail
  split <;> exact ⟨rfl, rfl, rfl, rfl⟩

/-- An empty filename queue of more than one path is not full. -/
theorem fnq_empty_not_full (s : PcmRec)
    (hempty : s.fnq_rd_pos = s.fnq_wr_pos) (hq : (MAX_PATH : Int) < s.fnq_size) :
    pcmrec_fnq_is_full s = false := by
  unfold pcmrec_fnq_is_full
  simp only [hempty, sub_self, lt_self_iff_false, if_false, decide_eq_false_iff_not]
  omega

theorem callback_new_stream_kept (enc : Encoder) (henc : new_stream_keeps_counters enc)
    (data : enc_buffer_event_data) (s : PcmRec) :
    (enc_events_callback_new_stream enc data s).1.chunk = data.chunk ∧
    (enc_events_callback_new_stream enc data s).2.enc_wr_index = s.enc_wr_index ∧
    (enc_events_callback_new_stream enc data s).2.enc_rd_index = s.enc_rd_index ∧
    (enc_events_callback_new_stream enc data s).2.num_rec_bytes = s.num_rec_bytes ∧
    (enc_events_callback_new_stream enc data s).2.num_rec_samples = s.num_rec_samples ∧
    (enc_events_callback_new_stream enc data s).2.fnq_rd_pos = s.fnq_rd_pos ∧
    (enc_events_callback_new_stream enc data s).2.fnq_wr_pos = s.fnq_wr_pos ∧
    (enc_events_callback_new_stream enc data s).2.fnq_size = s.fnq_size :=
  henc data s

/-- A start with pre-recorded data, with an empty filename queue that has
room: `pcmrec_new_stream` returns, and ring indices and counters stay. -/
theorem new_stream_prerecord_kept (enc : Encoder) (henc : new_stream_keeps_counters enc)
    (fuel : Nat) (name : String) (pre_index : Int) (s : PcmRec)
    (hempty : s.fnq_rd_pos = s.fnq_wr_pos) (hq : (MAX_PATH : Int) < s.fnq_size) :
    ∃ s1,
      pcmrec_new_stream enc fuel (some name) (CHUNKF_START_FILE ||| CHUNKF_PRERECORD)
        pre_index s = some s1 ∧
      s1.enc_rd_index = s.enc_rd_index ∧ s1.enc_wr_index = s.enc_wr_index ∧
      s1.num_rec_bytes = s.num_rec_bytes ∧ s1.num_rec_samples = s.num_rec_samples := by
  have e1 : (CHUNKF_START_FILE ||| CHUNKF_PRERECORD) &&& CHUNKF_END_FILE = 0 := by decide
  have e2 : (CHUNKF_START_FILE ||| CHUNKF_PRERECORD) &&& CHUNKF_START_FILE ≠ 0 := by decide
  have e3 : (CHUNKF_START_FILE ||| CHUNKF_PRERECORD) &&& CHUNKF_PRERECORD ≠ 0 := by decide
  unfold pcmrec_new_stream new_stream_end new_stream_start
  simp only [e1, e2, e3, ne_eq, not_true_eq_false, not_false_eq_true, if_true, if_false,
    Option.map_some', Option.getD_some]
  obtain ⟨s0, hs0⟩ : ∃ s0, s0 = set_flags s pre_index
      ((GET_ENC_CHUNK s pre_index).flags &&& (CHUNKF_START_FILE ||| CHUNKF_PRERECORD)) :=
    ⟨_, rfl⟩
  rw [← hs0]
  obtain ⟨hc, hw, hr, hb, hsm, hfr, hfw, hfs⟩ := callback_new_stream_kept enc henc
    { flags := CHUNKF_START_FILE ||| CHUNKF_PRERECORD, pre_chunk := some pre_index,
      chunk := s.enc_wr_index } s0
  obtain ⟨sc, hsc⟩ : ∃ sc, sc = (enc_events_callback_new_stream enc
      { flags := CHUNKF_START_FILE ||| CHUNKF_PRERECORD, pre_chunk := some pre_index,
        chunk := s.enc_wr_index } s0).2 := ⟨_, rfl⟩
  rw [← hsc] at hw hr hb hsm hfr hfw hfs ⊢
  obtain ⟨sd, hsd⟩ : ∃ sd, sd = set_flags sc pre_index
      ((GET_ENC_CHUNK sc pre_index).flags ||| CHUNKF_START_FILE) := ⟨_, rfl⟩
  rw [← hsd]
  have hs0f : s0.fnq_rd_pos = s.fnq_rd_pos ∧ s0.fnq_wr_pos = s.fnq_wr_pos ∧
      s0.fnq_size = s.fnq_size ∧ s0.enc_rd_index = s.enc_rd_index ∧
      s0.enc_wr_index = s.enc_wr_index ∧ s0.num_rec_bytes = s.num_rec_bytes ∧
      s0.num_rec_samples = s.num_rec_samples := by
    rw [hs0]; exact ⟨rfl, rfl, rfl, rfl, rfl, rfl, rfl⟩
  have hsdf : sd.fnq_rd_pos = sc.fnq_rd_pos ∧ sd.fnq_wr_pos = sc.fnq_wr_pos ∧
      sd.fnq_size = sc.fnq_size ∧ sd.enc_rd_index = sc.enc_rd_index ∧
      sd.enc_wr_index = sc.enc_wr_index ∧ sd.num_rec_bytes = sc.num_rec_bytes ∧
      sd.num_rec_samples = sc.num_rec_samples := by
    rw [hsd]; exact ⟨rfl, rfl, rfl, rfl, rfl, rfl, rfl⟩
  obtain ⟨a1, a2, a3, a4, a5, a6, a7⟩ := hs0f
  obtain ⟨b1, b2, b3, b4, b5, b6, b7⟩ := hsdf
  obtain ⟨fn, hfn⟩ : ∃ fn, fn =
      (if ¬(GET_ENC_CHUNK s0 pre_index).flags &&& CHUNKF_START_FILE = 0
       then fnq_add_kind.replace_tail else fnq_add_kind.add_filename) := ⟨_, rfl⟩
  rw [← hfn]
  have hfull : pcmrec_fnq_is_full sd = false :=
    fnq_empty_not_full sd (by rw [b1, b2, hfr, hfw, a1, a2, hempty])
      (by rw [b3, hfs, a3]; exact hq)
  rw [hfull]
  simp only [Bool.false_eq_true, and_false, if_false]
  refine ⟨_, rfl, ?_⟩
  cases fn
  · obtain ⟨c1, c2, c3, c4⟩ := fnq_replace_tail_ring name sd
    exact ⟨by rw [c1, b4, hr, a4], by rw [c2, b5, hw, a5], by rw [c3, b6, hb, a6],
      by rw [c4, b7, hsm, a7]⟩
  · obtain ⟨c1, c2, c3, c4⟩ := fnq_add_filename_ring name sd
    exact ⟨by rw [c1, b4, hr, a4], by rw [c2, b5, hw, a5], by rw [c3, b6, hb, a6],
      by rw [c4, b7, hsm, a7]⟩

/-- A start without pre-recorded data, with an empty filename queue that has
room: `pcmrec_new_stream` returns whatever the fuel, the counters are reset and
the ring indices stay. -/
theorem new_stream_plain_kept (enc : Encoder) (henc : new_stream_keeps_counters enc)
    (fuel : Nat) (name : String) (pre_index : Int) (s : PcmRec)
    (hempty : s.fnq_rd_pos = s.fnq_wr_pos) (hq : (MAX_PATH : Int) < s.fnq_size) :
    ∃ s1,
      pcmrec_new_stream enc fuel (some name) CHUNKF_START_FILE pre_index s = some s1 ∧
      s1.enc_rd_index = s.enc_rd_index ∧ s1.enc_wr_index = s.enc_wr_index ∧
      s1.num_rec_bytes = 0 ∧ s1.num_rec_samples = 0 := by
  have e1 : CHUNKF_START_FILE &&& CHUNKF_END_FILE = 0 := by decide
  have e2 : CHUNKF_START_FILE &&& CHUNKF_START_FILE ≠ 0 := by decide
  have e3 : CHUNKF_START_FILE &&& CHUNKF_PRERECORD = 0 := by decide
  unfold pcmrec_new_stream new_stream_end new_stream_start
  simp only [e1, e2, e3, ne_eq, not_true_eq_false, not_false_eq_true, if_true, if_false,
    Option.getD_some]
  obtain ⟨s0, hs0⟩ : ∃ s0, s0 = set_flags s s.enc_wr_index
      ((GET_ENC_CHUNK s s.enc_wr_index).flags &&& CHUNKF_START_FILE) :=
    ⟨_, rfl⟩
  rw [← hs0]
  obtain ⟨hc, hw, hr, hb, hsm, hfr, hfw, hfs⟩ := callback_new_stream_kept enc henc
    { flags := CHUNKF_START_FILE, pre_chunk := none, chunk := s.enc_wr_index } s0
  obtain ⟨r, hrr⟩ : ∃ r, r = enc_events_callback_new_stream enc
      { flags := CHUNKF_START_FILE, pre_chunk := none, chunk := s.enc_wr_index } s0 := ⟨_, rfl⟩
  rw [← hrr] at hc hw hr hb hsm hfr hfw hfs ⊢
  have a5 : s0.enc_wr_index = s.enc_wr_index := by rw [hs0]; rfl
  have hc2 : r.1.chunk = s.enc_wr_index := hc
  rw [new_stream_stats_done fuel r.1.chunk _ (by show r.1.chunk = r.2.enc_wr_index; rw [hc2, hw, a5])]
  simp only [Option.map_some']
  obtain ⟨z, hz⟩ : ∃ z, z = { r.2 with num_rec_bytes := 0, num_rec_samples := 0 } := ⟨_, rfl⟩
  rw [← hz]
  obtain ⟨se, hse⟩ : ∃ se, se = set_flags z s.enc_wr_index
      ((GET_ENC_CHUNK z s.enc_wr_index).flags &&& unot CHUNKF_START_FILE) := ⟨_, rfl⟩
  rw [← hse]
  obtain ⟨sd, hsd⟩ : ∃ sd, sd = set_flags se r.1.chunk
      ((GET_ENC_CHUNK se r.1.chunk).flags ||| CHUNKF_START_FILE) := ⟨_, rfl⟩
  rw [← hsd]
  obtain ⟨fn, hfn⟩ : ∃ fn, fn =
      (if ¬(GET_ENC_CHUNK s0 s.enc_wr_index).flags &&& CHUNKF_START_FILE = 0
       then fnq_add_kind.replace_tail else fnq_add_kind.add_filename) := ⟨_, rfl⟩
  rw [← hfn]
  have hs0f : s0.fnq_rd_pos = s.fnq_rd_pos ∧ s0.fnq_wr_pos = s.fnq_wr_pos ∧
      s0.fnq_size = s.fnq_size ∧ s0.enc_rd_index = s.enc_rd_index := by
    rw [hs0]; exact ⟨rfl, rfl, rfl, rfl⟩
  have hsdf : sd.fnq_rd_pos = r.2.fnq_rd_pos ∧ sd.fnq_wr_pos = r.2.fnq_wr_pos ∧
      sd.fnq_size = r.2.fnq_size ∧ sd.enc_rd_index = r.2.enc_rd_index ∧
      sd.enc_wr_index = r.2.enc_wr_index ∧ sd.num_rec_bytes = 0 ∧
      sd.num_rec_samples = 0 := by
    rw [hsd, hse, hz]; exact ⟨rfl, rfl, rfl, rfl, rfl, rfl, rfl⟩
  obtain ⟨a1, a2, a3, a4⟩ := hs0f
  obtain ⟨b1, b2, b3, b4, b5, b6, b7⟩ := hsdf
  have hfull : pcmrec_fnq_is_full sd = false :=
    fnq_empty_not_full sd (by rw [b1, b2, hfr, hfw, a1, a2, hempty])
      (by rw [b3, hfs, a3]; exact hq)
  rw [hfull]
  simp only [Bool.false_eq_true, and_false, if_false]
  refine ⟨_, rfl, ?_⟩
  cases fn
  · obtain ⟨c1, c2, c3, c4⟩ := fnq_replace_tail_ring name sd
    exact ⟨by rw [c1, b4, hr, a4], by rw [c2, b5, hw, a5], by rw [c3, b6], by rw [c4, b7]⟩
  · obtain ⟨c1, c2, c3, c4⟩ := fnq_add_filename_ring name sd
    exact ⟨by rw [c1, b4, hr, a4], by rw [c2, b5, hw, a5], by rw [c3, b6], by rw [c4, b7]⟩

/-- With both ring indices inside the ring, the available pre-recorded chunks
`pcmrec_record` computes are the ready chunks. -/
theorem avail_pre_chunks_eq (s : PcmRec) (hn : s.enc_num_chunks < 2 ^ 31)
    (hwr : 0 ≤ s.enc_wr_index ∧ s.enc_wr_index < s.enc_num_chunks)
    (hrd : 0 ≤ s.enc_rd_index ∧ s.enc_rd_index < s.enc_num_chunks) :
    (avail_pre_chunks s : Int) = num_ready s := by
  unfold avail_pre_chunks num_ready to_ulong
  rw [Int.tmod_eq_emod (by omega) (by omega)]
  simp only []
  have h32 : ((2 : Int) ^ 32) = 4294967296 := by norm_num
  have h31 : ((2 : Int) ^ 31) = 2147483648 := by norm_num
  rw [h31] at hn
  rw [h32]
  split
  · have e : (s.enc_wr_index - s.enc_rd_index + s.enc_num_chunks) % s.enc_num_chunks
        = s.enc_wr_index - s.enc_rd_index + s.enc_num_chunks :=
      Int.emod_eq_of_lt (by omega) (by omega)
    rw [e, Int.emod_eq_of_lt (by omega) (by omega), Int.toNat_of_nonneg (by omega)]
  · have e : (s.enc_wr_index - s.enc_rd_index + s.enc_num_chunks) % s.enc_num_chunks
        = s.enc_wr_index - s.enc_rd_index := by
      rw [Int.add_emod_self]
      exact Int.emod_eq_of_lt (by omega) (by omega)
    rw [e, Int.emod_eq_of_lt (by omega) (by omega), Int.toNat_of_nonneg (by omega)]

/-- Emptying the filename queue before a new recording. -/
theorem fnq_make_empty (s : PcmRec) :
    (if ¬ pcmrec_fnq_is_empty s then pcmrec_fnq_set_empty s else s).fnq_rd_pos
      = (if ¬ pcmrec_fnq_is_empty s then pcmrec_fnq_set_empty s else s).fnq_wr_pos ∧
    (if ¬ pcmrec_fnq_is_empty s then pcmrec_fnq_set_empty s else s).fnq_size = s.fnq_size ∧
    (if ¬ pcmrec_fnq_is_empty s then pcmrec_fnq_set_empty s else s).enc_rd_index
      = s.enc_rd_index ∧
    (if ¬ pcmrec_fnq_is_empty s then pcmrec_fnq_set_empty s else s).enc_wr_index
      = s.enc_wr_index ∧
    (if ¬ pcmrec_fnq_is_empty s then pcmrec_fnq_set_empty s else s).num_rec_bytes
      = s.num_rec_bytes ∧
    (if ¬ pcmrec_fnq_is_empty s then pcmrec_fnq_set_empty s else s).num_rec_samples
      = s.num_rec_samples := by
  by_cases h : pcmrec_fnq_is_empty s = true
  · rw [if_neg (by simp [h])]
    refine ⟨?_, rfl, rfl, rfl, rfl, rfl⟩
    unfold pcmrec_fnq_is_empty at h
    exact of_decide_eq_true h
  · rw [if_pos h]
    exact ⟨rfl, rfl, rfl, rfl, rfl, rfl⟩

/-- Record issued while idle and pre-recording: the walk, then the new stream
on the state the walk and the start of the recording leave. -/
theorem pcmrec_record_prerecord_eq (enc : Encoder) (fuel : Nat) (name : String) (s : PcmRec)
    (hidle : s.is_recording = false) (hpre : s.pre_record_ticks ≠ 0)
    (w : Int × Nat × PcmRec)
    (hw : prerecord_walk (umul s.enc_sample_rate s.pre_record_ticks) (avail_pre_chunks s)
            s.enc_wr_index s.enc_wr_index 0
            { s with num_rec_bytes := 0, num_rec_samples := 0, spinup_time := -1,
                     warnings := 0 } = w)
    (x y z : PcmRec) (hx : x = { w.2.2 with enc_rd_index := w.1 })
    (hy : y = if ¬ pcmrec_fnq_is_empty x then pcmrec_fnq_set_empty x else x)
    (hz : z = { y with dma_lock := false, is_paused := false, is_recording := true }) :
    pcmrec_record enc fuel name s =
      pcmrec_new_stream enc fuel (some name)
        (CHUNKF_START_FILE ||| (if w.2.1 > 0 then CHUNKF_PRERECORD else 0))
        z.enc_rd_index z := by
  subst hz hy hx hw
  unfold pcmrec_record
  have h1 : ({ s with num_rec_bytes := 0, num_rec_samples := 0 } : PcmRec).is_recording
      = false := hidle
  have h2 : ({ ({ s with num_rec_bytes := 0, num_rec_samples := 0 } : PcmRec) with
      spinup_time := -1, warnings := 0 } : PcmRec).pre_record_ticks ≠ 0 := hpre
  simp only []
  rw [if_neg (by rw [h1]; simp), if_pos h2]
  rfl

/-- C10 (amended): Record issued while idle with a pre-record window of
`T ≥ 1` seconds (`pre_record_ticks = T * HZ`), an encoder sample rate `R ≥ 1`
with `R * T * HZ` inside the machine word, and `N` ready chunks that each hold
payload and `S > 0` samples, where moreover the sample ticks of the selected
chunks, `min(N, ceil(T * R / S)) * S * HZ`, stay inside the machine word
(ring indices inside the ring, room in the filename queue, an encoder callback
that leaves ring indices and counters alone): `pcmrec_record` returns,
whatever the fuel, and selects exactly `min(N, ceil(T * R / S))` chunks walking
back from the write index: the read index ends that many slots behind the
write index (modulo the ring size), `num_rec_samples` is that many times `S`,
and `num_rec_bytes` is the total of the sizes of exactly those chunks, modulo
`2 ^ 32`. -/
theorem C10_prerecord_selects (enc : Encoder) (fuel : Nat) (name : String) (s : PcmRec)
    (T S N : Nat)
    (henc : new_stream_keeps_counters enc)
    (hidle : s.is_recording = false)
    (hT : 1 ≤ T) (hticks : s.pre_record_ticks = T * HZ)
    (hR : 1 ≤ s.enc_sample_rate)
    (hS : 0 < S)
    (hRT : s.enc_sample_rate * T * HZ < 2 ^ 32)
    (hn : s.enc_num_chunks < 2 ^ 31)
    (hwr : 0 ≤ s.enc_wr_index ∧ s.enc_wr_index < s.enc_num_chunks)
    (hrd : 0 ≤ s.enc_rd_index ∧ s.enc_rd_index < s.enc_num_chunks)
    (hN : num_ready s = N)
    (hchunks : ∀ k, 1 ≤ k → k ≤ N →
      (GET_ENC_CHUNK s (slot_behind s.enc_num_chunks s.enc_wr_index k)).enc_data ≠ none ∧
      (GET_ENC_CHUNK s (slot_behind s.enc_num_chunks s.enc_wr_index k)).num_pcm = S)
    (hacc : spec_pre_chunks N T s.enc_sample_rate S * S * HZ < 2 ^ 32)
    (hq : (MAX_PATH : Int) < s.fnq_size) :
    ∃ s1,
      pcmrec_record enc fuel name s = some s1 ∧
      s1.enc_wr_index = s.enc_wr_index ∧
      s1.enc_rd_index
        = slot_behind s.enc_num_chunks s.enc_wr_index (spec_pre_chunks N T s.enc_sample_rate S) ∧
      s1.num_rec_samples = spec_pre_chunks N T s.enc_sample_rate S * S ∧
      s1.num_rec_bytes
        = bytes_behind s.chunks s.enc_num_chunks s.enc_wr_index
            (spec_pre_chunks N T s.enc_sample_rate S) % 2 ^ 32 := by
  obtain ⟨R, hRd⟩ : ∃ R, R = s.enc_sample_rate := ⟨_, rfl⟩
  rw [← hRd] at hR hRT hacc ⊢
  have hHZ : 0 < HZ := by decide
  have hcomm : T * R = R * T := Nat.mul_comm _ _
  have hspec : spec_pre_chunks N T R S = min (0 + N) ((R * T + S - 1) / S) := by
    unfold spec_pre_chunks; rw [hcomm, Nat.zero_add]
  have hC : 0 < (R * T + S - 1) / S := by
    have h := (ceil_div_le_iff (R * T) S 0 hS).not
    have hpos : 0 < R * T := Nat.mul_pos hR hT
    omega
  obtain ⟨c, hc⟩ : ∃ c, c = spec_pre_chunks N T R S := ⟨_, rfl⟩
  rw [← hc] at hspec hacc ⊢
  obtain ⟨st, hst⟩ : ∃ st, st =
      { s with num_rec_bytes := 0, num_rec_samples := 0, spinup_time := -1, warnings := 0 } :=
    ⟨_, rfl⟩
  have havail : avail_pre_chunks s = N := by
    have h := avail_pre_chunks_eq s hn hwr hrd
    rw [hN] at h
    exact_mod_cast h
  have htarget : umul s.enc_sample_rate s.pre_record_ticks = R * T * HZ := by
    rw [← hRd, hticks]
    unfold umul ULONG_RANGE
    rw [← Nat.mul_assoc, Nat.mod_eq_of_lt hRT]
  have hpre : s.pre_record_ticks ≠ 0 := by
    rw [hticks]
    exact Nat.ne_of_gt (Nat.mul_pos hT hHZ)
  obtain ⟨st1, w1, w2, w3, w4⟩ := prerecord_walk_uniform (R * T) S hS s.enc_num_chunks
    s.enc_wr_index (by omega) N 0 st (by rw [hst])
    (fun k hk1 hk2 => by
      have := hchunks k (by omega) (by omega)
      rw [hst]; exact this)
    hC (by rw [← hspec]; exact hacc) (by rw [hst]; simp) (by rw [hst]; rfl)
  rw [← hspec] at w1 w2 w3
  rw [slot_behind_zero _ _ hwr] at w1
  simp only [Nat.zero_mul] at w1
  have w3b : st1.num_rec_bytes = bytes_behind s.chunks s.enc_num_chunks s.enc_wr_index c
      % 2 ^ 32 := by
    rw [w3, hst]
  obtain ⟨x, hx⟩ : ∃ x : PcmRec, x =
      { st1 with enc_rd_index := slot_behind s.enc_num_chunks s.enc_wr_index c } := ⟨_, rfl⟩
  obtain ⟨y, hy⟩ : ∃ y : PcmRec, y =
      if ¬ pcmrec_fnq_is_empty x then pcmrec_fnq_set_empty x else x := ⟨_, rfl⟩
  obtain ⟨z, hz⟩ : ∃ z : PcmRec, z =
      { y with dma_lock := false, is_paused := false, is_recording := true } := ⟨_, rfl⟩
  have hrun := pcmrec_record_prerecord_eq enc fuel name s hidle hpre
    (slot_behind s.enc_num_chunks s.enc_wr_index c, c * S * HZ, st1)
    (by rw [htarget, havail, ← hst]; exact w1) x y z hx hy hz
  simp only [] at hrun
  obtain ⟨y1, y2, y3, y4, y5, y6⟩ := fnq_make_empty x
  rw [← hy] at y1 y2 y3 y4 y5 y6
  have x1 : x.fnq_size = s.fnq_size := by rw [hx, w4, hst]
  have x2 : x.enc_rd_index = slot_behind s.enc_num_chunks s.enc_wr_index c := by rw [hx]
  have x3 : x.enc_wr_index = s.enc_wr_index := by rw [hx, w4, hst]
  have x4 : x.num_rec_bytes = st1.num_rec_bytes := by rw [hx]
  have x5 : x.num_rec_samples = st1.num_rec_samples := by rw [hx]
  have z1 : z.fnq_rd_pos = z.fnq_wr_pos := by rw [hz]; exact y1
  have z2 : (MAX_PATH : Int) < z.fnq_size := by
    have : z.fnq_size = y.fnq_size := by rw [hz]
    rw [this, y2, x1]; exact hq
  have z3 : z.enc_rd_index = slot_behind s.enc_num_chunks s.enc_wr_index c := by
    have : z.enc_rd_index = y.enc_rd_index := by rw [hz]
    rw [this, y3, x2]
  have z4 : z.enc_wr_index = s.enc_wr_index := by
    have : z.enc_wr_index = y.enc_wr_index := by rw [hz]
    rw [this, y4, x3]
  have z5 : z.num_rec_bytes = st1.num_rec_bytes := by
    have : z.num_rec_bytes = y.num_rec_bytes := by rw [hz]
    rw [this, y5, x4]
  have z6 : z.num_rec_samples = st1.num_rec_samples := by
    have : z.num_rec_samples = y.num_rec_samples := by rw [hz]
    rw [this, y6, x5]
  rw [hrun]
  by_cases hc0 : c = 0
  · have hflag : (CHUNKF_START_FILE ||| if c * S * HZ > 0 then CHUNKF_PRERECORD else 0)
        = CHUNKF_START_FILE := by
      rw [hc0, Nat.zero_mul, Nat.zero_mul, if_neg (by decide)]; rfl
    rw [hflag]
    obtain ⟨s1, r1, r2, r3, r4, r5⟩ :=
      new_stream_plain_kept enc henc fuel name z.enc_rd_index z z1 z2
    refine ⟨s1, r1, by rw [r3, z4], by rw [r2, z3], ?_, ?_⟩
    · rw [r5, hc0, Nat.zero_mul]
    · rw [r4, hc0]; rfl
  · have hpos : c * S * HZ > 0 :=
      Nat.mul_pos (Nat.mul_pos (Nat.pos_of_ne_zero hc0) hS) hHZ
    rw [if_pos hpos]
    obtain ⟨s1, r1, r2, r3, r4, r5⟩ :=
      new_stream_prerecord_kept enc henc fuel name z.enc_rd_index z z1 z2
    exact ⟨s1, r1, by rw [r3, z4], by rw [r2, z3], by rw [r5, z6, w2], by rw [r4, z5, w3b]⟩


theorem file_encoder_keeps_counters : new_stream_keeps_counters file_encoder := by
  intro data s
  exact ⟨rfl, rfl, rfl, rfl, rfl, rfl, rfl, rfl⟩

/-- Witness of C10 (amended): two ready chunks of 30000 samples, a window of 1
second at 44100 Hz: `min(2, ceil(44100 / 30000)) = 2` chunks are selected, the
read index ends at slot 0, two slots behind the write index 2. -/
theorem C10_prerecord_selects_witness :
    ∃ s1,
      pcmrec_record file_encoder 0 "a.wav" (prerecorded_ring 44100 (1 * HZ) 30000) = some s1 ∧
      s1.enc_wr_index = 2 ∧
      s1.enc_rd_index = slot_behind 4 2 (spec_pre_chunks 2 1 44100 30000) ∧
      s1.num_rec_samples = spec_pre_chunks 2 1 44100 30000 * 30000 ∧
      s1.num_rec_bytes
        = bytes_behind (prerecorded_ring 44100 (1 * HZ) 30000).chunks 4 2
            (spec_pre_chunks 2 1 44100 30000) % 2 ^ 32 :=
  C10_prerecord_selects file_encoder 0 "a.wav" (prerecorded_ring 44100 (1 * HZ) 30000)
    1 30000 2 file_encoder_keeps_counters rfl (by decide) rfl (by decide) (by decide)
    (by decide) (by decide) (by decide) (by decide) (by decide)
    (fun k _ _ => ⟨by simp [GET_ENC_CHUNK, prerecorded_ring], rfl⟩)
    (by decide) (by decide)

/-- C11: for every state that is recording, not paused and with the capture
position unlocked, Pause followed immediately by Resume gives back exactly the
original state: every field, so in particular `num_rec_bytes`,
`num_rec_samples`, both ring indices, both capture positions, `errors`,
`warnings`, `is_recording`, `is_paused` and `dma_lock` are identical. In
between, Pause does take effect: the session is paused and the capture
position locked. -/
theorem C11_pause_resume_identity (s : PcmRec)
    (hrec : s.is_recording = true) (hpaused : s.is_paused = false)
    (hlock : s.dma_lock = false) :
    pcmrec_resume (pcmrec_pause s) = s ∧
    (pcmrec_pause s).is_paused = true ∧ (pcmrec_pause s).dma_lock = true := by
  have hp : pcmrec_pause s = { s with dma_lock := true, is_paused := true } := by
    unfold pcmrec_pause
    rw [if_neg (by rw [hrec]; simp), if_neg (by rw [hpaused]; simp)]
  rw [hp]
  refine ⟨?_, rfl, rfl⟩
  unfold pcmrec_resume
  simp only []
  rw [if_neg (by rw [hrec]; simp), if_neg (by simp)]
  cases s
  simp only [PcmRec.mk.injEq, and_true, true_and] at hrec hpaused hlock ⊢
  simp_all

/-- Witness of C11: a recording on a ring holding one ready chunk. -/
theorem C11_pause_resume_identity_witness :
    pcmrec_resume (pcmrec_pause roomy_ring_recording) = roomy_ring_recording ∧
    (pcmrec_pause roomy_ring_recording).is_paused = true ∧
    (pcmrec_pause roomy_ring_recording).dma_lock = true :=
  C11_pause_resume_identity roomy_ring_recording rfl rfl rfl

theorem pcm_ring_size : ((PCM_CHUNK_MASK : Nat) : Int) + 1 = 2097152 := by decide

theorem to_ulong_ring (x : Int) : (to_ulong (x % 2097152) : Int) = x % 2097152 := by
  unfold to_ulong
  have h1 : (0 : Int) ≤ x % 2097152 := Int.emod_nonneg _ (by decide)
  have h2 : x % 2097152 < 2097152 := Int.emod_lt_of_pos _ (by decide)
  have h3 : ((2 : Int) ^ 32) = 4294967296 := by norm_num
  rw [h3, Int.emod_eq_of_lt h1 (by omega), Int.toNat_of_nonneg h1]

/-- The two outcomes of `enc_get_pcm_data`, by fields. -/
theorem enc_get_pcm_data_cases (size : Nat) (s : PcmRec) :
    (((min size PCM_MAX_FEED_SIZE : Nat) : Int) ≤ pcm_available s ∧
      (enc_get_pcm_data size s).1 = some s.pcm_rd_pos ∧
      (enc_get_pcm_data size s).2.pcm_rd_pos
        = (s.pcm_rd_pos + ((min size PCM_MAX_FEED_SIZE : Nat) : Int)) % 2097152 ∧
      (enc_get_pcm_data size s).2.wav_queue_empty = false ∧
      (enc_get_pcm_data size s).2.dma_wr_pos = s.dma_wr_pos) ∨
    (pcm_available s < ((min size PCM_MAX_FEED_SIZE : Nat) : Int) ∧
      (enc_get_pcm_data size s).1 = none ∧
      (enc_get_pcm_data size s).2 = { s with wav_queue_empty := true }) := by
  have hmin : (if size > PCM_MAX_FEED_SIZE then PCM_MAX_FEED_SIZE else size)
      = min size PCM_MAX_FEED_SIZE := by
    split <;> omega
  have hav : (to_ulong ((s.dma_wr_pos - s.pcm_rd_pos) % 2097152) : Int) = pcm_available s :=
    to_ulong_ring _
  unfold enc_get_pcm_data
  simp only []
  rw [pcm_ring_size, hmin]
  by_cases h : to_ulong ((s.dma_wr_pos - s.pcm_rd_pos) % 2097152) ≥ min size PCM_MAX_FEED_SIZE
  · left
    rw [if_pos h]
    refine ⟨by rw [← hav]; exact_mod_cast h, rfl, ?_, rfl, ?_⟩
    · split <;> rfl
    · split <;> rfl
  · right
    rw [if_neg h]
    refine ⟨by rw [← hav]; exact_mod_cast (Nat.lt_of_not_ge h), rfl, rfl⟩

/-- C12: for every capture-ring state and every requested size, with
`avail = (dma_wr_pos - pcm_rd_pos) mod (256 * 8192)` and
`s = min(size, PCM_MAX_FEED_SIZE)`: `enc_get_pcm_data size` returns a span iff
`avail ≥ s`. On success the span starts at the old read position, `pcm_rd_pos`
becomes `(old + s) mod (256 * 8192)`, `wav_queue_empty` is cleared, the write
position is untouched and the new available count is `avail - s`, which is not
negative: the read position does not pass the write position. On failure the
result is none, `pcm_rd_pos` (and everything but the flag) is unchanged and
`wav_queue_empty` is set. -/
theorem C12_get_pcm_data (size : Nat) (s : PcmRec) :
    ((enc_get_pcm_data size s).1.isSome = true
      ↔ ((min size PCM_MAX_FEED_SIZE : Nat) : Int) ≤ pcm_available s) ∧
    (((min size PCM_MAX_FEED_SIZE : Nat) : Int) ≤ pcm_available s →
      (enc_get_pcm_data size s).1 = some s.pcm_rd_pos ∧
      (enc_get_pcm_data size s).2.pcm_rd_pos
        = (s.pcm_rd_pos + ((min size PCM_MAX_FEED_SIZE : Nat) : Int)) % (256 * 8192) ∧
      (enc_get_pcm_data size s).2.wav_queue_empty = false ∧
      (enc_get_pcm_data size s).2.dma_wr_pos = s.dma_wr_pos ∧
      pcm_available (enc_get_pcm_data size s).2
        = pcm_available s - ((min size PCM_MAX_FEED_SIZE : Nat) : Int) ∧
      0 ≤ pcm_available (enc_get_pcm_data size s).2) ∧
    (pcm_available s < ((min size PCM_MAX_FEED_SIZE : Nat) : Int) →
      (enc_get_pcm_data size s).1 = none ∧
      (enc_get_pcm_data size s).2.pcm_rd_pos = s.pcm_rd_pos ∧
      (enc_get_pcm_data size s).2.wav_queue_empty = true ∧
      (enc_get_pcm_data size s).2 = { s with wav_queue_empty := true }) := by
  have hR : ((256 : Int) * 8192) = 2097152 := by norm_num
  rw [hR]
  rcases enc_get_pcm_data_cases size s with ⟨h, h1, h2, h3, h4⟩ | ⟨h, h1, h2⟩
  · refine ⟨?_, fun _ => ⟨h1, h2, h3, h4, ?_, ?_⟩, fun hlt => absurd h (not_le.mpr hlt)⟩
    · rw [h1]; exact ⟨fun _ => h, fun _ => rfl⟩
    · unfold pcm_available at h ⊢
      rw [h2, h4]
      omega
    · unfold pcm_available
      omega
  · refine ⟨?_, fun hle => absurd h (not_lt.mpr hle), fun _ => ⟨h1, ?_, ?_, h2⟩⟩
    · rw [h1]
      exact ⟨fun hs => by simp at hs, fun hle => absurd h (not_lt.mpr hle)⟩
    · rw [h2]
    · rw [h2]

/-- Witness of C12: one captured chunk of 8192 bytes; a pull of 1024 bytes
succeeds and leaves 7168 bytes. -/
theorem C12_get_pcm_data_witness :
    (enc_get_pcm_data 1024 { boot_state with dma_wr_pos := 8192 }).1 = some 0 ∧
    (enc_get_pcm_data 1024 { boot_state with dma_wr_pos := 8192 }).2.pcm_rd_pos = 1024 ∧
    pcm_available (enc_get_pcm_data 1024 { boot_state with dma_wr_pos := 8192 }).2 = 7168 ∧
    (enc_get_pcm_data 1024 boot_state).1 = none :=
  ⟨((C12_get_pcm_data 1024 { boot_state with dma_wr_pos := 8192 }).2.1 (by decide)).1,
   ((C12_get_pcm_data 1024 { boot_state with dma_wr_pos := 8192 }).2.1 (by decide)).2.1,
   ((C12_get_pcm_data 1024 { boot_state with dma_wr_pos := 8192 }).2.1 (by decide)).2.2.2.2.1,
   ((C12_get_pcm_data 1024 boot_state).2.2 (by decide)).1⟩

/-- The capture bytes after a successful `enc_get_pcm_data`: the guard region
receives a copy of the head of the ring when the span wraps. -/
theorem enc_get_pcm_data_bytes (size : Nat) (s : PcmRec)
    (h : ((min size PCM_MAX_FEED_SIZE : Nat) : Int) ≤ pcm_available s) (k : Nat) :
    (enc_get_pcm_data size s).2.pcm_data k =
      if to_ulong ((s.pcm_rd_pos + ((min size PCM_MAX_FEED_SIZE : Nat) : Int)) % 2097152)
            < min size PCM_MAX_FEED_SIZE ∧
          2097152 ≤ k ∧
          k < 2097152 + to_ulong
            ((s.pcm_rd_pos + ((min size PCM_MAX_FEED_SIZE : Nat) : Int)) % 2097152)
      then s.pcm_data (k - 2097152) else s.pcm_data k := by
  have hmin : (if size > PCM_MAX_FEED_SIZE then PCM_MAX_FEED_SIZE else size)
      = min size PCM_MAX_FEED_SIZE := by
    split <;> omega
  have hav : (to_ulong ((s.dma_wr_pos - s.pcm_rd_pos) % 2097152) : Int) = pcm_available s :=
    to_ulong_ring _
  have hge : to_ulong ((s.dma_wr_pos - s.pcm_rd_pos) % 2097152) ≥ min size PCM_MAX_FEED_SIZE := by
    rw [← hav] at h; exact_mod_cast h
  have hring : PCM_NUM_CHUNKS * PCM_CHUNK_SIZE = 2097152 := by decide
  unfold enc_get_pcm_data
  simp only []
  rw [pcm_ring_size, hmin, if_pos hge, hring]
  by_cases hw : to_ulong ((s.pcm_rd_pos + ((min size PCM_MAX_FEED_SIZE : Nat) : Int)) % 2097152)
      < min size PCM_MAX_FEED_SIZE
  · rw [if_pos hw]
    simp only [hw, true_and]
  · rw [if_neg hw]
    simp only [hw, false_and, if_false]

/-- C13: for every successful `enc_get_pcm_data` of `size ≤ PCM_MAX_FEED_SIZE`
bytes (the size of the guard region) starting at a read position `p` of the
ring, after the call the `size` bytes at the linear offsets `p, p+1, ...,
p+size-1` of the buffer-plus-guard array equal the ring bytes at the positions
`(p + i) mod (256 * 8192)` for `i < size`, also when `p + size` crosses the end
of the ring. The span ends inside the guard region, and the call changes no
byte of the ring itself and no byte past the guard region. -/
theorem C13_contiguous_view (size : Nat) (s : PcmRec)
    (hp : 0 ≤ s.pcm_rd_pos ∧ s.pcm_rd_pos < 256 * 8192)
    (hsize : size ≤ PCM_MAX_FEED_SIZE)
    (hok : (enc_get_pcm_data size s).1 ≠ none) :
    (∀ i : Nat, i < size →
      (enc_get_pcm_data size s).2.pcm_data (s.pcm_rd_pos.toNat + i)
        = s.pcm_data ((s.pcm_rd_pos + (i : Int)) % (256 * 8192)).toNat) ∧
    (∀ k : Nat, k < 256 * 8192 ∨ 256 * 8192 + PCM_MAX_FEED_SIZE ≤ k →
      (enc_get_pcm_data size s).2.pcm_data k = s.pcm_data k) ∧
    s.pcm_rd_pos.toNat + size ≤ 256 * 8192 + PCM_MAX_FEED_SIZE := by
  have hM : PCM_MAX_FEED_SIZE = 20000 := rfl
  have hmin : min size PCM_MAX_FEED_SIZE = size := Nat.min_eq_left hsize
  have hsucc : ((min size PCM_MAX_FEED_SIZE : Nat) : Int) ≤ pcm_available s := by
    rcases enc_get_pcm_data_cases size s with h | h
    · exact h.1
    · exact absurd h.2.1 hok
  obtain ⟨N, hN⟩ : ∃ N : Nat, N = to_ulong ((s.pcm_rd_pos + ((size : Nat) : Int)) % 2097152) :=
    ⟨_, rfl⟩
  have hNi : (N : Int) = (s.pcm_rd_pos + (size : Int)) % 2097152 := by
    rw [hN]; exact to_ulong_ring _
  have hbytes : ∀ k : Nat, (enc_get_pcm_data size s).2.pcm_data k =
      if N < size ∧ 2097152 ≤ k ∧ k < 2097152 + N then s.pcm_data (k - 2097152)
      else s.pcm_data k := by
    intro k
    rw [enc_get_pcm_data_bytes size s hsucc k, hmin, ← hN]
  rw [hM] at hsize ⊢
  obtain ⟨hp0, hp1⟩ := hp
  refine ⟨?_, ?_, by omega⟩
  · intro i hi
    rw [hbytes]
    split
    · apply congrArg; omega
    · apply congrArg; omega
  · intro k hk
    rw [hbytes, if_neg (by omega)]

/-- Witness of C13: 8192 bytes captured since the ring wrapped, the read
position 1024 bytes before the end of the ring; a pull of 2048 bytes crosses
the end, and its byte 1500 is read from the guard region, where it equals the
ring byte at position 476. -/
theorem C13_contiguous_view_witness :
    (enc_get_pcm_data 2048
        { boot_state with dma_wr_pos := 8192, pcm_rd_pos := 256 * 8192 - 1024,
                          pcm_data := fun k => k % 251 }).2.pcm_data
        (((256 : Int) * 8192 - 1024).toNat + 1500)
      = (((256 : Int) * 8192 - 1024 + ((1500 : Nat) : Int)) % (256 * 8192)).toNat % 251 :=
  (C13_contiguous_view 2048
      { boot_state with dma_wr_pos := 8192, pcm_rd_pos := 256 * 8192 - 1024,
                        pcm_data := fun k => k % 251 }
      (by decide) (by decide) (by decide)).1 1500 (by decide)

/-- C20: for every state, `enc_get_chunk` hands out the slot at the write index
with its flags set to exactly (old flags AND start-of-file) OR (pre-record if
`is_recording` is false, else nothing); the other fields of that header stay,
no other chunk changes, and nothing but the chunk memory changes: neither ring
index and no counter. -/
theorem C20_get_chunk_flags (s : PcmRec) :
    (GET_ENC_CHUNK (enc_get_chunk s) s.enc_wr_index).flags
      = ((GET_ENC_CHUNK s s.enc_wr_index).flags &&& CHUNKF_START_FILE)
          ||| (if s.is_recording = false then CHUNKF_PRERECORD else 0) ∧
    (GET_ENC_CHUNK (enc_get_chunk s) s.enc_wr_index).enc_size
      = (GET_ENC_CHUNK s s.enc_wr_index).enc_size ∧
    (GET_ENC_CHUNK (enc_get_chunk s) s.enc_wr_index).num_pcm
      = (GET_ENC_CHUNK s s.enc_wr_index).num_pcm ∧
    (GET_ENC_CHUNK (enc_get_chunk s) s.enc_wr_index).enc_data
      = (GET_ENC_CHUNK s s.enc_wr_index).enc_data ∧
    (∀ j, j ≠ s.enc_wr_index → GET_ENC_CHUNK (enc_get_chunk s) j = GET_ENC_CHUNK s j) ∧
    (enc_get_chunk s).enc_wr_index = s.enc_wr_index ∧
    (enc_get_chunk s).enc_rd_index = s.enc_rd_index ∧
    (enc_get_chunk s).num_rec_bytes = s.num_rec_bytes ∧
    (enc_get_chunk s).num_rec_samples = s.num_rec_samples ∧
    enc_get_chunk s = { s with chunks := (enc_get_chunk s).chunks } := by
  rw [enc_get_chunk_eq]
  refine ⟨?_, ?_, ?_, ?_, ?_, rfl, rfl, rfl, rfl, rfl⟩
  · by_cases hrec : s.is_recording = true
    · simp [GET_ENC_CHUNK, hrec]
    · have hf : s.is_recording = false := by simpa using hrec
      simp [GET_ENC_CHUNK, hf]
  · simp [GET_ENC_CHUNK]
  · simp [GET_ENC_CHUNK]
  · simp [GET_ENC_CHUNK]
  · intro j hj
    simp [GET_ENC_CHUNK, hj]

/-- `enc_unget_pcm_data` away from the write position: the size is limited to
the old data left behind the read position and the read position moves back by
the limited size. -/
theorem enc_unget_pcm_data_moved (size : Nat) (s : PcmRec)
    (h : s.pcm_rd_pos ≠ s.dma_wr_pos) :
    (enc_unget_pcm_data size s).1
      = min size ((s.pcm_rd_pos - s.dma_wr_pos - 8192) % 2097152).toNat ∧
    (enc_unget_pcm_data size s).2 =
      { s with pcm_rd_pos :=
          (s.pcm_rd_pos
            - ((min size ((s.pcm_rd_pos - s.dma_wr_pos - 8192) % 2097152).toNat : Nat) : Int))
            % 2097152 } := by
  have hc : ((PCM_CHUNK_SIZE : Nat) : Int) = 8192 := by decide
  obtain ⟨A, hA⟩ : ∃ A : Nat, A = to_ulong ((s.pcm_rd_pos - s.dma_wr_pos - 8192) % 2097152) :=
    ⟨_, rfl⟩
  have hAi : (A : Int) = (s.pcm_rd_pos - s.dma_wr_pos - 8192) % 2097152 := by
    rw [hA]; exact to_ulong_ring _
  have hAn : ((s.pcm_rd_pos - s.dma_wr_pos - 8192) % 2097152).toNat = A := by omega
  have hmin : (if size > A then A else size) = min size A := by
    split <;> omega
  unfold enc_unget_pcm_data
  simp only []
  rw [if_pos h, pcm_ring_size, hc, ← hA, hAn, hmin]
  exact ⟨rfl, rfl⟩

/-- `enc_unget_pcm_data` at the write position: nothing moves, and the value
returned is the size asked for. -/
theorem enc_unget_pcm_data_at_write (size : Nat) (s : PcmRec)
    (h : s.pcm_rd_pos = s.dma_wr_pos) :
    enc_unget_pcm_data size s = (size, s) := by
  unfold enc_unget_pcm_data
  rw [if_neg (by simp [h])]

/-- C14 at the failing input: with the read position at the write position
(both 0, as `pcmrec_init` and `enc_set_parameters` leave them before the first
capture chunk arrives) `enc_unget_pcm_data 100` returns 100 although no byte
goes back to the buffer: the read position stays at 0, which is not
`(0 - 100) mod (256 * 8192) = 2097052`. -/
theorem C14_unget_at_write_position :
    boot_state.pcm_rd_pos = 0 ∧ boot_state.dma_wr_pos = 0 ∧
    (enc_unget_pcm_data 100 boot_state).1 = 100 ∧
    (enc_unget_pcm_data 100 boot_state).2.pcm_rd_pos = 0 ∧
    (boot_state.pcm_rd_pos - (((enc_unget_pcm_data 100 boot_state).1 : Nat) : Int))
      % (256 * 8192) = 2097052 ∧
    (enc_unget_pcm_data 100 boot_state).2.pcm_rd_pos
      ≠ (boot_state.pcm_rd_pos - (((enc_unget_pcm_data 100 boot_state).1 : Nat) : Int))
          % (256 * 8192) := by
  decide

/-- C15: for every capture-ring state whose read position is outside the
chunk the interrupt layer is writing (`(pcm_rd_pos - dma_wr_pos) mod
(256 * 8192) ≥ 8192`) and for every size, `enc_unget_pcm_data` moves the read
position back by the value it returns, which is
`min(size, (pcm_rd_pos - dma_wr_pos - 8192) mod (256 * 8192))`, so by at most
that many bytes; afterwards the read position is still outside the current
write chunk, and the write position is untouched. -/
theorem C15_unget_stays_outside (size : Nat) (s : PcmRec)
    (hout : 8192 ≤ (s.pcm_rd_pos - s.dma_wr_pos) % (256 * 8192)) :
    (enc_unget_pcm_data size s).1
      = min size ((s.pcm_rd_pos - s.dma_wr_pos - 8192) % (256 * 8192)).toNat ∧
    (enc_unget_pcm_data size s).2.pcm_rd_pos
      = (s.pcm_rd_pos - (((enc_unget_pcm_data size s).1 : Nat) : Int)) % (256 * 8192) ∧
    (s.pcm_rd_pos - (enc_unget_pcm_data size s).2.pcm_rd_pos) % (256 * 8192)
      = (((enc_unget_pcm_data size s).1 : Nat) : Int) ∧
    (enc_unget_pcm_data size s).1 ≤ size ∧
    (((enc_unget_pcm_data size s).1 : Nat) : Int)
      ≤ (s.pcm_rd_pos - s.dma_wr_pos - 8192) % (256 * 8192) ∧
    8192 ≤ ((enc_unget_pcm_data size s).2.pcm_rd_pos
              - (enc_unget_pcm_data size s).2.dma_wr_pos) % (256 * 8192) ∧
    (enc_unget_pcm_data size s).2.dma_wr_pos = s.dma_wr_pos := by
  have hR : ((256 : Int) * 8192) = 2097152 := by norm_num
  rw [hR] at hout ⊢
  have hne : s.pcm_rd_pos ≠ s.dma_wr_pos := by
    intro h
    rw [h] at hout
    simp at hout
  obtain ⟨h1, h2⟩ := enc_unget_pcm_data_moved size s hne
  obtain ⟨m, hm⟩ : ∃ m, m = min size ((s.pcm_rd_pos - s.dma_wr_pos - 8192) % 2097152).toNat :=
    ⟨_, rfl⟩
  rw [← hm] at h1 h2
  rw [h2, h1]
  simp only []
  refine ⟨hm, trivial, ?_, ?_, ?_, ?_, trivial⟩ <;> omega

/-- Witness of C15: the read position 4096 bytes past the chunk being
written; of 5000 bytes asked back only those 4096 go back. -/
theorem C15_unget_stays_outside_witness :
    (enc_unget_pcm_data 5000 { boot_state with pcm_rd_pos := 12288 }).1 = 4096 ∧
    (enc_unget_pcm_data 5000 { boot_state with pcm_rd_pos := 12288 }).2.pcm_rd_pos = 8192 :=
  ⟨((C15_unget_stays_outside 5000 { boot_state with pcm_rd_pos := 12288 }
      (by decide)).1).trans (by decide),
   ((C15_unget_stays_outside 5000 { boot_state with pcm_rd_pos := 12288 }
      (by decide)).2.1).trans (by decide)⟩

/-- C16 (as stated) fails: one captured chunk of 8192 bytes, the read position
outside the chunk being written; the pull of 8192 bytes (not more than
`PCM_MAX_FEED_SIZE`) succeeds and takes the read position to the write
position. The unget of the same 8192 bytes that follows finds the read position
at the write position and leaves it there: it is not restored to 0. -/
theorem C16_counterexample :
    (8192 ≤ (one_chunk_captured.pcm_rd_pos - one_chunk_captured.dma_wr_pos) % (256 * 8192) ∧
     8192 ≤ PCM_MAX_FEED_SIZE ∧
     (enc_get_pcm_data 8192 one_chunk_captured).1 = some 0 ∧
     (enc_get_pcm_data 8192 one_chunk_captured).2.pcm_rd_pos = 8192) ∧
    (enc_unget_pcm_data 8192 (enc_get_pcm_data 8192 one_chunk_captured).2).2.pcm_rd_pos
      = 8192 ∧
    ¬ ((enc_unget_pcm_data 8192 (enc_get_pcm_data 8192 one_chunk_captured).2).1 = 8192 ∧
       (enc_unget_pcm_data 8192 (enc_get_pcm_data 8192 one_chunk_captured).2).2.pcm_rd_pos
         = one_chunk_captured.pcm_rd_pos) := by
  decide

/-- C16 (amended): for every capture-ring state whose read position is in the
ring and not strictly inside the current write chunk, and every
`size ≤ PCM_MAX_FEED_SIZE` for which `enc_get_pcm_data size` succeeds without
consuming all available bytes (`size < avail`, or `size = 0`), an immediately
following `enc_unget_pcm_data size` returns `size` and restores `pcm_rd_pos`
to its value before the pull. -/
theorem C16_get_unget_restores (size : Nat) (s : PcmRec)
    (hrd : 0 ≤ s.pcm_rd_pos ∧ s.pcm_rd_pos < 256 * 8192)
    (hout : (s.pcm_rd_pos - s.dma_wr_pos) % (256 * 8192) = 0
              ∨ 8192 ≤ (s.pcm_rd_pos - s.dma_wr_pos) % (256 * 8192))
    (hsize : size ≤ PCM_MAX_FEED_SIZE)
    (hok : (enc_get_pcm_data size s).1 ≠ none)
    (hpart : (size : Int) < pcm_available s ∨ size = 0) :
    (enc_unget_pcm_data size (enc_get_pcm_data size s).2).1 = size ∧
    (enc_unget_pcm_data size (enc_get_pcm_data size s).2).2.pcm_rd_pos = s.pcm_rd_pos := by
  have hR : ((256 : Int) * 8192) = 2097152 := by norm_num
  rw [hR] at hrd hout
  have hmin : min size PCM_MAX_FEED_SIZE = size := Nat.min_eq_left hsize
  obtain ⟨g, hg⟩ : ∃ g, g = (enc_get_pcm_data size s).2 := ⟨_, rfl⟩
  have hfields : g.pcm_rd_pos = (s.pcm_rd_pos + (size : Int)) % 2097152 ∧
      g.dma_wr_pos = s.dma_wr_pos := by
    rcases enc_get_pcm_data_cases size s with h | h
    · rw [hmin] at h
      rw [hg]
      exact ⟨h.2.2.1, h.2.2.2.2⟩
    · exact absurd h.2.1 hok
  obtain ⟨hg1, hg2⟩ := hfields
  rw [← hg]
  unfold pcm_available at hpart
  rw [hR] at hpart
  by_cases hne : g.pcm_rd_pos = g.dma_wr_pos
  · rw [enc_unget_pcm_data_at_write size g hne]
    refine ⟨rfl, ?_⟩
    show g.pcm_rd_pos = s.pcm_rd_pos
    rw [hg1, hg2] at hne
    rw [hg1]
    omega
  · obtain ⟨h1, h2⟩ := enc_unget_pcm_data_moved size g hne
    rw [h2, h1]
    simp only []
    rw [hg1, hg2] at hne ⊢
    constructor <;> omega

/-- Witness of C16 (amended): of one captured chunk, half is pulled and put
back. -/
theorem C16_get_unget_restores_witness :
    (enc_unget_pcm_data 4096 (enc_get_pcm_data 4096 one_chunk_captured).2).1 = 4096 ∧
    (enc_unget_pcm_data 4096 (enc_get_pcm_data 4096 one_chunk_captured).2).2.pcm_rd_pos
      = one_chunk_captured.pcm_rd_pos :=
  C16_get_unget_restores 4096 one_chunk_captured (by decide) (by decide) (by decide)
    (by decide) (by decide)

/-- `pcm_rec_have_more` on a successful, unlocked notification. -/
theorem pcm_rec_have_more_advance (status : Int) (s : PcmRec)
    (hst : 0 ≤ status) (hlock : s.dma_lock = false) :
    pcm_rec_have_more status s =
      have_more_rearm
        { s with
          warnings :=
            if to_ulong (s.pcm_rd_pos - (s.dma_wr_pos + 8192) % 2097152) < 8192
            then s.warnings ||| PCMREC_W_PCM_BUFFER_OVF else s.warnings,
          dma_wr_pos := (s.dma_wr_pos + 8192) % 2097152 } := by
  have hc : ((PCM_CHUNK_SIZE : Nat) : Int) = 8192 := by decide
  have hc2 : PCM_CHUNK_SIZE = 8192 := rfl
  unfold pcm_rec_have_more
  simp only []
  rw [if_neg (by omega), if_pos (by rw [hlock]; simp), pcm_ring_size, hc, hc2]
  split <;> rfl

/-- `pcm_rec_have_more` on a successful notification with the write position
locked. -/
theorem pcm_rec_have_more_locked (status : Int) (s : PcmRec)
    (hst : 0 ≤ status) (hlock : s.dma_lock = true) :
    pcm_rec_have_more status s = have_more_rearm s := by
  unfold pcm_rec_have_more
  simp only []
  rw [if_neg (by omega), if_neg (by rw [hlock]; simp)]

/-- C17: for every notification with `status ≥ 0`, `pcm_rec_have_more` returns
0, posts nothing, re-arms a transfer of one chunk at the resulting write
position, leaves `pcm_rd_pos` unchanged, sets `dma_wr_pos` to
`(dma_wr_pos + 8192) mod (256 * 8192)` when `dma_lock` is false and leaves it
unchanged when `dma_lock` is true; a write position that is a multiple of 8192
inside `[0, 256 * 8192)` stays so. -/
theorem C17_have_more_advances (status : Int) (s : PcmRec) (hst : 0 ≤ status) :
    (pcm_rec_have_more status s).ret = 0 ∧
    (pcm_rec_have_more status s).posted = [] ∧
    (pcm_rec_have_more status s).armed
      = some ((pcm_rec_have_more status s).state.dma_wr_pos, PCM_CHUNK_SIZE) ∧
    (pcm_rec_have_more status s).state.pcm_rd_pos = s.pcm_rd_pos ∧
    (s.dma_lock = false →
      (pcm_rec_have_more status s).state.dma_wr_pos
        = (s.dma_wr_pos + 8192) % (256 * 8192)) ∧
    (s.dma_lock = true →
      (pcm_rec_have_more status s).state.dma_wr_pos = s.dma_wr_pos) ∧
    ((0 ≤ s.dma_wr_pos ∧ s.dma_wr_pos < 256 * 8192 ∧ s.dma_wr_pos % 8192 = 0) →
      0 ≤ (pcm_rec_have_more status s).state.dma_wr_pos ∧
      (pcm_rec_have_more status s).state.dma_wr_pos < 256 * 8192 ∧
      (pcm_rec_have_more status s).state.dma_wr_pos % 8192 = 0) := by
  have hR : ((256 : Int) * 8192) = 2097152 := by norm_num
  rw [hR]
  by_cases hlock : s.dma_lock = true
  · rw [pcm_rec_have_more_locked status s hst hlock]
    refine ⟨rfl, rfl, rfl, rfl, ?_, fun _ => rfl, fun h => h⟩
    intro h
    rw [hlock] at h
    exact absurd h (by simp)
  · have hl : s.dma_lock = false := by simpa using hlock
    rw [pcm_rec_have_more_advance status s hst hl]
    refine ⟨rfl, rfl, rfl, rfl, fun _ => rfl, fun h => absurd h hlock, ?_⟩
    intro h
    show 0 ≤ (s.dma_wr_pos + 8192) % 2097152 ∧ (s.dma_wr_pos + 8192) % 2097152 < 2097152 ∧
      (s.dma_wr_pos + 8192) % 2097152 % 8192 = 0
    omega

/-- Witness of C17: from the last chunk of the ring the write position wraps
to 0. -/
theorem C17_have_more_advances_witness :
    (pcm_rec_have_more 0 { boot_state with dma_wr_pos := 255 * 8192 }).ret = 0 ∧
    ({ boot_state with dma_wr_pos := 255 * 8192 } : PcmRec).dma_lock = false ∧
    (pcm_rec_have_more 0 { boot_state with dma_wr_pos := 255 * 8192 }).state.dma_wr_pos = 0 :=
  ⟨(C17_have_more_advances 0 { boot_state with dma_wr_pos := 255 * 8192 } (by decide)).1,
   rfl,
   ((C17_have_more_advances 0 { boot_state with dma_wr_pos := 255 * 8192 }
      (by decide)).2.2.2.2.1 rfl).trans (by decide)⟩

/-- The unsigned comparison of `pcm_rec_have_more`, for a read position that
is an `int` and a position `next` of the ring: `(unsigned)(rd - next) < 8192`
says that `rd` lies in `[next, next + 8192)`. -/
theorem unsigned_diff_lt_chunk (rd next : Int)
    (hrd : -2147483648 ≤ rd ∧ rd < 2147483648) (hnext : 0 ≤ next ∧ next < 2097152) :
    to_ulong (rd - next) < 8192 ↔ (next ≤ rd ∧ rd < next + 8192) := by
  unfold to_ulong
  have h3 : ((2 : Int) ^ 32) = 4294967296 := by norm_num
  rw [h3]
  omega

/-- C18: for every successful (`status ≥ 0`), unlocked notification, with
`next = (dma_wr_pos + 8192) mod (256 * 8192)` and the read position an `int`:
`pcm_rec_have_more` ORs the `PCMREC_W_PCM_BUFFER_OVF` bit into `warnings` if
`pcm_rd_pos` lies in `[next, next + 8192)`, inside the chunk about to be
written, and leaves `warnings` as they are if not; in either case `errors` is
unchanged, `dma_wr_pos` advances to `next` and the transfer is re-armed
there. -/
theorem C18_have_more_overflow_warning (status : Int) (s : PcmRec)
    (hst : 0 ≤ status) (hlock : s.dma_lock = false)
    (hrd : -2 ^ 31 ≤ s.pcm_rd_pos ∧ s.pcm_rd_pos < 2 ^ 31) :
    (((s.dma_wr_pos + 8192) % (256 * 8192) ≤ s.pcm_rd_pos ∧
        s.pcm_rd_pos < (s.dma_wr_pos + 8192) % (256 * 8192) + 8192) →
      (pcm_rec_have_more status s).state.warnings
        = s.warnings ||| PCMREC_W_PCM_BUFFER_OVF ∧
      (pcm_rec_have_more status s).state.warnings &&& PCMREC_W_PCM_BUFFER_OVF
        = PCMREC_W_PCM_BUFFER_OVF) ∧
    (¬ ((s.dma_wr_pos + 8192) % (256 * 8192) ≤ s.pcm_rd_pos ∧
          s.pcm_rd_pos < (s.dma_wr_pos + 8192) % (256 * 8192) + 8192) →
      (pcm_rec_have_more status s).state.warnings = s.warnings) ∧
    (pcm_rec_have_more status s).state.errors = s.errors ∧
    (pcm_rec_have_more status s).state.dma_wr_pos = (s.dma_wr_pos + 8192) % (256 * 8192) ∧
    (pcm_rec_have_more status s).ret = 0 ∧
    (pcm_rec_have_more status s).armed
      = some ((s.dma_wr_pos + 8192) % (256 * 8192), PCM_CHUNK_SIZE) := by
  have hR : ((256 : Int) * 8192) = 2097152 := by norm_num
  have h31 : ((2 : Int) ^ 31) = 2147483648 := by norm_num
  rw [h31] at hrd
  rw [hR, pcm_rec_have_more_advance status s hst hlock]
  have hiff := unsigned_diff_lt_chunk s.pcm_rd_pos ((s.dma_wr_pos + 8192) % 2097152) hrd
    ⟨Int.emod_nonneg _ (by decide), Int.emod_lt_of_pos _ (by decide)⟩
  refine ⟨?_, ?_, rfl, rfl, rfl, rfl⟩
  · intro hin
    show (if _ then _ else _) = _ ∧ (if _ then _ else _) &&& _ = _
    rw [if_pos (hiff.mpr hin)]
    exact ⟨rfl, lor_land_self _ _⟩
  · intro hout
    show (if _ then _ else _) = _
    rw [if_neg (fun h => hout (hiff.mp h))]

/-- Witness of C18: a read position 100 bytes into the chunk the advance
reaches raises the warning; a read position in the chunk just written does
not. -/
theorem C18_have_more_overflow_warning_witness :
    (pcm_rec_have_more 0 { boot_state with pcm_rd_pos := 8192 + 100 }).state.warnings
      = PCMREC_W_PCM_BUFFER_OVF ∧
    (pcm_rec_have_more 0 { boot_state with pcm_rd_pos := 100 }).state.warnings = 0 :=
  ⟨(((C18_have_more_overflow_warning 0 { boot_state with pcm_rd_pos := 8192 + 100 }
        (by decide) rfl (by decide)).1 (by decide)).1).trans (by decide),
   ((C18_have_more_overflow_warning 0 { boot_state with pcm_rd_pos := 100 }
        (by decide) rfl (by decide)).2.1 (by decide)).trans (by decide)⟩

/-- C19 (as stated) fails: the status -2 is a hardware error (`status < 0`)
other than `DMA_REC_ERROR_DMA`; `pcm_rec_have_more` posts nothing, re-arms the
transfer at the current write position and returns 0. -/
theorem C19_counterexample :
    ((-2 : Int) < 0 ∧
     (pcm_rec_have_more (-2) boot_state).ret = 0 ∧
     (pcm_rec_have_more (-2) boot_state).posted = [] ∧
     (pcm_rec_have_more (-2) boot_state).armed = some (0, 8192)) ∧
    ¬ ((pcm_rec_have_more (-2) boot_state).ret = -1 ∧
       (pcm_rec_have_more (-2) boot_state).posted = [pcmrec_msg.PCMREC_STOP] ∧
       (pcm_rec_have_more (-2) boot_state).armed = none) := by
  decide

/-- C19 (amended): for the hardware error `DMA_REC_ERROR_DMA`,
`pcm_rec_have_more` posts a Stop command to the worker queue, returns the
abort signal -1, arms no further transfer and leaves the state, so
`dma_wr_pos`, unchanged. For every other status below 0 it posts nothing,
leaves the state, so `dma_wr_pos`, unchanged, re-arms the transfer of one
chunk at the current write position and returns 0: the transfer is tried again
at the next transmission. -/
theorem C19_have_more_error (status : Int) (s : PcmRec) :
    (status = DMA_REC_ERROR_DMA →
      (pcm_rec_have_more status s).ret = -1 ∧
      (pcm_rec_have_more status s).posted = [pcmrec_msg.PCMREC_STOP] ∧
      (pcm_rec_have_more status s).armed = none ∧
      (pcm_rec_have_more status s).state = s ∧
      (pcm_rec_have_more status s).state.dma_wr_pos = s.dma_wr_pos) ∧
    (status < 0 → status ≠ DMA_REC_ERROR_DMA →
      (pcm_rec_have_more status s).ret = 0 ∧
      (pcm_rec_have_more status s).posted = [] ∧
      (pcm_rec_have_more status s).armed = some (s.dma_wr_pos, PCM_CHUNK_SIZE) ∧
      (pcm_rec_have_more status s).state = s ∧
      (pcm_rec_have_more status s).state.dma_wr_pos = s.dma_wr_pos) := by
  constructor
  · intro h
    have hneg : status < 0 := by rw [h]; decide
    unfold pcm_rec_have_more
    rw [if_pos hneg, if_pos h]
    exact ⟨rfl, rfl, rfl, rfl, rfl⟩
  · intro hneg hne
    unfold pcm_rec_have_more
    rw [if_pos hneg, if_neg hne]
    exact ⟨rfl, rfl, rfl, rfl, rfl⟩

/-- Witness of C19 (amended): the DMA error stops the session, the status -2
is retried. -/
theorem C19_have_more_error_witness :
    (pcm_rec_have_more DMA_REC_ERROR_DMA one_chunk_captured).ret = -1 ∧
    (pcm_rec_have_more DMA_REC_ERROR_DMA one_chunk_captured).posted
      = [pcmrec_msg.PCMREC_STOP] ∧
    (pcm_rec_have_more (-2) one_chunk_captured).ret = 0 ∧
    (pcm_rec_have_more (-2) one_chunk_captured).armed
      = some (one_chunk_captured.dma_wr_pos, PCM_CHUNK_SIZE) :=
  ⟨((C19_have_more_error DMA_REC_ERROR_DMA one_chunk_captured).1 rfl).1,
   ((C19_have_more_error DMA_REC_ERROR_DMA one_chunk_captured).1 rfl).2.1,
   ((C19_have_more_error (-2) one_chunk_captured).2 (by decide) (by decide)).1,
   ((C19_have_more_error (-2) one_chunk_captured).2 (by decide) (by decide)).2.2.1⟩

/-- C27: for every session state `pcm_rec_status` returns a bitmask in which
the recording bit is set iff `is_recording`, the pre-recording bit iff
(not `is_recording` and `pre_record_ticks ≠ 0`), the paused bit iff
`is_paused`, the error bit iff `errors ≠ 0`, the warning bit iff
`warnings ≠ 0`, and no other bit; recording and pre-recording are never both
set; after `pcm_rec_error_clear` the error and the warning bit are both clear
and `pcm_rec_get_warnings` returns 0. -/
theorem C27_status_bits (s : PcmRec) :
    (pcm_rec_status s &&& AUDIO_STATUS_RECORD ≠ 0 ↔ s.is_recording = true) ∧
    (pcm_rec_status s &&& AUDIO_STATUS_PRERECORD ≠ 0
      ↔ (s.is_recording = false ∧ s.pre_record_ticks ≠ 0)) ∧
    (pcm_rec_status s &&& AUDIO_STATUS_PAUSE ≠ 0 ↔ s.is_paused = true) ∧
    (pcm_rec_status s &&& AUDIO_STATUS_ERROR ≠ 0 ↔ s.errors ≠ 0) ∧
    (pcm_rec_status s &&& AUDIO_STATUS_WARNING ≠ 0 ↔ s.warnings ≠ 0) ∧
    pcm_rec_status s &&&
        (AUDIO_STATUS_RECORD ||| AUDIO_STATUS_PRERECORD ||| AUDIO_STATUS_PAUSE
          ||| AUDIO_STATUS_ERROR ||| AUDIO_STATUS_WARNING) = pcm_rec_status s ∧
    ¬ (pcm_rec_status s &&& AUDIO_STATUS_RECORD ≠ 0 ∧
        pcm_rec_status s &&& AUDIO_STATUS_PRERECORD ≠ 0) ∧
    pcm_rec_status (pcm_rec_error_clear s) &&& AUDIO_STATUS_ERROR = 0 ∧
    pcm_rec_status (pcm_rec_error_clear s) &&& AUDIO_STATUS_WARNING = 0 ∧
    pcm_rec_get_warnings (pcm_rec_error_clear s) = 0 := by
  have hclear : pcm_rec_status (pcm_rec_error_clear s)
      = (if s.is_recording = true then AUDIO_STATUS_RECORD
         else if s.pre_record_ticks ≠ 0 then AUDIO_STATUS_PRERECORD else 0)
        ||| (if s.is_paused = true then AUDIO_STATUS_PAUSE else 0) := by
    unfold pcm_rec_status pcm_rec_error_clear
    by_cases h1 : s.is_recording = true <;> by_cases h2 : s.pre_record_ticks = 0 <;>
      by_cases h3 : s.is_paused = true <;> simp [h1, h2, h3]
  refine ⟨?_, ?_, ?_, ?_, ?_, ?_, ?_, ?_, ?_, rfl⟩
  all_goals first
    | (rw [hclear]
       by_cases h1 : s.is_recording = true <;> by_cases h2 : s.pre_record_ticks = 0 <;>
         by_cases h3 : s.is_paused = true <;> simp +decide [h1, h2, h3])
    | (unfold pcm_rec_status
       by_cases h1 : s.is_recording = true <;> by_cases h2 : s.pre_record_ticks = 0 <;>
         by_cases h3 : s.is_paused = true <;> by_cases h4 : s.errors = 0 <;>
         by_cases h5 : s.warnings = 0 <;> simp +decide [h1, h2, h3, h4, h5])

/-- C28 (as stated) fails: a recording with the encoder sample rate 1 and
`2 ^ 31` samples recorded. The quotient `HZ * num_rec_samples / 1` is
`100 * 2 ^ 31`, formed without overflow in 64 bits, and does not fit the 32-bit
result: `audio_recorded_time` returns 0. -/
theorem C28_counterexample :
    ({ boot_state with is_recording := true, enc_sample_rate := 1,
                       num_rec_samples := 2 ^ 31 } : PcmRec).is_recording = true ∧
    HZ * 2 ^ 31 / 1 = 214748364800 ∧
    audio_recorded_time { boot_state with is_recording := true, enc_sample_rate := 1,
                                          num_rec_samples := 2 ^ 31 } = 0 ∧
    ¬ (audio_recorded_time { boot_state with is_recording := true, enc_sample_rate := 1,
                                             num_rec_samples := 2 ^ 31 }
        = HZ * 2 ^ 31 / 1) := by
  decide

/-- C28 (amended): `audio_recorded_time` is total: it returns 0 whenever
`is_recording` is false or `enc_sample_rate` is 0 (so no division by zero
occurs, including after the encoder terminated through
`enc_set_parameters(null)`), and otherwise, `num_rec_samples` being a 32-bit
word, it returns `floor(HZ * num_rec_samples / enc_sample_rate)` reduced to the
32 bits of the result, the product being formed without overflow in 64 bits;
that is the quotient itself whenever `enc_sample_rate ≥ HZ`.
`audio_num_recorded_bytes` returns `num_rec_bytes` when `is_recording` and 0
otherwise. -/
theorem C28_recorded_time_total (s : PcmRec) :
    ((s.is_recording = false ∨ s.enc_sample_rate = 0) → audio_recorded_time s = 0) ∧
    audio_recorded_time (enc_set_parameters none s).2 = 0 ∧
    ((s.is_recording = true ∧ s.enc_sample_rate ≠ 0 ∧ s.num_rec_samples < 2 ^ 32) →
      HZ * s.num_rec_samples < 2 ^ 64 ∧
      audio_recorded_time s = (HZ * s.num_rec_samples / s.enc_sample_rate) % 2 ^ 32 ∧
      (HZ ≤ s.enc_sample_rate →
        audio_recorded_time s = HZ * s.num_rec_samples / s.enc_sample_rate)) ∧
    (s.is_recording = true → audio_num_recorded_bytes s = s.num_rec_bytes) ∧
    (s.is_recording = false → audio_num_recorded_bytes s = 0) := by
  have hHZ : HZ = 100 := rfl
  refine ⟨?_, ?_, ?_, ?_, ?_⟩
  · intro h
    unfold audio_recorded_time
    rw [if_pos (by rcases h with h | h <;> simp [h])]
  · unfold audio_recorded_time enc_set_parameters
    simp
  · rintro ⟨hrec, hrate, hnum⟩
    have hprod : HZ * s.num_rec_samples < 2 ^ 64 := by rw [hHZ]; omega
    have heq : audio_recorded_time s
        = (HZ * s.num_rec_samples / s.enc_sample_rate) % 2 ^ 32 := by
      unfold audio_recorded_time ULONG_RANGE
      rw [if_neg (by simp [hrec, hrate]), Nat.mod_eq_of_lt hprod]
    refine ⟨hprod, heq, ?_⟩
    intro hge
    rw [heq]
    apply Nat.mod_eq_of_lt
    have h1 : HZ * s.num_rec_samples / s.enc_sample_rate
        ≤ HZ * s.num_rec_samples / HZ :=
      Nat.div_le_div_left hge (by decide)
    rw [Nat.mul_div_cancel_left _ (by decide : 0 < HZ)] at h1
    omega
  · intro hrec
    unfold audio_num_recorded_bytes
    rw [if_neg (by simp [hrec])]
  · intro hrec
    unfold audio_num_recorded_bytes
    rw [if_pos (by simp [hrec])]

/-- Witness of C28 (amended): one second of samples at 44100 Hz is 100 ticks;
an idle recorder reports no time. -/
theorem C28_recorded_time_total_witness :
    audio_recorded_time { boot_state with is_recording := true, enc_sample_rate := 44100,
                                          num_rec_samples := 44100 } = 100 ∧
    audio_recorded_time boot_state = 0 :=
  ⟨(((C28_recorded_time_total
        { boot_state with is_recording := true, enc_sample_rate := 44100,
                          num_rec_samples := 44100 }).2.2.1
      ⟨rfl, by decide, by decide⟩).2.2 (by decide)).trans (by decide),
   (C28_recorded_time_total boot_state).1 (Or.inl rfl)⟩

theorem pcmrec_pause_eq (s : PcmRec) :
    pcmrec_pause s =
      if s.is_recording = true ∧ s.is_paused = false
      then { s with dma_lock := true, is_paused := true } else s := by
  unfold pcmrec_pause
  by_cases h1 : s.is_recording = true <;> by_cases h2 : s.is_paused = true <;>
    simp [h1, h2]

theorem pcmrec_resume_eq (s : PcmRec) :
    pcmrec_resume s =
      if s.is_recording = true ∧ s.is_paused = true
      then { s with is_paused := false, dma_lock := false } else s := by
  unfold pcmrec_resume
  by_cases h1 : s.is_recording = true <;> by_cases h2 : s.is_paused = true <;>
    simp [h1, h2]

/-- Stop, when it returns, leaves the session not recording. -/
theorem pcmrec_stop_idle (enc : Encoder) (fuel : Nat) (s s1 : PcmRec)
    (h : pcmrec_stop enc fuel s = some s1) : s1.is_recording = false := by
  unfold pcmrec_stop at h
  by_cases hrec : s.is_recording = true
  · rw [if_neg (by simp [hrec])] at h
    simp only [Option.bind_eq_some, Option.map_eq_some'] at h
    obtain ⟨a, _, b, _, hb⟩ := h
    rw [← hb]
    rfl
  · rw [if_pos hrec] at h
    have : s1 = s := by injection h with h; exact h.symm
    rw [this]
    simpa using hrec

/-- C21: command validity. Pause changes the session state iff `is_recording`
and not `is_paused`, and then sets exactly `is_paused` and `dma_lock` to true;
Resume changes the state iff `is_recording` and `is_paused`, and then sets
exactly `is_paused` and `dma_lock` to false; Stop issued while not recording
changes nothing. In every invalid state the command leaves the whole state
unchanged, and re-issuing Pause, Resume or Stop is idempotent. -/
theorem C21_command_validity (enc : Encoder) (fuel fuel2 : Nat) (s : PcmRec) :
    (pcmrec_pause s ≠ s ↔ (s.is_recording = true ∧ s.is_paused = false)) ∧
    ((s.is_recording = true ∧ s.is_paused = false) →
      pcmrec_pause s = { s with is_paused := true, dma_lock := true }) ∧
    (pcmrec_resume s ≠ s ↔ (s.is_recording = true ∧ s.is_paused = true)) ∧
    ((s.is_recording = true ∧ s.is_paused = true) →
      pcmrec_resume s = { s with is_paused := false, dma_lock := false }) ∧
    (s.is_recording = false → pcmrec_stop enc fuel s = some s) ∧
    pcmrec_pause (pcmrec_pause s) = pcmrec_pause s ∧
    pcmrec_resume (pcmrec_resume s) = pcmrec_resume s ∧
    (∀ s1, pcmrec_stop enc fuel s = some s1 → pcmrec_stop enc fuel2 s1 = some s1) := by
  have hstop : ∀ (f : Nat) (t : PcmRec), t.is_recording = false →
      pcmrec_stop enc f t = some t := by
    intro f t ht
    unfold pcmrec_stop
    rw [if_pos (by simp [ht])]
  refine ⟨?_, ?_, ?_, ?_, hstop fuel s, ?_, ?_, ?_⟩
  · rw [pcmrec_pause_eq]
    by_cases h : s.is_recording = true ∧ s.is_paused = false
    · rw [if_pos h]
      refine ⟨fun _ => h, fun _ heq => ?_⟩
      have := congrArg PcmRec.is_paused heq
      rw [h.2] at this
      exact absurd this (by simp)
    · rw [if_neg h]
      exact ⟨fun hne => absurd rfl hne, fun h' => absurd h' h⟩
  · intro h
    rw [pcmrec_pause_eq, if_pos h]
  · rw [pcmrec_resume_eq]
    by_cases h : s.is_recording = true ∧ s.is_paused = true
    · rw [if_pos h]
      refine ⟨fun _ => h, fun _ heq => ?_⟩
      have := congrArg PcmRec.is_paused heq
      rw [h.2] at this
      exact absurd this (by simp)
    · rw [if_neg h]
      exact ⟨fun hne => absurd rfl hne, fun h' => absurd h' h⟩
  · intro h
    rw [pcmrec_resume_eq, if_pos h]
  · have hp := pcmrec_pause_eq s
    by_cases h : s.is_recording = true ∧ s.is_paused = false
    · rw [if_pos h] at hp
      rw [hp, pcmrec_pause_eq, if_neg (by simp)]
    · rw [if_neg h] at hp
      rw [hp, hp]
  · have hp := pcmrec_resume_eq s
    by_cases h : s.is_recording = true ∧ s.is_paused = true
    · rw [if_pos h] at hp
      rw [hp, pcmrec_resume_eq, if_neg (by simp)]
    · rw [if_neg h] at hp
      rw [hp, hp]
  · intro s1 h1
    exact hstop fuel2 s1 (pcmrec_stop_idle enc fuel s s1 h1)

/-- Witness of C21: Pause on a running recording pauses it; Pause on the
paused recording and Resume on the running one change nothing. -/
theorem C21_command_validity_witness :
    pcmrec_pause roomy_ring_recording
      = { roomy_ring_recording with is_paused := true, dma_lock := true } ∧
    pcmrec_pause (pcmrec_pause roomy_ring_recording) = pcmrec_pause roomy_ring_recording ∧
    pcmrec_stop file_encoder 0 boot_state = some boot_state :=
  ⟨(C21_command_validity file_encoder 0 0 roomy_ring_recording).2.1 ⟨rfl, rfl⟩,
   (C21_command_validity file_encoder 0 0 roomy_ring_recording).2.2.2.2.2.1,
   (C21_command_validity file_encoder 0 0 boot_state).2.2.2.2.1 rfl⟩

/-- `pcmrec_set_recording_options`, both outcomes of the encoder load. -/
theorem pcmrec_set_recording_options_eq (rec_freq_sampr : Int → Nat) (load_ok : Bool)
    (options : audio_recording_options) (s : PcmRec) :
    pcmrec_set_recording_options rec_freq_sampr load_ok options s =
      { s with
        rec_frequency := options.rec_frequency,
        rec_source := options.rec_source,
        num_channels := if options.rec_channels = 1 then 1 else 2,
        pre_record_ticks := umul options.rec_prerecord_time HZ,
        enc_config_afmt := options.enc_afmt,
        sample_rate := rec_freq_sampr options.rec_frequency,
        dma_lock := if load_ok = true then decide (umul options.rec_prerecord_time HZ = 0)
                    else true,
        errors := if load_ok = true then s.errors
                  else s.errors ||| PCMREC_E_LOAD_ENCODER } := by
  unfold pcmrec_set_recording_options
  cases load_ok <;> simp

/-- C26: for every options record, SetOptions sets `num_channels` to 1 iff
`rec_channels = 1` and to 2 otherwise, and `pre_record_ticks` to
`rec_prerecord_time * HZ` (in the machine word: the product itself when it
fits). If the encoder fails to load it sets the `PCMREC_E_LOAD_ENCODER` error
bit and leaves `dma_lock = true` with no capture transfer started; if the
encoder loads it leaves `errors` as they are, starts the transfer and sets
`dma_lock` to true exactly when the pre-record ticks are zero, which, the
product fitting the word, is exactly when the pre-record time is zero. -/
theorem C26_set_options (rec_freq_sampr : Int → Nat) (load_ok : Bool)
    (options : audio_recording_options) (s : PcmRec) :
    ((pcmrec_set_recording_options rec_freq_sampr load_ok options s).num_channels = 1
      ↔ options.rec_channels = 1) ∧
    (options.rec_channels ≠ 1 →
      (pcmrec_set_recording_options rec_freq_sampr load_ok options s).num_channels = 2) ∧
    (pcmrec_set_recording_options rec_freq_sampr load_ok options s).pre_record_ticks
      = (options.rec_prerecord_time * HZ) % 2 ^ 32 ∧
    (options.rec_prerecord_time * HZ < 2 ^ 32 →
      (pcmrec_set_recording_options rec_freq_sampr load_ok options s).pre_record_ticks
        = options.rec_prerecord_time * HZ) ∧
    (load_ok = false →
      (pcmrec_set_recording_options rec_freq_sampr load_ok options s).errors
        = s.errors ||| PCMREC_E_LOAD_ENCODER ∧
      (pcmrec_set_recording_options rec_freq_sampr load_ok options s).errors
        &&& PCMREC_E_LOAD_ENCODER = PCMREC_E_LOAD_ENCODER ∧
      (pcmrec_set_recording_options rec_freq_sampr load_ok options s).dma_lock = true ∧
      set_recording_options_transfer load_ok
        (pcmrec_set_recording_options rec_freq_sampr load_ok options s) = none) ∧
    (load_ok = true →
      (pcmrec_set_recording_options rec_freq_sampr load_ok options s).errors = s.errors ∧
      ((pcmrec_set_recording_options rec_freq_sampr load_ok options s).dma_lock = true
        ↔ (pcmrec_set_recording_options rec_freq_sampr load_ok options s).pre_record_ticks
            = 0) ∧
      (options.rec_prerecord_time * HZ < 2 ^ 32 →
        ((pcmrec_set_recording_options rec_freq_sampr load_ok options s).dma_lock = true
          ↔ options.rec_prerecord_time = 0)) ∧
      set_recording_options_transfer load_ok
        (pcmrec_set_recording_options rec_freq_sampr load_ok options s)
          = some (s.dma_wr_pos, PCM_CHUNK_SIZE)) := by
  rw [pcmrec_set_recording_options_eq]
  have hHZ : HZ = 100 := rfl
  have hum : umul options.rec_prerecord_time HZ = (options.rec_prerecord_time * HZ) % 2 ^ 32 :=
    rfl
  refine ⟨?_, ?_, hum, ?_, ?_, ?_⟩
  · show (if options.rec_channels = 1 then (1 : Int) else 2) = 1 ↔ _
    by_cases h : options.rec_channels = 1 <;> simp [h]
  · intro h
    show (if options.rec_channels = 1 then (1 : Int) else 2) = 2
    rw [if_neg h]
  · intro hfit
    show umul options.rec_prerecord_time HZ = _
    rw [hum, Nat.mod_eq_of_lt hfit]
  · intro hl
    subst hl
    refine ⟨rfl, ?_, rfl, rfl⟩
    exact lor_land_self _ _
  · intro hl
    subst hl
    refine ⟨rfl, ?_, ?_, rfl⟩
    · show decide (umul options.rec_prerecord_time HZ = 0) = true
          ↔ umul options.rec_prerecord_time HZ = 0
      simp
    · intro hfit
      show decide (umul options.rec_prerecord_time HZ = 0) = true ↔ _
      rw [hum, Nat.mod_eq_of_lt hfit, hHZ]
      simp

/-- Witness of C26: mono with 5 seconds of pre-recording; a failed encoder
load. -/
theorem C26_set_options_witness :
    (pcmrec_set_recording_options freq_44100 true
        { round_trip_options with rec_channels := 1, rec_prerecord_time := 5 }
        boot_state).pre_record_ticks = 5 * HZ ∧
    (pcmrec_set_recording_options freq_44100 false round_trip_options boot_state).errors
      = boot_state.errors ||| PCMREC_E_LOAD_ENCODER :=
  ⟨(C26_set_options freq_44100 true
      { round_trip_options with rec_channels := 1, rec_prerecord_time := 5 }
      boot_state).2.2.2.1 (by decide),
   ((C26_set_options freq_44100 false round_trip_options boot_state).2.2.2.2.1 rfl).1⟩

theorem ALIGN_UP_P2_two (n : Nat) :
    ALIGN_UP_P2 n 2 = (n + 3) % 4294967296 / 4 * 4 := by
  unfold ALIGN_UP_P2 ULONG_RANGE
  norm_num

theorem usub_eq (a b : Nat) :
    usub a b = (a % 4294967296 + 4294967296 - b % 4294967296) % 4294967296 := by
  unfold usub ULONG_RANGE
  norm_num

theorem to_int_small (x : Nat) (h : x < 2147483648) : to_int x = (x : Int) := by
  unfold to_int ULONG_RANGE
  have h1 : x % 2 ^ 32 = x := Nat.mod_eq_of_lt (by norm_num; omega)
  rw [h1, if_neg (by norm_num; omega)]

/-- The number of chunks `enc_set_parameters` computes is never negative. -/
theorem enc_set_parameters_num_chunks (params : enc_parameters) (s : PcmRec) :
    (enc_set_parameters (some params) s).2.enc_num_chunks
      = ((usub (usub (usub s.rec_buffer_size (usub s.enc_buffer s.pcm_buffer))
              (ALIGN_UP_P2 params.reserve_bytes 2)) (FNQ_MIN_NUM_PATHS * MAX_PATH)
            / ALIGN_UP_P2 (ENC_CHUNK_HDR_SIZE + params.chunk_size) 2 : Nat) : Int) := by
  show to_int _ = _
  apply to_int_small
  obtain ⟨a, ha⟩ : ∃ a, a = usub (usub (usub s.rec_buffer_size (usub s.enc_buffer s.pcm_buffer))
      (ALIGN_UP_P2 params.reserve_bytes 2)) (FNQ_MIN_NUM_PATHS * MAX_PATH) := ⟨_, rfl⟩
  rw [← ha]
  have ha2 : a < 4294967296 := by
    rw [ha, usub_eq]
    exact Nat.mod_lt _ (by decide)
  rw [ALIGN_UP_P2_two]
  obtain ⟨q, hq⟩ : ∃ q, q = (ENC_CHUNK_HDR_SIZE + params.chunk_size + 3) % 4294967296 / 4 :=
    ⟨_, rfl⟩
  rw [← hq]
  rcases Nat.eq_zero_or_pos q with h0 | hpos
  · rw [h0]; simp
  · have : a / (q * 4) ≤ a / 4 := Nat.div_le_div_left (by omega) (by decide)
    omega

/-- C25: `enc_set_parameters` with non-null params whose slot size is positive
(so that the division by the slot size is defined) resets both rings and
returns the geometry. The slot size is `ENC_CHUNK_HDR_SIZE + chunk_size`
rounded up to a multiple of 4; the number of chunks is the available bytes
divided by the slot size (rounded down), the available bytes being
`rec_buffer_size` minus the capture ring with its guard, minus the reserve
bytes rounded up to 4, minus `16 * MAX_PATH`, all in the 32-bit machine word,
and the plain differences and quotient of `spec_slot_size` and
`spec_available` whenever the sizes fit the word and the buffer holds the
parts; the slot size and the count are handed back in the params. The read and
the write index are 0, every chunk of the ring has flags 0, `pcm_rd_pos` is
`dma_wr_pos`, and the filename queue is empty. With null params only
`enc_sample_rate` and the encoder configuration are zeroed: the rings and the
filename queue are unchanged. -/
theorem C25_set_parameters (params : enc_parameters) (s : PcmRec)
    (h0 : 0 < ALIGN_UP_P2 (ENC_CHUNK_HDR_SIZE + params.chunk_size) 2) :
    ((enc_set_parameters (some params) s).2.enc_chunk_size
        = ALIGN_UP_P2 (ENC_CHUNK_HDR_SIZE + params.chunk_size) 2 ∧
      0 < (enc_set_parameters (some params) s).2.enc_chunk_size ∧
      (enc_set_parameters (some params) s).2.enc_chunk_size % 4 = 0 ∧
      (enc_set_parameters (some params) s).2.enc_num_chunks
        = ((usub (usub (usub s.rec_buffer_size (usub s.enc_buffer s.pcm_buffer))
                (ALIGN_UP_P2 params.reserve_bytes 2)) (16 * MAX_PATH)
              / (enc_set_parameters (some params) s).2.enc_chunk_size : Nat) : Int)) ∧
    ((ENC_CHUNK_HDR_SIZE + params.chunk_size + 3 < 2 ^ 32 ∧
        params.reserve_bytes + 3 < 2 ^ 32 ∧
        s.rec_buffer_size < 2 ^ 32 ∧ s.enc_buffer < 2 ^ 32 ∧
        s.pcm_buffer ≤ s.enc_buffer ∧
        (s.enc_buffer - s.pcm_buffer) + (params.reserve_bytes + 3) / 4 * 4 + 16 * MAX_PATH
          ≤ s.rec_buffer_size) →
      (enc_set_parameters (some params) s).2.enc_chunk_size
        = spec_slot_size params.chunk_size ∧
      (enc_set_parameters (some params) s).2.enc_num_chunks
        = ((spec_available params.reserve_bytes s / spec_slot_size params.chunk_size : Nat)
            : Int)) ∧
    (∃ out, (enc_set_parameters (some params) s).1 = some out ∧
      out.buf_chunk_size = (enc_set_parameters (some params) s).2.enc_chunk_size ∧
      out.num_chunks = (enc_set_parameters (some params) s).2.enc_num_chunks ∧
      out.enc_buffer = s.enc_buffer) ∧
    ((enc_set_parameters (some params) s).2.enc_rd_index = 0 ∧
      (enc_set_parameters (some params) s).2.enc_wr_index = 0 ∧
      (∀ j, 0 ≤ j → j < (enc_set_parameters (some params) s).2.enc_num_chunks →
        ((enc_set_parameters (some params) s).2.chunks j).flags = 0) ∧
      (enc_set_parameters (some params) s).2.pcm_rd_pos
        = (enc_set_parameters (some params) s).2.dma_wr_pos ∧
      (enc_set_parameters (some params) s).2.dma_wr_pos = s.dma_wr_pos ∧
      pcmrec_fnq_is_empty (enc_set_parameters (some params) s).2 = true ∧
      fnq_count (enc_set_parameters (some params) s).2 = 0) ∧
    enc_set_parameters none s
      = (none, { s with enc_sample_rate := 0, enc_config_afmt := 0 }) := by
  have hn := enc_set_parameters_num_chunks params s
  have hst := enc_set_parameters_state params s
  have hfm : FNQ_MIN_NUM_PATHS * MAX_PATH = 16 * MAX_PATH := rfl
  have hMP : MAX_PATH = 260 := rfl
  have hH : ENC_CHUNK_HDR_SIZE = 16 := rfl
  have hcs : (enc_set_parameters (some params) s).2.enc_chunk_size
      = ALIGN_UP_P2 (ENC_CHUNK_HDR_SIZE + params.chunk_size) 2 := rfl
  rw [hfm] at hn
  refine ⟨⟨hcs, by rw [hcs]; exact h0, ?_, ?_⟩, ?_, ⟨_, rfl, rfl, rfl, rfl⟩, ?_, rfl⟩
  · rw [hcs, ALIGN_UP_P2_two]
    omega
  · rw [hn, hcs]
  · rintro ⟨h1, h2, h3, h4, h5, h6⟩
    have h32 : (2 : Nat) ^ 32 = 4294967296 := by norm_num
    rw [h32] at h1 h2 h3 h4
    have e1 : ALIGN_UP_P2 (ENC_CHUNK_HDR_SIZE + params.chunk_size) 2
        = spec_slot_size params.chunk_size := by
      rw [ALIGN_UP_P2_two]
      unfold spec_slot_size
      rw [Nat.mod_eq_of_lt h1]
    have e2 : usub (usub (usub s.rec_buffer_size (usub s.enc_buffer s.pcm_buffer))
          (ALIGN_UP_P2 params.reserve_bytes 2)) (16 * MAX_PATH)
        = spec_available params.reserve_bytes s := by
      unfold spec_available
      rw [ALIGN_UP_P2_two, Nat.mod_eq_of_lt h2]
      simp only [usub_eq]
      rw [hMP] at h6 ⊢
      omega
    refine ⟨by rw [hcs, e1], ?_⟩
    rw [hn, e1, e2]
  · obtain ⟨_, _, _, _, _, g1, g2, g3, g4, g5, g6, g7⟩ := hst
    have hwr : (enc_set_parameters (some params) s).2.enc_wr_index = 0 := by
      rw [g6]
      split
      · rfl
      · rename_i hle
        rw [hn] at hle ⊢
        have hnn : (0 : Int) ≤ ((usub (usub (usub s.rec_buffer_size
            (usub s.enc_buffer s.pcm_buffer)) (ALIGN_UP_P2 params.reserve_bytes 2))
            (16 * MAX_PATH)
            / ALIGN_UP_P2 (ENC_CHUNK_HDR_SIZE + params.chunk_size) 2 : Nat) : Int) :=
          Int.ofNat_nonneg _
        exact le_antisymm (not_lt.mp hle) hnn
    refine ⟨g5, hwr, g7, by rw [g2, g1], g1, ?_, ?_⟩
    · unfold pcmrec_fnq_is_empty
      rw [g3, g4]
      rfl
    · unfold fnq_count
      rw [g3, g4]
      simp

/-- Witness of C25: a recording buffer of 2151376 bytes at address 100, chunks
of 1000 payload bytes: the slot size is positive, slots of 1016 bytes, 29 of
them. -/
theorem C25_set_parameters_witness :
    0 < ALIGN_UP_P2 (ENC_CHUNK_HDR_SIZE + round_trip_params.chunk_size) 2 ∧
    (enc_set_parameters (some round_trip_params)
        (pcmrec_init 100 2151376 boot_state)).2.enc_chunk_size = 1016 ∧
    (enc_set_parameters (some round_trip_params)
        (pcmrec_init 100 2151376 boot_state)).2.enc_num_chunks = 29 :=
  ⟨by decide,
   ((C25_set_parameters round_trip_params (pcmrec_init 100 2151376 boot_state)
      (by decide)).2.1 (by decide)).1.trans (by decide),
   ((C25_set_parameters round_trip_params (pcmrec_init 100 2151376 boot_state)
      (by decide)).2.1 (by decide)).2.trans (by decide)⟩

theorem pcmrec_fnq_is_full_congr (s t : PcmRec) (h1 : t.fnq_rd_pos = s.fnq_rd_pos)
    (h2 : t.fnq_wr_pos = s.fnq_wr_pos) (h3 : t.fnq_size = s.fnq_size) :
    pcmrec_fnq_is_full t = pcmrec_fnq_is_full s := by
  unfold pcmrec_fnq_is_full
  rw [h1, h2, h3]

/-- A plain start through `pcmrec_new_stream` with room in the filename queue:
the state the name is queued on, and which queue operation queues it. -/
theorem new_stream_plain_queue (enc : Encoder) (henc : new_stream_keeps_counters enc)
    (hqueue : ∀ d t, (enc.new_stream d t).2.fn_queue = t.fn_queue)
    (fuel : Nat) (name : String) (pre_index : Int) (s : PcmRec)
    (hroom : pcmrec_fnq_is_full s = false) :
    ∃ sd,
      (sd.fnq_rd_pos = s.fnq_rd_pos ∧ sd.fnq_wr_pos = s.fnq_wr_pos ∧
        sd.fnq_size = s.fnq_size ∧ sd.fn_queue = s.fn_queue ∧
        sd.enc_wr_index = s.enc_wr_index ∧
        (sd.chunks s.enc_wr_index).flags &&& CHUNKF_START_FILE = CHUNKF_START_FILE) ∧
      pcmrec_new_stream enc fuel (some name) CHUNKF_START_FILE pre_index s =
        some (if (s.chunks s.enc_wr_index).flags &&& CHUNKF_START_FILE ≠ 0
              then (pcmrec_fnq_replace_tail name sd).2
              else (pcmrec_fnq_add_filename name sd).2) := by
  have e1 : CHUNKF_START_FILE &&& CHUNKF_END_FILE = 0 := by decide
  have e2 : CHUNKF_START_FILE &&& CHUNKF_START_FILE ≠ 0 := by decide
  have e3 : CHUNKF_START_FILE &&& CHUNKF_PRERECORD = 0 := by decide
  unfold pcmrec_new_stream new_stream_end new_stream_start
  simp only [e1, e2, e3, ne_eq, not_true_eq_false, not_false_eq_true, if_true, if_false,
    Option.getD_some]
  obtain ⟨s0, hs0⟩ : ∃ s0, s0 = set_flags s s.enc_wr_index
      ((GET_ENC_CHUNK s s.enc_wr_index).flags &&& CHUNKF_START_FILE) :=
    ⟨_, rfl⟩
  rw [← hs0]
  obtain ⟨hc, hw, hr, hb, hsm, hfr, hfw, hfs⟩ := callback_new_stream_kept enc henc
    { flags := CHUNKF_START_FILE, pre_chunk := none, chunk := s.enc_wr_index } s0
  have hfq : (enc_events_callback_new_stream enc
      { flags := CHUNKF_START_FILE, pre_chunk := none, chunk := s.enc_wr_index } s0).2.fn_queue
      = s0.fn_queue := hqueue _ _
  obtain ⟨r, hrr⟩ : ∃ r, r = enc_events_callback_new_stream enc
      { flags := CHUNKF_START_FILE, pre_chunk := none, chunk := s.enc_wr_index } s0 := ⟨_, rfl⟩
  rw [← hrr] at hc hw hr hb hsm hfr hfw hfs hfq ⊢
  have a5 : s0.enc_wr_index = s.enc_wr_index := by rw [hs0]; rfl
  have hc2 : r.1.chunk = s.enc_wr_index := hc
  rw [new_stream_stats_done fuel r.1.chunk _ (by show r.1.chunk = r.2.enc_wr_index; rw [hc2, hw, a5])]
  simp only [Option.map_some']
  obtain ⟨z, hz⟩ : ∃ z, z = { r.2 with num_rec_bytes := 0, num_rec_samples := 0 } := ⟨_, rfl⟩
  rw [← hz]
  obtain ⟨se, hse⟩ : ∃ se, se = set_flags z s.enc_wr_index
      ((GET_ENC_CHUNK z s.enc_wr_index).flags &&& unot CHUNKF_START_FILE) := ⟨_, rfl⟩
  rw [← hse]
  obtain ⟨sd, hsd⟩ : ∃ sd, sd = set_flags se r.1.chunk
      ((GET_ENC_CHUNK se r.1.chunk).flags ||| CHUNKF_START_FILE) := ⟨_, rfl⟩
  rw [← hsd]
  have hs0f : s0.fnq_rd_pos = s.fnq_rd_pos ∧ s0.fnq_wr_pos = s.fnq_wr_pos ∧
      s0.fnq_size = s.fnq_size ∧ s0.fn_queue = s.fn_queue := by
    rw [hs0]; exact ⟨rfl, rfl, rfl, rfl⟩
  have hsdf : sd.fnq_rd_pos = r.2.fnq_rd_pos ∧ sd.fnq_wr_pos = r.2.fnq_wr_pos ∧
      sd.fnq_size = r.2.fnq_size ∧ sd.fn_queue = r.2.fn_queue ∧
      sd.enc_wr_index = r.2.enc_wr_index := by
    rw [hsd, hse, hz]; exact ⟨rfl, rfl, rfl, rfl, rfl⟩
  obtain ⟨a1, a2, a3, a4⟩ := hs0f
  obtain ⟨b1, b2, b3, b4, b5⟩ := hsdf
  have hfull : pcmrec_fnq_is_full sd = false := by
    rw [pcmrec_fnq_is_full_congr s sd (by rw [b1, hfr, a1]) (by rw [b2, hfw, a2])
      (by rw [b3, hfs, a3])]
    exact hroom
  rw [hfull]
  simp only [Bool.false_eq_true, and_false, if_false]
  have hflag : (sd.chunks s.enc_wr_index).flags &&& CHUNKF_START_FILE = CHUNKF_START_FILE := by
    rw [hsd, hc2]
    simp only [set_flags, set_chunk, GET_ENC_CHUNK, if_true]
    exact lor_land_self _ _
  have hsel : (GET_ENC_CHUNK s0 s.enc_wr_index).flags &&& CHUNKF_START_FILE
      = (s.chunks s.enc_wr_index).flags &&& CHUNKF_START_FILE := by
    rw [hs0]
    simp only [set_flags, set_chunk, GET_ENC_CHUNK, if_true]
    exact land_land_of_land _ _ _ (by decide)
  rw [hsel]
  refine ⟨sd, ⟨by rw [b1, hfr, a1], by rw [b2, hfw, a2], by rw [b3, hfs, a3],
    by rw [b4, hfq, a4], by rw [b5, hw, a5], hflag⟩, ?_⟩
  by_cases hst : (s.chunks s.enc_wr_index).flags &&& CHUNKF_START_FILE = 0
  · simp only [hst, not_true_eq_false, if_false]
  · simp only [hst, not_false_eq_true, if_true]

/-- C30 (as stated) fails: the chunk at the write index carries a start marker
and the filename queue is empty and not full. The claim has the queue grow by
one; the code selects the replacement of the queue's tail, which does nothing
on an empty queue: the queue stays empty. -/
theorem C30_counterexample :
    ((start_at_write_no_name.chunks start_at_write_no_name.enc_wr_index).flags
        &&& CHUNKF_START_FILE ≠ 0 ∧
     pcmrec_fnq_is_empty start_at_write_no_name = true ∧
     pcmrec_fnq_is_full start_at_write_no_name = false ∧
     fnq_count start_at_write_no_name = 0) ∧
    (pcmrec_new_stream file_encoder 0 (some "b.wav") CHUNKF_START_FILE 0
        start_at_write_no_name).map fnq_count = some 0 ∧
    ¬ ((pcmrec_new_stream file_encoder 0 (some "b.wav") CHUNKF_START_FILE 0
        start_at_write_no_name).map fnq_count
          = some (fnq_count start_at_write_no_name + 1)) := by
  decide

/-- Replacing the tail of a filename queue that holds a name. -/
theorem fnq_replace_tail_spec (name : String) (s : PcmRec)
    (hne : pcmrec_fnq_is_empty s = false) :
    (pcmrec_fnq_replace_tail name s).2 =
      { s with fn_queue := fun j =>
          if j = fnq_tail s then strncpy name MAX_PATH else s.fn_queue j } := by
  unfold pcmrec_fnq_replace_tail fnq_tail
  rw [if_neg (by simp [hne])]

/-- Appending to a filename queue that is not full. -/
theorem fnq_add_filename_spec (name : String) (s : PcmRec)
    (hwf : fnq_well_formed s) (hroom : pcmrec_fnq_is_full s = false) :
    (pcmrec_fnq_add_filename name s).2 =
      { s with
        fn_queue := fun j =>
          if j = s.fnq_wr_pos then strncpy name MAX_PATH else s.fn_queue j,
        fnq_wr_pos := fnq_advance s.fnq_size s.fnq_wr_pos } ∧
    fnq_count (pcmrec_fnq_add_filename name s).2 = fnq_count s + 1 := by
  have hMP : ((MAX_PATH : Nat) : Int) = 260 := by decide
  obtain ⟨h1, ⟨h2, h3, h4⟩, h5, h6, h7⟩ := hwf
  rw [hMP] at h1 h4 h7
  have hfull : ¬ ((if s.fnq_wr_pos - s.fnq_rd_pos < 0
      then s.fnq_wr_pos - s.fnq_rd_pos + s.fnq_size else s.fnq_wr_pos - s.fnq_rd_pos)
      ≥ s.fnq_size - 260) := by
    unfold pcmrec_fnq_is_full at hroom
    rw [hMP] at hroom
    simpa using hroom
  have hadv : fnq_advance s.fnq_size s.fnq_wr_pos ≠ s.fnq_rd_pos := by
    unfold fnq_advance
    rw [hMP]
    split at hfull <;> split <;> omega
  have heq : (pcmrec_fnq_add_filename name s).2 =
      { s with
        fn_queue := fun j =>
          if j = s.fnq_wr_pos then strncpy name MAX_PATH else s.fn_queue j,
        fnq_wr_pos := fnq_advance s.fnq_size s.fnq_wr_pos } := by
    unfold pcmrec_fnq_add_filename
    simp only []
    rw [if_pos (fun h => hadv h.symm)]
  refine ⟨heq, ?_⟩
  rw [heq]
  unfold fnq_count fnq_advance
  simp only []
  rw [hMP]
  split at hfull <;> split <;> split <;> omega

/-- C30 (amended): for a plain (non-pre-record) start inserted by
`pcmrec_new_stream` with a well-formed, non-full filename queue and a filename
of at most `MAX_PATH` characters: if the chunk at the write index already
carries an unconsumed start-of-file flag and the queue is non-empty, the queue
length and both queue positions are unchanged, the entry appended last becomes
the new filename and all other entries are unchanged; if the chunk at the write
index carries no start-of-file flag, the queue length grows by one with the
new filename as its newest entry, all other entries unchanged. In every case
the call returns and the chunk at the write index ends with the start-of-file
flag set. The encoder's new-stream callback leaves ring indices, counters and
the filename queue alone. -/
theorem C30_start_queues_name (enc : Encoder) (henc : new_stream_keeps_counters enc)
    (hqueue : ∀ d t, (enc.new_stream d t).2.fn_queue = t.fn_queue)
    (fuel : Nat) (name : String) (pre_index : Int) (s : PcmRec)
    (hwf : fnq_well_formed s) (hroom : pcmrec_fnq_is_full s = false)
    (hname : name.length ≤ MAX_PATH) :
    ∃ s1,
      pcmrec_new_stream enc fuel (some name) CHUNKF_START_FILE pre_index s = some s1 ∧
      (((s.chunks s.enc_wr_index).flags &&& CHUNKF_START_FILE ≠ 0 ∧
          pcmrec_fnq_is_empty s = false) →
        fnq_count s1 = fnq_count s ∧
        s1.fnq_rd_pos = s.fnq_rd_pos ∧ s1.fnq_wr_pos = s.fnq_wr_pos ∧
        s1.fn_queue (fnq_tail s) = name ∧
        ∀ j, j ≠ fnq_tail s → s1.fn_queue j = s.fn_queue j) ∧
      ((s.chunks s.enc_wr_index).flags &&& CHUNKF_START_FILE = 0 →
        fnq_count s1 = fnq_count s + 1 ∧
        s1.fnq_rd_pos = s.fnq_rd_pos ∧
        s1.fnq_wr_pos = fnq_advance s.fnq_size s.fnq_wr_pos ∧
        s1.fn_queue s.fnq_wr_pos = name ∧
        ∀ j, j ≠ s.fnq_wr_pos → s1.fn_queue j = s.fn_queue j) ∧
      s1.enc_wr_index = s.enc_wr_index ∧
      (s1.chunks s1.enc_wr_index).flags &&& CHUNKF_START_FILE = CHUNKF_START_FILE := by
  obtain ⟨sd, ⟨d1, d2, d3, d4, d5, d6⟩, hrun⟩ :=
    new_stream_plain_queue enc henc hqueue fuel name pre_index s hroom
  have hcp : strncpy name MAX_PATH = name := strncpy_short _ _ hname
  have hwfd : fnq_well_formed sd := by
    unfold fnq_well_formed at hwf ⊢
    rw [d1, d2, d3]; exact hwf
  have hroomd : pcmrec_fnq_is_full sd = false := by
    rw [pcmrec_fnq_is_full_congr s sd d1 d2 d3]; exact hroom
  have hcount : fnq_count sd = fnq_count s := by
    unfold fnq_count; rw [d1, d2, d3]
  have htail : fnq_tail sd = fnq_tail s := by
    unfold fnq_tail; rw [d2, d3]
  have hemp : pcmrec_fnq_is_empty sd = pcmrec_fnq_is_empty s := by
    unfold pcmrec_fnq_is_empty; rw [d1, d2]
  by_cases hst : (s.chunks s.enc_wr_index).flags &&& CHUNKF_START_FILE = 0
  · rw [if_neg (by simp [hst])] at hrun
    obtain ⟨g1, g2⟩ := fnq_add_filename_spec name sd hwfd hroomd
    refine ⟨_, hrun, fun h => absurd hst h.1, fun _ => ?_, ?_, ?_⟩
    · rw [g2, hcount, g1]
      refine ⟨rfl, d1, ?_, ?_, ?_⟩
      · show fnq_advance sd.fnq_size sd.fnq_wr_pos = _
        rw [d2, d3]
      · show (if s.fnq_wr_pos = sd.fnq_wr_pos then _ else _) = name
        rw [if_pos d2.symm, hcp]
      · intro j hj
        show (if j = sd.fnq_wr_pos then _ else _) = _
        rw [d2, if_neg hj, d4]
    · rw [g1]; exact d5
    · rw [g1]
      show (sd.chunks sd.enc_wr_index).flags &&& _ = _
      rw [d5]; exact d6
  · rw [if_pos hst] at hrun
    refine ⟨_, hrun, ?_, fun h => absurd h hst, ?_, ?_⟩
    · rintro ⟨_, hne⟩
      rw [fnq_replace_tail_spec name sd (by rw [hemp]; exact hne), htail]
      refine ⟨hcount, d1, d2, ?_, ?_⟩
      · show (if fnq_tail s = fnq_tail s then _ else _) = name
        rw [if_pos rfl, hcp]
      · intro j hj
        show (if j = fnq_tail s then _ else _) = _
        rw [if_neg hj, d4]
    · rw [(fnq_replace_tail_ring name sd).2.1]; exact d5
    · have hch : (pcmrec_fnq_replace_tail name sd).2.chunks = sd.chunks := by
        unfold pcmrec_fnq_replace_tail
        split <;> rfl
      rw [(fnq_replace_tail_ring name sd).2.1, hch, d5]
      exact d6

/-- Witness of C30 (amended): a start pending at the write index with its name
"a.wav" queued; the new start replaces the name by "b.wav". -/
theorem C30_start_queues_name_witness :
    ∃ s1,
      pcmrec_new_stream file_encoder 0 (some "b.wav") CHUNKF_START_FILE 0 start_at_write
        = some s1 ∧
      fnq_count s1 = fnq_count start_at_write ∧
      s1.fn_queue (fnq_tail start_at_write) = "b.wav" :=
  match C30_start_queues_name file_encoder file_encoder_keeps_counters (fun _ _ => rfl)
      0 "b.wav" 0 start_at_write (by decide) (by decide) (by decide) with
  | ⟨s1, h1, h2, _, _⟩ =>
    ⟨s1, h1, (h2 ⟨by decide, by decide⟩).1, (h2 ⟨by decide, by decide⟩).2.2.2.1⟩

theorem bits_subset_refl (a : Nat) : bits_subset a a := Nat.and_self a

theorem bits_subset_trans {a b c : Nat} (h1 : bits_subset a b) (h2 : bits_subset b c) :
    bits_subset a c := by
  unfold bits_subset at *
  rw [← h1, Nat.land_assoc, h2]

theorem bits_subset_lor (a c : Nat) : bits_subset a (a ||| c) := by
  unfold bits_subset
  apply Nat.eq_of_testBit_eq
  intro i
  rw [Nat.testBit_and, Nat.testBit_or]
  cases a.testBit i <;> simp

/-- The relation "no bit of the status word `sel` was cleared". -/
theorem kept_ite (sel : PcmRec → Nat) (c : Prop) [Decidable c] (s a b : PcmRec)
    (ha : bits_subset (sel s) (sel a)) (hb : bits_subset (sel s) (sel b)) :
    bits_subset (sel s) (sel (if c then a else b)) := by
  split <;> assumption

theorem kept_set_flags (sel : PcmRec → Nat) (hsel : sel = PcmRec.errors ∨ sel = PcmRec.warnings)
    (s t : PcmRec) (i : Int) (f : Nat) (h : bits_subset (sel s) (sel t)) :
    bits_subset (sel s) (sel (set_flags t i f)) := by
  rcases hsel with rfl | rfl <;> exact h

theorem kept_set_chunk (sel : PcmRec → Nat) (hsel : sel = PcmRec.errors ∨ sel = PcmRec.warnings)
    (s t : PcmRec) (i : Int) (c : enc_chunk_hdr) (h : bits_subset (sel s) (sel t)) :
    bits_subset (sel s) (sel (set_chunk t i c)) := by
  rcases hsel with rfl | rfl <;> exact h

theorem mono_start_file_pull (sel : PcmRec → Nat)
    (hsel : sel = PcmRec.errors ∨ sel = PcmRec.warnings) (curr : Int) (t : PcmRec) :
    bits_subset (sel t) (sel (pcmrec_start_file_pull curr t)) := by
  rcases hsel with rfl | rfl <;>
  · unfold pcmrec_start_file_pull pcmrec_fnq_get_filename
    simp only []
    split_ifs <;> first | exact bits_subset_refl _ | exact bits_subset_lor _ _

theorem mono_update_sizes (sel : PcmRec → Nat)
    (hsel : sel = PcmRec.errors ∨ sel = PcmRec.warnings) (a b : Nat) (t : PcmRec) :
    bits_subset (sel t) (sel (pcmrec_update_sizes a b t)) := by
  rcases hsel with rfl | rfl <;>
  · unfold pcmrec_update_sizes
    simp only []
    split_ifs <;> exact bits_subset_refl _

theorem mono_start_file_finish (sel : PcmRec → Nat)
    (hsel : sel = PcmRec.errors ∨ sel = PcmRec.warnings) (a b : Nat) (curr : Int)
    (t : PcmRec) :
    bits_subset (sel t) (sel (pcmrec_start_file_finish a b curr t)) := by
  rcases hsel with rfl | rfl <;>
  · unfold pcmrec_start_file_finish pcmrec_update_sizes pcmrec_close_file
    simp only []
    split_ifs <;> first | exact bits_subset_refl _ | exact bits_subset_lor _ _

theorem mono_callback (sel : PcmRec → Nat)
    (hsel : sel = PcmRec.errors ∨ sel = PcmRec.warnings) (enc : Encoder)
    (henc : encoder_keeps sel enc) (ev : enc_events) (t : PcmRec) :
    bits_subset (sel t) (sel (enc_events_callback enc ev t)) := by
  have h := henc.1 ev t
  rcases hsel with rfl | rfl <;> exact h

theorem mono_callback_new_stream (sel : PcmRec → Nat)
    (hsel : sel = PcmRec.errors ∨ sel = PcmRec.warnings) (enc : Encoder)
    (henc : encoder_keeps sel enc) (d : enc_buffer_event_data) (t : PcmRec) :
    bits_subset (sel t) (sel (enc_events_callback_new_stream enc d t).2) := by
  have h := henc.2.1 d t
  rcases hsel with rfl | rfl <;> exact h

theorem mono_start_file (sel : PcmRec → Nat)
    (hsel : sel = PcmRec.errors ∨ sel = PcmRec.warnings) (enc : Encoder)
    (henc : encoder_keeps sel enc) (t : PcmRec) :
    bits_subset (sel t) (sel (pcmrec_start_file enc t)) := by
  unfold pcmrec_start_file
  simp only []
  exact bits_subset_trans (mono_start_file_pull sel hsel _ t)
    (bits_subset_trans (mono_callback sel hsel enc henc _ _)
      (mono_start_file_finish sel hsel _ _ _ _))

theorem mono_write_chunk (sel : PcmRec → Nat)
    (hsel : sel = PcmRec.errors ∨ sel = PcmRec.warnings) (enc : Encoder)
    (henc : encoder_keeps sel enc) (t : PcmRec) :
    bits_subset (sel t) (sel (pcmrec_write_chunk enc t)) := by
  unfold pcmrec_write_chunk
  simp only []
  obtain ⟨a, ha⟩ : ∃ a, a = (if t.errors ≠ 0 then
      set_flags t t.rec_fdata.chunk ((t.chunks t.rec_fdata.chunk).flags ||| CHUNKF_ERROR)
    else t) := ⟨_, rfl⟩
  rw [← ha]
  have h1 : bits_subset (sel t) (sel a) := by
    rw [ha]
    apply kept_ite
    · exact kept_set_flags sel hsel _ _ _ _ (bits_subset_refl _)
    · exact bits_subset_refl _
  obtain ⟨b, hb⟩ : ∃ b, b = enc_events_callback enc enc_events.ENC_WRITE_CHUNK a := ⟨_, rfl⟩
  rw [← hb]
  have h2 : bits_subset (sel a) (sel b) := by
    rw [hb]; exact mono_callback sel hsel enc henc _ _
  refine bits_subset_trans h1 (bits_subset_trans h2 ?_)
  apply kept_ite
  · exact mono_update_sizes sel hsel _ _ _
  · apply kept_ite
    · rcases hsel with rfl | rfl
      · exact bits_subset_lor _ _
      · exact bits_subset_refl _
    · exact bits_subset_refl _

theorem mono_end_file (sel : PcmRec → Nat)
    (hsel : sel = PcmRec.errors ∨ sel = PcmRec.warnings) (enc : Encoder)
    (henc : encoder_keeps sel enc) (t : PcmRec) :
    bits_subset (sel t) (sel (pcmrec_end_file enc t)) := by
  unfold pcmrec_end_file
  simp only []
  obtain ⟨b, hb⟩ : ∃ b, b = enc_events_callback enc enc_events.ENC_END_FILE t := ⟨_, rfl⟩
  rw [← hb]
  have h2 : bits_subset (sel t) (sel b) := by
    rw [hb]; exact mono_callback sel hsel enc henc _ _
  refine bits_subset_trans h2 ?_
  apply kept_set_flags sel hsel
  obtain ⟨c, hc⟩ : ∃ c, c = (if b.errors = 0 then
      if (b.chunks b.rec_fdata.chunk).flags &&& CHUNKF_ERROR ≠ 0 then
        { b with errors := b.errors ||| PCMREC_E_ENCODER }
      else pcmrec_update_sizes t.rec_fdata.new_enc_size t.rec_fdata.new_num_pcm b
    else b) := ⟨_, rfl⟩
  rw [← hc]
  have h3 : bits_subset (sel b) (sel c) := by
    rw [hc]
    apply kept_ite
    · apply kept_ite
      · rcases hsel with rfl | rfl
        · exact bits_subset_lor _ _
        · exact bits_subset_refl _
      · exact mono_update_sizes sel hsel _ _ _
    · exact bits_subset_refl _
  refine bits_subset_trans h3 ?_
  apply kept_ite
  · unfold pcmrec_close_file
    rcases hsel with rfl | rfl <;>
    · simp only []
      split <;> exact bits_subset_refl _
  · exact bits_subset_refl _

theorem ite_triple_state {α β γ : Type} (c : Prop) [Decidable c] (a1 b1 : α) (a2 b2 : β)
    (x : γ) : (if c then (a1, a2, x) else (b1, b2, x)).2.2 = x := by
  split <;> rfl

theorem ite_triple_break {α β : Type} (c : Prop) [Decidable c] (a2 b2 : α)
    (x y : β) :
    ((if c then (true, a2, x) else (false, b2, y)) : Bool × α × β).1 = decide c := by
  split
  · rename_i h
    exact (decide_eq_true h).symm
  · rename_i h
    exact (decide_eq_false h).symm

/-- The state one pass of the flush loop leaves: the events of the pass, then
the advance of the read index. -/
theorem flush_body_state (enc : Encoder) (num_ready : Int) (start_tick : Nat)
    (v : flush_vars) (s : PcmRec) :
    (pcmrec_flush_body enc num_ready start_tick v s).2.2 =
      { flush_pass_events enc (flush_pass_prepare start_tick v s) with
        enc_rd_index :=
          INC_ENC_INDEX (flush_pass_events enc (flush_pass_prepare start_tick v s)).enc_num_chunks
            (flush_pass_events enc (flush_pass_prepare start_tick v s)).enc_rd_index } :=
  ite_triple_state _ _ _ _ _ _

/-- One pass of the flush loop ends the loop exactly when an error is up. -/
theorem flush_body_break (enc : Encoder) (num_ready : Int) (start_tick : Nat)
    (v : flush_vars) (s : PcmRec) :
    (pcmrec_flush_body enc num_ready start_tick v s).1 =
      decide ((flush_pass_events enc (flush_pass_prepare start_tick v s)).errors ≠ 0) :=
  ite_triple_break _ _ _ _ _

theorem mono_flush_prepare (sel : PcmRec → Nat)
    (hsel : sel = PcmRec.errors ∨ sel = PcmRec.warnings) (start_tick : Nat) (v : flush_vars)
    (t : PcmRec) : bits_subset (sel t) (sel (flush_pass_prepare start_tick v t)) := by
  rcases hsel with rfl | rfl <;>
  · unfold flush_pass_prepare
    simp only []
    split_ifs <;> exact bits_subset_refl _

theorem mono_flush_events (sel : PcmRec → Nat)
    (hsel : sel = PcmRec.errors ∨ sel = PcmRec.warnings) (enc : Encoder)
    (henc : encoder_keeps sel enc) (t : PcmRec) :
    bits_subset (sel t) (sel (flush_pass_events enc t)) := by
  unfold flush_pass_events
  simp only []
  have h1 : bits_subset (sel t)
      (sel (if (t.chunks t.rec_fdata.chunk).flags &&& CHUNKF_START_FILE ≠ 0
            then pcmrec_start_file enc t else t)) :=
    kept_ite sel _ _ _ _ (mono_start_file sel hsel enc henc t) (bits_subset_refl _)
  have h2 := bits_subset_trans h1 (mono_write_chunk sel hsel enc henc _)
  apply kept_ite
  · exact bits_subset_trans h2 (mono_end_file sel hsel enc henc _)
  · exact h2

/-- One pass of the flush loop clears no bit. -/
theorem mono_flush_body (sel : PcmRec → Nat)
    (hsel : sel = PcmRec.errors ∨ sel = PcmRec.warnings) (enc : Encoder)
    (henc : encoder_keeps sel enc) (num_ready : Int) (start_tick : Nat) (v : flush_vars)
    (t : PcmRec) :
    bits_subset (sel t) (sel (pcmrec_flush_body enc num_ready start_tick v t).2.2) := by
  rw [flush_body_state]
  have h := bits_subset_trans (mono_flush_prepare sel hsel start_tick v t)
    (mono_flush_events sel hsel enc henc _)
  rcases hsel with rfl | rfl <;> exact h

theorem mono_flush_loop (sel : PcmRec → Nat)
    (hsel : sel = PcmRec.errors ∨ sel = PcmRec.warnings) (enc : Encoder)
    (henc : encoder_keeps sel enc) (num_ready : Int) (start_tick : Nat) (fuel : Nat) :
    ∀ (v : flush_vars) (t : PcmRec),
      bits_subset (sel t) (sel (pcmrec_flush_loop enc num_ready start_tick fuel v t).2) := by
  induction fuel with
  | zero => intro v t; exact bits_subset_refl _
  | succ k ih =>
    intro v t
    simp only [pcmrec_flush_loop]
    split
    · split
      · exact mono_flush_body sel hsel enc henc num_ready start_tick v t
      · exact bits_subset_trans (mono_flush_body sel hsel enc henc num_ready start_tick v t)
          (ih _ _)
    · exact bits_subset_refl _

/-- The decision tree of `pcmrec_flush` over its two parts. -/
theorem pcmrec_flush_eq (enc : Encoder) (flush_num : Nat) (s : PcmRec) :
    pcmrec_flush enc flush_num s =
      if flush_num = 0 then
        if ¬ s.is_recording then s
        else if num_ready s < (flush_spinup s).write_threshold then flush_spinup s
        else flush_run enc (num_ready s) flush_num
          (if usub (flush_spinup s).current_tick (flush_spinup s).last_flush_tick < HZ / 2
           then (flush_spinup s).panic_threshold else num_ready s) (flush_spinup s)
      else flush_run enc (num_ready s) flush_num (num_ready s) s := rfl

theorem mono_flush_spinup (sel : PcmRec → Nat)
    (hsel : sel = PcmRec.errors ∨ sel = PcmRec.warnings) (t : PcmRec) :
    bits_subset (sel t) (sel (flush_spinup t)) := by
  rcases hsel with rfl | rfl <;>
  · unfold flush_spinup
    simp only []
    split_ifs <;> exact bits_subset_refl _

theorem mono_flush_run (sel : PcmRec → Nat)
    (hsel : sel = PcmRec.errors ∨ sel = PcmRec.warnings) (enc : Encoder)
    (henc : encoder_keeps sel enc) (num_ready : Int) (flush_num : Nat) (num : Int)
    (t : PcmRec) : bits_subset (sel t) (sel (flush_run enc num_ready flush_num num t)) := by
  have hl := mono_flush_loop sel hsel enc henc num_ready t.current_tick num_ready.toNat
    { i := 0, num := num, prio := -1, flush_num := flush_num } t
  refine bits_subset_trans hl ?_
  rcases hsel with rfl | rfl <;>
  · unfold flush_run
    simp only []
    split_ifs <;> exact bits_subset_refl _

theorem mono_flush (sel : PcmRec → Nat)
    (hsel : sel = PcmRec.errors ∨ sel = PcmRec.warnings) (enc : Encoder)
    (henc : encoder_keeps sel enc) (flush_num : Nat) (t : PcmRec) :
    bits_subset (sel t) (sel (pcmrec_flush enc flush_num t)) := by
  rw [pcmrec_flush_eq]
  have hs := mono_flush_spinup sel hsel t
  have hr := mono_flush_run sel hsel enc henc
  apply kept_ite
  · apply kept_ite
    · exact bits_subset_refl _
    · apply kept_ite
      · exact hs
      · exact bits_subset_trans hs (hr _ _ _ _)
  · exact hr _ _ _ _

/-- The decision tree of `pcmrec_new_stream` over its parts. -/
theorem pcmrec_new_stream_eq (enc : Encoder) (fuel : Nat) (filename : Option String)
    (flags : Nat) (pre_index : Int) (s : PcmRec) :
    pcmrec_new_stream enc fuel filename flags pre_index s =
      if (new_stream_end flags s).2.1 &&& CHUNKF_START_FILE ≠ 0 then
        (if (new_stream_end flags s).2.1 &&& CHUNKF_PRERECORD = 0 then
          (new_stream_stats fuel (new_stream_notify enc flags pre_index s).1.chunk
            { (new_stream_notify enc flags pre_index s).2 with
              num_rec_bytes := 0, num_rec_samples := 0 }).map
            (fun t =>
              (set_flags t
                (new_stream_start (new_stream_end flags s).2.1 pre_index
                  (new_stream_end flags s).2.2 (new_stream_end flags s).1).2.1
                ((GET_ENC_CHUNK t
                  (new_stream_start (new_stream_end flags s).2.1 pre_index
                    (new_stream_end flags s).2.2 (new_stream_end flags s).1).2.1).flags
                  &&& unot CHUNKF_START_FILE),
               (new_stream_notify enc flags pre_index s).1.chunk))
         else some ((new_stream_notify enc flags pre_index s).2,
            (new_stream_start (new_stream_end flags s).2.1 pre_index
              (new_stream_end flags s).2.2 (new_stream_end flags s).1).2.1)).map
          (new_stream_queue enc filename
            (new_stream_start (new_stream_end flags s).2.1 pre_index
              (new_stream_end flags s).2.2 (new_stream_end flags s).1).2.2.2)
      else some (new_stream_notify enc flags pre_index s).2 := by
  by_cases h : (new_stream_end flags s).2.1 &&& CHUNKF_START_FILE ≠ 0
  · rw [if_pos h]
    unfold pcmrec_new_stream new_stream_notify
    simp only [if_pos h]
    rfl
  · rw [if_neg h]
    unfold pcmrec_new_stream new_stream_notify
    simp only [if_neg h]

theorem map_map_some {α β γ : Type} {o : Option α} {f : α → β} {g : β → γ} {z : γ}
    (h : (o.map f).map g = some z) : ∃ a, o = some a ∧ z = g (f a) := by
  cases o with
  | none => exact absurd h (by simp)
  | some a => exact ⟨a, rfl, (Option.some.inj h).symm⟩

theorem mono_fnq_replace_tail (sel : PcmRec → Nat)
    (hsel : sel = PcmRec.errors ∨ sel = PcmRec.warnings) (name : String) (t : PcmRec) :
    bits_subset (sel t) (sel (pcmrec_fnq_replace_tail name t).2) := by
  rcases hsel with rfl | rfl <;>
  · unfold pcmrec_fnq_replace_tail
    simp only []
    split_ifs <;> exact bits_subset_refl _

theorem mono_fnq_add_filename (sel : PcmRec → Nat)
    (hsel : sel = PcmRec.errors ∨ sel = PcmRec.warnings) (name : String) (t : PcmRec) :
    bits_subset (sel t) (sel (pcmrec_fnq_add_filename name t).2) := by
  rcases hsel with rfl | rfl <;>
  · unfold pcmrec_fnq_add_filename
    simp only []
    split_ifs <;> exact bits_subset_refl _

theorem mono_new_stream_end (sel : PcmRec → Nat)
    (hsel : sel = PcmRec.errors ∨ sel = PcmRec.warnings) (flags : Nat) (t : PcmRec) :
    bits_subset (sel t) (sel (new_stream_end flags t).1) := by
  rcases hsel with rfl | rfl <;>
  · unfold new_stream_end
    simp only []
    split_ifs <;> exact bits_subset_refl _

theorem mono_new_stream_start (sel : PcmRec → Nat)
    (hsel : sel = PcmRec.errors ∨ sel = PcmRec.warnings) (flags : Nat) (pre_index chunk : Int)
    (t : PcmRec) : bits_subset (sel t) (sel (new_stream_start flags pre_index chunk t).1) := by
  rcases hsel with rfl | rfl <;> exact bits_subset_refl _

theorem mono_new_stream_notify (sel : PcmRec → Nat)
    (hsel : sel = PcmRec.errors ∨ sel = PcmRec.warnings) (enc : Encoder)
    (henc : encoder_keeps sel enc) (flags : Nat) (pre_index : Int) (t : PcmRec) :
    bits_subset (sel t) (sel (new_stream_notify enc flags pre_index t).2) := by
  unfold new_stream_notify
  simp only []
  have h1 := mono_new_stream_end sel hsel flags t
  have h2 : bits_subset (sel t)
      (sel (if (new_stream_end flags t).2.1 &&& CHUNKF_START_FILE ≠ 0 then
        (new_stream_start (new_stream_end flags t).2.1 pre_index (new_stream_end flags t).2.2
          (new_stream_end flags t).1).1
        else (new_stream_end flags t).1)) :=
    kept_ite sel _ _ _ _ (bits_subset_trans h1 (mono_new_stream_start sel hsel _ _ _ _)) h1
  have h3 := bits_subset_trans h2 (mono_callback_new_stream sel hsel enc henc
    { flags := (new_stream_end flags t).2.1,
      pre_chunk := if (new_stream_end flags t).2.1 &&& CHUNKF_START_FILE ≠ 0 then
        (new_stream_start (new_stream_end flags t).2.1 pre_index (new_stream_end flags t).2.2
          (new_stream_end flags t).1).2.2.1 else none,
      chunk := (new_stream_end flags t).2.2 } _)
  apply kept_ite
  · exact kept_set_flags sel hsel _ _ _ _ h3
  · exact h3

theorem mono_new_stream_stats (sel : PcmRec → Nat)
    (hsel : sel = PcmRec.errors ∨ sel = PcmRec.warnings) (fuel : Nat) :
    ∀ (i : Int) (t s1 : PcmRec), new_stream_stats fuel i t = some s1 →
      bits_subset (sel t) (sel s1) := by
  induction fuel with
  | zero =>
    intro i t s1 h
    unfold new_stream_stats at h
    split at h
    · rw [← Option.some.inj h]; exact bits_subset_refl _
    · exact absurd h (by simp)
  | succ k ih =>
    intro i t s1 h
    unfold new_stream_stats at h
    split at h
    · rw [← Option.some.inj h]; exact bits_subset_refl _
    · have h2 := ih _ _ _ h
      rcases hsel with rfl | rfl <;> exact h2

theorem mono_new_stream_queue (sel : PcmRec → Nat)
    (hsel : sel = PcmRec.errors ∨ sel = PcmRec.warnings) (enc : Encoder)
    (henc : encoder_keeps sel enc) (filename : Option String) (k : fnq_add_kind)
    (x : PcmRec × Int) : bits_subset (sel x.1) (sel (new_stream_queue enc filename k x)) := by
  have h0 : bits_subset (sel x.1)
      (sel (set_flags x.1 x.2 ((GET_ENC_CHUNK x.1 x.2).flags ||| CHUNKF_START_FILE))) :=
    kept_set_flags sel hsel _ _ _ _ (bits_subset_refl _)
  have h1 : bits_subset (sel x.1)
      (sel (if k = fnq_add_kind.add_filename ∧ pcmrec_fnq_is_full
          (set_flags x.1 x.2 ((GET_ENC_CHUNK x.1 x.2).flags ||| CHUNKF_START_FILE)) then
        pcmrec_flush enc 0xFFFFFFFF
          (set_flags x.1 x.2 ((GET_ENC_CHUNK x.1 x.2).flags ||| CHUNKF_START_FILE))
        else set_flags x.1 x.2 ((GET_ENC_CHUNK x.1 x.2).flags ||| CHUNKF_START_FILE))) :=
    kept_ite sel _ _ _ _ (bits_subset_trans h0 (mono_flush sel hsel enc henc _ _)) h0
  cases k with
  | replace_tail => exact bits_subset_trans h1 (mono_fnq_replace_tail sel hsel _ _)
  | add_filename => exact bits_subset_trans h1 (mono_fnq_add_filename sel hsel _ _)

/-- A stream transition clears no bit. -/
theorem mono_new_stream (sel : PcmRec → Nat)
    (hsel : sel = PcmRec.errors ∨ sel = PcmRec.warnings) (enc : Encoder)
    (henc : encoder_keeps sel enc) (fuel : Nat) (filename : Option String) (flags : Nat)
    (pre_index : Int) (t s1 : PcmRec)
    (h : pcmrec_new_stream enc fuel filename flags pre_index t = some s1) :
    bits_subset (sel t) (sel s1) := by
  rw [pcmrec_new_stream_eq] at h
  have hn := mono_new_stream_notify sel hsel enc henc flags pre_index t
  by_cases hst : (new_stream_end flags t).2.1 &&& CHUNKF_START_FILE ≠ 0
  · rw [if_pos hst] at h
    by_cases hp : (new_stream_end flags t).2.1 &&& CHUNKF_PRERECORD = 0
    · rw [if_pos hp] at h
      obtain ⟨a, ha, rfl⟩ := map_map_some h
      have h2 := mono_new_stream_stats sel hsel _ _ _ _ ha
      have h3 : bits_subset (sel t) (sel a) := by
        refine bits_subset_trans hn ?_
        rcases hsel with rfl | rfl <;> exact h2
      refine bits_subset_trans ?_ (mono_new_stream_queue sel hsel enc henc _ _ _)
      exact kept_set_flags sel hsel _ _ _ _ h3
    · rw [if_neg hp] at h
      rw [← Option.some.inj h]
      exact bits_subset_trans hn (mono_new_stream_queue sel hsel enc henc _ _ (_, _))
  · rw [if_neg hst] at h
    rw [← Option.some.inj h]
    exact hn

/-- The decision of `pcmrec_record` between a split and a start from idle. -/
theorem pcmrec_record_eq (enc : Encoder) (fuel : Nat) (filename : String) (s : PcmRec) :
    pcmrec_record enc fuel filename s =
      if s.is_recording then
        pcmrec_new_stream enc fuel (some filename) (CHUNKF_START_FILE ||| CHUNKF_END_FILE) 0
          { s with num_rec_bytes := 0, num_rec_samples := 0 }
      else
        pcmrec_new_stream enc fuel (some filename)
          (CHUNKF_START_FILE |||
            (if (record_idle_prepare s).2 > 0 then CHUNKF_PRERECORD else 0))
          (record_idle_prepare s).1.enc_rd_index (record_idle_prepare s).1 := rfl

/-- The walk over the pre-recorded chunks writes the two counters only. -/
theorem prerecord_walk_frame (p : Nat) (avail : Nat) :
    ∀ (i rd : Int) (pt : Nat) (s : PcmRec),
      (prerecord_walk p avail i rd pt s).2.2 =
        { s with
          num_rec_bytes := (prerecord_walk p avail i rd pt s).2.2.num_rec_bytes,
          num_rec_samples := (prerecord_walk p avail i rd pt s).2.2.num_rec_samples } := by
  induction avail with
  | zero => intro i rd pt s; rfl
  | succ k ih =>
    intro i rd pt s
    unfold prerecord_walk
    simp only []
    split
    · exact ih _ _ _ _
    · split
      · rfl
      · have h := ih (DEC_ENC_INDEX s.enc_num_chunks i) (DEC_ENC_INDEX s.enc_num_chunks i)
          (uadd pt (umul (GET_ENC_CHUNK s (DEC_ENC_INDEX s.enc_num_chunks i)).num_pcm HZ))
          { s with
            num_rec_bytes := uadd s.num_rec_bytes
              (GET_ENC_CHUNK s (DEC_ENC_INDEX s.enc_num_chunks i)).enc_size,
            num_rec_samples := uadd s.num_rec_samples
              (GET_ENC_CHUNK s (DEC_ENC_INDEX s.enc_num_chunks i)).num_pcm }
        exact h

theorem mono_wait_for_encoder (sel : PcmRec → Nat) (enc : Encoder)
    (henc : encoder_keeps sel enc) (fuel : Nat) :
    ∀ (t s1 : PcmRec), wait_for_encoder enc fuel t = some s1 →
      bits_subset (sel t) (sel s1) := by
  induction fuel with
  | zero =>
    intro t s1 h
    unfold wait_for_encoder at h
    split at h
    · exact absurd h (by simp)
    · rw [← Option.some.inj h]; exact bits_subset_refl _
  | succ k ih =>
    intro t s1 h
    unfold wait_for_encoder at h
    split at h
    · exact bits_subset_trans (henc.2.2 t) (ih _ _ h)
    · rw [← Option.some.inj h]; exact bits_subset_refl _

theorem mono_stop_finish (sel : PcmRec → Nat)
    (hsel : sel = PcmRec.errors ∨ sel = PcmRec.warnings) (enc : Encoder)
    (henc : encoder_keeps sel enc) (t : PcmRec) :
    bits_subset (sel t) (sel (pcmrec_stop_finish enc t)) := by
  refine bits_subset_trans (mono_flush sel hsel enc henc 0xFFFFFFFF t) ?_
  unfold pcmrec_stop_finish
  generalize pcmrec_flush enc 0xFFFFFFFF t = u
  rcases hsel with rfl | rfl <;>
  · unfold pcmrec_fnq_get_filename pcmrec_close_file
    simp only []
    split_ifs <;> exact bits_subset_refl _

/-- Stop clears no bit. -/
theorem mono_stop (sel : PcmRec → Nat)
    (hsel : sel = PcmRec.errors ∨ sel = PcmRec.warnings) (enc : Encoder)
    (henc : encoder_keeps sel enc) (fuel : Nat) (t s1 : PcmRec)
    (h : pcmrec_stop enc fuel t = some s1) : bits_subset (sel t) (sel s1) := by
  unfold pcmrec_stop at h
  split at h
  · rw [← Option.some.inj h]; exact bits_subset_refl _
  · simp only [Option.bind_eq_some, Option.map_eq_some'] at h
    obtain ⟨a, ha, b, hb, rfl⟩ := h
    have h1 : bits_subset (sel t)
        (sel (pcmrec_flush enc 0xFFFFFFFF { t with dma_lock := true })) := by
      have := mono_flush sel hsel enc henc 0xFFFFFFFF { t with dma_lock := true }
      rcases hsel with rfl | rfl <;> exact this
    exact bits_subset_trans h1 (bits_subset_trans (mono_wait_for_encoder sel enc henc _ _ _ ha)
      (bits_subset_trans (mono_new_stream sel hsel enc henc _ _ _ _ _ _ hb)
        (mono_stop_finish sel hsel enc henc _)))

/-- Record that splits a running recording clears no warning bit. -/
theorem mono_record_split (sel : PcmRec → Nat)
    (hsel : sel = PcmRec.errors ∨ sel = PcmRec.warnings) (enc : Encoder)
    (henc : encoder_keeps sel enc) (fuel : Nat) (name : String) (t s1 : PcmRec)
    (hrec : t.is_recording = true)
    (h : pcmrec_record enc fuel name t = some s1) : bits_subset (sel t) (sel s1) := by
  rw [pcmrec_record_eq, if_pos hrec] at h
  have h2 := mono_new_stream sel hsel enc henc _ _ _ _ _ _ h
  rcases hsel with rfl | rfl <;> exact h2

theorem mono_pause (sel : PcmRec → Nat)
    (hsel : sel = PcmRec.errors ∨ sel = PcmRec.warnings) (t : PcmRec) :
    bits_subset (sel t) (sel (pcmrec_pause t)) := by
  rcases hsel with rfl | rfl <;>
  · unfold pcmrec_pause
    split_ifs <;> exact bits_subset_refl _

theorem mono_resume (sel : PcmRec → Nat)
    (hsel : sel = PcmRec.errors ∨ sel = PcmRec.warnings) (t : PcmRec) :
    bits_subset (sel t) (sel (pcmrec_resume t)) := by
  rcases hsel with rfl | rfl <;>
  · unfold pcmrec_resume
    split_ifs <;> exact bits_subset_refl _

theorem mono_set_recording_options (sel : PcmRec → Nat)
    (hsel : sel = PcmRec.errors ∨ sel = PcmRec.warnings) (tbl : Int → Nat) (ok : Bool)
    (o : audio_recording_options) (t : PcmRec) :
    bits_subset (sel t) (sel (pcmrec_set_recording_options tbl ok o t)) := by
  rcases hsel with rfl | rfl <;>
  · unfold pcmrec_set_recording_options
    simp only []
    split_ifs <;> first | exact bits_subset_refl _ | exact bits_subset_lor _ _

theorem mono_have_more (sel : PcmRec → Nat)
    (hsel : sel = PcmRec.errors ∨ sel = PcmRec.warnings) (status : Int) (t : PcmRec) :
    bits_subset (sel t) (sel (pcm_rec_have_more status t).state) := by
  rcases hsel with rfl | rfl <;>
  · unfold pcm_rec_have_more have_more_rearm
    simp only []
    split_ifs <;> first | exact bits_subset_refl _ | exact bits_subset_lor _ _

theorem file_encoder_keeps (sel : PcmRec → Nat)
    (hsel : sel = PcmRec.errors ∨ sel = PcmRec.warnings) : encoder_keeps sel file_encoder := by
  refine ⟨?_, ?_, ?_⟩
  · intro ev s
    rcases hsel with rfl | rfl <;>
    · cases ev <;>
      · simp only [file_encoder]
        first
        | exact bits_subset_refl _
        | (split_ifs <;> exact bits_subset_refl _)
  · intro d s
    exact bits_subset_refl _
  · intro s
    rcases hsel with rfl | rfl <;>
    · simp only [file_encoder, enc_get_pcm_data]
      split_ifs <;> exact bits_subset_refl _

/-- Close leaves the errors alone. -/
theorem pcmrec_close_errors (s : PcmRec) : (pcmrec_close s).errors = s.errors := rfl

/-- Record from idle starts from a state without warnings: the outcome is the
one of the same state with the warnings cleared before. -/
theorem pcmrec_record_idle_forgets (enc : Encoder) (fuel : Nat) (name : String) (s : PcmRec)
    (hidle : s.is_recording = false) :
    pcmrec_record enc fuel name s = pcmrec_record enc fuel name { s with warnings := 0 } := by
  have h1 : ¬ (s.is_recording = true) := by simp [hidle]
  have h2 : ¬ (({ s with warnings := 0 } : PcmRec).is_recording = true) := h1
  rw [pcmrec_record_eq, if_neg h1, pcmrec_record_eq, if_neg h2]
  rfl

/-- C24, counterexample: on an idle recorder with the capture-overflow warning
up, Close leaves no warning bit set, and so does Record (which starts a
recording here): the bit set before is not set after. -/
theorem C24_counterexample :
    (warned_idle.is_recording = false ∧ warned_idle.warnings = PCMREC_W_PCM_BUFFER_OVF) ∧
    ((pcmrec_close warned_idle).warnings = 0 ∧
      ¬ bits_subset warned_idle.warnings (pcmrec_close warned_idle).warnings) ∧
    ((pcmrec_record file_encoder 0 "a.wav" warned_idle).map (fun s => s.warnings) = some 0 ∧
      ¬ ((pcmrec_record file_encoder 0 "a.wav" warned_idle).map
          (fun s => decide (bits_subset warned_idle.warnings s.warnings)) = some true)) := by
  rw [pcmrec_record_eq]
  decide

/-- C24, amended: the warnings are cleared by `pcm_rec_error_clear`, Init,
Close and a Record that starts a recording from idle (its outcome is that of
the state with the warnings cleared before). With an encoder whose callbacks
clear no warning bit, Stop, Pause, Resume, SetOptions and a Record that splits
a running recording leave every previously set bit of `warnings` set. -/
theorem C24_warnings_sticky (enc : Encoder) (henc : encoder_keeps PcmRec.warnings enc)
    (s : PcmRec) :
    ((pcm_rec_error_clear s).warnings = 0 ∧
     (∀ buffer buffer_size, (pcmrec_init buffer buffer_size s).warnings = 0) ∧
     (pcmrec_close s).warnings = 0 ∧
     (s.is_recording = false → ∀ fuel name,
        pcmrec_record enc fuel name s = pcmrec_record enc fuel name { s with warnings := 0 })) ∧
    ((∀ fuel s1, pcmrec_stop enc fuel s = some s1 → bits_subset s.warnings s1.warnings) ∧
     bits_subset s.warnings (pcmrec_pause s).warnings ∧
     bits_subset s.warnings (pcmrec_resume s).warnings ∧
     (∀ tbl ok options,
        bits_subset s.warnings (pcmrec_set_recording_options tbl ok options s).warnings) ∧
     (s.is_recording = true → ∀ fuel name s1,
        pcmrec_record enc fuel name s = some s1 → bits_subset s.warnings s1.warnings)) :=
  ⟨⟨rfl, fun _ _ => rfl, rfl,
     fun hidle fuel name => pcmrec_record_idle_forgets enc fuel name s hidle⟩,
   fun fuel s1 h => mono_stop PcmRec.warnings (Or.inr rfl) enc henc fuel s s1 h,
   mono_pause PcmRec.warnings (Or.inr rfl) s,
   mono_resume PcmRec.warnings (Or.inr rfl) s,
   fun tbl ok options =>
     mono_set_recording_options PcmRec.warnings (Or.inr rfl) tbl ok options s,
   fun hrec fuel name s1 h =>
     mono_record_split PcmRec.warnings (Or.inr rfl) enc henc fuel name s s1 hrec h⟩

/-- C24 (amended) at the file encoder and an idle recorder with the
capture-overflow warning up: Close clears it, SetOptions keeps it. -/
theorem C24_warnings_sticky_witness :
    encoder_keeps PcmRec.warnings file_encoder ∧
    (pcmrec_close warned_idle).warnings = 0 ∧
    bits_subset PCMREC_W_PCM_BUFFER_OVF
      (pcmrec_set_recording_options freq_44100 true round_trip_options warned_idle).warnings :=
  ⟨file_encoder_keeps PcmRec.warnings (Or.inr rfl),
   (C24_warnings_sticky file_encoder (file_encoder_keeps PcmRec.warnings (Or.inr rfl))
      warned_idle).1.2.2.1,
   (C24_warnings_sticky file_encoder (file_encoder_keeps PcmRec.warnings (Or.inr rfl))
      warned_idle).2.2.2.2.1 freq_44100 true round_trip_options⟩

theorem same_ite {α : Type} (g : PcmRec → α) (c : Prop) [Decidable c] (a b : PcmRec) (x : α)
    (ha : g a = x) (hb : g b = x) : g (if c then a else b) = x := by
  split <;> assumption

theorem ring3_callback (enc : Encoder) (hidx : encoder_keeps_indices enc) (ev : enc_events)
    (t : PcmRec) : ring3 (enc_events_callback enc ev t) = ring3 t := by
  obtain ⟨h1, h2, h3⟩ := hidx.1 ev t
  show ((enc.file_event ev t).enc_rd_index, (enc.file_event ev t).enc_wr_index,
    (enc.file_event ev t).enc_num_chunks) = _
  rw [h1, h2, h3]
  rfl

theorem ring3_callback_new_stream (enc : Encoder) (hidx : encoder_keeps_indices enc)
    (d : enc_buffer_event_data) (t : PcmRec) :
    ring3 (enc_events_callback_new_stream enc d t).2 = ring3 t := by
  obtain ⟨h1, h2, h3⟩ := hidx.2.1 d t
  show ((enc.new_stream d t).2.enc_rd_index, (enc.new_stream d t).2.enc_wr_index,
    (enc.new_stream d t).2.enc_num_chunks) = _
  rw [h1, h2, h3]
  rfl

theorem ring3_start_file_pull (curr : Int) (t : PcmRec) :
    ring3 (pcmrec_start_file_pull curr t) = ring3 t := by
  unfold pcmrec_start_file_pull pcmrec_fnq_get_filename
  simp only []
  split_ifs <;> rfl

theorem ring3_update_sizes (a b : Nat) (t : PcmRec) :
    ring3 (pcmrec_update_sizes a b t) = ring3 t := by
  unfold pcmrec_update_sizes
  simp only []
  split_ifs <;> rfl

theorem ring3_start_file_finish (a b : Nat) (curr : Int) (t : PcmRec) :
    ring3 (pcmrec_start_file_finish a b curr t) = ring3 t := by
  unfold pcmrec_start_file_finish pcmrec_update_sizes pcmrec_close_file
  simp only []
  split_ifs <;> rfl

theorem ring3_start_file (enc : Encoder) (hidx : encoder_keeps_indices enc) (t : PcmRec) :
    ring3 (pcmrec_start_file enc t) = ring3 t := by
  unfold pcmrec_start_file
  simp only []
  exact (ring3_start_file_finish _ _ _ _).trans
    ((ring3_callback enc hidx _ _).trans (ring3_start_file_pull _ _))

theorem ring3_write_chunk (enc : Encoder) (hidx : encoder_keeps_indices enc) (t : PcmRec) :
    ring3 (pcmrec_write_chunk enc t) = ring3 t := by
  unfold pcmrec_write_chunk
  simp only []
  have hcb : ring3 (enc_events_callback enc enc_events.ENC_WRITE_CHUNK
      (if t.errors ≠ 0 then
        set_flags t t.rec_fdata.chunk ((t.chunks t.rec_fdata.chunk).flags ||| CHUNKF_ERROR)
      else t)) = ring3 t :=
    (ring3_callback enc hidx _ _).trans (same_ite ring3 _ _ _ _ rfl rfl)
  refine same_ite ring3 _ _ _ _ ?_ ?_
  · exact (ring3_update_sizes _ _ _).trans hcb
  · exact same_ite ring3 _ _ _ _ hcb hcb

theorem ring3_end_file (enc : Encoder) (hidx : encoder_keeps_indices enc) (t : PcmRec) :
    ring3 (pcmrec_end_file enc t) = ring3 t := by
  unfold pcmrec_end_file
  simp only []
  have hcb := ring3_callback enc hidx enc_events.ENC_END_FILE t
  have h1 : ring3 (if (enc_events_callback enc enc_events.ENC_END_FILE t).errors = 0 then
      if ((enc_events_callback enc enc_events.ENC_END_FILE t).chunks
          (enc_events_callback enc enc_events.ENC_END_FILE t).rec_fdata.chunk).flags
            &&& CHUNKF_ERROR ≠ 0 then
        { enc_events_callback enc enc_events.ENC_END_FILE t with
          errors := (enc_events_callback enc enc_events.ENC_END_FILE t).errors
            ||| PCMREC_E_ENCODER }
      else pcmrec_update_sizes t.rec_fdata.new_enc_size t.rec_fdata.new_num_pcm
        (enc_events_callback enc enc_events.ENC_END_FILE t)
    else enc_events_callback enc enc_events.ENC_END_FILE t) = ring3 t :=
    same_ite ring3 _ _ _ _
      (same_ite ring3 _ _ _ _ hcb ((ring3_update_sizes _ _ _).trans hcb)) hcb
  show ring3 (set_flags _ _ _) = _
  refine Eq.trans ?_ h1
  show ring3 (if _ then _ else _) = _
  unfold pcmrec_close_file
  simp only []
  split_ifs <;> rfl

theorem ring3_flush_prepare (start_tick : Nat) (v : flush_vars) (t : PcmRec) :
    ring3 (flush_pass_prepare start_tick v t) = ring3 t := by
  unfold flush_pass_prepare
  simp only []
  split_ifs <;> rfl

theorem ring3_flush_events (enc : Encoder) (hidx : encoder_keeps_indices enc) (t : PcmRec) :
    ring3 (flush_pass_events enc t) = ring3 t := by
  unfold flush_pass_events
  simp only []
  have h1 : ring3 (pcmrec_write_chunk enc
      (if (t.chunks t.rec_fdata.chunk).flags &&& CHUNKF_START_FILE ≠ 0
       then pcmrec_start_file enc t else t)) = ring3 t :=
    (ring3_write_chunk enc hidx _).trans
      (same_ite ring3 _ _ _ _ (ring3_start_file enc hidx t) rfl)
  exact same_ite ring3 _ _ _ _ ((ring3_end_file enc hidx _).trans h1) h1

/-- One pass of the flush loop moves the read index one slot on and leaves the
write index and the size of the ring alone. -/
theorem flush_body_ring (enc : Encoder) (hidx : encoder_keeps_indices enc) (num_ready : Int)
    (start_tick : Nat) (v : flush_vars) (t : PcmRec) :
    ring3 (pcmrec_flush_body enc num_ready start_tick v t).2.2 =
      (INC_ENC_INDEX t.enc_num_chunks t.enc_rd_index, t.enc_wr_index, t.enc_num_chunks) := by
  rw [flush_body_state]
  have h := (ring3_flush_events enc hidx _).trans (ring3_flush_prepare start_tick v t)
  obtain ⟨e, he⟩ : ∃ e, e = flush_pass_events enc (flush_pass_prepare start_tick v t) :=
    ⟨_, rfl⟩
  rw [← he] at h ⊢
  have h1 : e.enc_rd_index = t.enc_rd_index := congrArg Prod.fst h
  have h2 : e.enc_wr_index = t.enc_wr_index := congrArg (fun x => x.2.1) h
  have h3 : e.enc_num_chunks = t.enc_num_chunks := congrArg (fun x => x.2.2) h
  show (INC_ENC_INDEX e.enc_num_chunks e.enc_rd_index, e.enc_wr_index, e.enc_num_chunks) = _
  rw [h1, h2, h3]

/-- The errors after one pass of the flush loop decide whether the loop goes on. -/
theorem flush_body_errors (enc : Encoder) (num_ready : Int) (start_tick : Nat)
    (v : flush_vars) (t : PcmRec) :
    (pcmrec_flush_body enc num_ready start_tick v t).1 =
      decide ((pcmrec_flush_body enc num_ready start_tick v t).2.2.errors ≠ 0) := by
  rw [flush_body_break, flush_body_state]

theorem ite_triple_vars {β : Type} (c : Prop) [Decidable c] (a2 V : flush_vars) (p : Prop)
    [Decidable p] (num : Int) (x y : β)
    (h : ((if c then (true, a2, x)
           else (false, { (if p then { V with num := num } else V) with
                          i := (if p then { V with num := num } else V).i + 1 }, y))
            : Bool × flush_vars × β).1 = false) :
    ((if c then (true, a2, x)
      else (false, { (if p then { V with num := num } else V) with
                     i := (if p then { V with num := num } else V).i + 1 }, y))
        : Bool × flush_vars × β).2.1.flush_num = V.flush_num ∧
    ((if c then (true, a2, x)
      else (false, { (if p then { V with num := num } else V) with
                     i := (if p then { V with num := num } else V).i + 1 }, y))
        : Bool × flush_vars × β).2.1.i = V.i + 1 := by
  split at h
  · exact absurd h (by simp)
  · rename_i hc
    rw [if_neg hc]
    by_cases hp : p
    · simp only [if_pos hp, and_self]
    · simp only [if_neg hp, and_self]

theorem flush_pass_vars_fields (num_ready : Int) (start_tick : Nat) (v : flush_vars)
    (t : PcmRec) :
    (flush_pass_vars num_ready start_tick v t).flush_num =
      (if (t.chunks t.enc_rd_index).flags &&& CHUNKF_START_FILE ≠ 0
       then usub v.flush_num 1 else v.flush_num) ∧
    (flush_pass_vars num_ready start_tick v t).i =
      (if (t.chunks t.enc_rd_index).flags &&& CHUNKF_START_FILE ≠ 0 ∧
          (if (t.chunks t.enc_rd_index).flags &&& CHUNKF_START_FILE ≠ 0
           then usub v.flush_num 1 else v.flush_num) = 0
       then num_ready else v.i) := by
  unfold flush_pass_vars flush_pass_prepare
  by_cases hb : v.prio = -1 ∧
      (v.num ≥ t.panic_threshold ∨ usub t.current_tick start_tick > 10 * HZ)
  · simp only [if_pos hb, and_self]
  · simp only [if_neg hb, and_self]

/-- The loop variables after a pass of the flush loop that does not leave the
loop: a start decrements `flush_num`, and `i` grows by one unless `flush_num`
reached zero at a start. -/
theorem flush_body_vars (enc : Encoder) (num_ready : Int) (start_tick : Nat)
    (v : flush_vars) (t : PcmRec)
    (h : (pcmrec_flush_body enc num_ready start_tick v t).1 = false) :
    (pcmrec_flush_body enc num_ready start_tick v t).2.1.flush_num =
      (if (t.chunks t.enc_rd_index).flags &&& CHUNKF_START_FILE ≠ 0
       then usub v.flush_num 1 else v.flush_num) ∧
    (pcmrec_flush_body enc num_ready start_tick v t).2.1.i =
      (if (t.chunks t.enc_rd_index).flags &&& CHUNKF_START_FILE ≠ 0 ∧
          (if (t.chunks t.enc_rd_index).flags &&& CHUNKF_START_FILE ≠ 0
           then usub v.flush_num 1 else v.flush_num) = 0
       then num_ready else v.i) + 1 := by
  have h2 : (pcmrec_flush_body enc num_ready start_tick v t).2.1.flush_num =
      (flush_pass_vars num_ready start_tick v t).flush_num ∧
      (pcmrec_flush_body enc num_ready start_tick v t).2.1.i =
        (flush_pass_vars num_ready start_tick v t).i + 1 :=
    ite_triple_vars _ _ _ _ _ _ _ h
  obtain ⟨h3, h4⟩ := flush_pass_vars_fields num_ready start_tick v t
  rw [h2.1, h2.2, h3, h4]
  exact ⟨rfl, rfl⟩

theorem INC_ENC_INDEX_add_emod (n i k : Int) (hi : 0 ≤ i ∧ i < n) :
    (INC_ENC_INDEX n i + (k - 1)) % n = (i + k) % n := by
  unfold INC_ENC_INDEX
  split
  · have h1 : i + 1 = n := by omega
    have h2 : i + k = (k - 1) + n := by omega
    rw [h2, Int.add_emod_self, Int.zero_add]
  · apply congrArg (fun x => x % n)
    omega

/-- A flush loop that ends without an error has moved the read index over all
the chunks that were left to visit. -/
theorem flush_loop_complete (enc : Encoder) (hidx : encoder_keeps_indices enc) (N : Int)
    (start_tick : Nat) (fuel : Nat) :
    ∀ (v : flush_vars) (t : PcmRec),
      0 < t.enc_num_chunks → (0 ≤ t.enc_rd_index ∧ t.enc_rd_index < t.enc_num_chunks) →
      v.i ≤ N → (N - v.i).toNat ≤ fuel → (N - v.i).toNat < v.flush_num →
      v.flush_num < 4294967296 →
      (pcmrec_flush_loop enc N start_tick fuel v t).2.errors = 0 →
      ring3 (pcmrec_flush_loop enc N start_tick fuel v t).2 =
        ((t.enc_rd_index + (N - v.i)) % t.enc_num_chunks, t.enc_wr_index,
          t.enc_num_chunks) := by
  induction fuel with
  | zero =>
    intro v t hn hrd hi hfuel _ _ _
    have h0 : N - v.i = 0 := by omega
    rw [h0, Int.add_zero, Int.emod_eq_of_lt hrd.1 hrd.2]
    rfl
  | succ k ih =>
    intro v t hn hrd hi hfuel hfl hfl2 herr
    simp only [pcmrec_flush_loop] at herr ⊢
    by_cases hlt : v.i < N
    · rw [if_pos hlt] at herr ⊢
      have hbody := flush_body_ring enc hidx N start_tick v t
      have hbe := flush_body_errors enc N start_tick v t
      by_cases hbr : (pcmrec_flush_body enc N start_tick v t).1 = true
      · rw [if_pos hbr] at herr
        rw [hbr] at hbe
        have := of_decide_eq_true hbe.symm
        exact absurd herr this
      · have hbr2 : (pcmrec_flush_body enc N start_tick v t).1 = false := by
          simpa using hbr
        rw [if_neg hbr] at herr ⊢
        obtain ⟨hv1, hv2⟩ := flush_body_vars enc N start_tick v t hbr2
        have h1 : (pcmrec_flush_body enc N start_tick v t).2.2.enc_rd_index =
            INC_ENC_INDEX t.enc_num_chunks t.enc_rd_index := congrArg Prod.fst hbody
        have h2 : (pcmrec_flush_body enc N start_tick v t).2.2.enc_wr_index =
            t.enc_wr_index := congrArg (fun x => x.2.1) hbody
        have h3 : (pcmrec_flush_body enc N start_tick v t).2.2.enc_num_chunks =
            t.enc_num_chunks := congrArg (fun x => x.2.2) hbody
        have hF : (if (t.chunks t.enc_rd_index).flags &&& CHUNKF_START_FILE ≠ 0
            then usub v.flush_num 1 else v.flush_num) ≠ 0 ∧
            (N - v.i).toNat - 1 <
              (if (t.chunks t.enc_rd_index).flags &&& CHUNKF_START_FILE ≠ 0
               then usub v.flush_num 1 else v.flush_num) ∧
            (if (t.chunks t.enc_rd_index).flags &&& CHUNKF_START_FILE ≠ 0
               then usub v.flush_num 1 else v.flush_num) < 4294967296 := by
          rw [usub_eq]
          split <;> omega
        have hI : (pcmrec_flush_body enc N start_tick v t).2.1.i = v.i + 1 := by
          rw [hv2, if_neg (fun h => hF.1 h.2)]
        have hr := INC_ENC_INDEX_range t.enc_num_chunks t.enc_rd_index hn hrd.1
        have hres := ih (pcmrec_flush_body enc N start_tick v t).2.1
          (pcmrec_flush_body enc N start_tick v t).2.2
          (by rw [h3]; exact hn) (by rw [h1, h3]; exact hr) (by rw [hI]; omega)
          (by rw [hI]; omega) (by rw [hI, hv1]; have := hF.2.1; omega)
          (by rw [hv1]; exact hF.2.2) herr
        rw [hres, h1, h2, h3, hI]
        have := INC_ENC_INDEX_add_emod t.enc_num_chunks t.enc_rd_index (N - v.i) hrd
        have e : N - (v.i + 1) = N - v.i - 1 := by omega
        rw [e, this]
    · rw [if_neg hlt]
      have h0 : N - v.i = 0 := by omega
      rw [h0, Int.add_zero, Int.emod_eq_of_lt hrd.1 hrd.2]
      rfl

/-- The flush loop keeps the ring valid and leaves the write index alone. -/
theorem flush_loop_ring (enc : Encoder) (hidx : encoder_keeps_indices enc) (N : Int)
    (start_tick : Nat) (fuel : Nat) :
    ∀ (v : flush_vars) (t : PcmRec), ring_valid t →
      ring_valid (pcmrec_flush_loop enc N start_tick fuel v t).2 ∧
      (pcmrec_flush_loop enc N start_tick fuel v t).2.enc_wr_index = t.enc_wr_index ∧
      (pcmrec_flush_loop enc N start_tick fuel v t).2.enc_num_chunks = t.enc_num_chunks := by
  induction fuel with
  | zero => intro v t h; exact ⟨h, rfl, rfl⟩
  | succ k ih =>
    intro v t h
    simp only [pcmrec_flush_loop]
    have hbody := flush_body_ring enc hidx N start_tick v t
    have h1 : (pcmrec_flush_body enc N start_tick v t).2.2.enc_rd_index =
        INC_ENC_INDEX t.enc_num_chunks t.enc_rd_index := congrArg Prod.fst hbody
    have h2 : (pcmrec_flush_body enc N start_tick v t).2.2.enc_wr_index =
        t.enc_wr_index := congrArg (fun x => x.2.1) hbody
    have h3 : (pcmrec_flush_body enc N start_tick v t).2.2.enc_num_chunks =
        t.enc_num_chunks := congrArg (fun x => x.2.2) hbody
    obtain ⟨hn, hn2, hrd, hwr⟩ := h
    have hr := INC_ENC_INDEX_range t.enc_num_chunks t.enc_rd_index hn hrd.1
    have hv : ring_valid (pcmrec_flush_body enc N start_tick v t).2.2 := by
      unfold ring_valid
      rw [h1, h2, h3]
      exact ⟨hn, hn2, hr, hwr⟩
    split
    · split
      · exact ⟨hv, h2, h3⟩
      · obtain ⟨a, b, c⟩ := ih (pcmrec_flush_body enc N start_tick v t).2.1 _ hv
        exact ⟨a, b.trans h2, c.trans h3⟩
    · exact ⟨⟨hn, hn2, hrd, hwr⟩, rfl, rfl⟩

theorem flush_run_fields (enc : Encoder) (N : Int) (flush_num : Nat) (num : Int) (t : PcmRec) :
    ring3 (flush_run enc N flush_num num t) =
      ring3 (pcmrec_flush_loop enc N t.current_tick N.toNat
        { i := 0, num := num, prio := -1, flush_num := flush_num } t).2 ∧
    (flush_run enc N flush_num num t).errors =
      (pcmrec_flush_loop enc N t.current_tick N.toNat
        { i := 0, num := num, prio := -1, flush_num := flush_num } t).2.errors := by
  unfold flush_run
  simp only []
  split_ifs <;> exact ⟨rfl, rfl⟩

theorem flush_spinup_fields (t : PcmRec) :
    ring3 (flush_spinup t) = ring3 t := by
  unfold flush_spinup
  simp only []
  split_ifs <;> rfl

theorem ring_valid_of_ring3 (a b : PcmRec) (h : ring3 a = ring3 b) (hb : ring_valid b) :
    ring_valid a := by
  have h1 : a.enc_rd_index = b.enc_rd_index := congrArg Prod.fst h
  have h2 : a.enc_wr_index = b.enc_wr_index := congrArg (fun x => x.2.1) h
  have h3 : a.enc_num_chunks = b.enc_num_chunks := congrArg (fun x => x.2.2) h
  unfold ring_valid
  rw [h1, h2, h3]
  exact hb

theorem flush_run_ring (enc : Encoder) (hidx : encoder_keeps_indices enc) (N : Int)
    (flush_num : Nat) (num : Int) (t : PcmRec) (h : ring_valid t) :
    ring_valid (flush_run enc N flush_num num t) := by
  obtain ⟨h1, _⟩ := flush_run_fields enc N flush_num num t
  exact ring_valid_of_ring3 _ _ h1 (flush_loop_ring enc hidx N _ _ _ t h).1

/-- A flush keeps the ring valid. -/
theorem flush_ring (enc : Encoder) (hidx : encoder_keeps_indices enc) (flush_num : Nat)
    (t : PcmRec) (h : ring_valid t) : ring_valid (pcmrec_flush enc flush_num t) := by
  rw [pcmrec_flush_eq]
  have hs : ring_valid (flush_spinup t) := ring_valid_of_ring3 _ _ (flush_spinup_fields t) h
  split
  · split
    · exact h
    · split
      · exact hs
      · exact flush_run_ring enc hidx _ _ _ _ hs
  · exact flush_run_ring enc hidx _ _ _ _ h

/-- A forced flush of everything that ends without an error leaves no chunk
pending: the read index has reached the write index. -/
theorem flush_all_complete (enc : Encoder) (hidx : encoder_keeps_indices enc) (t : PcmRec)
    (h : ring_valid t) (herr : (pcmrec_flush enc 0xFFFFFFFF t).errors = 0) :
    (pcmrec_flush enc 0xFFFFFFFF t).enc_rd_index = (pcmrec_flush enc 0xFFFFFFFF t).enc_wr_index := by
  rw [pcmrec_flush_eq, if_neg (by decide)] at herr ⊢
  obtain ⟨h1, h2⟩ := flush_run_fields enc (num_ready t) 0xFFFFFFFF (num_ready t) t
  rw [h2] at herr
  obtain ⟨hn, hn2, hrd, hwr⟩ := h
  have hN : 0 ≤ num_ready t ∧ num_ready t < t.enc_num_chunks ∧
      (t.enc_rd_index + num_ready t) % t.enc_num_chunks = t.enc_wr_index := by
    unfold num_ready
    simp only []
    split
    · refine ⟨by omega, by omega, ?_⟩
      have e : t.enc_rd_index + (t.enc_wr_index - t.enc_rd_index + t.enc_num_chunks) =
          t.enc_wr_index + t.enc_num_chunks := by omega
      rw [e, Int.add_emod_self]
      exact Int.emod_eq_of_lt hwr.1 hwr.2
    · refine ⟨by omega, by omega, ?_⟩
      have e : t.enc_rd_index + (t.enc_wr_index - t.enc_rd_index) = t.enc_wr_index := by omega
      rw [e]
      exact Int.emod_eq_of_lt hwr.1 hwr.2
  have hc := flush_loop_complete enc hidx (num_ready t) t.current_tick (num_ready t).toNat
    { i := 0, num := num_ready t, prio := -1, flush_num := 0xFFFFFFFF } t hn hrd
    hN.1 (by simp) (by show (num_ready t - 0).toNat < 4294967295; omega)
    (by show (4294967295 : Nat) < 4294967296; omega) herr
  rw [← h1] at hc
  have e1 : (flush_run enc (num_ready t) 0xFFFFFFFF (num_ready t) t).enc_rd_index =
      (t.enc_rd_index + (num_ready t - 0)) % t.enc_num_chunks := congrArg Prod.fst hc
  have e2 : (flush_run enc (num_ready t) 0xFFFFFFFF (num_ready t) t).enc_wr_index =
      t.enc_wr_index := congrArg (fun x => x.2.1) hc
  rw [e1, e2, Int.sub_zero, hN.2.2]

theorem new_stream_end_ring (flags : Nat) (t : PcmRec) (h : ring_valid t) :
    ring_valid (new_stream_end flags t).1 := by
  obtain ⟨hn, hn2, hrd, hwr⟩ := h
  have hr := INC_ENC_INDEX_range t.enc_num_chunks t.enc_wr_index hn hwr.1
  unfold new_stream_end
  simp only []
  split_ifs <;> first | exact ⟨hn, hn2, hrd, hwr⟩ | exact ⟨hn, hn2, hrd, hr⟩

theorem ring3_new_stream_notify (enc : Encoder) (hidx : encoder_keeps_indices enc)
    (flags : Nat) (pre_index : Int) (t : PcmRec) :
    ring3 (new_stream_notify enc flags pre_index t).2 = ring3 (new_stream_end flags t).1 := by
  unfold new_stream_notify
  simp only []
  have h1 : ring3 (enc_events_callback_new_stream enc
      { flags := (new_stream_end flags t).2.1,
        pre_chunk := if (new_stream_end flags t).2.1 &&& CHUNKF_START_FILE ≠ 0 then
          (new_stream_start (new_stream_end flags t).2.1 pre_index (new_stream_end flags t).2.2
            (new_stream_end flags t).1).2.2.1 else none,
        chunk := (new_stream_end flags t).2.2 }
      (if (new_stream_end flags t).2.1 &&& CHUNKF_START_FILE ≠ 0 then
        (new_stream_start (new_stream_end flags t).2.1 pre_index (new_stream_end flags t).2.2
          (new_stream_end flags t).1).1
        else (new_stream_end flags t).1)).2 = ring3 (new_stream_end flags t).1 :=
    (ring3_callback_new_stream enc hidx _ _).trans (same_ite ring3 _ _ _ _ rfl rfl)
  exact same_ite ring3 _ _ _ _ h1 h1

theorem failing_encoder_keeps_indices : encoder_keeps_indices failing_encoder := by
  refine ⟨?_, ?_, ?_⟩
  · intro ev s
    cases ev <;> exact ⟨rfl, rfl, rfl⟩
  · intro d s
    exact ⟨rfl, rfl, rfl⟩
  · intro s h
    exact h

theorem starved_file_encoder_keeps_indices : encoder_keeps_indices starved_file_encoder := by
  refine ⟨?_, ?_, ?_⟩
  · intro ev s
    cases ev <;>
    · simp only [starved_file_encoder, file_encoder]
      first
      | exact ⟨trivial, trivial, trivial⟩
      | exact ⟨rfl, rfl, rfl⟩
      | (split_ifs <;> exact ⟨rfl, rfl, rfl⟩)
  · intro d s
    exact ⟨rfl, rfl, rfl⟩
  · intro s h
    exact h

theorem count_slots_succ (n : Nat) (f : Int → Bool) :
    count_slots (n + 1) f = count_slots n f + (if f (n : Int) then 1 else 0) := by
  unfold count_slots
  rw [List.range_succ, List.filter_append, List.length_append]
  by_cases h : f (n : Int) = true
  · simp [h]
  · simp [h]

theorem count_slots_congr (n : Nat) (f g : Int → Bool)
    (h : ∀ j : Int, 0 ≤ j → j < n → f j = g j) : count_slots n f = count_slots n g := by
  induction n with
  | zero => rfl
  | succ k ih =>
    rw [count_slots_succ, count_slots_succ,
      ih (fun j h0 h1 => h j h0 (by push_cast; omega)),
      h (k : Int) (by omega) (by push_cast; omega)]

/-- Changing `f` at one slot changes the count by that slot. -/
theorem count_slots_update (n : Nat) (f : Int → Bool) (i : Int) (b : Bool)
    (hi : 0 ≤ i ∧ i < n) :
    count_slots n (fun j => if j = i then b else f j) + (if f i then 1 else 0)
      = count_slots n f + (if b then 1 else 0) := by
  induction n with
  | zero => exact absurd hi.2 (by push_cast; omega)
  | succ k ih =>
    rw [count_slots_succ, count_slots_succ]
    by_cases hk : i = (k : Int)
    · have hc : count_slots k (fun j => if j = i then b else f j) = count_slots k f :=
        count_slots_congr k _ _ (fun j _ h1 => by rw [if_neg (by omega)])
      rw [hc, if_pos hk.symm, hk]
      split <;> split <;> omega
    · have := ih ⟨hi.1, by have := hi.2; push_cast at this; omega⟩
      rw [if_neg (fun h : (k : Int) = i => hk h.symm)]
      omega

theorem count_slots_pos (n : Nat) (f : Int → Bool) (i : Int) (hi : 0 ≤ i ∧ i < n)
    (h : f i = true) : 1 ≤ count_slots n f := by
  have := count_slots_update n f i false hi
  rw [h] at this
  simp only [if_true, Bool.false_eq_true, if_false] at this
  omega

theorem qstate_fields (a b : PcmRec) (h : qstate a = qstate b) :
    has_start a = has_start b ∧ ring3 a = ring3 b ∧ fnq3 a = fnq3 b ∧
      a.is_recording = b.is_recording :=
  ⟨congrArg (fun x => x.1) h, congrArg (fun x => x.2.1) h, congrArg (fun x => x.2.2.1) h,
    congrArg (fun x => x.2.2.2) h⟩

theorem ring3_fields (a b : PcmRec) (h : ring3 a = ring3 b) :
    a.enc_rd_index = b.enc_rd_index ∧ a.enc_wr_index = b.enc_wr_index ∧
      a.enc_num_chunks = b.enc_num_chunks :=
  ⟨congrArg (fun x => x.1) h, congrArg (fun x => x.2.1) h, congrArg (fun x => x.2.2) h⟩

theorem fnq3_fields (a b : PcmRec) (h : fnq3 a = fnq3 b) :
    a.fnq_rd_pos = b.fnq_rd_pos ∧ a.fnq_wr_pos = b.fnq_wr_pos ∧ a.fnq_size = b.fnq_size :=
  ⟨congrArg (fun x => x.1) h, congrArg (fun x => x.2.1) h, congrArg (fun x => x.2.2) h⟩

theorem MAX_PATH_cast : ((MAX_PATH : Nat) : Int) = 260 := by decide

theorem fnq3_count (a b : PcmRec) (h : fnq3 a = fnq3 b) :
    fnq_count a = fnq_count b ∧ (fnq_ok b → fnq_ok a) ∧
      pcmrec_fnq_is_empty a = pcmrec_fnq_is_empty b ∧
      pcmrec_fnq_is_full a = pcmrec_fnq_is_full b := by
  obtain ⟨h1, h2, h3⟩ := fnq3_fields a b h
  unfold fnq_count fnq_ok fnq_well_formed pcmrec_fnq_is_empty pcmrec_fnq_is_full
  rw [h1, h2, h3]
  exact ⟨rfl, id, rfl, rfl⟩

theorem land_keep (x m c : Nat) (h : m &&& c = c) : (x &&& m) &&& c = x &&& c := by
  rw [Nat.land_assoc, h]

/-- The statistics loop of `pcmrec_new_stream` writes the two counters only. -/
theorem new_stream_stats_effect (fuel : Nat) :
    ∀ (i : Int) (t a : PcmRec), new_stream_stats fuel i t = some a →
      qstate a = qstate t ∧ a.chunks = t.chunks := by
  induction fuel with
  | zero =>
    intro i t a h
    unfold new_stream_stats at h
    split at h
    · rw [← Option.some.inj h]; exact ⟨rfl, rfl⟩
    · exact absurd h (by simp)
  | succ k ih =>
    intro i t a h
    unfold new_stream_stats at h
    split at h
    · rw [← Option.some.inj h]; exact ⟨rfl, rfl⟩
    · have h2 := ih _ _ _ h
      exact ⟨h2.1, h2.2⟩

theorem in_ready_wr (y : PcmRec) (hv : ring_valid y) : in_ready y y.enc_wr_index := by
  obtain ⟨_, _, hrd, hwr⟩ := hv
  unfold in_ready
  split <;> omega

theorem DEC_ENC_INDEX_range (n i : Int) (hn : 0 < n) (hi : 0 ≤ i ∧ i < n) :
    0 ≤ DEC_ENC_INDEX n i ∧ DEC_ENC_INDEX n i < n := by
  unfold DEC_ENC_INDEX
  split <;> omega

/-- The walk over the pre-recorded chunks ends on a slot of the ring. -/
theorem prerecord_walk_rd (p : Nat) (avail : Nat) :
    ∀ (i rd : Int) (pt : Nat) (s : PcmRec), 0 < s.enc_num_chunks →
      (0 ≤ i ∧ i < s.enc_num_chunks) → (0 ≤ rd ∧ rd < s.enc_num_chunks) →
      0 ≤ (prerecord_walk p avail i rd pt s).1 ∧
      (prerecord_walk p avail i rd pt s).1 < s.enc_num_chunks := by
  induction avail with
  | zero => intro i rd pt s _ _ hrd; exact hrd
  | succ k ih =>
    intro i rd pt s hn hi hrd
    have hd := DEC_ENC_INDEX_range s.enc_num_chunks i hn hi
    unfold prerecord_walk
    simp only []
    split
    · exact ih _ _ _ _ hn hd hrd
    · split
      · exact hd
      · have h := ih (DEC_ENC_INDEX s.enc_num_chunks i) (DEC_ENC_INDEX s.enc_num_chunks i)
          (uadd pt (umul (GET_ENC_CHUNK s (DEC_ENC_INDEX s.enc_num_chunks i)).num_pcm HZ))
          { s with
            num_rec_bytes := uadd s.num_rec_bytes
              (GET_ENC_CHUNK s (DEC_ENC_INDEX s.enc_num_chunks i)).enc_size,
            num_rec_samples := uadd s.num_rec_samples
              (GET_ENC_CHUNK s (DEC_ENC_INDEX s.enc_num_chunks i)).num_pcm } hn hd hd
        exact h

/-- What the preparation of Record from idle leaves: a recording state with
the read index on a slot of the ring, the filename queue emptied, the chunk
headers untouched. -/
theorem record_idle_prepare_effect (s : PcmRec) (hv : ring_valid s) :
    (record_idle_prepare s).1.chunks = s.chunks ∧
    (record_idle_prepare s).1.enc_num_chunks = s.enc_num_chunks ∧
    (record_idle_prepare s).1.enc_wr_index = s.enc_wr_index ∧
    (0 ≤ (record_idle_prepare s).1.enc_rd_index ∧
      (record_idle_prepare s).1.enc_rd_index < s.enc_num_chunks) ∧
    (record_idle_prepare s).1.fnq_rd_pos = s.fnq_wr_pos ∧
    (record_idle_prepare s).1.fnq_wr_pos = s.fnq_wr_pos ∧
    (record_idle_prepare s).1.fnq_size = s.fnq_size ∧
    (record_idle_prepare s).1.is_recording = true := by
  obtain ⟨hn, _, hrd, hwr⟩ := hv
  unfold record_idle_prepare
  simp only []
  by_cases hp : s.pre_record_ticks ≠ 0
  · rw [if_pos hp]
    generalize hwk : prerecord_walk _ _ _ _ _ _ = w
    have hw : 0 ≤ w.1 ∧ w.1 < s.enc_num_chunks := by
      rw [← hwk]
      exact prerecord_walk_rd _ _ _ _ _ _ hn hwr hwr
    have hf := prerecord_walk_frame (umul s.enc_sample_rate s.pre_record_ticks)
      (avail_pre_chunks { { s with num_rec_bytes := 0, num_rec_samples := 0 } with
        spinup_time := -1, warnings := 0 }) s.enc_wr_index s.enc_wr_index 0
      { { s with num_rec_bytes := 0, num_rec_samples := 0 } with
        spinup_time := -1, warnings := 0 }
    rw [hwk] at hf
    unfold pcmrec_fnq_is_empty pcmrec_fnq_set_empty
    simp only []
    split
    · rw [hf]; exact ⟨rfl, rfl, rfl, hw, rfl, rfl, rfl, trivial⟩
    · rename_i he
      rw [hf] at he ⊢
      have he2 : s.fnq_rd_pos = s.fnq_wr_pos := by simpa using he
      exact ⟨rfl, rfl, rfl, hw, he2, rfl, rfl, trivial⟩
  · rw [if_neg hp]
    unfold pcmrec_fnq_is_empty pcmrec_fnq_set_empty
    simp only []
    split
    · exact ⟨rfl, rfl, rfl, hwr, rfl, rfl, rfl, trivial⟩
    · rename_i he
      have he2 : s.fnq_rd_pos = s.fnq_wr_pos := by simpa using he
      exact ⟨rfl, rfl, rfl, hwr, he2, rfl, rfl, trivial⟩

theorem file_encoder_passive : encoder_passive file_encoder := by
  refine ⟨?_, ?_, ?_⟩
  · intro ev s
    cases ev <;>
    · simp only [file_encoder]
      first
      | exact ⟨rfl, rfl⟩
      | exact ⟨rfl, trivial⟩
      | exact ⟨trivial, trivial⟩
      | (split_ifs <;> exact ⟨rfl, rfl⟩)
  · intro d s
    exact ⟨rfl, rfl⟩
  · intro s
    simp only [file_encoder, enc_get_pcm_data]
    split_ifs <;> rfl

/-- The "end chunk" part on a drained ring whose chunk at the write index is
no unprocessed start: the chunk is emptied and the write index moves on. -/
theorem new_stream_end_dead_end (flags : Nat) (s : PcmRec)
    (hend : flags &&& CHUNKF_END_FILE ≠ 0)
    (hrw : s.enc_rd_index = s.enc_wr_index)
    (hns : (s.chunks s.enc_wr_index).flags &&& CHUNKF_START_FILE = 0) :
    new_stream_end flags s =
      ({ set_chunk (set_flags s s.enc_wr_index
            ((GET_ENC_CHUNK s s.enc_wr_index).flags &&& (CHUNKF_START_FILE ||| CHUNKF_END_FILE)))
            s.enc_wr_index { flags := 0, enc_size := 0, num_pcm := 0, enc_data := none } with
          enc_wr_index := INC_ENC_INDEX s.enc_num_chunks s.enc_wr_index },
        flags, INC_ENC_INDEX s.enc_num_chunks s.enc_wr_index) := by
  have h1 : ¬ (((GET_ENC_CHUNK s s.enc_wr_index).flags &&& (CHUNKF_START_FILE ||| CHUNKF_END_FILE))
      &&& CHUNKF_START_FILE ≠ 0) := by
    rw [land_land_of_land _ _ _ (by decide)]
    exact not_not.mpr hns
  have h4 : (GET_ENC_CHUNK (set_flags s s.enc_wr_index
        ((GET_ENC_CHUNK s s.enc_wr_index).flags &&& (CHUNKF_START_FILE ||| CHUNKF_END_FILE)))
        s.enc_wr_index).flags
      = (GET_ENC_CHUNK s s.enc_wr_index).flags &&& (CHUNKF_START_FILE ||| CHUNKF_END_FILE) := by
    simp [GET_ENC_CHUNK, set_flags, set_chunk]
  have h5 : (set_flags s s.enc_wr_index
        ((GET_ENC_CHUNK s s.enc_wr_index).flags &&& (CHUNKF_START_FILE ||| CHUNKF_END_FILE))).enc_rd_index
      = (set_flags s s.enc_wr_index
        ((GET_ENC_CHUNK s s.enc_wr_index).flags &&& (CHUNKF_START_FILE ||| CHUNKF_END_FILE))).enc_wr_index :=
    hrw
  unfold new_stream_end
  simp only [hend, ne_eq, not_false_eq_true, if_true]
  rw [h4, if_neg h1, if_pos h5]
  rfl

/-- C31 (as stated) fails on a ring of a single chunk: both indices are 0, the
chunk carries no start marker, and `pcmrec_new_stream` with the end-of-file
flag turns slot 0 into an empty chunk that carries the end marker, but the
write index, advanced by one, wraps onto itself: read and write index are both
0 afterwards and no ready chunk results, where the claim has exactly one. -/
theorem C31_counterexample :
    single_slot_ring.enc_rd_index = single_slot_ring.enc_wr_index ∧
    (single_slot_ring.chunks single_slot_ring.enc_wr_index).flags &&& CHUNKF_START_FILE = 0 ∧
    (∀ d t, file_encoder.new_stream d t = (d, t)) ∧
    (pcmrec_new_stream file_encoder 0 none CHUNKF_END_FILE 0 single_slot_ring).map
        (fun t => (GET_ENC_CHUNK t 0, t.enc_rd_index, t.enc_wr_index, num_ready t, ready_chunks t))
      = some (end_marker_chunk, 0, 0, 0, []) ∧
    ¬ ((pcmrec_new_stream file_encoder 0 none CHUNKF_END_FILE 0 single_slot_ring).map num_ready
        = some 1) := by
  refine ⟨rfl, by decide, fun _ _ => rfl, by decide, by decide⟩

/-- C31 (amended): on a ring of at least two chunks whose indices lie in the
ring, drained (read index = write index), with no start marker on the chunk at
the write index, `pcmrec_new_stream` called with the end-of-file flag and
without the start-of-file flag (the encoder's callback changing nothing)
returns whatever the fuel; the slot at the old write index is then an empty
chunk (sizes 0, no payload) whose flags are exactly end-of-file, the write
index has advanced by one slot, the read index is unchanged, and exactly one
chunk is ready, the one that carries the end marker. -/
theorem C31_end_on_drained_ring (enc : Encoder) (hcb : ∀ d t, enc.new_stream d t = (d, t))
    (fuel : Nat) (filename : Option String) (flags : Nat) (pre_index : Int) (s : PcmRec)
    (hend : flags &&& CHUNKF_END_FILE ≠ 0) (hnst : flags &&& CHUNKF_START_FILE = 0)
    (hv : ring_valid s) (h2 : 2 ≤ s.enc_num_chunks)
    (hrw : s.enc_rd_index = s.enc_wr_index)
    (hns : (s.chunks s.enc_wr_index).flags &&& CHUNKF_START_FILE = 0) :
    ∃ s1, pcmrec_new_stream enc fuel filename flags pre_index s = some s1 ∧
      GET_ENC_CHUNK s1 s.enc_wr_index = end_marker_chunk ∧
      s1.enc_wr_index = INC_ENC_INDEX s.enc_num_chunks s.enc_wr_index ∧
      s1.enc_wr_index = (s.enc_wr_index + 1) % s.enc_num_chunks ∧
      s1.enc_rd_index = s.enc_rd_index ∧
      s1.enc_num_chunks = s.enc_num_chunks ∧
      num_ready s1 = 1 ∧
      ready_chunks s1 = [end_marker_chunk] := by
  obtain ⟨hn, -, hrd, hwr⟩ := hv
  have hE := new_stream_end_dead_end flags s hend hrw hns
  have hdec := DEC_INC_ENC_INDEX s.enc_num_chunks s.enc_wr_index hwr.1 hwr.2
  have hrun : pcmrec_new_stream enc fuel filename flags pre_index s =
      some (new_stream_notify enc flags pre_index s).2 := by
    rw [pcmrec_new_stream_eq, hE, if_neg (not_not.mpr hnst)]
  obtain ⟨s1, hs1⟩ : ∃ s1, s1 = (new_stream_notify enc flags pre_index s).2 := ⟨_, rfl⟩
  have hw1 : s1.enc_wr_index = INC_ENC_INDEX s.enc_num_chunks s.enc_wr_index := by
    rw [hs1]; unfold new_stream_notify
    simp only [hE, if_neg (not_not.mpr hnst), if_pos hend, enc_events_callback_new_stream, hcb]
    rfl
  have hr1 : s1.enc_rd_index = s.enc_rd_index := by
    rw [hs1]; unfold new_stream_notify
    simp only [hE, if_neg (not_not.mpr hnst), if_pos hend, enc_events_callback_new_stream, hcb]
    rfl
  have hn1 : s1.enc_num_chunks = s.enc_num_chunks := by
    rw [hs1]; unfold new_stream_notify
    simp only [hE, if_neg (not_not.mpr hnst), if_pos hend, enc_events_callback_new_stream, hcb]
    rfl
  have hc1 : GET_ENC_CHUNK s1 s.enc_wr_index = end_marker_chunk := by
    rw [hs1]; unfold new_stream_notify
    simp only [hE, if_neg (not_not.mpr hnst), if_pos hend, enc_events_callback_new_stream, hcb]
    simp only [GET_ENC_CHUNK, set_flags, set_chunk, hdec, if_true, end_marker_chunk]
    rfl
  have hnr : num_ready s1 = 1 := by
    unfold num_ready
    simp only [hw1, hr1, hn1, hrw]
    unfold INC_ENC_INDEX
    split_ifs <;> omega
  refine ⟨s1, by rw [hrun, hs1], hc1, hw1, ?_, hr1, hn1, hnr, ?_⟩
  · rw [hw1, INC_ENC_INDEX_eq_emod _ _ hwr.1 hwr.2]
  · unfold ready_chunks
    rw [hnr, hr1, hrw]
    show [GET_ENC_CHUNK s1 s.enc_wr_index] = _
    rw [hc1]

/-- Witness of C31: a drained ring of 4 chunks during a recording and the file
encoder, whose new-stream callback takes no action. -/
theorem C31_end_on_drained_ring_witness :
    (∀ d t, file_encoder.new_stream d t = (d, t)) ∧
    CHUNKF_END_FILE &&& CHUNKF_END_FILE ≠ 0 ∧ CHUNKF_END_FILE &&& CHUNKF_START_FILE = 0 ∧
    ring_valid empty_ring4_recording ∧ 2 ≤ empty_ring4_recording.enc_num_chunks ∧
    empty_ring4_recording.enc_rd_index = empty_ring4_recording.enc_wr_index ∧
    (empty_ring4_recording.chunks empty_ring4_recording.enc_wr_index).flags
      &&& CHUNKF_START_FILE = 0 ∧
    ∃ s1, pcmrec_new_stream file_encoder 0 none CHUNKF_END_FILE 0 empty_ring4_recording
        = some s1 ∧
      GET_ENC_CHUNK s1 empty_ring4_recording.enc_wr_index = end_marker_chunk ∧
      s1.enc_wr_index = INC_ENC_INDEX empty_ring4_recording.enc_num_chunks
        empty_ring4_recording.enc_wr_index ∧
      s1.enc_wr_index = (empty_ring4_recording.enc_wr_index + 1)
        % empty_ring4_recording.enc_num_chunks ∧
      s1.enc_rd_index = empty_ring4_recording.enc_rd_index ∧
      s1.enc_num_chunks = empty_ring4_recording.enc_num_chunks ∧
      num_ready s1 = 1 ∧
      ready_chunks s1 = [end_marker_chunk] :=
  ⟨fun _ _ => rfl, by decide, by decide, by decide, by decide, rfl, by decide,
   C31_end_on_drained_ring file_encoder (fun _ _ => rfl) 0 none CHUNKF_END_FILE 0
     empty_ring4_recording (by decide) (by decide) (by decide) (by decide) rfl (by decide)⟩

theorem file_encoder_keeps_queue : new_stream_keeps_queue file_encoder := by
  intro data s
  exact ⟨rfl, rfl⟩

/-- The "end chunk" part when the chunk before the write index already carries
the end marker: the end flag is taken out of the request. -/
theorem new_stream_end_again (s : PcmRec)
    (hne : s.enc_rd_index ≠ s.enc_wr_index)
    (hns : (GET_ENC_CHUNK s s.enc_wr_index).flags &&& CHUNKF_START_FILE = 0)
    (hlast : (GET_ENC_CHUNK s (DEC_ENC_INDEX s.enc_num_chunks s.enc_wr_index)).flags
      &&& CHUNKF_END_FILE ≠ 0) :
    new_stream_end CHUNKF_END_FILE s =
      (set_flags s s.enc_wr_index
          ((GET_ENC_CHUNK s s.enc_wr_index).flags &&& (CHUNKF_START_FILE ||| CHUNKF_END_FILE)),
        0, s.enc_wr_index) := by
  obtain ⟨s0, hs0⟩ : ∃ s0, s0 = set_flags s s.enc_wr_index
      ((GET_ENC_CHUNK s s.enc_wr_index).flags &&& (CHUNKF_START_FILE ||| CHUNKF_END_FILE)) :=
    ⟨_, rfl⟩
  have hfl : ∀ j, (s0.chunks j).flags =
      if j = s.enc_wr_index
      then (s.chunks s.enc_wr_index).flags &&& (CHUNKF_START_FILE ||| CHUNKF_END_FILE)
      else (s.chunks j).flags := by
    intro j
    rw [hs0]
    by_cases hj : j = s.enc_wr_index <;> simp [set_flags, set_chunk, GET_ENC_CHUNK, hj]
  have h1 : ¬ ((GET_ENC_CHUNK s0 s.enc_wr_index).flags &&& CHUNKF_START_FILE ≠ 0) := by
    show ¬ ((s0.chunks s.enc_wr_index).flags &&& CHUNKF_START_FILE ≠ 0)
    rw [hfl, if_pos rfl, land_land_of_land _ _ _ (by decide)]
    exact not_not.mpr hns
  have h2 : CHUNKF_END_FILE &&& unot CHUNKF_END_FILE = 0 := by decide
  have h3 : CHUNKF_END_FILE &&& CHUNKF_END_FILE ≠ 0 := by decide
  have h5 : ¬ (s0.enc_rd_index = s0.enc_wr_index) := by rw [hs0]; exact hne
  have h6 : (GET_ENC_CHUNK s0 (DEC_ENC_INDEX s0.enc_num_chunks s0.enc_wr_index)).flags
      &&& CHUNKF_END_FILE ≠ 0 := by
    have e1 : s0.enc_num_chunks = s.enc_num_chunks := by rw [hs0]; rfl
    have e2 : s0.enc_wr_index = s.enc_wr_index := by rw [hs0]; rfl
    show (s0.chunks _).flags &&& CHUNKF_END_FILE ≠ 0
    rw [e1, e2, hfl]
    by_cases hj : DEC_ENC_INDEX s.enc_num_chunks s.enc_wr_index = s.enc_wr_index
    · rw [if_pos hj, land_land_of_land _ _ _ (by decide)]
      rw [hj] at hlast
      exact hlast
    · rw [if_neg hj]
      exact hlast
  unfold new_stream_end
  simp only [h3, ne_eq, not_false_eq_true, if_true]
  rw [← hs0, if_neg h1, if_neg h5, if_pos h6, h2]

/-- C32: when the ring is not drained, the chunk at the write index carries no
start marker and the chunk just before the write index already carries the
end-of-file flag, `pcmrec_new_stream` called with only the end-of-file flag
returns (whatever the fuel) and drops the end: the encoder receives one
new-stream notification, for the chunk at the write index, whose flags are the
request with the end flag removed (0); and, the encoder's callback leaving
ring indices, header flags and the filename queue alone, the end-of-file bit of
every chunk is what it was, and the write index, the read index and the
filename queue are unchanged. -/
theorem C32_end_twice_dropped (enc : Encoder) (fuel : Nat) (filename : Option String)
    (pre_index : Int) (s : PcmRec)
    (hne : s.enc_rd_index ≠ s.enc_wr_index)
    (hns : (GET_ENC_CHUNK s s.enc_wr_index).flags &&& CHUNKF_START_FILE = 0)
    (hlast : (GET_ENC_CHUNK s (DEC_ENC_INDEX s.enc_num_chunks s.enc_wr_index)).flags
      &&& CHUNKF_END_FILE ≠ 0)
    (henc : new_stream_keeps_ring enc) (hq : new_stream_keeps_queue enc) :
    ∃ s1 call,
      pcmrec_new_stream enc fuel filename CHUNKF_END_FILE pre_index s = some s1 ∧
      s1.trace = s.trace ++ [call] ∧
      call.event = enc_events.ENC_REC_NEW_STREAM ∧
      call.chunk = s.enc_wr_index ∧
      call.flags = CHUNKF_END_FILE &&& unot CHUNKF_END_FILE ∧
      call.flags &&& CHUNKF_END_FILE = 0 ∧
      (∀ j, (GET_ENC_CHUNK s1 j).flags &&& CHUNKF_END_FILE =
              (GET_ENC_CHUNK s j).flags &&& CHUNKF_END_FILE) ∧
      s1.enc_wr_index = s.enc_wr_index ∧
      s1.enc_rd_index = s.enc_rd_index ∧
      fnq3 s1 = fnq3 s ∧
      s1.fn_queue = s.fn_queue := by
  obtain ⟨s0, hs0⟩ : ∃ s0, s0 = set_flags s s.enc_wr_index
      ((GET_ENC_CHUNK s s.enc_wr_index).flags &&& (CHUNKF_START_FILE ||| CHUNKF_END_FILE)) :=
    ⟨_, rfl⟩
  have hfl : ∀ j, (s0.chunks j).flags =
      if j = s.enc_wr_index
      then (s.chunks s.enc_wr_index).flags &&& (CHUNKF_START_FILE ||| CHUNKF_END_FILE)
      else (s.chunks j).flags := by
    intro j
    rw [hs0]
    by_cases hj : j = s.enc_wr_index <;> simp [set_flags, set_chunk, GET_ENC_CHUNK, hj]
  have hw0 : s0.enc_wr_index = s.enc_wr_index := by rw [hs0]; rfl
  have hr0 : s0.enc_rd_index = s.enc_rd_index := by rw [hs0]; rfl
  have hq0 : fnq3 s0 = fnq3 s := by rw [hs0]; rfl
  have hn0 : s0.fn_queue = s.fn_queue := by rw [hs0]; rfl
  obtain ⟨hw, hr, hf⟩ := henc { flags := 0, pre_chunk := none, chunk := s.enc_wr_index } s0
  obtain ⟨hq1, hq2⟩ := hq { flags := 0, pre_chunk := none, chunk := s.enc_wr_index } s0
  have hrun : pcmrec_new_stream enc fuel filename CHUNKF_END_FILE pre_index s =
      some (enc_events_callback_new_stream enc
        { flags := 0, pre_chunk := none, chunk := s.enc_wr_index } s0).2 := by
    unfold pcmrec_new_stream
    rw [new_stream_end_again s hne hns hlast, ← hs0]
    simp
  have ht0 : s0.trace = s.trace := by rw [hs0]; rfl
  refine ⟨_,
    { event := enc_events.ENC_REC_NEW_STREAM, flags := 0, chunk := s.enc_wr_index,
      hdr := s0.chunks s.enc_wr_index, filename := "",
      rec_file := s0.rec_fdata.rec_file,
      num_pcm_samples := s0.rec_fdata.num_pcm_samples },
    hrun, ?_, rfl, rfl, ?_, Nat.zero_and _, ?_, ?_, ?_, ?_, ?_⟩
  · show s0.trace ++ _ = s.trace ++ _
    rw [ht0]
  · show 0 = CHUNKF_END_FILE &&& unot CHUNKF_END_FILE
    decide
  · intro j
    show ((enc.new_stream _ s0).2.chunks j).flags &&& _ = (s.chunks j).flags &&& _
    rw [hf j, hfl j]
    by_cases hj : j = s.enc_wr_index
    · rw [if_pos hj, land_land_of_land _ _ _ (by decide), hj]
    · rw [if_neg hj]
  · exact hw.trans hw0
  · exact hr.trans hr0
  · exact hq1.trans hq0
  · exact hq2.trans hn0

/-- Witness of C32: two ready chunks, the second already marked as the end of
the file, and the file encoder. -/
theorem C32_end_twice_dropped_witness :
    end_marked_ring.enc_rd_index ≠ end_marked_ring.enc_wr_index ∧
    (GET_ENC_CHUNK end_marked_ring end_marked_ring.enc_wr_index).flags
      &&& CHUNKF_START_FILE = 0 ∧
    (GET_ENC_CHUNK end_marked_ring (DEC_ENC_INDEX end_marked_ring.enc_num_chunks
      end_marked_ring.enc_wr_index)).flags &&& CHUNKF_END_FILE ≠ 0 ∧
    new_stream_keeps_ring file_encoder ∧ new_stream_keeps_queue file_encoder ∧
    ∃ s1 call,
      pcmrec_new_stream file_encoder 0 none CHUNKF_END_FILE 0 end_marked_ring = some s1 ∧
      s1.trace = end_marked_ring.trace ++ [call] ∧
      call.event = enc_events.ENC_REC_NEW_STREAM ∧
      call.chunk = end_marked_ring.enc_wr_index ∧
      call.flags = CHUNKF_END_FILE &&& unot CHUNKF_END_FILE ∧
      call.flags &&& CHUNKF_END_FILE = 0 ∧
      (∀ j, (GET_ENC_CHUNK s1 j).flags &&& CHUNKF_END_FILE =
              (GET_ENC_CHUNK end_marked_ring j).flags &&& CHUNKF_END_FILE) ∧
      s1.enc_wr_index = end_marked_ring.enc_wr_index ∧
      s1.enc_rd_index = end_marked_ring.enc_rd_index ∧
      fnq3 s1 = fnq3 end_marked_ring ∧
      s1.fn_queue = end_marked_ring.fn_queue :=
  ⟨by decide, by decide, by decide, file_encoder_keeps_ring, file_encoder_keeps_queue,
   C32_end_twice_dropped file_encoder 0 none 0 end_marked_ring (by decide) (by decide)
     (by decide) file_encoder_keeps_ring file_encoder_keeps_queue⟩

theorem callback_trace (enc : Encoder) (ev : enc_events) (s : PcmRec) :
    (enc_events_callback enc ev s).trace = s.trace ++ [file_event_call ev s] :=
  rfl

theorem trace_start_file_pull (curr : Int) (t : PcmRec) :
    (pcmrec_start_file_pull curr t).trace = t.trace ∧
    (pcmrec_start_file_pull curr t).rec_fdata.chunk = t.rec_fdata.chunk := by
  unfold pcmrec_start_file_pull pcmrec_fnq_get_filename
  simp only []
  split_ifs <;> exact ⟨rfl, rfl⟩

theorem trace_update_sizes (a b : Nat) (t : PcmRec) :
    (pcmrec_update_sizes a b t).trace = t.trace ∧
    (pcmrec_update_sizes a b t).rec_fdata.chunk = t.rec_fdata.chunk := by
  unfold pcmrec_update_sizes
  simp only []
  split_ifs <;> exact ⟨rfl, rfl⟩

theorem trace_start_file_finish (a b : Nat) (curr : Int) (t : PcmRec) :
    (pcmrec_start_file_finish a b curr t).trace = t.trace ∧
    (pcmrec_start_file_finish a b curr t).rec_fdata.chunk = t.rec_fdata.chunk := by
  unfold pcmrec_start_file_finish pcmrec_update_sizes pcmrec_close_file
  simp only []
  split_ifs <;> exact ⟨rfl, rfl⟩

/-- A file start makes one call of the encoder, the start event. -/
theorem trace_start_file (enc : Encoder) (hch : file_event_keeps_chunk enc) (t : PcmRec) :
    (∃ c, (pcmrec_start_file enc t).trace = t.trace ++ [c] ∧
      c.event = enc_events.ENC_START_FILE) ∧
    (pcmrec_start_file enc t).rec_fdata.chunk = t.rec_fdata.chunk := by
  obtain ⟨p1, p2⟩ := trace_start_file_pull t.rec_fdata.rec_file t
  obtain ⟨f1, f2⟩ := trace_start_file_finish t.rec_fdata.new_enc_size t.rec_fdata.new_num_pcm
    t.rec_fdata.rec_file
    (enc_events_callback enc enc_events.ENC_START_FILE
      (pcmrec_start_file_pull t.rec_fdata.rec_file t))
  constructor
  · refine ⟨file_event_call enc_events.ENC_START_FILE
      (pcmrec_start_file_pull t.rec_fdata.rec_file t), ?_, rfl⟩
    show (pcmrec_start_file_finish _ _ _ _).trace = _
    rw [f1, callback_trace, p1]
  · show (pcmrec_start_file_finish _ _ _ _).rec_fdata.chunk = _
    rw [f2]
    exact (hch _ _).trans p2

/-- A chunk write makes one call of the encoder, the write event for the
current chunk, which carries the error flag when an error is up. -/
theorem trace_write_chunk (enc : Encoder) (hch : file_event_keeps_chunk enc) (t : PcmRec) :
    (∃ c, (pcmrec_write_chunk enc t).trace = t.trace ++ [c] ∧
      c.event = enc_events.ENC_WRITE_CHUNK ∧ c.chunk = t.rec_fdata.chunk ∧
      (t.errors ≠ 0 → c.flags &&& CHUNKF_ERROR ≠ 0)) ∧
    (pcmrec_write_chunk enc t).rec_fdata.chunk = t.rec_fdata.chunk := by
  obtain ⟨a, ha⟩ : ∃ a, a = (if t.errors ≠ 0 then
      set_flags t t.rec_fdata.chunk ((t.chunks t.rec_fdata.chunk).flags ||| CHUNKF_ERROR)
    else t) := ⟨_, rfl⟩
  have a1 : a.trace = t.trace := by rw [ha]; split_ifs <;> rfl
  have a2 : a.rec_fdata.chunk = t.rec_fdata.chunk := by rw [ha]; split_ifs <;> rfl
  have a3 : t.errors ≠ 0 → (a.chunks a.rec_fdata.chunk).flags &&& CHUNKF_ERROR ≠ 0 := by
    intro he
    rw [a2, ha, if_pos he]
    show ((if t.rec_fdata.chunk = t.rec_fdata.chunk then _ else _ : enc_chunk_hdr)).flags
      &&& CHUNKF_ERROR ≠ 0
    rw [if_pos rfl]
    show ((t.chunks t.rec_fdata.chunk).flags ||| CHUNKF_ERROR) &&& CHUNKF_ERROR ≠ 0
    rw [lor_land_self]
    decide
  obtain ⟨b, hb⟩ : ∃ b, b = enc_events_callback enc enc_events.ENC_WRITE_CHUNK a := ⟨_, rfl⟩
  have b1 : b.trace = a.trace ++ [file_event_call enc_events.ENC_WRITE_CHUNK a] := by
    rw [hb]; exact callback_trace enc _ a
  have b2 : b.rec_fdata.chunk = a.rec_fdata.chunk := by rw [hb]; exact hch _ _
  have hw : pcmrec_write_chunk enc t =
      (if ¬ long_negative (b.chunks b.rec_fdata.chunk).flags then
        pcmrec_update_sizes t.rec_fdata.new_enc_size t.rec_fdata.new_num_pcm b
      else if b.errors = 0 then { b with errors := b.errors ||| PCMREC_E_ENCODER } else b) := by
    rw [hb, ha]; rfl
  have hu := trace_update_sizes t.rec_fdata.new_enc_size t.rec_fdata.new_num_pcm b
  constructor
  · refine ⟨file_event_call enc_events.ENC_WRITE_CHUNK a, ?_, rfl, a2, a3⟩
    rw [hw, ← a1, ← b1]
    split_ifs <;> first | exact hu.1 | rfl
  · rw [hw, ← a2, ← b2]
    split_ifs <;> first | exact hu.2 | rfl

/-- A file end makes one call of the encoder, the end event. -/
theorem trace_end_file (enc : Encoder) (hch : file_event_keeps_chunk enc) (t : PcmRec) :
    (∃ c, (pcmrec_end_file enc t).trace = t.trace ++ [c] ∧
      c.event = enc_events.ENC_END_FILE) ∧
    (pcmrec_end_file enc t).rec_fdata.chunk = t.rec_fdata.chunk := by
  obtain ⟨b, hb⟩ : ∃ b, b = enc_events_callback enc enc_events.ENC_END_FILE t := ⟨_, rfl⟩
  have b1 : b.trace = t.trace ++ [file_event_call enc_events.ENC_END_FILE t] := by
    rw [hb]; exact callback_trace enc _ t
  have b2 : b.rec_fdata.chunk = t.rec_fdata.chunk := by rw [hb]; exact hch _ _
  have hu := trace_update_sizes t.rec_fdata.new_enc_size t.rec_fdata.new_num_pcm b
  have hw : (pcmrec_end_file enc t).trace = b.trace ∧
      (pcmrec_end_file enc t).rec_fdata.chunk = b.rec_fdata.chunk := by
    unfold pcmrec_end_file pcmrec_close_file
    simp only [← hb]
    split_ifs <;> first | exact ⟨rfl, rfl⟩ | exact hu
  exact ⟨⟨_, hw.1.trans b1, rfl⟩, hw.2.trans b2⟩

theorem write_calls_append (a b : List enc_call) :
    write_calls (a ++ b) = write_calls a ++ write_calls b :=
  List.filter_append _ _

theorem write_calls_single (c : enc_call) :
    write_calls [c] = if c.event = enc_events.ENC_WRITE_CHUNK then [c] else [] := by
  unfold write_calls
  by_cases h : c.event = enc_events.ENC_WRITE_CHUNK
  · rw [if_pos h, List.filter_cons_of_pos (by simpa using h)]; rfl
  · rw [if_neg h, List.filter_cons_of_neg (by simpa using h)]; rfl

/-- The events of one pass of the flush loop deliver the current chunk to the
write-chunk event exactly once; the call carries the error flag when an error
was up and the encoder clears no error bit. -/
theorem trace_flush_events (enc : Encoder) (hch : file_event_keeps_chunk enc) (t : PcmRec) :
    ∃ delta c, (flush_pass_events enc t).trace = t.trace ++ delta ∧
      write_calls delta = [c] ∧ c.chunk = t.rec_fdata.chunk ∧
      (encoder_keeps PcmRec.errors enc → t.errors ≠ 0 → c.flags &&& CHUNKF_ERROR ≠ 0) := by
  obtain ⟨a, ha⟩ : ∃ a, a = (if (t.chunks t.rec_fdata.chunk).flags &&& CHUNKF_START_FILE ≠ 0
      then pcmrec_start_file enc t else t) := ⟨_, rfl⟩
  have hA : ∃ da, a.trace = t.trace ++ da ∧ write_calls da = [] ∧
      a.rec_fdata.chunk = t.rec_fdata.chunk := by
    rw [ha]
    split_ifs
    · obtain ⟨⟨c0, h1, h2⟩, h3⟩ := trace_start_file enc hch t
      refine ⟨[c0], h1, ?_, h3⟩
      rw [write_calls_single, if_neg (by rw [h2]; decide)]
    · exact ⟨[], (List.append_nil _).symm, rfl, rfl⟩
  have hAe : encoder_keeps PcmRec.errors enc → bits_subset t.errors a.errors := by
    intro hk
    rw [ha]
    exact kept_ite PcmRec.errors _ _ _ _ (mono_start_file PcmRec.errors (Or.inl rfl) enc hk t)
      (bits_subset_refl _)
  obtain ⟨da, a1, a2, a3⟩ := hA
  obtain ⟨⟨c, b1, b2, b3, b4⟩, b5⟩ := trace_write_chunk enc hch a
  obtain ⟨b, hb⟩ : ∃ b, b = pcmrec_write_chunk enc a := ⟨_, rfl⟩
  rw [← hb] at b1 b5
  have hR : ∃ dr, (if (b.chunks b.rec_fdata.chunk).flags &&& CHUNKF_END_FILE ≠ 0 then
      pcmrec_end_file enc b else b).trace = b.trace ++ dr ∧ write_calls dr = [] := by
    split_ifs
    · obtain ⟨⟨c2, h1, h2⟩, -⟩ := trace_end_file enc hch b
      refine ⟨[c2], h1, ?_⟩
      rw [write_calls_single, if_neg (by rw [h2]; decide)]
    · exact ⟨[], (List.append_nil _).symm, rfl⟩
  obtain ⟨dr, r1, r2⟩ := hR
  have hev : flush_pass_events enc t =
      (if (b.chunks b.rec_fdata.chunk).flags &&& CHUNKF_END_FILE ≠ 0 then
        pcmrec_end_file enc b else b) := by
    rw [hb, ha]; rfl
  refine ⟨da ++ [c] ++ dr, c, ?_, ?_, b3.trans a3, ?_⟩
  · rw [hev, r1, b1, a1, List.append_assoc, List.append_assoc, List.append_assoc]
  · rw [write_calls_append, write_calls_append, a2, r2, write_calls_single, if_pos b2]
    rfl
  · intro hk he
    apply b4
    intro h0
    have := hAe hk
    unfold bits_subset at this
    rw [h0, Nat.and_zero] at this
    exact he this.symm

/-- One pass of the flush loop delivers the chunk at the read index to the
write-chunk event exactly once. -/
theorem trace_flush_body (enc : Encoder) (hch : file_event_keeps_chunk enc) (N : Int)
    (start_tick : Nat) (v : flush_vars) (t : PcmRec) :
    ∃ delta c, (pcmrec_flush_body enc N start_tick v t).2.2.trace = t.trace ++ delta ∧
      write_calls delta = [c] ∧ c.chunk = t.enc_rd_index ∧
      (encoder_keeps PcmRec.errors enc → t.errors ≠ 0 → c.flags &&& CHUNKF_ERROR ≠ 0) := by
  have hp : (flush_pass_prepare start_tick v t).trace = t.trace ∧
      (flush_pass_prepare start_tick v t).rec_fdata.chunk = t.enc_rd_index ∧
      (flush_pass_prepare start_tick v t).errors = t.errors := by
    unfold flush_pass_prepare
    simp only []
    split_ifs <;> exact ⟨rfl, rfl, rfl⟩
  obtain ⟨delta, c, h1, h2, h3, h4⟩ :=
    trace_flush_events enc hch (flush_pass_prepare start_tick v t)
  refine ⟨delta, c, ?_, h2, h3.trans hp.2.1, ?_⟩
  · rw [flush_body_state]
    show (flush_pass_events enc (flush_pass_prepare start_tick v t)).trace = _
    rw [h1, hp.1]
  · intro hk he
    exact h4 hk (by rw [hp.2.2]; exact he)

/-- A flush loop that ends without an error has delivered every chunk that was
left to visit to the write-chunk event exactly once, in ring order from the
read index. -/
theorem flush_loop_writes (enc : Encoder) (hidx : encoder_keeps_indices enc)
    (hch : file_event_keeps_chunk enc) (N : Int) (start_tick : Nat) (fuel : Nat) :
    ∀ (v : flush_vars) (t : PcmRec),
      0 < t.enc_num_chunks → (0 ≤ t.enc_rd_index ∧ t.enc_rd_index < t.enc_num_chunks) →
      v.i ≤ N → (N - v.i).toNat ≤ fuel → (N - v.i).toNat < v.flush_num →
      v.flush_num < 4294967296 →
      (pcmrec_flush_loop enc N start_tick fuel v t).2.errors = 0 →
      ∃ delta, (pcmrec_flush_loop enc N start_tick fuel v t).2.trace = t.trace ++ delta ∧
        (write_calls delta).map (fun c => c.chunk) =
          ready_slots t.enc_num_chunks (N - v.i).toNat t.enc_rd_index := by
  induction fuel with
  | zero =>
    intro v t hn hrd hi hfuel _ _ _
    have h0 : (N - v.i).toNat = 0 := by omega
    rw [h0]
    exact ⟨[], (List.append_nil _).symm, rfl⟩
  | succ k ih =>
    intro v t hn hrd hi hfuel hfl hfl2 herr
    simp only [pcmrec_flush_loop] at herr ⊢
    by_cases hlt : v.i < N
    · rw [if_pos hlt] at herr ⊢
      have hbody := flush_body_ring enc hidx N start_tick v t
      have hbe := flush_body_errors enc N start_tick v t
      by_cases hbr : (pcmrec_flush_body enc N start_tick v t).1 = true
      · rw [if_pos hbr] at herr
        rw [hbr] at hbe
        have := of_decide_eq_true hbe.symm
        exact absurd herr this
      · have hbr2 : (pcmrec_flush_body enc N start_tick v t).1 = false := by
          simpa using hbr
        rw [if_neg hbr] at herr ⊢
        obtain ⟨hv1, hv2⟩ := flush_body_vars enc N start_tick v t hbr2
        have h1 : (pcmrec_flush_body enc N start_tick v t).2.2.enc_rd_index =
            INC_ENC_INDEX t.enc_num_chunks t.enc_rd_index := congrArg Prod.fst hbody
        have h3 : (pcmrec_flush_body enc N start_tick v t).2.2.enc_num_chunks =
            t.enc_num_chunks := congrArg (fun x => x.2.2) hbody
        have hF : (if (t.chunks t.enc_rd_index).flags &&& CHUNKF_START_FILE ≠ 0
            then usub v.flush_num 1 else v.flush_num) ≠ 0 ∧
            (N - v.i).toNat - 1 <
              (if (t.chunks t.enc_rd_index).flags &&& CHUNKF_START_FILE ≠ 0
               then usub v.flush_num 1 else v.flush_num) ∧
            (if (t.chunks t.enc_rd_index).flags &&& CHUNKF_START_FILE ≠ 0
               then usub v.flush_num 1 else v.flush_num) < 4294967296 := by
          rw [usub_eq]
          split <;> omega
        have hI : (pcmrec_flush_body enc N start_tick v t).2.1.i = v.i + 1 := by
          rw [hv2, if_neg (fun h => hF.1 h.2)]
        have hr := INC_ENC_INDEX_range t.enc_num_chunks t.enc_rd_index hn hrd.1
        obtain ⟨d2, hd2, hs2⟩ := ih (pcmrec_flush_body enc N start_tick v t).2.1
          (pcmrec_flush_body enc N start_tick v t).2.2
          (by rw [h3]; exact hn) (by rw [h1, h3]; exact hr) (by rw [hI]; omega)
          (by rw [hI]; omega) (by rw [hI, hv1]; have := hF.2.1; omega)
          (by rw [hv1]; exact hF.2.2) herr
        obtain ⟨d1, c, hd1, hw1, hc1, -⟩ := trace_flush_body enc hch N start_tick v t
        refine ⟨d1 ++ d2, ?_, ?_⟩
        · rw [hd2, hd1, List.append_assoc]
        · rw [write_calls_append, List.map_append, hw1, hs2, h1, h3, hI]
          have e : (N - v.i).toNat = (N - (v.i + 1)).toNat + 1 := by omega
          rw [e, List.map_singleton, hc1]
          rfl
    · rw [if_neg hlt]
      have h0 : (N - v.i).toNat = 0 := by omega
      rw [h0]
      exact ⟨[], (List.append_nil _).symm, rfl⟩

theorem trace_flush_run (enc : Encoder) (N : Int) (flush_num : Nat) (num : Int) (t : PcmRec) :
    (flush_run enc N flush_num num t).trace =
      (pcmrec_flush_loop enc N t.current_tick N.toNat
        { i := 0, num := num, prio := -1, flush_num := flush_num } t).2.trace := by
  unfold flush_run
  simp only []
  split_ifs <;> rfl

theorem num_ready_eq_emod (t : PcmRec) (h : ring_valid t) :
    num_ready t = (t.enc_wr_index - t.enc_rd_index) % t.enc_num_chunks ∧
    0 ≤ num_ready t ∧ num_ready t < t.enc_num_chunks := by
  obtain ⟨hn, -, hrd, hwr⟩ := h
  unfold num_ready
  simp only []
  split_ifs with hneg
  · have e : t.enc_wr_index - t.enc_rd_index + t.enc_num_chunks =
        (t.enc_wr_index - t.enc_rd_index) % t.enc_num_chunks := by
      rw [← Int.add_emod_self, Int.emod_eq_of_lt (by omega) (by omega)]
    exact ⟨e, by omega, by omega⟩
  · exact ⟨(Int.emod_eq_of_lt (by omega) (by omega)).symm, by omega, by omega⟩

theorem starved_file_encoder_keeps_chunk : file_event_keeps_chunk starved_file_encoder := by
  intro ev s
  cases ev <;>
  · simp only [starved_file_encoder, file_encoder]
    first
    | done
    | rfl
    | (split_ifs <;> rfl)

/-- The slots a flush would visit are the ring positions that follow the read
index. -/
theorem ready_slots_eq_range (n : Int) (k : Nat) :
    ∀ (i : Int), 0 ≤ i → i < n →
      ready_slots n k i = (List.range k).map (fun (j : Nat) => (i + (j : Int)) % n) := by
  induction k with
  | zero => intro i _ _; rfl
  | succ k ih =>
    intro i h0 hn
    have hr := INC_ENC_INDEX_range n i (by omega) h0
    rw [List.range_succ_eq_map, List.map_cons, List.map_map]
    show i :: ready_slots n k (INC_ENC_INDEX n i) = _
    rw [ih _ hr.1 hr.2]
    congr 1
    · simp only [Nat.cast_zero, Int.add_zero]
      exact (Int.emod_eq_of_lt h0 hn).symm
    · apply List.map_congr_left
      intro j _
      have := INC_ENC_INDEX_add_emod n i ((j : Int) + 1) ⟨h0, hn⟩
      simp only [Function.comp, Nat.cast_succ]
      rw [← this]
      congr 1
      omega

/-- A forced flush (the drain-everything request `0xFFFFFFFF`) of a ring with
valid indices, with an encoder whose callbacks add no chunks and hand back the
chunk pointer, that ends with `errors = 0` has delivered every one of the
`(writeIndex - readIndex) mod n` ready chunks to the write-chunk event exactly
once, in ring order from the read index (the calls made during the flush,
restricted to chunk writes, name the slots `readIndex, readIndex + 1, ...`
modulo `n`); the read index ends at the write index, and the write index is
unchanged. -/
theorem forced_flush_delivers (enc : Encoder) (hidx : encoder_keeps_indices enc)
    (hch : file_event_keeps_chunk enc) (s : PcmRec) (hv : ring_valid s)
    (herr : (pcmrec_flush enc 0xFFFFFFFF s).errors = 0) :
    ∃ delta, (pcmrec_flush enc 0xFFFFFFFF s).trace = s.trace ++ delta ∧
      (write_calls delta).map (fun c => c.chunk) =
        ready_slots s.enc_num_chunks (num_ready s).toNat s.enc_rd_index ∧
      (write_calls delta).map (fun c => c.chunk) =
        (List.range (num_ready s).toNat).map
          (fun (j : Nat) => (s.enc_rd_index + (j : Int)) % s.enc_num_chunks) ∧
      ((write_calls delta).length : Int) =
        (s.enc_wr_index - s.enc_rd_index) % s.enc_num_chunks ∧
      (pcmrec_flush enc 0xFFFFFFFF s).enc_rd_index = s.enc_wr_index ∧
      (pcmrec_flush enc 0xFFFFFFFF s).enc_wr_index = s.enc_wr_index := by
  have hcomp := flush_all_complete enc hidx s hv herr
  obtain ⟨hN1, hN2, hN3⟩ := num_ready_eq_emod s hv
  rw [pcmrec_flush_eq, if_neg (by decide)] at herr hcomp ⊢
  obtain ⟨h1, h2⟩ := flush_run_fields enc (num_ready s) 0xFFFFFFFF (num_ready s) s
  rw [h2] at herr
  have hwr := (flush_loop_ring enc hidx (num_ready s) s.current_tick (num_ready s).toNat
    { i := 0, num := num_ready s, prio := -1, flush_num := 0xFFFFFFFF } s hv).2.1
  have hwr2 : (flush_run enc (num_ready s) 0xFFFFFFFF (num_ready s) s).enc_wr_index =
      s.enc_wr_index := (congrArg (fun x => x.2.1) h1).trans hwr
  obtain ⟨hn, hn2, hrd, -⟩ := hv
  obtain ⟨delta, hd, hs⟩ := flush_loop_writes enc hidx hch (num_ready s) s.current_tick
    (num_ready s).toNat { i := 0, num := num_ready s, prio := -1, flush_num := 0xFFFFFFFF } s
    hn hrd hN2 (by show (num_ready s - 0).toNat ≤ _; rw [Int.sub_zero])
    (by show (num_ready s - 0).toNat < 4294967295; omega)
    (by show (4294967295 : Nat) < 4294967296; omega) herr
  have hs2 : (write_calls delta).map (fun c => c.chunk) =
      ready_slots s.enc_num_chunks (num_ready s).toNat s.enc_rd_index := by
    rw [hs]
    show ready_slots _ (num_ready s - 0).toNat _ = _
    rw [Int.sub_zero]
  refine ⟨delta, ?_, hs2, ?_, ?_, ?_, hwr2⟩
  · rw [trace_flush_run]
    exact hd
  · rw [hs2]
    exact ready_slots_eq_range _ _ _ hrd.1 hrd.2
  · have hl := congrArg List.length hs2
    rw [List.length_map, ready_slots_eq_range _ _ _ hrd.1 hrd.2, List.length_map,
      List.length_range] at hl
    rw [hl, ← hN1]
    omega
  · rw [hcomp]
    exact hwr2

theorem starved_file_encoder_keeps_errors : encoder_keeps PcmRec.errors starved_file_encoder := by
  refine ⟨?_, ?_, ?_⟩
  · intro ev s
    exact (file_encoder_keeps PcmRec.errors (Or.inl rfl)).1 ev s
  · intro d s
    exact bits_subset_refl _
  · intro s
    exact bits_subset_refl _

theorem ne_zero_of_bits_subset (a b : Nat) (h : bits_subset a b) (ha : a ≠ 0) : b ≠ 0 := by
  intro hb
  unfold bits_subset at h
  rw [hb, Nat.and_zero] at h
  exact ha h.symm

/-- A pass of the flush loop after which an error is up is the last one. -/
theorem flush_loop_break (enc : Encoder) (N : Int) (st fuel : Nat) (v : flush_vars)
    (u : PcmRec) (hi : v.i < N)
    (he : (pcmrec_flush_body enc N st v u).2.2.errors ≠ 0) :
    pcmrec_flush_loop enc N st (fuel + 1) v u = (pcmrec_flush_body enc N st v u).2 := by
  have hb : (pcmrec_flush_body enc N st v u).1 = true := by
    rw [flush_body_errors]
    exact decide_eq_true he
  simp only [pcmrec_flush_loop]
  rw [if_pos hi, if_pos hb]

/-- C35: a sticky error aborts the flush loop early. Whenever an error is up at
the end of a pass of the loop of `pcmrec_flush`, the loop is left there: its
result is the state after that pass, in which the chunk at the read index was
delivered to the write-chunk event once and the read index is one slot past
it. In particular a forced flush entered with `errors ≠ 0` and `k ≥ 1` ready
chunks (ring indices valid; the encoder clears no error bit, adds no chunks
and hands back the chunk pointer) delivers exactly one chunk, the one at the
read index, with the error flag set on it, advances the read index by one
slot, leaves the write index alone and leaves `k - 1` chunks ready, with the
error still up. -/
theorem C35_error_stops_flush (enc : Encoder) (hidx : encoder_keeps_indices enc)
    (hch : file_event_keeps_chunk enc) (hkeep : encoder_keeps PcmRec.errors enc)
    (s : PcmRec) (hv : ring_valid s) (herr : s.errors ≠ 0) (hk : 1 ≤ num_ready s) :
    (∀ (N : Int) (st fuel : Nat) (v : flush_vars) (u : PcmRec), v.i < N →
      (pcmrec_flush_body enc N st v u).2.2.errors ≠ 0 →
      pcmrec_flush_loop enc N st (fuel + 1) v u = (pcmrec_flush_body enc N st v u).2 ∧
      (pcmrec_flush_loop enc N st (fuel + 1) v u).2.enc_rd_index =
        INC_ENC_INDEX u.enc_num_chunks u.enc_rd_index ∧
      ∃ delta c, (pcmrec_flush_loop enc N st (fuel + 1) v u).2.trace = u.trace ++ delta ∧
        write_calls delta = [c] ∧ c.chunk = u.enc_rd_index) ∧
    (∃ delta c, (pcmrec_flush enc 0xFFFFFFFF s).trace = s.trace ++ delta ∧
      write_calls delta = [c] ∧ c.chunk = s.enc_rd_index ∧
      c.flags &&& CHUNKF_ERROR ≠ 0 ∧
      (pcmrec_flush enc 0xFFFFFFFF s).enc_rd_index =
        INC_ENC_INDEX s.enc_num_chunks s.enc_rd_index ∧
      (pcmrec_flush enc 0xFFFFFFFF s).enc_wr_index = s.enc_wr_index ∧
      num_ready (pcmrec_flush enc 0xFFFFFFFF s) = num_ready s - 1 ∧
      (pcmrec_flush enc 0xFFFFFFFF s).errors ≠ 0) := by
  constructor
  · intro N st fuel v u hi he
    have hl := flush_loop_break enc N st fuel v u hi he
    have hr := flush_body_ring enc hidx N st v u
    obtain ⟨delta, c, h1, h2, h3, -⟩ := trace_flush_body enc hch N st v u
    rw [hl]
    exact ⟨rfl, congrArg Prod.fst hr, delta, c, h1, h2, h3⟩
  · obtain ⟨k, hkk⟩ : ∃ k : Nat, (num_ready s).toNat = k + 1 :=
      ⟨(num_ready s).toNat - 1, by omega⟩
    have he : (pcmrec_flush_body enc (num_ready s) s.current_tick
        { i := 0, num := num_ready s, prio := -1, flush_num := 0xFFFFFFFF } s).2.2.errors ≠ 0 :=
      ne_zero_of_bits_subset _ _
        (mono_flush_body PcmRec.errors (Or.inl rfl) enc hkeep _ _ _ s) herr
    have hl := flush_loop_break enc (num_ready s) s.current_tick k
      { i := 0, num := num_ready s, prio := -1, flush_num := 0xFFFFFFFF } s
      (by show (0 : Int) < num_ready s; omega) he
    have hr := flush_body_ring enc hidx (num_ready s) s.current_tick
      { i := 0, num := num_ready s, prio := -1, flush_num := 0xFFFFFFFF } s
    obtain ⟨delta, c, h1, h2, h3, h4⟩ := trace_flush_body enc hch (num_ready s) s.current_tick
      { i := 0, num := num_ready s, prio := -1, flush_num := 0xFFFFFFFF } s
    obtain ⟨f1, f2⟩ := flush_run_fields enc (num_ready s) 0xFFFFFFFF (num_ready s) s
    have f3 := trace_flush_run enc (num_ready s) 0xFFFFFFFF (num_ready s) s
    rw [hkk, hl] at f1 f2 f3
    rw [pcmrec_flush_eq, if_neg (by decide)]
    obtain ⟨t, ht⟩ : ∃ t, t = flush_run enc (num_ready s) 0xFFFFFFFF (num_ready s) s :=
      ⟨_, rfl⟩
    rw [← ht] at f1 f2 f3 ⊢
    have g1 : t.enc_rd_index = INC_ENC_INDEX s.enc_num_chunks s.enc_rd_index :=
      (congrArg Prod.fst f1).trans (congrArg Prod.fst hr)
    have g2 : t.enc_wr_index = s.enc_wr_index :=
      (congrArg (fun x => x.2.1) f1).trans (congrArg (fun x => x.2.1) hr)
    have g3 : t.enc_num_chunks = s.enc_num_chunks :=
      (congrArg (fun x => x.2.2) f1).trans (congrArg (fun x => x.2.2) hr)
    refine ⟨delta, c, f3.trans h1, h2, h3, h4 hkeep herr, g1, g2, ?_, ?_⟩
    · obtain ⟨hn, -, hrd, hwr⟩ := hv
      unfold num_ready at hk ⊢
      simp only [] at hk ⊢
      rw [g1, g2, g3]
      unfold INC_ENC_INDEX
      split_ifs at hk ⊢ <;> omega
    · rw [f2]
      exact he

/-- Witness of C35: three ready chunks with the encoder error up, and the file
encoder. -/
theorem C35_error_stops_flush_witness :
    encoder_keeps_indices starved_file_encoder ∧
    file_event_keeps_chunk starved_file_encoder ∧
    encoder_keeps PcmRec.errors starved_file_encoder ∧
    ring_valid failed_full_ring ∧ failed_full_ring.errors ≠ 0 ∧
    1 ≤ num_ready failed_full_ring ∧ num_ready failed_full_ring = 3 ∧
    (∀ (N : Int) (st fuel : Nat) (v : flush_vars) (u : PcmRec), v.i < N →
      (pcmrec_flush_body starved_file_encoder N st v u).2.2.errors ≠ 0 →
      pcmrec_flush_loop starved_file_encoder N st (fuel + 1) v u =
        (pcmrec_flush_body starved_file_encoder N st v u).2 ∧
      (pcmrec_flush_loop starved_file_encoder N st (fuel + 1) v u).2.enc_rd_index =
        INC_ENC_INDEX u.enc_num_chunks u.enc_rd_index ∧
      ∃ delta c, (pcmrec_flush_loop starved_file_encoder N st (fuel + 1) v u).2.trace =
          u.trace ++ delta ∧
        write_calls delta = [c] ∧ c.chunk = u.enc_rd_index) ∧
    (∃ delta c, (pcmrec_flush starved_file_encoder 0xFFFFFFFF failed_full_ring).trace =
        failed_full_ring.trace ++ delta ∧
      write_calls delta = [c] ∧ c.chunk = failed_full_ring.enc_rd_index ∧
      c.flags &&& CHUNKF_ERROR ≠ 0 ∧
      (pcmrec_flush starved_file_encoder 0xFFFFFFFF failed_full_ring).enc_rd_index =
        INC_ENC_INDEX failed_full_ring.enc_num_chunks failed_full_ring.enc_rd_index ∧
      (pcmrec_flush starved_file_encoder 0xFFFFFFFF failed_full_ring).enc_wr_index =
        failed_full_ring.enc_wr_index ∧
      num_ready (pcmrec_flush starved_file_encoder 0xFFFFFFFF failed_full_ring) =
        num_ready failed_full_ring - 1 ∧
      (pcmrec_flush starved_file_encoder 0xFFFFFFFF failed_full_ring).errors ≠ 0) :=
  ⟨starved_file_encoder_keeps_indices, starved_file_encoder_keeps_chunk,
   starved_file_encoder_keeps_errors, by decide, by decide, by decide, by decide,
   C35_error_stops_flush starved_file_encoder starved_file_encoder_keeps_indices
     starved_file_encoder_keeps_chunk starved_file_encoder_keeps_errors failed_full_ring
     (by decide) (by decide) (by decide)⟩

theorem ring3_enc_get_chunk (t : PcmRec) : ring3 (enc_get_chunk t) = ring3 t := by
  unfold enc_get_chunk
  simp only []
  split_ifs <;> rfl

theorem ring_enc_finish_chunk (t : PcmRec) (h : ring_valid t) :
    ring_valid (enc_finish_chunk t) := by
  obtain ⟨hn, hn2, hrd, hwr⟩ := h
  obtain ⟨e1, e2, e3⟩ := enc_finish_chunk_indices t
  have hi := INC_ENC_INDEX_range t.enc_num_chunks t.enc_wr_index hn hwr.1
  have hd := DEC_ENC_INDEX_range t.enc_num_chunks _ hn hi
  have hr := INC_ENC_INDEX_range t.enc_num_chunks t.enc_rd_index hn hrd.1
  unfold ring_valid
  rw [e1, e2, e3]
  refine ⟨hn, hn2, ?_, ?_⟩
  · split_ifs <;> first | exact hrd | exact hr
  · split_ifs <;> first | exact hi | exact hd

theorem ring3_new_stream_stats (fuel : Nat) (i : Int) (t a : PcmRec)
    (h : new_stream_stats fuel i t = some a) : ring3 a = ring3 t :=
  congrArg (fun x => x.2.1) (new_stream_stats_effect fuel i t a h).1

theorem ring3_fnq_replace_tail (name : String) (u : PcmRec) :
    ring3 (pcmrec_fnq_replace_tail name u).2 = ring3 u := by
  unfold pcmrec_fnq_replace_tail
  split <;> rfl

theorem ring3_fnq_add_filename (name : String) (u : PcmRec) :
    ring3 (pcmrec_fnq_add_filename name u).2 = ring3 u := by
  unfold pcmrec_fnq_add_filename
  simp only []
  split <;> rfl

theorem ring_new_stream_queue (enc : Encoder) (hidx : encoder_keeps_indices enc)
    (filename : Option String) (k : fnq_add_kind) (x : PcmRec × Int) (h : ring_valid x.1) :
    ring_valid (new_stream_queue enc filename k x) := by
  have h0 : ring_valid (set_flags x.1 x.2 ((GET_ENC_CHUNK x.1 x.2).flags ||| CHUNKF_START_FILE)) :=
    h
  have h1 : ring_valid (if k = fnq_add_kind.add_filename ∧ pcmrec_fnq_is_full
          (set_flags x.1 x.2 ((GET_ENC_CHUNK x.1 x.2).flags ||| CHUNKF_START_FILE)) then
        pcmrec_flush enc 0xFFFFFFFF
          (set_flags x.1 x.2 ((GET_ENC_CHUNK x.1 x.2).flags ||| CHUNKF_START_FILE))
        else set_flags x.1 x.2 ((GET_ENC_CHUNK x.1 x.2).flags ||| CHUNKF_START_FILE)) := by
    split_ifs
    · exact flush_ring enc hidx _ _ h0
    · exact h0
  cases k with
  | replace_tail => exact ring_valid_of_ring3 _ _ (ring3_fnq_replace_tail _ _) h1
  | add_filename => exact ring_valid_of_ring3 _ _ (ring3_fnq_add_filename _ _) h1

/-- A stream transition keeps the ring valid. -/
theorem ring_new_stream (enc : Encoder) (hidx : encoder_keeps_indices enc) (fuel : Nat)
    (filename : Option String) (flags : Nat) (pre_index : Int) (t s1 : PcmRec)
    (hv : ring_valid t)
    (h : pcmrec_new_stream enc fuel filename flags pre_index t = some s1) :
    ring_valid s1 := by
  rw [pcmrec_new_stream_eq] at h
  have hn : ring_valid (new_stream_notify enc flags pre_index t).2 :=
    ring_valid_of_ring3 _ _ (ring3_new_stream_notify enc hidx _ _ t)
      (new_stream_end_ring _ t hv)
  by_cases hst : (new_stream_end flags t).2.1 &&& CHUNKF_START_FILE ≠ 0
  · rw [if_pos hst] at h
    by_cases hp : (new_stream_end flags t).2.1 &&& CHUNKF_PRERECORD = 0
    · rw [if_pos hp] at h
      obtain ⟨a, ha, rfl⟩ := map_map_some h
      have h2 := ring3_new_stream_stats _ _ _ _ ha
      have h3 : ring_valid a := ring_valid_of_ring3 _ _ h2 hn
      exact ring_new_stream_queue enc hidx _ _ (_, _) h3
    · rw [if_neg hp] at h
      rw [← Option.some.inj h]
      exact ring_new_stream_queue enc hidx _ _ (_, _) hn
  · rw [if_neg hst] at h
    rw [← Option.some.inj h]
    exact hn

/-- Record keeps the ring valid, and the slot it hands to the stream
transition as the start of the pre-recorded data lies in the ring. -/
theorem ring_record (enc : Encoder) (hidx : encoder_keeps_indices enc) (fuel : Nat)
    (name : String) (t s1 : PcmRec) (hv : ring_valid t)
    (h : pcmrec_record enc fuel name t = some s1) : ring_valid s1 := by
  rw [pcmrec_record_eq] at h
  split at h
  · exact ring_new_stream enc hidx _ _ _ _ { t with num_rec_bytes := 0, num_rec_samples := 0 }
      _ hv h
  · obtain ⟨-, p2, p3, p4, -⟩ := record_idle_prepare_effect t hv
    refine ring_new_stream enc hidx _ _ _ _ _ _ ?_ h
    obtain ⟨hn, hn2, -, hwr⟩ := hv
    unfold ring_valid
    rw [p2, p3]
    exact ⟨hn, hn2, p4, hwr⟩

theorem ring_wait_for_encoder (enc : Encoder) (hidx : encoder_keeps_indices enc) (fuel : Nat) :
    ∀ (t s1 : PcmRec), ring_valid t → wait_for_encoder enc fuel t = some s1 →
      ring_valid s1 := by
  induction fuel with
  | zero =>
    intro t s1 hv h
    unfold wait_for_encoder at h
    split at h
    · exact absurd h (by simp)
    · rw [← Option.some.inj h]; exact hv
  | succ k ih =>
    intro t s1 hv h
    unfold wait_for_encoder at h
    split at h
    · exact ih _ _ (hidx.2.2 t hv) h
    · rw [← Option.some.inj h]; exact hv

theorem ring_stop_finish (enc : Encoder) (hidx : encoder_keeps_indices enc) (t : PcmRec)
    (hv : ring_valid t) : ring_valid (pcmrec_stop_finish enc t) := by
  have h1 := flush_ring enc hidx 0xFFFFFFFF t hv
  refine ring_valid_of_ring3 _ _ ?_ h1
  unfold pcmrec_stop_finish
  generalize pcmrec_flush enc 0xFFFFFFFF t = u
  unfold pcmrec_fnq_get_filename pcmrec_close_file
  simp only []
  split_ifs <;> rfl

/-- Stop keeps the ring valid. -/
theorem ring_stop (enc : Encoder) (hidx : encoder_keeps_indices enc) (fuel : Nat)
    (t s1 : PcmRec) (hv : ring_valid t) (h : pcmrec_stop enc fuel t = some s1) :
    ring_valid s1 := by
  unfold pcmrec_stop at h
  split at h
  · rw [← Option.some.inj h]; exact hv
  · simp only [Option.bind_eq_some, Option.map_eq_some'] at h
    obtain ⟨a, ha, b, hb, rfl⟩ := h
    have h1 : ring_valid (pcmrec_flush enc 0xFFFFFFFF { t with dma_lock := true }) :=
      flush_ring enc hidx _ _ hv
    have h2 := ring_wait_for_encoder enc hidx _ _ _ h1 ha
    have h3 := ring_new_stream enc hidx _ _ _ _ _ _ h2 hb
    exact ring_stop_finish enc hidx _ h3

theorem handle_start_file_pull (curr : Int) (t : PcmRec) :
    (pcmrec_start_file_pull curr t).closed = t.closed ∧
    (pcmrec_start_file_pull curr t).rec_fdata.rec_file = t.rec_fdata.rec_file ∧
    (pcmrec_start_file_pull curr t).rec_fdata.chunk = t.rec_fdata.chunk := by
  unfold pcmrec_start_file_pull pcmrec_fnq_get_filename
  simp only []
  split_ifs <;> exact ⟨rfl, rfl, rfl⟩

theorem handle_update_sizes (a b : Nat) (t : PcmRec) :
    (pcmrec_update_sizes a b t).closed = t.closed ∧
    (pcmrec_update_sizes a b t).rec_fdata = t.rec_fdata ∧
    (pcmrec_update_sizes a b t).errors = t.errors ∧
    (pcmrec_update_sizes a b t).chunks = t.chunks := by
  unfold pcmrec_update_sizes
  simp only []
  split_ifs <;> exact ⟨rfl, rfl, rfl, rfl⟩

theorem end_bit_set (f : Nat) :
    ((f ||| CHUNKF_END_FILE) &&& unot CHUNKF_START_FILE) &&& CHUNKF_END_FILE ≠ 0 := by
  rw [land_land_of_land _ _ _ (by decide), lor_land_self]
  decide

/-- The last part of `pcmrec_start_file` when it ends with an error up and a
file was open on entry: the descriptor held on entry is closed, the event data
keeps holding it, and the chunk is marked as the end of the file. -/
theorem start_file_finish_closes (a b : Nat) (curr : Int) (t : PcmRec) (hcurr : 0 ≤ curr)
    (h : (pcmrec_start_file_finish a b curr t).errors ≠ 0) :
    (pcmrec_start_file_finish a b curr t).closed = t.closed ++ [curr] ∧
    (pcmrec_start_file_finish a b curr t).rec_fdata = t.rec_fdata ∧
    ((pcmrec_start_file_finish a b curr t).chunks t.rec_fdata.chunk).flags
      &&& CHUNKF_END_FILE ≠ 0 := by
  obtain ⟨c, hc⟩ : ∃ c, c = (if t.errors = 0 ∧
      (t.chunks t.rec_fdata.chunk).flags &&& CHUNKF_ERROR ≠ 0 then
        { t with errors := t.errors ||| PCMREC_E_ENCODER } else t) := ⟨_, rfl⟩
  have c1 : c.closed = t.closed ∧ c.rec_fdata = t.rec_fdata ∧ c.chunks = t.chunks := by
    rw [hc]; split_ifs <;> exact ⟨rfl, rfl, rfl⟩
  have hf : pcmrec_start_file_finish a b curr t =
      set_flags (if c.errors ≠ 0 then
          set_flags (pcmrec_close_file curr c).2 (pcmrec_close_file curr c).2.rec_fdata.chunk
            (((pcmrec_close_file curr c).2.chunks
              (pcmrec_close_file curr c).2.rec_fdata.chunk).flags ||| CHUNKF_END_FILE)
        else pcmrec_update_sizes a b c)
        (if c.errors ≠ 0 then
          set_flags (pcmrec_close_file curr c).2 (pcmrec_close_file curr c).2.rec_fdata.chunk
            (((pcmrec_close_file curr c).2.chunks
              (pcmrec_close_file curr c).2.rec_fdata.chunk).flags ||| CHUNKF_END_FILE)
        else pcmrec_update_sizes a b c).rec_fdata.chunk
        (((if c.errors ≠ 0 then
          set_flags (pcmrec_close_file curr c).2 (pcmrec_close_file curr c).2.rec_fdata.chunk
            (((pcmrec_close_file curr c).2.chunks
              (pcmrec_close_file curr c).2.rec_fdata.chunk).flags ||| CHUNKF_END_FILE)
        else pcmrec_update_sizes a b c).chunks
          (if c.errors ≠ 0 then
          set_flags (pcmrec_close_file curr c).2 (pcmrec_close_file curr c).2.rec_fdata.chunk
            (((pcmrec_close_file curr c).2.chunks
              (pcmrec_close_file curr c).2.rec_fdata.chunk).flags ||| CHUNKF_END_FILE)
        else pcmrec_update_sizes a b c).rec_fdata.chunk).flags &&& unot CHUNKF_START_FILE) := by
    rw [hc]; rfl
  have hcl : pcmrec_close_file curr c = (-1, { c with closed := c.closed ++ [curr] }) := by
    unfold pcmrec_close_file
    rw [if_neg (by omega)]
  by_cases he : c.errors ≠ 0
  · rw [hf, if_pos he, hcl]
    refine ⟨?_, ?_, ?_⟩
    · show c.closed ++ [curr] = _
      rw [c1.1]
    · exact c1.2.1
    · simp only [set_flags, set_chunk, GET_ENC_CHUNK, c1.2.1, if_true]
      exact end_bit_set _
  · exfalso
    apply h
    rw [hf, if_neg he]
    show (pcmrec_update_sizes a b c).errors = 0
    rw [(handle_update_sizes a b c).2.2.1]
    simpa using he

/-- A file start that ends with an error up while a file was open on entry
closes that file's descriptor once, leaves it in the event data and marks the
chunk as the end of the file. -/
theorem start_file_closes (enc : Encoder) (henc : file_event_keeps_handle enc) (t : PcmRec)
    (hfd : 0 ≤ t.rec_fdata.rec_file) (h : (pcmrec_start_file enc t).errors ≠ 0) :
    (pcmrec_start_file enc t).closed = t.closed ++ [t.rec_fdata.rec_file] ∧
    (pcmrec_start_file enc t).rec_fdata.rec_file = t.rec_fdata.rec_file ∧
    (pcmrec_start_file enc t).rec_fdata.chunk = t.rec_fdata.chunk ∧
    ((pcmrec_start_file enc t).chunks t.rec_fdata.chunk).flags &&& CHUNKF_END_FILE ≠ 0 := by
  obtain ⟨p1, p2, p3⟩ := handle_start_file_pull t.rec_fdata.rec_file t
  obtain ⟨b, hb⟩ : ∃ b, b = enc_events_callback enc enc_events.ENC_START_FILE
      (pcmrec_start_file_pull t.rec_fdata.rec_file t) := ⟨_, rfl⟩
  obtain ⟨e1, e2, e3, -, -⟩ := henc enc_events.ENC_START_FILE
    (pcmrec_start_file_pull t.rec_fdata.rec_file t)
  have b1 : b.closed = t.closed := by rw [hb]; exact e3.trans p1
  have b2 : b.rec_fdata.rec_file = t.rec_fdata.rec_file := by rw [hb]; exact e1.trans p2
  have b3 : b.rec_fdata.chunk = t.rec_fdata.chunk := by rw [hb]; exact e2.trans p3
  have hs : pcmrec_start_file enc t = pcmrec_start_file_finish t.rec_fdata.new_enc_size
      t.rec_fdata.new_num_pcm t.rec_fdata.rec_file b := by rw [hb]; rfl
  rw [hs] at h ⊢
  obtain ⟨f1, f2, f3⟩ := start_file_finish_closes _ _ _ b hfd h
  rw [f1, f2, b1, b2, b3]
  rw [b3] at f3
  exact ⟨rfl, rfl, rfl, f3⟩

/-- A chunk write leaves the log of closed descriptors and the file handle
alone, clears no error bit and keeps the end-of-file bit of the chunks. -/
theorem handle_write_chunk (enc : Encoder) (henc : file_event_keeps_handle enc) (t : PcmRec) :
    (pcmrec_write_chunk enc t).closed = t.closed ∧
    (pcmrec_write_chunk enc t).rec_fdata.rec_file = t.rec_fdata.rec_file ∧
    (pcmrec_write_chunk enc t).rec_fdata.chunk = t.rec_fdata.chunk ∧
    bits_subset t.errors (pcmrec_write_chunk enc t).errors ∧
    ∀ j, ((pcmrec_write_chunk enc t).chunks j).flags &&& CHUNKF_END_FILE =
      (t.chunks j).flags &&& CHUNKF_END_FILE := by
  obtain ⟨a, ha⟩ : ∃ a, a = (if t.errors ≠ 0 then
      set_flags t t.rec_fdata.chunk ((t.chunks t.rec_fdata.chunk).flags ||| CHUNKF_ERROR)
    else t) := ⟨_, rfl⟩
  have a1 : a.closed = t.closed ∧ a.rec_fdata = t.rec_fdata ∧ a.errors = t.errors := by
    rw [ha]; split_ifs <;> exact ⟨rfl, rfl, rfl⟩
  have a2 : ∀ j, (a.chunks j).flags &&& CHUNKF_END_FILE = (t.chunks j).flags &&& CHUNKF_END_FILE := by
    intro j
    rw [ha]
    split_ifs
    · by_cases hj : j = t.rec_fdata.chunk
      · simp only [set_flags, set_chunk, GET_ENC_CHUNK, hj, if_true]
        rw [Nat.and_comm, Nat.and_comm _ CHUNKF_END_FILE]
        apply Nat.eq_of_testBit_eq
        intro i
        simp only [Nat.testBit_and, Nat.testBit_or]
        by_cases h2 : CHUNKF_END_FILE.testBit i = true
        · have : i = 1 := by
            by_contra hne
            have h3 : CHUNKF_END_FILE.testBit i = false := by
              show (2 : Nat).testBit i = false
              rcases i with _ | _ | i
              · rfl
              · exact absurd rfl hne
              · rw [Nat.testBit_succ, Nat.testBit_succ]; simp
            rw [h3] at h2; exact absurd h2 (by simp)
          subst this
          have : CHUNKF_ERROR.testBit 1 = false := by decide
          rw [this, Bool.or_false]
        · simp only [Bool.not_eq_true] at h2
          rw [h2, Bool.false_and, Bool.false_and]
      · simp only [set_flags, set_chunk, GET_ENC_CHUNK, hj, if_false]
    · rfl
  obtain ⟨b, hb⟩ : ∃ b, b = enc_events_callback enc enc_events.ENC_WRITE_CHUNK a := ⟨_, rfl⟩
  obtain ⟨e1, e2, e3, e4, e5⟩ := henc enc_events.ENC_WRITE_CHUNK a
  have hw : pcmrec_write_chunk enc t =
      (if ¬ long_negative (b.chunks b.rec_fdata.chunk).flags then
        pcmrec_update_sizes t.rec_fdata.new_enc_size t.rec_fdata.new_num_pcm b
      else if b.errors = 0 then { b with errors := b.errors ||| PCMREC_E_ENCODER } else b) := by
    rw [hb, ha]; rfl
  have hu := handle_update_sizes t.rec_fdata.new_enc_size t.rec_fdata.new_num_pcm b
  have b1 : b.closed = t.closed := by rw [hb]; exact e3.trans a1.1
  have b2 : b.rec_fdata.rec_file = t.rec_fdata.rec_file := by
    rw [hb]; exact e1.trans (congrArg _ a1.2.1)
  have b3 : b.rec_fdata.chunk = t.rec_fdata.chunk := by
    rw [hb]; exact e2.trans (congrArg _ a1.2.1)
  have b4 : bits_subset t.errors b.errors := by rw [hb, ← a1.2.2]; exact e4
  have b5 : ∀ j, (b.chunks j).flags &&& CHUNKF_END_FILE = (t.chunks j).flags &&& CHUNKF_END_FILE := by
    intro j; rw [hb]; exact (e5 j).trans (a2 j)
  rw [hw]
  split_ifs <;>
    first
    | exact ⟨b1, b2, b3, b4, b5⟩
    | exact ⟨b1, b2, b3, bits_subset_trans b4 (bits_subset_lor _ _), b5⟩
    | (rw [hu.1, hu.2.1, hu.2.2.1, hu.2.2.2]; exact ⟨b1, b2, b3, b4, b5⟩)

/-- A file end with an error up and a descriptor in the event data closes that
descriptor and leaves -1 in the event data. -/
theorem end_file_closes (enc : Encoder) (henc : file_event_keeps_handle enc) (t : PcmRec)
    (hfd : 0 ≤ t.rec_fdata.rec_file) (h : t.errors ≠ 0) :
    (pcmrec_end_file enc t).closed = t.closed ++ [t.rec_fdata.rec_file] ∧
    (pcmrec_end_file enc t).rec_fdata.rec_file = -1 := by
  obtain ⟨b, hb⟩ : ∃ b, b = enc_events_callback enc enc_events.ENC_END_FILE t := ⟨_, rfl⟩
  obtain ⟨e1, e2, e3, e4, -⟩ := henc enc_events.ENC_END_FILE t
  have b1 : b.closed = t.closed := by rw [hb]; exact e3
  have b2 : b.rec_fdata.rec_file = t.rec_fdata.rec_file := by rw [hb]; exact e1
  have b4 : b.errors ≠ 0 := by
    rw [hb]; exact ne_zero_of_bits_subset _ _ e4 h
  have hcl : pcmrec_close_file b.rec_fdata.rec_file b =
      (-1, { b with closed := b.closed ++ [b.rec_fdata.rec_file] }) := by
    unfold pcmrec_close_file
    rw [if_neg (by omega)]
  have hw : pcmrec_end_file enc t =
      set_flags { (pcmrec_close_file b.rec_fdata.rec_file b).2 with
          rec_fdata := { (pcmrec_close_file b.rec_fdata.rec_file b).2.rec_fdata with
            rec_file := (pcmrec_close_file b.rec_fdata.rec_file b).1 } }
        (pcmrec_close_file b.rec_fdata.rec_file b).2.rec_fdata.chunk
        (((pcmrec_close_file b.rec_fdata.rec_file b).2.chunks
          (pcmrec_close_file b.rec_fdata.rec_file b).2.rec_fdata.chunk).flags
            &&& unot CHUNKF_END_FILE) := by
    unfold pcmrec_end_file
    simp only [← hb, if_neg b4, if_pos b4]
  rw [hw, hcl]
  refine ⟨?_, rfl⟩
  show b.closed ++ [b.rec_fdata.rec_file] = _
  rw [b1, b2]

/-- With a file still open on entry the first part of `pcmrec_start_file`
always leaves an error up: an error that was up before, or the
desynchronisation it detects itself (queue empty, or file already open). -/
theorem start_file_pull_error (curr : Int) (t : PcmRec) (h : 0 ≤ curr) :
    (pcmrec_start_file_pull curr t).errors ≠ 0 := by
  have hd : ∀ e : Nat, e ||| PCMREC_E_FNQ_DESYNC ≠ 0 := by
    intro e he
    have h1 : (e ||| PCMREC_E_FNQ_DESYNC) &&& PCMREC_E_FNQ_DESYNC = PCMREC_E_FNQ_DESYNC :=
      lor_land_self _ _
    rw [he] at h1
    exact absurd h1 (by decide)
  unfold pcmrec_start_file_pull pcmrec_fnq_get_filename
  simp only []
  split_ifs <;> first | exact hd _ | assumption

/-- C39 (what the code does): in one pass of the flush loop over a chunk that
carries the start-of-file flag while a previous file is still open
(`rec_fdata.rec_file = fd ≥ 0`), with encoder callbacks that leave the handle
untouched, `pcmrec_start_file` always ends with an error up and closes `fd`
through its local copy, leaving `fd` in `rec_fdata.rec_file` and ending the
file at this chunk; `pcmrec_end_file` then closes `rec_fdata.rec_file`, the
same descriptor, again. Over the start-file, write-chunk and end-file steps of
the chunk `close` is invoked twice on `fd`, not once, and `rec_fdata.rec_file`
is -1 afterwards. -/
theorem C39_file_closed_twice (enc : Encoder) (henc : file_event_keeps_handle enc)
    (N : Int) (st : Nat) (v : flush_vars) (s : PcmRec)
    (hstart : (s.chunks s.enc_rd_index).flags &&& CHUNKF_START_FILE ≠ 0)
    (hfd : 0 ≤ s.rec_fdata.rec_file) :
    (pcmrec_start_file enc (flush_pass_prepare st v s)).errors ≠ 0 ∧
    (pcmrec_start_file enc (flush_pass_prepare st v s)).closed =
      s.closed ++ [s.rec_fdata.rec_file] ∧
    (pcmrec_start_file enc (flush_pass_prepare st v s)).rec_fdata.rec_file =
      s.rec_fdata.rec_file ∧
    (pcmrec_flush_body enc N st v s).2.2.closed =
      s.closed ++ [s.rec_fdata.rec_file, s.rec_fdata.rec_file] ∧
    (pcmrec_flush_body enc N st v s).2.2.rec_fdata.rec_file = -1 := by
  rw [flush_body_state]
  obtain ⟨p, hp⟩ : ∃ p, p = flush_pass_prepare st v s := ⟨_, rfl⟩
  rw [← hp]
  have hpp : p.closed = s.closed ∧ p.rec_fdata.rec_file = s.rec_fdata.rec_file ∧
      p.rec_fdata.chunk = s.enc_rd_index ∧ p.chunks = s.chunks := by
    rw [hp]
    unfold flush_pass_prepare
    simp only []
    split_ifs <;> exact ⟨rfl, rfl, rfl, rfl⟩
  obtain ⟨p1, p2, p3, p4⟩ := hpp
  have hpst : (p.chunks p.rec_fdata.chunk).flags &&& CHUNKF_START_FILE ≠ 0 := by
    rw [p3, p4]; exact hstart
  have hpfd : 0 ≤ p.rec_fdata.rec_file := by rw [p2]; exact hfd
  have herr : (pcmrec_start_file enc p).errors ≠ 0 := by
    have h1 := start_file_pull_error p.rec_fdata.rec_file p hpfd
    have h2 : bits_subset (pcmrec_start_file_pull p.rec_fdata.rec_file p).errors
        (enc_events_callback enc enc_events.ENC_START_FILE
          (pcmrec_start_file_pull p.rec_fdata.rec_file p)).errors :=
      (henc _ _).2.2.2.1
    have h3 := mono_start_file_finish PcmRec.errors (Or.inl rfl) p.rec_fdata.new_enc_size
      p.rec_fdata.new_num_pcm p.rec_fdata.rec_file
      (enc_events_callback enc enc_events.ENC_START_FILE
        (pcmrec_start_file_pull p.rec_fdata.rec_file p))
    exact ne_zero_of_bits_subset _ _ (bits_subset_trans h2 h3) h1
  obtain ⟨a1, a2, a3, a4⟩ := start_file_closes enc henc p hpfd herr
  obtain ⟨a, ha⟩ : ∃ a, a = pcmrec_start_file enc p := ⟨_, rfl⟩
  rw [← ha] at herr a1 a2 a3 a4
  rw [← ha]
  obtain ⟨w1, w2, w3, w4, w5⟩ := handle_write_chunk enc henc a
  obtain ⟨b, hb⟩ : ∃ b, b = pcmrec_write_chunk enc a := ⟨_, rfl⟩
  rw [← hb] at w1 w2 w3 w4 w5
  have hbe : b.errors ≠ 0 := ne_zero_of_bits_subset _ _ w4 herr
  have hbend : (b.chunks b.rec_fdata.chunk).flags &&& CHUNKF_END_FILE ≠ 0 := by
    rw [w3, a3, w5]; exact a4
  have hbfd : 0 ≤ b.rec_fdata.rec_file := by rw [w2, a2]; exact hpfd
  obtain ⟨c1, c2⟩ := end_file_closes enc henc b hbfd hbe
  have hev : flush_pass_events enc p = pcmrec_end_file enc b := by
    unfold flush_pass_events
    simp only [if_pos hpst, ← ha, ← hb, if_pos hbend]
  refine ⟨herr, by rw [a1, p1, p2], by rw [a2, p2], ?_, ?_⟩
  · show (flush_pass_events enc p).closed = _
    rw [hev, c1, w1, w2, a1, a2, p1, p2, List.append_assoc]
    rfl
  · show (flush_pass_events enc p).rec_fdata.rec_file = _
    rw [hev, c2]

theorem idle_encoder_keeps_handle : file_event_keeps_handle idle_encoder := by
  intro ev s
  exact ⟨rfl, rfl, rfl, bits_subset_refl _, fun _ => rfl⟩

/-- Witness of C39: the chunk at the read index starts "a.wav" while
descriptor 3 is still open, and the encoder takes no action. One pass of the
flush loop, and the forced flush as a whole, close descriptor 3 twice. -/
theorem C39_file_closed_twice_witness :
    file_event_keeps_handle idle_encoder ∧
    (start_pending_file_open.chunks start_pending_file_open.enc_rd_index).flags
      &&& CHUNKF_START_FILE ≠ 0 ∧
    0 ≤ start_pending_file_open.rec_fdata.rec_file ∧
    start_pending_file_open.rec_fdata.rec_file = 3 ∧
    start_pending_file_open.closed = [] ∧
    (pcmrec_flush idle_encoder 0xFFFFFFFF start_pending_file_open).closed = [3, 3] ∧
    (pcmrec_flush idle_encoder 0xFFFFFFFF start_pending_file_open).rec_fdata.rec_file = -1 ∧
    ((pcmrec_start_file idle_encoder
        (flush_pass_prepare 0 { i := 0, num := 2, prio := -1, flush_num := 0xFFFFFFFF }
          start_pending_file_open)).errors ≠ 0 ∧
    (pcmrec_start_file idle_encoder
        (flush_pass_prepare 0 { i := 0, num := 2, prio := -1, flush_num := 0xFFFFFFFF }
          start_pending_file_open)).closed =
      start_pending_file_open.closed ++ [start_pending_file_open.rec_fdata.rec_file] ∧
    (pcmrec_start_file idle_encoder
        (flush_pass_prepare 0 { i := 0, num := 2, prio := -1, flush_num := 0xFFFFFFFF }
          start_pending_file_open)).rec_fdata.rec_file =
      start_pending_file_open.rec_fdata.rec_file ∧
    (pcmrec_flush_body idle_encoder 2 0
        { i := 0, num := 2, prio := -1, flush_num := 0xFFFFFFFF }
        start_pending_file_open).2.2.closed =
      start_pending_file_open.closed ++
        [start_pending_file_open.rec_fdata.rec_file,
         start_pending_file_open.rec_fdata.rec_file] ∧
    (pcmrec_flush_body idle_encoder 2 0
        { i := 0, num := 2, prio := -1, flush_num := 0xFFFFFFFF }
        start_pending_file_open).2.2.rec_fdata.rec_file = -1) :=
  ⟨idle_encoder_keeps_handle, by decide, by decide, rfl, rfl, by decide, by decide,
   C39_file_closed_twice idle_encoder idle_encoder_keeps_handle 2 0
     { i := 0, num := 2, prio := -1, flush_num := 0xFFFFFFFF } start_pending_file_open
     (by decide) (by decide)⟩

/-- The write threshold after the update for a changed spin-up time: the
computed value clamped to `[0, panic_threshold]`, the lower bound first. -/
theorem flush_spinup_threshold (s : PcmRec) (hchg : s.ata_spinup_time ≠ s.spinup_time) :
    (flush_spinup s).write_threshold =
      (if flush_threshold s (spinup_clamped s) < 0 then 0
       else if flush_threshold s (spinup_clamped s) > s.panic_threshold then s.panic_threshold
       else flush_threshold s (spinup_clamped s)) := by
  have hf : flush_spinup s =
      (if flush_threshold s (spinup_clamped s) < 0 then
        { { { s with spinup_time := s.ata_spinup_time } with
            write_threshold := flush_threshold s (spinup_clamped s) } with write_threshold := 0 }
       else if flush_threshold s (spinup_clamped s) > s.panic_threshold then
        { { { s with spinup_time := s.ata_spinup_time } with
            write_threshold := flush_threshold s (spinup_clamped s) } with
          write_threshold := s.panic_threshold }
       else { { s with spinup_time := s.ata_spinup_time } with
            write_threshold := flush_threshold s (spinup_clamped s) }) := by
    unfold flush_spinup
    rw [if_pos hchg]
    rfl
  rw [hf]
  split_ifs <;> rfl

theorem spinup_clamped_range (s : PcmRec) :
    2 * HZ ≤ spinup_clamped s ∧ spinup_clamped s ≤ 10 * HZ := by
  unfold spinup_clamped HZ
  simp only []
  split_ifs <;> omega

/-- The write threshold as a quotient of natural numbers when nothing wraps:
chunk size positive with `enc_chunk_size * HZ` below `2 ^ 32`, sample rate
below `2 ^ 25`. -/
theorem flush_threshold_eq (s : PcmRec) (st : Nat) (hst : st ≤ 10 * HZ)
    (hc1 : 0 < s.enc_chunk_size) (hc2 : s.enc_chunk_size * HZ < 2 ^ 32)
    (hr : s.sample_rate < 2 ^ 25) :
    flush_threshold s st = s.enc_num_chunks -
      (((((5 * HZ + st) * 4 * s.sample_rate + (s.enc_chunk_size - 1))
          / (s.enc_chunk_size * HZ) : Nat)) : Int) := by
  unfold HZ at hst hc2 ⊢
  have e1 : usub s.enc_chunk_size 1 = s.enc_chunk_size - 1 := by
    rw [usub_eq]; omega
  have e2 : umul s.enc_chunk_size 100 = s.enc_chunk_size * 100 := by
    unfold umul ULONG_RANGE
    exact Nat.mod_eq_of_lt hc2
  have hA : (5 * 100 + st) * 4 * s.sample_rate ≤ 6000 * s.sample_rate := by
    have : (5 * 100 + st) * 4 ≤ 6000 := by omega
    exact Nat.mul_le_mul_right _ this
  norm_num at hr hc2
  unfold flush_threshold HZ
  rw [e1, e2]
  generalize (5 * 100 + st) * 4 * s.sample_rate = A at hA ⊢
  have e3 : (A + (s.enc_chunk_size - 1)) % 2 ^ 64 = A + (s.enc_chunk_size - 1) := by
    apply Nat.mod_eq_of_lt
    norm_num
    omega
  have hq : (A + (s.enc_chunk_size - 1)) / (s.enc_chunk_size * 100) < 2147483648 := by
    apply Nat.div_lt_of_lt_mul
    omega
  rw [e3, to_int_small _ hq]

/-- The panic threshold `enc_set_parameters` computes is never negative. -/
theorem enc_set_parameters_panic (params : enc_parameters) (s0 : PcmRec) :
    0 ≤ (enc_set_parameters (some params) s0).2.panic_threshold := by
  show 0 ≤ (if _ < 0 then (0 : Int) else _)
  split_ifs <;> omega

/-- C36 (what the code computes): when the periodic flush recomputes
`write_threshold` for a changed spin-up time (chunk size positive with
`enc_chunk_size * HZ < 2 ^ 32`, sample rate below `2 ^ 25`, so that nothing
wraps), the result is the quotient
`(((5*HZ + st') * 4 * sample_rate + enc_chunk_size - 1) / (enc_chunk_size * HZ))`
subtracted from `enc_num_chunks` and clamped; it satisfies
`0 ≤ write_threshold ≤ panic_threshold` (the panic threshold being
non-negative, as `enc_set_parameters` leaves it); and, unless it was clamped
to 0, the chunks left free above the threshold miss the bytes of spin-up plus
5 seconds by less than one chunk:
`(5*HZ + st') * 4 * sample_rate < (enc_num_chunks - write_threshold + 1) *
enc_chunk_size * HZ`. The rounding term `enc_chunk_size - 1` is too small for
the divisor `enc_chunk_size * HZ`, so the quotient is not rounded up and the
coverage `(enc_num_chunks - write_threshold) * enc_chunk_size ≥
(5*HZ + st') * 4 * sample_rate / HZ` of the claim does not follow. -/
theorem C36_write_threshold (s : PcmRec) (hchg : s.ata_spinup_time ≠ s.spinup_time)
    (hp : 0 ≤ s.panic_threshold)
    (hc1 : 0 < s.enc_chunk_size) (hc2 : s.enc_chunk_size * HZ < 2 ^ 32)
    (hr : s.sample_rate < 2 ^ 25) :
    (2 * HZ ≤ spinup_clamped s ∧ spinup_clamped s ≤ 10 * HZ) ∧
    (0 ≤ (flush_spinup s).write_threshold ∧
      (flush_spinup s).write_threshold ≤ s.panic_threshold) ∧
    (0 ≤ flush_threshold s (spinup_clamped s) →
      (flush_spinup s).write_threshold ≤ flush_threshold s (spinup_clamped s) ∧
      (((5 * HZ + spinup_clamped s) * 4 * s.sample_rate : Nat) : Int) <
        (s.enc_num_chunks - (flush_spinup s).write_threshold + 1) *
          ((s.enc_chunk_size * HZ : Nat) : Int)) ∧
    (∀ params s0, 0 ≤ (enc_set_parameters (some params) s0).2.panic_threshold) := by
  have hcl := spinup_clamped_range s
  have hw := flush_spinup_threshold s hchg
  have hq := flush_threshold_eq s (spinup_clamped s) hcl.2 hc1 hc2 hr
  refine ⟨hcl, ?_, ?_, enc_set_parameters_panic⟩
  · rw [hw]
    split_ifs <;> omega
  · intro h0
    have hle : (flush_spinup s).write_threshold ≤ flush_threshold s (spinup_clamped s) := by
      rw [hw]
      split_ifs <;> omega
    refine ⟨hle, ?_⟩
    have hdiv := Nat.lt_mul_div_succ ((5 * HZ + spinup_clamped s) * 4 * s.sample_rate
      + (s.enc_chunk_size - 1)) (show 0 < s.enc_chunk_size * HZ by unfold HZ; omega)
    obtain ⟨Q, hQ⟩ : ∃ Q, Q = ((5 * HZ + spinup_clamped s) * 4 * s.sample_rate
      + (s.enc_chunk_size - 1)) / (s.enc_chunk_size * HZ) := ⟨_, rfl⟩
    rw [← hQ] at hdiv hq
    obtain ⟨A, hA⟩ : ∃ A, A = (5 * HZ + spinup_clamped s) * 4 * s.sample_rate := ⟨_, rfl⟩
    obtain ⟨D, hD⟩ : ∃ D, D = s.enc_chunk_size * HZ := ⟨_, rfl⟩
    rw [← hA, ← hD] at hdiv ⊢
    have h1 : (A : Int) < (D : Int) * ((Q : Int) + 1) := by
      have : A < D * (Q + 1) := by omega
      exact_mod_cast this
    have h2 : (Q : Int) + 1 ≤ s.enc_num_chunks - (flush_spinup s).write_threshold + 1 := by
      omega
    have hD0 : (0 : Int) ≤ (D : Int) := Int.ofNat_nonneg _
    calc (A : Int) < (D : Int) * ((Q : Int) + 1) := h1
      _ ≤ (D : Int) * (s.enc_num_chunks - (flush_spinup s).write_threshold + 1) :=
          Int.mul_le_mul_of_nonneg_left h2 hD0
      _ = _ := Int.mul_comm _ _

/-- Witness of C36, and the input on which the claimed coverage fails: a
recording at 44100 Hz, chunks of 1016 bytes, 2000 chunks, spin-up time 2
seconds. Spin-up plus 5 seconds of input are `700 * 4 * 44100 / 100 = 1234800`
bytes, which take 1216 chunks; the periodic flush sets `write_threshold` to
`2000 - 1215 = 785`, and the 1215 chunks left free hold 1234440 bytes. -/
theorem C36_write_threshold_witness :
    (spinup_changed_recording.ata_spinup_time ≠ spinup_changed_recording.spinup_time ∧
      0 ≤ spinup_changed_recording.panic_threshold ∧
      0 < spinup_changed_recording.enc_chunk_size ∧
      spinup_changed_recording.enc_chunk_size * HZ < 2 ^ 32 ∧
      spinup_changed_recording.sample_rate < 2 ^ 25) ∧
    ((pcmrec_flush idle_encoder 0 spinup_changed_recording).write_threshold = 785 ∧
      (flush_spinup spinup_changed_recording).write_threshold = 785 ∧
      flush_threshold spinup_changed_recording (spinup_clamped spinup_changed_recording) = 785 ∧
      spinup_clamped spinup_changed_recording = 2 * HZ ∧
      (5 * HZ + spinup_clamped spinup_changed_recording) * 4
        * spinup_changed_recording.sample_rate / HZ = 1234800 ∧
      (spinup_changed_recording.enc_num_chunks
          - (flush_spinup spinup_changed_recording).write_threshold)
        * (spinup_changed_recording.enc_chunk_size : Int) = 1234440 ∧
      ¬ ((spinup_changed_recording.enc_num_chunks
          - (pcmrec_flush idle_encoder 0 spinup_changed_recording).write_threshold)
        * (spinup_changed_recording.enc_chunk_size : Int) ≥
          (((5 * HZ + spinup_clamped spinup_changed_recording) * 4
            * spinup_changed_recording.sample_rate / HZ : Nat) : Int))) ∧
    ((2 * HZ ≤ spinup_clamped spinup_changed_recording ∧
        spinup_clamped spinup_changed_recording ≤ 10 * HZ) ∧
    (0 ≤ (flush_spinup spinup_changed_recording).write_threshold ∧
      (flush_spinup spinup_changed_recording).write_threshold
        ≤ spinup_changed_recording.panic_threshold) ∧
    (0 ≤ flush_threshold spinup_changed_recording (spinup_clamped spinup_changed_recording) →
      (flush_spinup spinup_changed_recording).write_threshold
        ≤ flush_threshold spinup_changed_recording (spinup_clamped spinup_changed_recording) ∧
      (((5 * HZ + spinup_clamped spinup_changed_recording) * 4
          * spinup_changed_recording.sample_rate : Nat) : Int) <
        (spinup_changed_recording.enc_num_chunks
            - (flush_spinup spinup_changed_recording).write_threshold + 1) *
          ((spinup_changed_recording.enc_chunk_size * HZ : Nat) : Int)) ∧
    (∀ params s0, 0 ≤ (enc_set_parameters (some params) s0).2.panic_threshold)) :=
  ⟨by decide, by decide,
   C36_write_threshold spinup_changed_recording (by decide) (by decide) (by decide)
     (by decide) (by decide)⟩

theorem ALIGN_DOWN_nonneg (x : Nat) (a : Nat) :
    ALIGN_DOWN (x : Int) (a : Int) = ((x / a * a : Nat) : Int) := by
  unfold ALIGN_DOWN
  rw [Int.tdiv_eq_ediv (Int.ofNat_nonneg _) (Int.ofNat_nonneg _)]
  push_cast
  rfl

/-- The layout `enc_set_parameters` computes when the buffer holds the capture
ring, the reserve and 16 paths (the subtraction for the available size does
not underflow): the chunk count, the start of
the reserve, the start of the filename queue and the size of the queue as
plain natural-number expressions. -/
theorem enc_set_parameters_layout (params : enc_parameters) (s : PcmRec) (cs rb B : Nat)
    (hcs : cs = ALIGN_UP_P2 (ENC_CHUNK_HDR_SIZE + params.chunk_size) 2)
    (hrb : rb = ALIGN_UP_P2 params.reserve_bytes 2)
    (hB : B + (s.enc_buffer - s.pcm_buffer) + rb + 4160 = s.rec_buffer_size)
    (h3 : s.rec_buffer_size < 2 ^ 32) (h4 : s.enc_buffer < 2 ^ 32)
    (h5 : s.pcm_buffer ≤ s.enc_buffer) :
    (enc_set_parameters (some params) s).2.enc_chunk_size = cs ∧
    (enc_set_parameters (some params) s).2.enc_num_chunks = ((B / cs : Nat) : Int) ∧
    (enc_set_parameters (some params) s).2.fn_queue_addr = s.enc_buffer + B / cs * cs + rb ∧
    (enc_set_parameters (some params) s).2.fnq_size =
      (((s.pcm_buffer + s.rec_buffer_size - (s.enc_buffer + B / cs * cs + rb))
          / MAX_PATH * MAX_PATH : Nat) : Int) ∧
    (∃ out, (enc_set_parameters (some params) s).1 = some out ∧
      out.enc_buffer = s.enc_buffer ∧
      out.reserve_buffer = if 0 < rb then some (s.enc_buffer + B / cs * cs) else none) := by
  have hn := enc_set_parameters_num_chunks params s
  have hfm : FNQ_MIN_NUM_PATHS * MAX_PATH = 4160 := rfl
  have h32 : (2 : Nat) ^ 32 = 4294967296 := by norm_num
  rw [h32] at h3 h4
  rw [hfm] at hn
  have e2 : usub (usub (usub s.rec_buffer_size (usub s.enc_buffer s.pcm_buffer))
        (ALIGN_UP_P2 params.reserve_bytes 2)) 4160 = B := by
    rw [← hrb]
    simp only [usub_eq]
    omega
  rw [← hcs, e2] at hn
  have hq : B / cs * cs ≤ B := Nat.div_mul_le_self _ _
  have hqlt : B / cs < 4294967296 := by
    have : B / cs ≤ B := Nat.div_le_self _ _
    omega
  have eq1 : to_ulong ((B / cs : Nat) : Int) = B / cs := by
    unfold to_ulong
    have : ((B / cs : Nat) : Int) % (2 ^ 32 : Int) = ((B / cs : Nat) : Int) :=
      Int.emod_eq_of_lt (Int.ofNat_nonneg _) (by norm_num; omega)
    rw [this]
    rfl
  have eq2 : umul (B / cs) cs = B / cs * cs := by
    unfold umul ULONG_RANGE
    apply Nat.mod_eq_of_lt
    norm_num
    omega
  have eq3 : uadd (B / cs * cs) rb = B / cs * cs + rb := by
    unfold uadd ULONG_RANGE
    apply Nat.mod_eq_of_lt
    norm_num
    omega
  have hcsz : (enc_set_parameters (some params) s).2.enc_chunk_size = cs := by
    rw [hcs]; rfl
  obtain ⟨X, hX⟩ : ∃ X, X = (if ALIGN_UP_P2 params.reserve_bytes 2 > 0 then
        uadd (umul (to_ulong (enc_set_parameters (some params) s).2.enc_num_chunks)
          (ALIGN_UP_P2 (ENC_CHUNK_HDR_SIZE + params.chunk_size) 2))
          (ALIGN_UP_P2 params.reserve_bytes 2)
      else umul (to_ulong (enc_set_parameters (some params) s).2.enc_num_chunks)
          (ALIGN_UP_P2 (ENC_CHUNK_HDR_SIZE + params.chunk_size) 2)) := ⟨_, rfl⟩
  have hfa : (enc_set_parameters (some params) s).2.fn_queue_addr = s.enc_buffer + X := by
    rw [hX]; rfl
  have hfs : (enc_set_parameters (some params) s).2.fnq_size =
      ALIGN_DOWN ((s.pcm_buffer : Int) + (s.rec_buffer_size : Int) -
        ((s.enc_buffer + X : Nat) : Int)) (MAX_PATH : Int) := by
    rw [hX]; rfl
  obtain ⟨Y, hY⟩ : ∃ Y, Y = (if ALIGN_UP_P2 params.reserve_bytes 2 > 0 then
        some (s.enc_buffer +
          umul (to_ulong (enc_set_parameters (some params) s).2.enc_num_chunks)
            (ALIGN_UP_P2 (ENC_CHUNK_HDR_SIZE + params.chunk_size) 2))
      else none) := ⟨_, rfl⟩
  have hout : ∃ out, (enc_set_parameters (some params) s).1 = some out ∧
      out.enc_buffer = s.enc_buffer ∧ out.reserve_buffer = Y := by
    rw [hY]; exact ⟨_, rfl, rfl, rfl⟩
  rw [hn, ← hcs, ← hrb, eq1, eq2] at hX hY
  have hbytes : X = B / cs * cs + rb := by
    rw [hX]
    split_ifs with hpos
    · exact eq3
    · omega
  rw [hbytes] at hfa hfs
  obtain ⟨out, o1, o2, o3⟩ := hout
  refine ⟨hcsz, hn, by rw [hfa, Nat.add_assoc], ?_, ⟨out, o1, o2, by rw [o3, hY]⟩⟩
  rw [hfs, ← ALIGN_DOWN_nonneg]
  generalize B / cs * cs = K at hq ⊢
  have hcast : (s.pcm_buffer : Int) + (s.rec_buffer_size : Int) -
      ((s.enc_buffer + (K + rb) : Nat) : Int) =
      ((s.pcm_buffer + s.rec_buffer_size - (s.enc_buffer + K + rb) : Nat) : Int) := by
    omega
  rw [hcast]

/-- C40: for every `enc_set_parameters` call whose recording buffer holds the
capture ring, the reserve bytes (rounded up to 4) and 16 paths, so that the
subtraction for the available size does not underflow (sizes and addresses
are machine words, the chunk size is not zero), the laid-out regions are
consecutive and in bounds: `enc_num_chunks * enc_chunk_size` bytes of chunks
from `enc_buffer` (which lies at or after `pcm_buffer`), then the reserve
bytes (handed back as `reserve_buffer` when there are any), then the filename
queue at `fn_queue`; the queue ends at or before
`pcm_buffer + rec_buffer_size`, within one path of it, and its capacity
`fnq_size` is a multiple of `MAX_PATH` of at least `FNQ_MIN_NUM_PATHS` (16)
paths. -/
theorem C40_buffer_layout (params : enc_parameters) (s : PcmRec)
    (h0 : 0 < ALIGN_UP_P2 (ENC_CHUNK_HDR_SIZE + params.chunk_size) 2)
    (h3 : s.rec_buffer_size < 2 ^ 32) (h4 : s.enc_buffer < 2 ^ 32)
    (h5 : s.pcm_buffer ≤ s.enc_buffer)
    (h6 : (s.enc_buffer - s.pcm_buffer) + ALIGN_UP_P2 params.reserve_bytes 2
            + FNQ_MIN_NUM_PATHS * MAX_PATH ≤ s.rec_buffer_size) :
    0 < (enc_set_parameters (some params) s).2.enc_chunk_size ∧
    0 ≤ (enc_set_parameters (some params) s).2.enc_num_chunks ∧
    (∃ out, (enc_set_parameters (some params) s).1 = some out ∧
      out.enc_buffer = s.enc_buffer ∧
      out.reserve_buffer =
        if 0 < ALIGN_UP_P2 params.reserve_bytes 2 then
          some (s.enc_buffer +
            ((enc_set_parameters (some params) s).2.enc_num_chunks *
              ((enc_set_parameters (some params) s).2.enc_chunk_size : Int)).toNat)
        else none) ∧
    ((enc_set_parameters (some params) s).2.fn_queue_addr : Int) =
      (s.enc_buffer : Int) +
        (enc_set_parameters (some params) s).2.enc_num_chunks *
          ((enc_set_parameters (some params) s).2.enc_chunk_size : Int) +
        (ALIGN_UP_P2 params.reserve_bytes 2 : Int) ∧
    ((enc_set_parameters (some params) s).2.fn_queue_addr : Int) +
        (enc_set_parameters (some params) s).2.fnq_size ≤
      (s.pcm_buffer : Int) + (s.rec_buffer_size : Int) ∧
    (s.pcm_buffer : Int) + (s.rec_buffer_size : Int) <
      ((enc_set_parameters (some params) s).2.fn_queue_addr : Int) +
        (enc_set_parameters (some params) s).2.fnq_size + (MAX_PATH : Int) ∧
    (enc_set_parameters (some params) s).2.fnq_size % (MAX_PATH : Int) = 0 ∧
    ((FNQ_MIN_NUM_PATHS * MAX_PATH : Nat) : Int) ≤
      (enc_set_parameters (some params) s).2.fnq_size := by
  have hfm : FNQ_MIN_NUM_PATHS * MAX_PATH = 4160 := rfl
  have hMP : MAX_PATH = 260 := rfl
  rw [hfm] at h6 ⊢
  obtain ⟨cs, hcs⟩ : ∃ cs, cs = ALIGN_UP_P2 (ENC_CHUNK_HDR_SIZE + params.chunk_size) 2 :=
    ⟨_, rfl⟩
  obtain ⟨rb, hrb⟩ : ∃ rb, rb = ALIGN_UP_P2 params.reserve_bytes 2 := ⟨_, rfl⟩
  rw [← hcs] at h0
  rw [← hrb] at h6 ⊢
  obtain ⟨B, hB⟩ : ∃ B, B + (s.enc_buffer - s.pcm_buffer) + rb + 4160 = s.rec_buffer_size :=
    ⟨s.rec_buffer_size - ((s.enc_buffer - s.pcm_buffer) + rb + 4160), by omega⟩
  obtain ⟨l1, l2, l3, l4, out, o1, o2, o3⟩ :=
    enc_set_parameters_layout params s cs rb B hcs hrb hB h3 h4 h5
  rw [l1, l2, l3, l4, hMP]
  have hq : B / cs * cs ≤ B := Nat.div_mul_le_self _ _
  have hprod : ((B / cs : Nat) : Int) * (cs : Int) = ((B / cs * cs : Nat) : Int) := by
    push_cast; rfl
  rw [hprod]
  generalize B / cs * cs = K at hq o3 ⊢
  refine ⟨h0, Int.ofNat_nonneg _, ⟨out, o1, o2, by rw [o3]; rfl⟩, by push_cast; ring,
    ?_, ?_, ?_, ?_⟩
  · have := Nat.div_mul_le_self (s.pcm_buffer + s.rec_buffer_size - (s.enc_buffer + K + rb)) 260
    omega
  · have := Nat.lt_div_mul_add (a := s.pcm_buffer + s.rec_buffer_size - (s.enc_buffer + K + rb))
      (b := 260) (by decide)
    omega
  · have : (s.pcm_buffer + s.rec_buffer_size - (s.enc_buffer + K + rb)) / 260 * 260 % 260 = 0 :=
      Nat.mul_mod_left _ _
    omega
  · have h16 : 16 ≤ (s.pcm_buffer + s.rec_buffer_size - (s.enc_buffer + K + rb)) / 260 := by
      apply (Nat.le_div_iff_mul_le (by decide)).mpr
      omega
    omega

/-- Witness of C40: a recording buffer of 2151376 bytes at address 100, chunks
of 1000 payload bytes and 10 reserve bytes. -/
theorem C40_buffer_layout_witness :
    (0 < ALIGN_UP_P2 (ENC_CHUNK_HDR_SIZE + reserve_params.chunk_size) 2 ∧
      initialised_state.rec_buffer_size < 2 ^ 32 ∧ initialised_state.enc_buffer < 2 ^ 32 ∧
      initialised_state.pcm_buffer ≤ initialised_state.enc_buffer ∧
      (initialised_state.enc_buffer - initialised_state.pcm_buffer)
        + ALIGN_UP_P2 reserve_params.reserve_bytes 2 + FNQ_MIN_NUM_PATHS * MAX_PATH
          ≤ initialised_state.rec_buffer_size) ∧
    0 < (enc_set_parameters (some reserve_params) initialised_state).2.enc_chunk_size ∧
    0 ≤ (enc_set_parameters (some reserve_params) initialised_state).2.enc_num_chunks ∧
    (∃ out, (enc_set_parameters (some reserve_params) initialised_state).1 = some out ∧
      out.enc_buffer = initialised_state.enc_buffer ∧
      out.reserve_buffer =
        if 0 < ALIGN_UP_P2 reserve_params.reserve_bytes 2 then
          some (initialised_state.enc_buffer +
            ((enc_set_parameters (some reserve_params) initialised_state).2.enc_num_chunks *
              ((enc_set_parameters (some reserve_params) initialised_state).2.enc_chunk_size
                : Int)).toNat)
        else none) ∧
    ((enc_set_parameters (some reserve_params) initialised_state).2.fn_queue_addr : Int) =
      (initialised_state.enc_buffer : Int) +
        (enc_set_parameters (some reserve_params) initialised_state).2.enc_num_chunks *
          ((enc_set_parameters (some reserve_params) initialised_state).2.enc_chunk_size : Int) +
        (ALIGN_UP_P2 reserve_params.reserve_bytes 2 : Int) ∧
    ((enc_set_parameters (some reserve_params) initialised_state).2.fn_queue_addr : Int) +
        (enc_set_parameters (some reserve_params) initialised_state).2.fnq_size ≤
      (initialised_state.pcm_buffer : Int) + (initialised_state.rec_buffer_size : Int) ∧
    (initialised_state.pcm_buffer : Int) + (initialised_state.rec_buffer_size : Int) <
      ((enc_set_parameters (some reserve_params) initialised_state).2.fn_queue_addr : Int) +
        (enc_set_parameters (some reserve_params) initialised_state).2.fnq_size
          + (MAX_PATH : Int) ∧
    (enc_set_parameters (some reserve_params) initialised_state).2.fnq_size
      % (MAX_PATH : Int) = 0 ∧
    ((FNQ_MIN_NUM_PATHS * MAX_PATH : Nat) : Int) ≤
      (enc_set_parameters (some reserve_params) initialised_state).2.fnq_size :=
  ⟨by decide,
   C40_buffer_layout reserve_params initialised_state (by decide) (by decide) (by decide)
     (by decide) (by decide)⟩

theorem fnq_count_dist (s : PcmRec) :
    fnq_count s = fnq_dist s.fnq_size s.fnq_rd_pos s.fnq_wr_pos := by
  unfold fnq_count fnq_dist
  rw [MAX_PATH_cast]

theorem fnq_advance_ok (size pos : Int) (hs : size % 260 = 0) (hp : fnq_pos_ok size pos) :
    fnq_pos_ok size (fnq_advance size pos) := by
  unfold fnq_pos_ok at hp ⊢
  unfold fnq_advance
  rw [MAX_PATH_cast]
  split <;> omega

theorem fnq_dist_step (size pos w : Int) (hs : size % 260 = 0) (hp : fnq_pos_ok size pos)
    (hw : fnq_pos_ok size w) (hne : pos ≠ w) :
    fnq_dist size (fnq_advance size pos) w = fnq_dist size pos w - 1 ∧
    1 ≤ fnq_dist size pos w := by
  unfold fnq_pos_ok at hp hw
  unfold fnq_dist fnq_advance
  rw [MAX_PATH_cast]
  split <;> split <;> split <;> omega

theorem fnq_dist_zero (size pos w : Int) (hs : size % 260 = 0) (hp : fnq_pos_ok size pos)
    (hw : fnq_pos_ok size w) (h : fnq_dist size pos w ≤ 0) : pos = w := by
  unfold fnq_pos_ok at hp hw
  unfold fnq_dist at h
  split at h <;> omega

theorem fnq_dist_nonneg (size pos w : Int) (hp : fnq_pos_ok size pos)
    (hw : fnq_pos_ok size w) : 0 ≤ fnq_dist size pos w ∧ fnq_dist size pos w * 260 < size := by
  unfold fnq_pos_ok at hp hw
  unfold fnq_dist
  split <;> omega

/-- A walk that stops before the position `w` does not see what slot `w`
holds. -/
theorem fnq_walk_update (queue : Int → String) (size w : Int) (x : String)
    (hs : size % 260 = 0) (hw : fnq_pos_ok size w) (d : Nat) :
    ∀ pos, fnq_pos_ok size pos → (d : Int) ≤ fnq_dist size pos w →
      fnq_walk (fun j => if j = w then x else queue j) size d pos =
        fnq_walk queue size d pos := by
  induction d with
  | zero => intro pos _ _; rfl
  | succ k ih =>
    intro pos hp hd
    have hne : pos ≠ w := by
      intro h
      have := fnq_dist_nonneg size pos w hp hw
      rw [h] at hd
      unfold fnq_dist at hd
      simp at hd
      omega
    obtain ⟨h1, h2⟩ := fnq_dist_step size pos w hs hp hw hne
    show strncpy (if pos = w then x else queue pos) MAX_PATH :: _ = strncpy (queue pos) MAX_PATH :: _
    rw [if_neg hne, ih _ (fnq_advance_ok size pos hs hp) (by rw [h1]; push_cast at hd; omega)]

/-- A walk that reaches the position `w` and takes one more slot ends with
what slot `w` holds. -/
theorem fnq_walk_snoc (queue : Int → String) (size w : Int)
    (hs : size % 260 = 0) (hw : fnq_pos_ok size w) (d : Nat) :
    ∀ pos, fnq_pos_ok size pos → (d : Int) = fnq_dist size pos w →
      fnq_walk queue size (d + 1) pos =
        fnq_walk queue size d pos ++ [strncpy (queue w) MAX_PATH] := by
  induction d with
  | zero =>
    intro pos hp hd
    have := fnq_dist_zero size pos w hs hp hw (by rw [← hd]; simp)
    rw [this]
    rfl
  | succ k ih =>
    intro pos hp hd
    have hne : pos ≠ w := by
      intro h
      rw [h] at hd
      unfold fnq_dist at hd
      simp at hd
      omega
    obtain ⟨h1, h2⟩ := fnq_dist_step size pos w hs hp hw hne
    have := ih _ (fnq_advance_ok size pos hs hp) (by rw [h1, ← hd]; push_cast; omega)
    show strncpy (queue pos) MAX_PATH :: fnq_walk queue size (k + 1) (fnq_advance size pos) = _
    rw [this]
    rfl

theorem fnq_walk_length (queue : Int → String) (size : Int) (d : Nat) :
    ∀ pos, (fnq_walk queue size d pos).length = d := by
  induction d with
  | zero => intro pos; rfl
  | succ k ih => intro pos; show (_ :: _).length = _; rw [List.length_cons, ih]

theorem strncpy_idem (x : String) (n : Nat) : strncpy (strncpy x n) n = strncpy x n := by
  unfold strncpy
  simp [List.take_take]

theorem fnq_well_formed_parts (s : PcmRec) (hwf : fnq_well_formed s) :
    s.fnq_size % 260 = 0 ∧ fnq_pos_ok s.fnq_size s.fnq_rd_pos ∧
    fnq_pos_ok s.fnq_size s.fnq_wr_pos := by
  unfold fnq_well_formed at hwf
  rw [MAX_PATH_cast] at hwf
  exact hwf

theorem fnq_well_formed_of_parts (s : PcmRec) (h : s.fnq_size % 260 = 0 ∧
    fnq_pos_ok s.fnq_size s.fnq_rd_pos ∧ fnq_pos_ok s.fnq_size s.fnq_wr_pos) :
    fnq_well_formed s := by
  unfold fnq_well_formed
  rw [MAX_PATH_cast]
  exact h

theorem fnq_add_fields (f : String) (s : PcmRec) :
    (pcmrec_fnq_add_filename f s).1 = true ∧
    (pcmrec_fnq_add_filename f s).2.fn_queue =
      (fun j => if j = s.fnq_wr_pos then strncpy f MAX_PATH else s.fn_queue j) ∧
    (pcmrec_fnq_add_filename f s).2.fnq_size = s.fnq_size ∧
    (pcmrec_fnq_add_filename f s).2.fnq_wr_pos = fnq_advance s.fnq_size s.fnq_wr_pos ∧
    (pcmrec_fnq_add_filename f s).2.fnq_rd_pos =
      (if s.fnq_rd_pos ≠ fnq_advance s.fnq_size s.fnq_wr_pos then s.fnq_rd_pos
       else fnq_advance s.fnq_size s.fnq_rd_pos) := by
  unfold pcmrec_fnq_add_filename
  simp only []
  split_ifs <;> exact ⟨rfl, rfl, rfl, rfl, rfl⟩

/-- The filename queue after `pcmrec_fnq_add_filename`, as a list: the name
(cut to the length of a slot) is appended, and the oldest entry is dropped
when the queue was full. -/
theorem fnq_add_list (f : String) (s : PcmRec) (hwf : fnq_well_formed s)
    (hc : 2 ≤ fnq_slots s) :
    fnq_well_formed (pcmrec_fnq_add_filename f s).2 ∧
    fnq_list (pcmrec_fnq_add_filename f s).2 =
      spec_fifo_add (fnq_slots s) (fnq_list s) (strncpy f MAX_PATH) := by
  obtain ⟨hs, hrd, hwr⟩ := fnq_well_formed_parts s hwf
  obtain ⟨-, a2, a3, a4, a5⟩ := fnq_add_fields f s
  have hadv := fnq_advance_ok _ _ hs hwr
  have hadr := fnq_advance_ok _ _ hs hrd
  obtain ⟨n0, n1⟩ := fnq_dist_nonneg _ _ _ hrd hwr
  have hlen : ((fnq_list s).length : Int) = fnq_dist s.fnq_size s.fnq_rd_pos s.fnq_wr_pos := by
    unfold fnq_list
    rw [fnq_walk_length, fnq_count_dist]
    omega
  have hslots : fnq_slots s = s.fnq_size / 260 := by
    unfold fnq_slots; rw [MAX_PATH_cast]
  rw [hslots] at hc ⊢
  obtain ⟨d, hd⟩ : ∃ d : Nat, (d : Int) = fnq_dist s.fnq_size s.fnq_rd_pos s.fnq_wr_pos :=
    ⟨(fnq_dist s.fnq_size s.fnq_rd_pos s.fnq_wr_pos).toNat, by omega⟩
  have hL : fnq_list s = fnq_walk s.fn_queue s.fnq_size d s.fnq_rd_pos := by
    unfold fnq_list
    rw [fnq_count_dist, ← hd]
    rfl
  have hsn := fnq_walk_snoc (fun j => if j = s.fnq_wr_pos then strncpy f MAX_PATH
    else s.fn_queue j) s.fnq_size s.fnq_wr_pos hs hwr
  have hup := fnq_walk_update s.fn_queue s.fnq_size s.fnq_wr_pos (strncpy f MAX_PATH) hs hwr
  have hnew : strncpy ((fun j => if j = s.fnq_wr_pos then strncpy f MAX_PATH
      else s.fn_queue j) s.fnq_wr_pos) MAX_PATH = strncpy f MAX_PATH := by
    simp only [if_true]
    exact strncpy_idem _ _
  by_cases hfull : fnq_dist s.fnq_size s.fnq_rd_pos s.fnq_wr_pos < s.fnq_size / 260 - 1
  · have hne : s.fnq_rd_pos ≠ fnq_advance s.fnq_size s.fnq_wr_pos := by
      have hp1 := hrd
      have hp2 := hwr
      unfold fnq_pos_ok at hp1 hp2
      unfold fnq_dist at hfull
      unfold fnq_advance
      rw [MAX_PATH_cast]
      split at hfull <;> split <;> omega
    rw [if_pos hne] at a5
    have hcount : fnq_dist s.fnq_size s.fnq_rd_pos (fnq_advance s.fnq_size s.fnq_wr_pos) =
        fnq_dist s.fnq_size s.fnq_rd_pos s.fnq_wr_pos + 1 := by
      have hp1 := hrd
      have hp2 := hwr
      unfold fnq_pos_ok at hp1 hp2
      unfold fnq_dist at hfull ⊢
      unfold fnq_advance
      rw [MAX_PATH_cast]
      split at hfull <;> split <;> split <;> omega
    constructor
    · apply fnq_well_formed_of_parts
      rw [a3, a4, a5]
      exact ⟨hs, hrd, hadv⟩
    · unfold spec_fifo_add
      rw [hlen, if_pos hfull, hL]
      unfold fnq_list
      rw [fnq_count_dist, a2, a3, a4, a5, hcount, ← hd]
      show fnq_walk _ _ (d + 1) _ = _
      rw [hsn d _ hrd hd, hnew, hup d _ hrd (by omega)]
  · have heq : s.fnq_rd_pos = fnq_advance s.fnq_size s.fnq_wr_pos := by
      have hp1 := hrd
      have hp2 := hwr
      unfold fnq_pos_ok at hp1 hp2
      unfold fnq_dist at hfull n1
      unfold fnq_advance
      rw [MAX_PATH_cast]
      split at hfull <;> split <;> omega
    rw [if_neg (not_not.mpr heq)] at a5
    have hne : s.fnq_rd_pos ≠ s.fnq_wr_pos := by
      intro h
      rw [h] at hfull
      unfold fnq_dist at hfull
      simp at hfull
      omega
    obtain ⟨s1, s2⟩ := fnq_dist_step _ _ _ hs hrd hwr hne
    have hcount : fnq_dist s.fnq_size (fnq_advance s.fnq_size s.fnq_rd_pos)
        (fnq_advance s.fnq_size s.fnq_wr_pos) =
        fnq_dist s.fnq_size s.fnq_rd_pos s.fnq_wr_pos := by
      rw [← heq]
      have hp1 := hrd
      have hp2 := hwr
      unfold fnq_pos_ok at hp1 hp2
      unfold fnq_dist at hfull n1 ⊢
      unfold fnq_advance
      rw [MAX_PATH_cast]
      split at hfull <;> split <;> split <;> omega
    obtain ⟨k, hk⟩ : ∃ k : Nat, d = k + 1 := ⟨d - 1, by omega⟩
    constructor
    · apply fnq_well_formed_of_parts
      rw [a3, a4, a5]
      exact ⟨hs, hadr, hadv⟩
    · unfold spec_fifo_add
      rw [hlen, if_neg hfull, hL]
      unfold fnq_list
      rw [fnq_count_dist, a2, a3, a4, a5, hcount, ← hd, hk]
      show fnq_walk _ _ (k + 1) _ = (_ :: fnq_walk _ _ k _).tail ++ _
      rw [List.tail_cons,
        hsn k _ hadr (by rw [s1, ← hd, hk]; push_cast; omega), hnew,
        hup k _ hadr (by rw [s1, ← hd, hk]; push_cast; omega)]

theorem fnq_list_length (s : PcmRec) (hwf : fnq_well_formed s) :
    ((fnq_list s).length : Int) = fnq_count s ∧ 0 ≤ fnq_count s ∧
    fnq_count s ≤ fnq_slots s - 1 ∧ 1 ≤ fnq_slots s := by
  obtain ⟨hs, hrd, hwr⟩ := fnq_well_formed_parts s hwf
  obtain ⟨n0, n1⟩ := fnq_dist_nonneg _ _ _ hrd hwr
  unfold fnq_list fnq_slots
  rw [fnq_walk_length, fnq_count_dist, MAX_PATH_cast]
  unfold fnq_pos_ok at hrd
  refine ⟨by omega, n0, by omega, by omega⟩

/-- The filename queue after `pcmrec_fnq_get_filename`, as a list: false and
no change on the empty list, else the head is handed out and the tail is
left. -/
theorem fnq_get_list (s : PcmRec) (hwf : fnq_well_formed s) :
    (pcmrec_fnq_get_filename true s).1 = (spec_fifo_get (fnq_list s)).1 ∧
    (pcmrec_fnq_get_filename true s).2.1 = (spec_fifo_get (fnq_list s)).2.1 ∧
    fnq_list (pcmrec_fnq_get_filename true s).2.2 = (spec_fifo_get (fnq_list s)).2.2 ∧
    fnq_well_formed (pcmrec_fnq_get_filename true s).2.2 ∧
    (fnq_list s = [] → pcmrec_fnq_get_filename true s = (false, none, s)) ∧
    fnq_count (pcmrec_fnq_get_filename true s).2.2 =
      (if fnq_list s = [] then fnq_count s else fnq_count s - 1) := by
  obtain ⟨hs, hrd, hwr⟩ := fnq_well_formed_parts s hwf
  obtain ⟨n0, n1⟩ := fnq_dist_nonneg _ _ _ hrd hwr
  obtain ⟨d, hd⟩ : ∃ d : Nat, (d : Int) = fnq_dist s.fnq_size s.fnq_rd_pos s.fnq_wr_pos :=
    ⟨(fnq_dist s.fnq_size s.fnq_rd_pos s.fnq_wr_pos).toNat, by omega⟩
  have hL : fnq_list s = fnq_walk s.fn_queue s.fnq_size d s.fnq_rd_pos := by
    unfold fnq_list
    rw [fnq_count_dist, ← hd]
    rfl
  by_cases he : s.fnq_rd_pos = s.fnq_wr_pos
  · have hg : pcmrec_fnq_get_filename true s = (false, none, s) := by
      unfold pcmrec_fnq_get_filename pcmrec_fnq_is_empty
      rw [if_pos (by simpa using he)]
    have hd0 : d = 0 := by
      rw [he] at hd
      unfold fnq_dist at hd
      simp at hd
      omega
    rw [hd0] at hL
    have hL0 : fnq_list s = [] := hL
    rw [hg, hL0]
    exact ⟨rfl, rfl, rfl, hwf, fun _ => rfl, by rw [if_pos rfl]⟩
  · have hg : pcmrec_fnq_get_filename true s =
        (true, some (strncpy (s.fn_queue s.fnq_rd_pos) MAX_PATH),
          { s with fnq_rd_pos := fnq_advance s.fnq_size s.fnq_rd_pos }) := by
      unfold pcmrec_fnq_get_filename pcmrec_fnq_is_empty
      rw [if_neg (by simpa using he)]
      rfl
    obtain ⟨s1, s2⟩ := fnq_dist_step _ _ _ hs hrd hwr he
    obtain ⟨k, hk⟩ : ∃ k : Nat, d = k + 1 := ⟨d - 1, by omega⟩
    rw [hk] at hL
    have hL1 : fnq_list s = strncpy (s.fn_queue s.fnq_rd_pos) MAX_PATH ::
        fnq_walk s.fn_queue s.fnq_size k (fnq_advance s.fnq_size s.fnq_rd_pos) := hL
    have hne : fnq_list s ≠ [] := by rw [hL1]; simp
    rw [hg, hL1]
    refine ⟨rfl, rfl, ?_, ?_, fun h => absurd h (by simp), ?_⟩
    · show fnq_list { s with fnq_rd_pos := fnq_advance s.fnq_size s.fnq_rd_pos } = _
      unfold fnq_list
      rw [fnq_count_dist]
      show fnq_walk s.fn_queue s.fnq_size
        (fnq_dist s.fnq_size (fnq_advance s.fnq_size s.fnq_rd_pos) s.fnq_wr_pos).toNat
        (fnq_advance s.fnq_size s.fnq_rd_pos) = _
      rw [s1, ← hd, hk]
      have : ((((k + 1 : Nat) : Int) - 1).toNat) = k := by push_cast; omega
      rw [this]
      rfl
    · apply fnq_well_formed_of_parts
      exact ⟨hs, fnq_advance_ok _ _ hs hrd, hwr⟩
    · rw [if_neg (by simp)]
      rw [fnq_count_dist, fnq_count_dist]
      exact s1

/-- The filename queue is full exactly when its list holds `c - 1` entries. -/
theorem fnq_full_list (s : PcmRec) (hwf : fnq_well_formed s) :
    pcmrec_fnq_is_full s = true ↔ fnq_slots s - 1 ≤ ((fnq_list s).length : Int) := by
  obtain ⟨hs, hrd, hwr⟩ := fnq_well_formed_parts s hwf
  rw [(fnq_list_length s hwf).1, fnq_count_dist]
  unfold pcmrec_fnq_is_full fnq_slots fnq_dist
  rw [MAX_PATH_cast]
  unfold fnq_pos_ok at hrd hwr
  simp only [decide_eq_true_eq]
  split <;> constructor <;> intro h <;> omega

/-- Calling `pcmrec_fnq_get_filename` until it returns false hands out the
list of the queue, in order. -/
theorem fnq_drain_list (fuel : Nat) :
    ∀ s : PcmRec, fnq_well_formed s → fnq_count s ≤ (fuel : Int) →
      fnq_drain fuel s = fnq_list s := by
  induction fuel with
  | zero =>
    intro s hwf hc
    obtain ⟨l1, l2, -, -⟩ := fnq_list_length s hwf
    have : (fnq_list s).length = 0 := by
      have : ((fnq_list s).length : Int) = 0 := by rw [l1]; simp at hc; omega
      exact_mod_cast this
    rw [List.length_eq_zero.mp this]
    rfl
  | succ k ih =>
    intro s hwf hc
    obtain ⟨g1, g2, g3, g4, g5, g6⟩ := fnq_get_list s hwf
    cases hL : fnq_list s with
    | nil =>
      have := g5 hL
      show (match pcmrec_fnq_get_filename true s with
        | (true, some x, t) => x :: fnq_drain k t
        | _ => []) = _
      rw [this]
    | cons x xs =>
      rw [hL] at g1 g2 g3 g6
      have e : pcmrec_fnq_get_filename true s =
          (true, some x, (pcmrec_fnq_get_filename true s).2.2) :=
        Prod.ext g1 (Prod.ext g2 rfl)
      show (match pcmrec_fnq_get_filename true s with
        | (true, some x, t) => x :: fnq_drain k t
        | _ => []) = _
      rw [e]
      show x :: fnq_drain k _ = _
      rw [ih _ g4 (by rw [g6, if_neg (by simp)]; push_cast at hc; omega), g3]
      rfl

/-- C33 (as stated) fails. (1) A queue of a single slot (`c = 1`, both
positions 0, the list empty, so `|L| = c - 1`): `pcmrec_fnq_add_filename`
returns true, writes the slot and moves both positions back onto 0; the list
is still empty, where the claim has `tail(L) ++ [f] = [f]`, and the name is
never handed out. (2) A name of 261 characters appended to an empty queue of
16 slots: the slot takes `MAX_PATH = 260` characters, so the list holds the
name cut to 260 characters, not `f`. (3) A queue of 525 bytes, which is no
multiple of `MAX_PATH` (`c = 2`), holding one entry between the positions 0
and 260: `|L| = 1 ≥ c - 1`, yet `pcmrec_fnq_is_full` is false, for it compares
the distance 260 with `fnq_size - MAX_PATH = 265`. -/
theorem C33_counterexample :
    (fnq_well_formed single_slot_queue ∧ fnq_slots single_slot_queue = 1 ∧
      fnq_list single_slot_queue = [] ∧
      (pcmrec_fnq_add_filename "a.wav" single_slot_queue).1 = true ∧
      fnq_list (pcmrec_fnq_add_filename "a.wav" single_slot_queue).2 = [] ∧
      spec_fifo_add 1 [] "a.wav" = ["a.wav"] ∧
      (pcmrec_fnq_get_filename true
        (pcmrec_fnq_add_filename "a.wav" single_slot_queue).2).1 = false) ∧
    (fnq_well_formed empty_queue16 ∧ fnq_slots empty_queue16 = 16 ∧
      fnq_list empty_queue16 = [] ∧ long_name.length = 261 ∧
      fnq_list (pcmrec_fnq_add_filename long_name empty_queue16).2
        = [strncpy long_name MAX_PATH] ∧
      (strncpy long_name MAX_PATH).length = 260 ∧
      fnq_list (pcmrec_fnq_add_filename long_name empty_queue16).2 ≠ [long_name]) ∧
    (fnq_slots ragged_queue = 2 ∧
      (0 ≤ ragged_queue.fnq_rd_pos ∧ ragged_queue.fnq_rd_pos < ragged_queue.fnq_size ∧
        ragged_queue.fnq_rd_pos % (MAX_PATH : Int) = 0) ∧
      (0 ≤ ragged_queue.fnq_wr_pos ∧ ragged_queue.fnq_wr_pos < ragged_queue.fnq_size ∧
        ragged_queue.fnq_wr_pos % (MAX_PATH : Int) = 0) ∧
      (fnq_list ragged_queue).length = 1 ∧
      pcmrec_fnq_is_full ragged_queue = false) := by
  have h1 : long_name.length = 261 := by
    show (List.replicate 261 'a').length = 261
    exact List.length_replicate _ _
  have h2 : (strncpy long_name MAX_PATH).length = 260 := by
    show ((List.replicate 261 'a').take 260).length = 260
    rw [List.length_take, List.length_replicate]
    rfl
  have h3 : fnq_list (pcmrec_fnq_add_filename long_name empty_queue16).2
      = [strncpy long_name MAX_PATH] := by
    have := (fnq_add_list long_name empty_queue16 (by decide) (by decide)).2
    rw [this]
    rfl
  refine ⟨by decide, ⟨by decide, by decide, by decide, h1, h3, h2, ?_⟩, by decide⟩
  rw [h3]
  intro h
  have := congrArg String.length (List.head_eq_of_cons_eq h)
  rw [h1, h2] at this
  exact absurd this (by decide)

/-- C33 (amended): the filename queue refines a bounded FIFO list. For a queue
of `c = fnq_size / MAX_PATH ≥ 2` slots whose size is a multiple of `MAX_PATH`
and whose positions are multiples of `MAX_PATH` in `[0, fnq_size)`, `L` the
list of entries from the read to the write position, and a name `f` of at most
`MAX_PATH` characters: `L` has `fnq_count` entries, `c - 1` at most;
`pcmrec_fnq_add_filename f` returns true, keeps the queue well formed and
yields `L ++ [f]` when `|L| < c - 1` and `tail(L) ++ [f]` when `|L| = c - 1`;
`pcmrec_fnq_get_filename` returns false on the empty queue without change and
otherwise returns `head(L)` leaving `tail(L)`; calling it until it returns
false hands out `L` in order (so names are popped in the order appended); and
`pcmrec_fnq_is_full` holds iff `|L| ≥ c - 1`. -/
theorem C33_queue_refines_fifo (s : PcmRec) (hwf : fnq_well_formed s)
    (hc : 2 ≤ fnq_slots s) (f : String) (hf : f.length ≤ MAX_PATH) :
    (((fnq_list s).length : Int) = fnq_count s ∧
      ((fnq_list s).length : Int) ≤ fnq_slots s - 1) ∧
    ((pcmrec_fnq_add_filename f s).1 = true ∧
      fnq_well_formed (pcmrec_fnq_add_filename f s).2 ∧
      fnq_slots (pcmrec_fnq_add_filename f s).2 = fnq_slots s ∧
      fnq_list (pcmrec_fnq_add_filename f s).2 = spec_fifo_add (fnq_slots s) (fnq_list s) f ∧
      (((fnq_list s).length : Int) < fnq_slots s - 1 →
        fnq_list (pcmrec_fnq_add_filename f s).2 = fnq_list s ++ [f]) ∧
      (((fnq_list s).length : Int) = fnq_slots s - 1 →
        fnq_list (pcmrec_fnq_add_filename f s).2 = (fnq_list s).tail ++ [f])) ∧
    ((pcmrec_fnq_get_filename true s).1 = (spec_fifo_get (fnq_list s)).1 ∧
      (pcmrec_fnq_get_filename true s).2.1 = (spec_fifo_get (fnq_list s)).2.1 ∧
      fnq_list (pcmrec_fnq_get_filename true s).2.2 = (spec_fifo_get (fnq_list s)).2.2 ∧
      fnq_well_formed (pcmrec_fnq_get_filename true s).2.2 ∧
      (fnq_list s = [] → pcmrec_fnq_get_filename true s = (false, none, s)) ∧
      (∀ x xs, fnq_list s = x :: xs →
        (pcmrec_fnq_get_filename true s).1 = true ∧
        (pcmrec_fnq_get_filename true s).2.1 = some x ∧
        fnq_list (pcmrec_fnq_get_filename true s).2.2 = xs)) ∧
    ((∀ fuel : Nat, (fnq_list s).length ≤ fuel → fnq_drain fuel s = fnq_list s) ∧
      (∀ fuel : Nat, (spec_fifo_add (fnq_slots s) (fnq_list s) f).length ≤ fuel →
        fnq_drain fuel (pcmrec_fnq_add_filename f s).2 =
          spec_fifo_add (fnq_slots s) (fnq_list s) f)) ∧
    (pcmrec_fnq_is_full s = true ↔ fnq_slots s - 1 ≤ ((fnq_list s).length : Int)) := by
  obtain ⟨l1, l2, l3, l4⟩ := fnq_list_length s hwf
  obtain ⟨a1, a2⟩ := fnq_add_list f s hwf hc
  rw [strncpy_short f MAX_PATH hf] at a2
  obtain ⟨g1, g2, g3, g4, g5, g6⟩ := fnq_get_list s hwf
  have hsl : fnq_slots (pcmrec_fnq_add_filename f s).2 = fnq_slots s := by
    unfold fnq_slots
    rw [(fnq_add_fields f s).2.2.1]
  refine ⟨⟨l1, by rw [l1]; exact l3⟩, ⟨(fnq_add_fields f s).1, a1, hsl, a2, ?_, ?_⟩,
    ⟨g1, g2, g3, g4, g5, ?_⟩, ⟨?_, ?_⟩, fnq_full_list s hwf⟩
  · intro h
    rw [a2]
    unfold spec_fifo_add
    rw [if_pos h]
  · intro h
    rw [a2]
    unfold spec_fifo_add
    rw [if_neg (by omega)]
  · intro x xs hL
    rw [hL] at g1 g2 g3
    exact ⟨g1, g2, g3⟩
  · intro fuel hfu
    apply fnq_drain_list fuel s hwf
    rw [← l1]
    exact_mod_cast hfu
  · intro fuel hfu
    rw [← a2] at hfu ⊢
    apply fnq_drain_list fuel _ a1
    rw [← (fnq_list_length _ a1).1]
    exact_mod_cast hfu

/-- Witness of C33: a queue of 16 slots that holds "a.wav" and "b.wav", and
the name "c.wav". -/
theorem C33_queue_refines_fifo_witness :
    fnq_well_formed start_pending ∧ 2 ≤ fnq_slots start_pending ∧
    "c.wav".length ≤ MAX_PATH ∧ fnq_list start_pending = ["a.wav", "b.wav"] ∧
    fnq_list (pcmrec_fnq_add_filename "c.wav" start_pending).2 = ["a.wav", "b.wav", "c.wav"] ∧
    (pcmrec_fnq_get_filename true start_pending).2.1 = some "a.wav" ∧
    fnq_list (pcmrec_fnq_get_filename true start_pending).2.2 = ["b.wav"] ∧
    (pcmrec_fnq_is_full start_pending = true ↔
      fnq_slots start_pending - 1 ≤ ((fnq_list start_pending).length : Int)) :=
  ⟨by decide, by decide, by decide, by decide,
   ((C33_queue_refines_fifo start_pending (by decide) (by decide) "c.wav"
      (by decide)).2.1.2.2.2.1).trans (by decide),
   by decide, by decide,
   (C33_queue_refines_fifo start_pending (by decide) (by decide) "c.wav" (by decide)).2.2.2.2⟩

theorem new_stream_end_none (flags : Nat) (t : PcmRec) (h : flags &&& CHUNKF_END_FILE = 0) :
    new_stream_end flags t = (t, flags, t.enc_wr_index) := by
  unfold new_stream_end
  rw [if_neg (not_not.mpr h)]

/-- The last step of `pcmrec_new_stream` when the name is appended and the
queue has room. -/
theorem new_stream_queue_add (enc : Encoder) (name : String) (X : PcmRec) (start : Int)
    (hroom : pcmrec_fnq_is_full X = false) :
    new_stream_queue enc (some name) fnq_add_kind.add_filename (X, start) =
      (pcmrec_fnq_add_filename name
        (set_flags X start ((GET_ENC_CHUNK X start).flags ||| CHUNKF_START_FILE))).2 := by
  have h : pcmrec_fnq_is_full
      (set_flags X start ((GET_ENC_CHUNK X start).flags ||| CHUNKF_START_FILE)) = false := hroom
  unfold new_stream_queue
  simp only [h, Bool.false_eq_true, and_false, if_false, Option.getD_some]

/-- The call of the encoder for a start (no end requested) when the callback
changes nothing: the event data names the chunk at the write index, and the
state is the one the "start chunk" part left, with the call logged. -/
theorem new_stream_notify_identity (enc : Encoder) (hcb : ∀ d t, enc.new_stream d t = (d, t))
    (flags : Nat) (pre_index : Int) (t : PcmRec)
    (he : flags &&& CHUNKF_END_FILE = 0) (hs : flags &&& CHUNKF_START_FILE ≠ 0) :
    (new_stream_notify enc flags pre_index t).1.chunk = t.enc_wr_index ∧
    (new_stream_notify enc flags pre_index t).2 =
      { (new_stream_start flags pre_index t.enc_wr_index t).1 with
        trace := (new_stream_notify enc flags pre_index t).2.trace } := by
  unfold new_stream_notify
  simp only [new_stream_end_none flags t he, if_pos hs, if_neg (not_not.mpr he),
    enc_events_callback_new_stream, hcb]
  exact ⟨trivial, trivial⟩

/-- The "start chunk" part on a chunk that carries no stale start marker: the
chunk's flags are masked and the name is to be appended. -/
theorem new_stream_start_fresh (flags : Nat) (pre_index chunk : Int) (t : PcmRec)
    (hstale : (t.chunks (if flags &&& CHUNKF_PRERECORD ≠ 0 then pre_index else chunk)).flags
      &&& CHUNKF_START_FILE = 0) :
    (new_stream_start flags pre_index chunk t).2.1 =
      (if flags &&& CHUNKF_PRERECORD ≠ 0 then pre_index else chunk) ∧
    (new_stream_start flags pre_index chunk t).2.2.2 = fnq_add_kind.add_filename ∧
    (new_stream_start flags pre_index chunk t).1 =
      { t with chunks := (new_stream_start flags pre_index chunk t).1.chunks } := by
  have k1 : (CHUNKF_START_FILE ||| CHUNKF_PRERECORD) &&& CHUNKF_START_FILE = CHUNKF_START_FILE := by
    decide
  have k2 : CHUNKF_START_FILE &&& CHUNKF_START_FILE = CHUNKF_START_FILE := by decide
  unfold new_stream_start
  by_cases hp : flags &&& CHUNKF_PRERECORD ≠ 0
  · rw [if_pos hp] at hstale
    simp only [if_pos hp]
    refine ⟨trivial, ?_, rfl⟩
    rw [if_neg]
    simp only [set_flags, set_chunk, GET_ENC_CHUNK, if_true]
    rw [land_land_of_land _ _ _ k1]
    exact not_not.mpr hstale
  · rw [if_neg hp] at hstale
    simp only [if_neg hp]
    refine ⟨trivial, ?_, rfl⟩
    rw [if_neg]
    simp only [set_flags, set_chunk, GET_ENC_CHUNK, if_true]
    rw [land_land_of_land _ _ _ k2]
    exact not_not.mpr hstale

/-- A start (no end requested) on a chunk that carries no stale start marker,
with room in the filename queue and an encoder callback that changes nothing:
`pcmrec_new_stream` returns whatever the fuel; the name is appended to the
queue of a state that differs from the one before in chunk headers, trace and
counters only, and in which the chunk chosen for the start (the pre-record
index for a pre-record start, else the write index) carries the start
marker. -/
theorem new_stream_start_identity (enc : Encoder) (hcb : ∀ d t, enc.new_stream d t = (d, t))
    (fuel : Nat) (name : String) (flags : Nat) (pre_index : Int) (t : PcmRec)
    (he : flags &&& CHUNKF_END_FILE = 0) (hs : flags &&& CHUNKF_START_FILE ≠ 0)
    (hstale : (t.chunks (if flags &&& CHUNKF_PRERECORD ≠ 0 then pre_index
      else t.enc_wr_index)).flags &&& CHUNKF_START_FILE = 0)
    (hroom : pcmrec_fnq_is_full t = false) :
    ∃ e, pcmrec_new_stream enc fuel (some name) flags pre_index t =
        some (pcmrec_fnq_add_filename name e).2 ∧
      e = { t with chunks := e.chunks, trace := e.trace,
                   num_rec_bytes := e.num_rec_bytes, num_rec_samples := e.num_rec_samples } ∧
      (e.chunks (if flags &&& CHUNKF_PRERECORD ≠ 0 then pre_index else t.enc_wr_index)).flags
        &&& CHUNKF_START_FILE = CHUNKF_START_FILE := by
  obtain ⟨f1, f2, f3⟩ := new_stream_start_fresh flags pre_index t.enc_wr_index t hstale
  obtain ⟨n1, n2⟩ := new_stream_notify_identity enc hcb flags pre_index t he hs
  obtain ⟨ch, hch⟩ : ∃ ch, ch = (new_stream_start flags pre_index t.enc_wr_index t).1.chunks :=
    ⟨_, rfl⟩
  obtain ⟨tr, htr⟩ : ∃ tr, tr = (new_stream_notify enc flags pre_index t).2.trace := ⟨_, rfl⟩
  rw [← hch] at f3
  rw [f3, ← htr] at n2
  have hE := new_stream_end_none flags t he
  rw [pcmrec_new_stream_eq, hE]
  simp only [if_pos hs, f1, f2]
  generalize (new_stream_notify enc flags pre_index t) = N at n1 n2 ⊢
  obtain ⟨d, X⟩ := N
  simp only at n1 n2
  subst n2
  by_cases hp : flags &&& CHUNKF_PRERECORD ≠ 0
  · rw [if_neg hp]
    simp only [if_pos hp, Option.map_some']
    refine ⟨_, congrArg some (new_stream_queue_add enc name _ _ ?_), rfl, ?_⟩
    · exact hroom
    · simp only [set_flags, set_chunk, GET_ENC_CHUNK, if_true]
      exact lor_land_self _ _
  · have hp0 : flags &&& CHUNKF_PRERECORD = 0 := not_not.mp hp
    rw [if_pos hp0]
    simp only [if_neg hp]
    have hstat : ∀ u : PcmRec, u.enc_wr_index = t.enc_wr_index →
        new_stream_stats fuel d.chunk u = some u :=
      fun u hu => new_stream_stats_done fuel d.chunk u (n1.trans hu.symm)
    rw [hstat]
    · simp only [Option.map_some']
      rw [n1]
      refine ⟨_, congrArg some (new_stream_queue_add enc name _ _ ?_), rfl, ?_⟩
      · exact hroom
      · simp only [set_flags, set_chunk, GET_ENC_CHUNK, if_true]
        exact lor_land_self _ _
    · rfl

/-- What else the preparation of Record from idle leaves: not paused, capture
unlocked, warnings cleared, the error word and the slots of the filename queue
untouched; and without a pre-record window the read index on the write index
and no pre-recorded samples. -/
theorem record_idle_prepare_more (s : PcmRec) :
    (record_idle_prepare s).1.is_paused = false ∧
    (record_idle_prepare s).1.dma_lock = false ∧
    (record_idle_prepare s).1.warnings = 0 ∧
    (record_idle_prepare s).1.fn_queue = s.fn_queue ∧
    (record_idle_prepare s).1.errors = s.errors ∧
    (s.pre_record_ticks = 0 →
      (record_idle_prepare s).1.enc_rd_index = s.enc_wr_index ∧
      (record_idle_prepare s).2 = 0) := by
  unfold record_idle_prepare
  simp only []
  by_cases hp : s.pre_record_ticks ≠ 0
  · rw [if_pos hp]
    generalize hwk : prerecord_walk _ _ _ _ _ _ = w
    have hf := prerecord_walk_frame (umul s.enc_sample_rate s.pre_record_ticks)
      (avail_pre_chunks { { s with num_rec_bytes := 0, num_rec_samples := 0 } with
        spinup_time := -1, warnings := 0 }) s.enc_wr_index s.enc_wr_index 0
      { { s with num_rec_bytes := 0, num_rec_samples := 0 } with
        spinup_time := -1, warnings := 0 }
    rw [hwk] at hf
    unfold pcmrec_fnq_is_empty pcmrec_fnq_set_empty
    simp only []
    split
    · rw [hf]; exact ⟨trivial, trivial, rfl, rfl, rfl, fun h => absurd h hp⟩
    · rw [hf]; exact ⟨trivial, trivial, rfl, rfl, rfl, fun h => absurd h hp⟩
  · rw [if_neg hp]
    unfold pcmrec_fnq_is_empty pcmrec_fnq_set_empty
    simp only []
    split
    · exact ⟨trivial, trivial, rfl, rfl, rfl, fun _ => ⟨rfl, trivial⟩⟩
    · exact ⟨trivial, trivial, rfl, rfl, rfl, fun _ => ⟨rfl, trivial⟩⟩

theorem fnq_add_frame (name : String) (e : PcmRec) :
    (pcmrec_fnq_add_filename name e).2 =
      { e with fn_queue := (pcmrec_fnq_add_filename name e).2.fn_queue,
               fnq_wr_pos := (pcmrec_fnq_add_filename name e).2.fnq_wr_pos,
               fnq_rd_pos := (pcmrec_fnq_add_filename name e).2.fnq_rd_pos } := by
  unfold pcmrec_fnq_add_filename
  simp only []
  split <;> rfl

/-- The list of an empty filename queue is empty. -/
theorem fnq_list_empty (s : PcmRec) (h : s.fnq_rd_pos = s.fnq_wr_pos) : fnq_list s = [] := by
  unfold fnq_list fnq_count
  rw [h]
  simp
  rfl

/-- The input on which Record leaves the start marker behind the read index:
an idle recorder with `errors = 0` and no start marker in the ring,
pre-recording, whose two ready chunks hold payload that encodes no samples.
The walk over the pre-recorded chunks moves the read index back to slot 0 for
the payload but counts no sample ticks, so Record asks for
a start without the pre-record flag and `pcmrec_new_stream` puts the start
marker on the chunk at the write index (slot 2): the chunk at the read index
carries no start-of-file flag. -/
theorem record_start_behind_read_index :
    (empty_samples_ring.is_recording = false ∧ empty_samples_ring.errors = 0 ∧
      ring_valid empty_samples_ring ∧
      (∀ j : Int, (empty_samples_ring.chunks j).flags &&& CHUNKF_START_FILE = 0) ∧
      (∀ d t, file_encoder.new_stream d t = (d, t))) ∧
    (pcmrec_record file_encoder 0 "a.wav" empty_samples_ring).map
        (fun t => (t.is_recording, t.enc_rd_index, t.enc_wr_index,
          (t.chunks t.enc_rd_index).flags &&& CHUNKF_START_FILE,
          (t.chunks t.enc_wr_index).flags &&& CHUNKF_START_FILE))
      = some (true, 0, 2, 0, CHUNKF_START_FILE) := by
  refine ⟨⟨rfl, rfl, by decide, ?_, fun _ _ => rfl⟩, ?_⟩
  · intro j
    show ((prerecorded_ring 44100 (1 * HZ) 0).chunks j).flags &&& CHUNKF_START_FILE = 0
    unfold prerecorded_ring
    simp only []
    decide
  · rw [pcmrec_record_eq]
    decide

/-- C38 (what the code does): for every idle state with `errors = 0` whose
ring indices are valid and whose ring chunks carry no start-of-file flag, with
a well-formed filename queue of at least two slots, a name of at most
`MAX_PATH` characters and an encoder callback that changes nothing,
Record(filename) returns whatever the fuel and ends with `is_recording = true`,
`is_paused = false`, `dma_lock = false`, `warnings = 0`, `errors = 0` and the
filename queue holding exactly the given name; the write index is unchanged
and the read index is where the walk over the pre-recorded chunks put it. The
start-of-file flag is on the chunk at the read index when the walk counted
samples (`pre_sample_ticks > 0`), and on the chunk at the write index
otherwise, which is the chunk at the read index only if the walk selected no
chunk; when the pre-record duration is zero the read index equals the write
index and the chunk there carries the flag. -/
theorem C38_record_from_idle (enc : Encoder) (hcb : ∀ d t, enc.new_stream d t = (d, t))
    (fuel : Nat) (name : String) (s : PcmRec)
    (hidle : s.is_recording = false) (herr : s.errors = 0) (hv : ring_valid s)
    (hclean : ∀ j : Int, 0 ≤ j → j < s.enc_num_chunks →
      (s.chunks j).flags &&& CHUNKF_START_FILE = 0)
    (hq : fnq_well_formed s) (hc : 2 ≤ fnq_slots s) (hname : name.length ≤ MAX_PATH) :
    ∃ s1, pcmrec_record enc fuel name s = some s1 ∧
      s1.is_recording = true ∧ s1.is_paused = false ∧ s1.dma_lock = false ∧
      s1.warnings = 0 ∧ s1.errors = 0 ∧
      fnq_list s1 = [name] ∧
      s1.enc_wr_index = s.enc_wr_index ∧
      s1.enc_rd_index = (record_idle_prepare s).1.enc_rd_index ∧
      (s1.chunks (if (record_idle_prepare s).2 > 0 then s1.enc_rd_index
        else s1.enc_wr_index)).flags &&& CHUNKF_START_FILE = CHUNKF_START_FILE ∧
      ((record_idle_prepare s).2 > 0 ∨ s1.enc_rd_index = s1.enc_wr_index →
        (s1.chunks s1.enc_rd_index).flags &&& CHUNKF_START_FILE = CHUNKF_START_FILE) ∧
      (s.pre_record_ticks = 0 → s1.enc_rd_index = s1.enc_wr_index) := by
  obtain ⟨p1, p2, p3, p4, p5, p6, p7, p8⟩ := record_idle_prepare_effect s hv
  obtain ⟨m1, m2, m3, m4, m5, m6⟩ := record_idle_prepare_more s
  obtain ⟨hs, hrdq, hwrq⟩ := fnq_well_formed_parts s hq
  have hslots : fnq_slots s = s.fnq_size / 260 := by unfold fnq_slots; rw [MAX_PATH_cast]
  rw [hslots] at hc
  obtain ⟨P, hP⟩ : ∃ P, P = (record_idle_prepare s).1 := ⟨_, rfl⟩
  obtain ⟨tk, htk⟩ : ∃ tk, tk = (record_idle_prepare s).2 := ⟨_, rfl⟩
  rw [← hP] at p1 p2 p3 p4 p5 p6 p7 p8 m1 m2 m3 m4 m5 m6 ⊢
  rw [← htk] at m6 ⊢
  obtain ⟨F, hF⟩ : ∃ F, F = CHUNKF_START_FILE ||| (if tk > 0 then CHUNKF_PRERECORD else 0) :=
    ⟨_, rfl⟩
  have hFp : (F &&& CHUNKF_PRERECORD ≠ 0) ↔ tk > 0 := by
    rw [hF]
    split_ifs with h
    · exact ⟨fun _ => h, fun _ => by decide⟩
    · exact ⟨fun h2 => absurd h2 (by decide), fun h2 => absurd h2 h⟩
  have he : F &&& CHUNKF_END_FILE = 0 := by
    rw [hF]; split_ifs <;> decide
  have hst : F &&& CHUNKF_START_FILE ≠ 0 := by
    rw [hF]; split_ifs <;> decide
  have hroom : pcmrec_fnq_is_full P = false :=
    fnq_empty_not_full P (by rw [p5, p6]) (by rw [p7, MAX_PATH_cast]; omega)
  have hstale : (P.chunks (if F &&& CHUNKF_PRERECORD ≠ 0 then P.enc_rd_index
      else P.enc_wr_index)).flags &&& CHUNKF_START_FILE = 0 := by
    rw [p1]
    split_ifs
    · exact hclean _ p4.1 p4.2
    · rw [p3]; exact hclean _ hv.2.2.2.1 hv.2.2.2.2
  obtain ⟨e, hrun, hfr, hflag⟩ :=
    new_stream_start_identity enc hcb fuel name F P.enc_rd_index P he hst hstale hroom
  have hrec : pcmrec_record enc fuel name s = some (pcmrec_fnq_add_filename name e).2 := by
    rw [pcmrec_record_eq, if_neg (by rw [hidle]; simp), ← hP, ← htk, ← hF]
    exact hrun
  have hfa := fnq_add_frame name e
  obtain ⟨T, hT⟩ : ∃ T, T = (pcmrec_fnq_add_filename name e).2 := ⟨_, rfl⟩
  rw [← hT] at hrec hfa
  have e1 : e.is_recording = P.is_recording ∧ e.is_paused = P.is_paused ∧
      e.dma_lock = P.dma_lock ∧ e.warnings = P.warnings ∧ e.errors = P.errors ∧
      e.enc_wr_index = P.enc_wr_index ∧ e.enc_rd_index = P.enc_rd_index ∧
      e.fnq_rd_pos = P.fnq_rd_pos ∧ e.fnq_wr_pos = P.fnq_wr_pos ∧ e.fnq_size = P.fnq_size := by
    rw [hfr]; exact ⟨rfl, rfl, rfl, rfl, rfl, rfl, rfl, rfl, rfl, rfl⟩
  obtain ⟨a1, a2, a3, a4, a5, a6, a7, a8, a9, a10⟩ := e1
  have t1 : T.is_recording = e.is_recording ∧ T.is_paused = e.is_paused ∧
      T.dma_lock = e.dma_lock ∧ T.warnings = e.warnings ∧ T.errors = e.errors ∧
      T.enc_wr_index = e.enc_wr_index ∧ T.enc_rd_index = e.enc_rd_index ∧
      T.chunks = e.chunks := by
    rw [hfa]; exact ⟨rfl, rfl, rfl, rfl, rfl, rfl, rfl, rfl⟩
  obtain ⟨b1, b2, b3, b4, b5, b6, b7, b8⟩ := t1
  have hwfe : fnq_well_formed e := by
    apply fnq_well_formed_of_parts
    rw [a8, a9, a10, p5, p6, p7]
    exact ⟨hs, hwrq, hwrq⟩
  have hsle : 2 ≤ fnq_slots e := by
    unfold fnq_slots; rw [a10, p7, MAX_PATH_cast]; exact hc
  have hlist : fnq_list T = [name] := by
    rw [hT, (fnq_add_list name e hwfe hsle).2, fnq_list_empty e (by rw [a8, a9, p5, p6]),
      strncpy_short name MAX_PATH hname]
    unfold spec_fifo_add
    rw [if_pos (by simp; omega)]
    rfl
  have hrd : T.enc_rd_index = P.enc_rd_index := by rw [b7, a7]
  have hwr : T.enc_wr_index = P.enc_wr_index := by rw [b6, a6]
  have hfl : (T.chunks (if tk > 0 then T.enc_rd_index else T.enc_wr_index)).flags
      &&& CHUNKF_START_FILE = CHUNKF_START_FILE := by
    rw [b8, hrd, hwr]
    by_cases h : tk > 0
    · rw [if_pos h]
      rw [if_pos (hFp.mpr h)] at hflag
      exact hflag
    · rw [if_neg h]
      rw [if_neg (fun h2 => h (hFp.mp h2))] at hflag
      exact hflag
  refine ⟨T, hrec, by rw [b1, a1, p8], by rw [b2, a2, m1], by rw [b3, a3, m2],
    by rw [b4, a4, m3], by rw [b5, a5, m5, herr], hlist, by rw [hwr, p3], hrd, hfl, ?_, ?_⟩
  · intro h
    rcases h with h | h
    · rw [if_pos h] at hfl; exact hfl
    · by_cases h2 : tk > 0
      · rw [if_pos h2] at hfl; exact hfl
      · rw [if_neg h2, ← h] at hfl; exact hfl
  · intro h0
    rw [hrd, hwr, (m6 h0).1, p3]

/-- Witness of C38: an idle recorder without pre-recording on which a warning
is up, and the file encoder: Record clears the warning, queues the name and
marks the chunk at the read index, which is the write index. -/
theorem C38_record_from_idle_witness :
    (∀ d t, file_encoder.new_stream d t = (d, t)) ∧
    warned_idle.is_recording = false ∧ warned_idle.errors = 0 ∧ ring_valid warned_idle ∧
    (∀ j : Int, 0 ≤ j → j < warned_idle.enc_num_chunks →
      (warned_idle.chunks j).flags &&& CHUNKF_START_FILE = 0) ∧
    fnq_well_formed warned_idle ∧ 2 ≤ fnq_slots warned_idle ∧ "a.wav".length ≤ MAX_PATH ∧
    ∃ s1, pcmrec_record file_encoder 0 "a.wav" warned_idle = some s1 ∧
      s1.is_recording = true ∧ s1.is_paused = false ∧ s1.dma_lock = false ∧
      s1.warnings = 0 ∧ s1.errors = 0 ∧
      fnq_list s1 = ["a.wav"] ∧
      s1.enc_wr_index = warned_idle.enc_wr_index ∧
      s1.enc_rd_index = (record_idle_prepare warned_idle).1.enc_rd_index ∧
      (s1.chunks (if (record_idle_prepare warned_idle).2 > 0 then s1.enc_rd_index
        else s1.enc_wr_index)).flags &&& CHUNKF_START_FILE = CHUNKF_START_FILE ∧
      ((record_idle_prepare warned_idle).2 > 0 ∨ s1.enc_rd_index = s1.enc_wr_index →
        (s1.chunks s1.enc_rd_index).flags &&& CHUNKF_START_FILE = CHUNKF_START_FILE) ∧
      (warned_idle.pre_record_ticks = 0 → s1.enc_rd_index = s1.enc_wr_index) :=
  ⟨fun _ _ => rfl, rfl, rfl, by decide,
   fun _ _ _ => show (0 : Nat) &&& CHUNKF_START_FILE = 0 from by decide,
   by decide, by decide, by decide,
   C38_record_from_idle file_encoder (fun _ _ => rfl) 0 "a.wav" warned_idle rfl rfl
     (by decide) (fun _ _ _ => show (0 : Nat) &&& CHUNKF_START_FILE = 0 from by decide)
     (by decide) (by decide) (by decide)⟩

theorem error_flag_clear (x : Nat) (h : x &&& CHUNKF_ERROR = 0) : ¬ long_negative x := by
  unfold long_negative ULONG_RANGE
  have h1 : x &&& 2 ^ 31 = (x.testBit 31).toNat * 2 ^ 31 := Nat.and_two_pow x 31
  have h2 : CHUNKF_ERROR = 2 ^ 31 := by decide
  rw [h2, h1] at h
  have h3 : x.testBit 31 = false := by
    cases hb : x.testBit 31
    · rfl
    · rw [hb] at h
      exact absurd h (by decide)
  rw [Nat.testBit_to_div_mod] at h3
  have h4 : x / 2 ^ 31 % 2 ≠ 1 := by simpa using h3
  omega

theorem quiet_callback (enc : Encoder) (hq : file_event_quiet enc) (ev : enc_events)
    (t : PcmRec) :
    (∀ j, ((enc_events_callback enc ev t).chunks j).flags = (t.chunks j).flags) ∧
    ring3 (enc_events_callback enc ev t) = ring3 t ∧
    fnq3 (enc_events_callback enc ev t) = fnq3 t ∧
    (enc_events_callback enc ev t).errors = t.errors ∧
    (enc_events_callback enc ev t).rec_fdata.chunk = t.rec_fdata.chunk ∧
    (enc_events_callback enc ev t).rec_fdata.rec_file = (enc.file_event ev t).rec_fdata.rec_file :=
  ⟨(hq ev t).1, (hq ev t).2.1, (hq ev t).2.2.1, (hq ev t).2.2.2.1, (hq ev t).2.2.2.2, rfl⟩

theorem flags_set_flags (s : PcmRec) (i : Int) (f : Nat) (j : Int) :
    ((set_flags s i f).chunks j).flags = if j = i then f else (s.chunks j).flags := by
  unfold set_flags set_chunk
  by_cases h : j = i
  · simp only [h, if_true]
  · simp only [h, if_false]

theorem update_sizes_frame (a b : Nat) (t : PcmRec) :
    (pcmrec_update_sizes a b t).chunks = t.chunks ∧
    (pcmrec_update_sizes a b t).errors = t.errors ∧
    ring3 (pcmrec_update_sizes a b t) = ring3 t ∧
    fnq3 (pcmrec_update_sizes a b t) = fnq3 t ∧
    (pcmrec_update_sizes a b t).rec_fdata = t.rec_fdata := by
  unfold pcmrec_update_sizes
  simp only []
  split_ifs <;> exact ⟨rfl, rfl, rfl, rfl, rfl⟩

theorem clean_start_file_pull (t : PcmRec) (he : t.errors = 0)
    (hne : pcmrec_fnq_is_empty t = false) (hfd : t.rec_fdata.rec_file < 0) :
    (pcmrec_start_file_pull t.rec_fdata.rec_file t).errors = 0 ∧
    (pcmrec_start_file_pull t.rec_fdata.rec_file t).chunks = t.chunks ∧
    ring3 (pcmrec_start_file_pull t.rec_fdata.rec_file t) = ring3 t ∧
    fnq3 (pcmrec_start_file_pull t.rec_fdata.rec_file t) =
      (fnq_advance t.fnq_size t.fnq_rd_pos, t.fnq_wr_pos, t.fnq_size) ∧
    (pcmrec_start_file_pull t.rec_fdata.rec_file t).rec_fdata.chunk = t.rec_fdata.chunk := by
  have hfd2 : ¬ (t.rec_fdata.rec_file ≥ 0) := by omega
  unfold pcmrec_start_file_pull pcmrec_fnq_get_filename
  simp only [hne, Bool.false_eq_true, if_false, not_true_eq_false]
  simp only [he, ne_eq, not_true_eq_false, if_false, hfd2]
  exact ⟨trivial, trivial, rfl, rfl, trivial⟩

/-- A file start in a state without error, with a name in the queue, no file
open and no error flag on the current chunk leaves no error: the name is
pulled, the start flag of the current chunk is cleared, no other flag
changes. -/
theorem clean_start_file (enc : Encoder) (hq : file_event_quiet enc) (t : PcmRec)
    (he : t.errors = 0) (hne : pcmrec_fnq_is_empty t = false) (hfd : t.rec_fdata.rec_file < 0)
    (hfl : (t.chunks t.rec_fdata.chunk).flags &&& CHUNKF_ERROR = 0) :
    (pcmrec_start_file enc t).errors = 0 ∧
    ring3 (pcmrec_start_file enc t) = ring3 t ∧
    fnq3 (pcmrec_start_file enc t) =
      (fnq_advance t.fnq_size t.fnq_rd_pos, t.fnq_wr_pos, t.fnq_size) ∧
    (pcmrec_start_file enc t).rec_fdata.chunk = t.rec_fdata.chunk ∧
    (∀ j, ((pcmrec_start_file enc t).chunks j).flags =
      if j = t.rec_fdata.chunk then (t.chunks j).flags &&& unot CHUNKF_START_FILE
      else (t.chunks j).flags) := by
  obtain ⟨p1, p2, p3, p4, p5⟩ := clean_start_file_pull t he hne hfd
  obtain ⟨p, hp⟩ : ∃ p, p = pcmrec_start_file_pull t.rec_fdata.rec_file t := ⟨_, rfl⟩
  rw [← hp] at p1 p2 p3 p4 p5
  obtain ⟨c1, c2, c3, c4, c5, -⟩ := quiet_callback enc hq enc_events.ENC_START_FILE p
  obtain ⟨c, hc⟩ : ∃ c, c = enc_events_callback enc enc_events.ENC_START_FILE p := ⟨_, rfl⟩
  rw [← hc] at c1 c2 c3 c4 c5
  have hsf : pcmrec_start_file enc t =
      pcmrec_start_file_finish t.rec_fdata.new_enc_size t.rec_fdata.new_num_pcm
        t.rec_fdata.rec_file c := by
    rw [hc, hp]; rfl
  have hce : c.errors = 0 := c4.trans p1
  have hcc : c.rec_fdata.chunk = t.rec_fdata.chunk := c5.trans p5
  have hcf : ∀ j, (c.chunks j).flags = (t.chunks j).flags := by
    intro j
    rw [c1 j, p2]
  have hno : ¬ (c.errors = 0 ∧ (c.chunks c.rec_fdata.chunk).flags &&& CHUNKF_ERROR ≠ 0) := by
    rw [hcc, hcf]
    exact fun h => h.2 hfl
  obtain ⟨u1, u2, u3, u4, u5⟩ := update_sizes_frame t.rec_fdata.new_enc_size
    t.rec_fdata.new_num_pcm c
  rw [hsf]
  unfold pcmrec_start_file_finish
  simp only []
  rw [if_neg hno, if_neg (by simp [hce])]
  generalize pcmrec_update_sizes t.rec_fdata.new_enc_size t.rec_fdata.new_num_pcm c = u
    at u1 u2 u3 u4 u5 ⊢
  have huc : u.rec_fdata.chunk = t.rec_fdata.chunk := by rw [u5]; exact hcc
  refine ⟨u2.trans hce, u3.trans (c2.trans p3), u4.trans (c3.trans p4), huc, ?_⟩
  intro j
  rw [flags_set_flags, huc, u1, hcf, hcf]
  split_ifs with hj
  · rw [hj]
  · rfl

/-- A chunk write in a state without error whose current chunk carries no
error flag leaves no error and changes no flag. -/
theorem clean_write_chunk (enc : Encoder) (hq : file_event_quiet enc) (t : PcmRec)
    (he : t.errors = 0) (hfl : (t.chunks t.rec_fdata.chunk).flags &&& CHUNKF_ERROR = 0) :
    (pcmrec_write_chunk enc t).errors = 0 ∧
    ring3 (pcmrec_write_chunk enc t) = ring3 t ∧
    fnq3 (pcmrec_write_chunk enc t) = fnq3 t ∧
    (pcmrec_write_chunk enc t).rec_fdata.chunk = t.rec_fdata.chunk ∧
    (∀ j, ((pcmrec_write_chunk enc t).chunks j).flags = (t.chunks j).flags) ∧
    (pcmrec_write_chunk enc t).rec_fdata.rec_file =
      (enc.file_event enc_events.ENC_WRITE_CHUNK t).rec_fdata.rec_file := by
  obtain ⟨c1, c2, c3, c4, c5, c6⟩ := quiet_callback enc hq enc_events.ENC_WRITE_CHUNK t
  obtain ⟨c, hc⟩ : ∃ c, c = enc_events_callback enc enc_events.ENC_WRITE_CHUNK t := ⟨_, rfl⟩
  rw [← hc] at c1 c2 c3 c4 c5 c6
  have hw : pcmrec_write_chunk enc t =
      (if ¬ long_negative (c.chunks c.rec_fdata.chunk).flags then
        pcmrec_update_sizes t.rec_fdata.new_enc_size t.rec_fdata.new_num_pcm c
      else if c.errors = 0 then { c with errors := c.errors ||| PCMREC_E_ENCODER } else c) := by
    have h0 : ¬ (t.errors ≠ 0) := by simp [he]
    have ha : (if t.errors ≠ 0 then
        set_flags t t.rec_fdata.chunk ((t.chunks t.rec_fdata.chunk).flags ||| CHUNKF_ERROR)
      else t) = t := if_neg h0
    rw [hc]
    unfold pcmrec_write_chunk
    simp only []
    rw [ha]
  have hpos : ¬ long_negative (c.chunks c.rec_fdata.chunk).flags := by
    rw [c5, c1]
    exact error_flag_clear _ hfl
  obtain ⟨u1, u2, u3, u4, u5⟩ := update_sizes_frame t.rec_fdata.new_enc_size
    t.rec_fdata.new_num_pcm c
  rw [hw, if_pos hpos]
  refine ⟨u2.trans (c4.trans he), u3.trans c2, u4.trans c3, ?_, ?_, ?_⟩
  · rw [u5]; exact c5
  · intro j
    rw [u1]; exact c1 j
  · rw [u5]; exact c6

/-- A file end in a state without error whose current chunk carries no error
flag leaves no error: the end flag of the current chunk is cleared, no other
flag changes, and the handle is as the encoder left it. -/
theorem clean_end_file (enc : Encoder) (hq : file_event_quiet enc) (t : PcmRec)
    (he : t.errors = 0) (hfl : (t.chunks t.rec_fdata.chunk).flags &&& CHUNKF_ERROR = 0) :
    (pcmrec_end_file enc t).errors = 0 ∧
    ring3 (pcmrec_end_file enc t) = ring3 t ∧
    fnq3 (pcmrec_end_file enc t) = fnq3 t ∧
    (pcmrec_end_file enc t).rec_fdata.chunk = t.rec_fdata.chunk ∧
    (∀ j, ((pcmrec_end_file enc t).chunks j).flags =
      if j = t.rec_fdata.chunk then (t.chunks j).flags &&& unot CHUNKF_END_FILE
      else (t.chunks j).flags) ∧
    (pcmrec_end_file enc t).rec_fdata.rec_file =
      (enc.file_event enc_events.ENC_END_FILE t).rec_fdata.rec_file := by
  obtain ⟨c1, c2, c3, c4, c5, c6⟩ := quiet_callback enc hq enc_events.ENC_END_FILE t
  obtain ⟨c, hc⟩ : ∃ c, c = enc_events_callback enc enc_events.ENC_END_FILE t := ⟨_, rfl⟩
  rw [← hc] at c1 c2 c3 c4 c5 c6
  have hce : c.errors = 0 := c4.trans he
  have hcf : (c.chunks c.rec_fdata.chunk).flags &&& CHUNKF_ERROR = 0 := by
    rw [c5, c1]; exact hfl
  obtain ⟨u1, u2, u3, u4, u5⟩ := update_sizes_frame t.rec_fdata.new_enc_size
    t.rec_fdata.new_num_pcm c
  have hw : pcmrec_end_file enc t =
      set_flags (pcmrec_update_sizes t.rec_fdata.new_enc_size t.rec_fdata.new_num_pcm c)
        (pcmrec_update_sizes t.rec_fdata.new_enc_size t.rec_fdata.new_num_pcm c).rec_fdata.chunk
        (((pcmrec_update_sizes t.rec_fdata.new_enc_size t.rec_fdata.new_num_pcm c).chunks
          (pcmrec_update_sizes t.rec_fdata.new_enc_size t.rec_fdata.new_num_pcm c).rec_fdata.chunk).flags
          &&& unot CHUNKF_END_FILE) := by
    unfold pcmrec_end_file
    simp only [← hc]
    rw [if_pos hce, if_neg (not_not.mpr hcf), if_neg (by rw [u2]; simp [hce])]
  rw [hw]
  generalize pcmrec_update_sizes t.rec_fdata.new_enc_size t.rec_fdata.new_num_pcm c = u
    at u1 u2 u3 u4 u5 ⊢
  have huc : u.rec_fdata.chunk = t.rec_fdata.chunk := by rw [u5]; exact c5
  refine ⟨u2.trans hce, u3.trans c2, u4.trans c3, huc, ?_, ?_⟩
  · intro j
    rw [flags_set_flags, huc, u1, c1, c1]
    split_ifs with hj
    · rw [hj]
    · rfl
  · show u.rec_fdata.rec_file = _
    rw [u5]; exact c6

theorem land_land_zero (x m e : Nat) (h : x &&& e = 0) : (x &&& m) &&& e = 0 := by
  rw [Nat.land_assoc, Nat.land_comm m e, ← Nat.land_assoc, h, Nat.zero_and]

theorem prepare_frame (start_tick : Nat) (v : flush_vars) (t : PcmRec) :
    (flush_pass_prepare start_tick v t).chunks = t.chunks ∧
    (flush_pass_prepare start_tick v t).errors = t.errors ∧
    ring3 (flush_pass_prepare start_tick v t) = ring3 t ∧
    fnq3 (flush_pass_prepare start_tick v t) = fnq3 t ∧
    (flush_pass_prepare start_tick v t).rec_fdata.chunk = t.enc_rd_index ∧
    (flush_pass_prepare start_tick v t).rec_fdata.rec_file = t.rec_fdata.rec_file := by
  unfold flush_pass_prepare
  simp only []
  split_ifs <;> exact ⟨rfl, rfl, rfl, rfl, rfl, rfl⟩

/-- The events of one pass of the flush loop over a chunk that carries no
error flag, in a state without error, where a start marker finds a name in the
queue and no file open: no error arises, only the flags of the current chunk
change, a start marker pulls one name, and a file is open afterwards only if
`file_open_after` says so. -/
theorem clean_flush_events (enc : Encoder) (hq : file_event_quiet enc)
    (hh : file_handle_protocol enc) (p : PcmRec) (he : p.errors = 0)
    (hfl : (p.chunks p.rec_fdata.chunk).flags &&& CHUNKF_ERROR = 0)
    (hst : (p.chunks p.rec_fdata.chunk).flags &&& CHUNKF_START_FILE ≠ 0 →
      pcmrec_fnq_is_empty p = false ∧ p.rec_fdata.rec_file < 0) :
    (flush_pass_events enc p).errors = 0 ∧
    ring3 (flush_pass_events enc p) = ring3 p ∧
    fnq3 (flush_pass_events enc p) =
      (if (p.chunks p.rec_fdata.chunk).flags &&& CHUNKF_START_FILE ≠ 0
       then (fnq_advance p.fnq_size p.fnq_rd_pos, p.fnq_wr_pos, p.fnq_size) else fnq3 p) ∧
    (∀ j, j ≠ p.rec_fdata.chunk →
      ((flush_pass_events enc p).chunks j).flags = (p.chunks j).flags) ∧
    (0 ≤ (flush_pass_events enc p).rec_fdata.rec_file →
      file_open_after (decide (0 ≤ p.rec_fdata.rec_file))
        (p.chunks p.rec_fdata.chunk).flags = true) := by
  have kE : unot CHUNKF_START_FILE &&& CHUNKF_END_FILE = CHUNKF_END_FILE := by decide
  obtain ⟨a, ha⟩ : ∃ a, a = (if (p.chunks p.rec_fdata.chunk).flags &&& CHUNKF_START_FILE ≠ 0
      then pcmrec_start_file enc p else p) := ⟨_, rfl⟩
  have hA : a.errors = 0 ∧ ring3 a = ring3 p ∧
      fnq3 a = (if (p.chunks p.rec_fdata.chunk).flags &&& CHUNKF_START_FILE ≠ 0
        then (fnq_advance p.fnq_size p.fnq_rd_pos, p.fnq_wr_pos, p.fnq_size) else fnq3 p) ∧
      a.rec_fdata.chunk = p.rec_fdata.chunk ∧
      (∀ j, j ≠ p.rec_fdata.chunk → (a.chunks j).flags = (p.chunks j).flags) ∧
      (a.chunks p.rec_fdata.chunk).flags &&& CHUNKF_ERROR = 0 ∧
      (a.chunks p.rec_fdata.chunk).flags &&& CHUNKF_END_FILE =
        (p.chunks p.rec_fdata.chunk).flags &&& CHUNKF_END_FILE ∧
      ((p.chunks p.rec_fdata.chunk).flags &&& CHUNKF_START_FILE = 0 →
        a.rec_fdata.rec_file = p.rec_fdata.rec_file) := by
    by_cases hs : (p.chunks p.rec_fdata.chunk).flags &&& CHUNKF_START_FILE ≠ 0
    · rw [if_pos hs] at ha
      rw [if_pos hs, ha]
      obtain ⟨s1, s2, s3, s4, s5⟩ := clean_start_file enc hq p he (hst hs).1 (hst hs).2 hfl
      refine ⟨s1, s2, s3, s4, ?_, ?_, ?_, fun h0 => absurd h0 hs⟩
      · intro j hj
        rw [s5, if_neg hj]
      · rw [s5, if_pos rfl]
        exact land_land_zero _ _ _ hfl
      · rw [s5, if_pos rfl]
        exact land_keep _ _ _ kE
    · rw [if_neg hs] at ha
      rw [if_neg hs, ha]
      exact ⟨he, rfl, rfl, rfl, fun _ _ => rfl, hfl, rfl, fun _ => rfl⟩
  obtain ⟨a1, a2, a3, a4, a5, a6, a7, a8⟩ := hA
  obtain ⟨w1, w2, w3, w4, w5, w6⟩ := clean_write_chunk enc hq a a1 (by rw [a4]; exact a6)
  obtain ⟨b, hb⟩ : ∃ b, b = pcmrec_write_chunk enc a := ⟨_, rfl⟩
  rw [← hb] at w1 w2 w3 w4 w5 w6
  have hev : flush_pass_events enc p =
      (if (b.chunks b.rec_fdata.chunk).flags &&& CHUNKF_END_FILE ≠ 0 then
        pcmrec_end_file enc b else b) := by
    rw [hb, ha]; rfl
  have hbc : b.rec_fdata.chunk = p.rec_fdata.chunk := w4.trans a4
  have hbE : (b.chunks b.rec_fdata.chunk).flags &&& CHUNKF_END_FILE =
      (p.chunks p.rec_fdata.chunk).flags &&& CHUNKF_END_FILE := by
    rw [hbc, w5, a7]
  have hbR : (b.chunks b.rec_fdata.chunk).flags &&& CHUNKF_ERROR = 0 := by
    rw [hbc, w5]; exact a6
  rw [hev]
  by_cases hE : (b.chunks b.rec_fdata.chunk).flags &&& CHUNKF_END_FILE ≠ 0
  · rw [if_pos hE]
    obtain ⟨e1, e2, e3, e4, e5, e6⟩ := clean_end_file enc hq b w1 hbR
    refine ⟨e1, e2.trans (w2.trans a2), e3.trans (w3.trans a3), ?_, ?_⟩
    · intro j hj
      rw [e5, if_neg (by rw [hbc]; exact hj), w5]
      exact a5 j hj
    · intro h0
      rw [e6] at h0
      have := hh.1 b
      omega
  · rw [if_neg hE]
    refine ⟨w1, w2.trans a2, w3.trans a3, ?_, ?_⟩
    · intro j hj
      rw [w5]
      exact a5 j hj
    · intro h0
      rw [hbE] at hE
      unfold file_open_after
      rw [if_neg hE]
      by_cases hs : (p.chunks p.rec_fdata.chunk).flags &&& CHUNKF_START_FILE ≠ 0
      · rw [if_pos hs]
      · rw [if_neg hs]
        rw [w6] at h0
        have ha0 : 0 ≤ a.rec_fdata.rec_file := by
          by_contra hneg
          have := hh.2 a (by omega)
          omega
        rw [a8 (by simpa using hs)] at ha0
        exact decide_eq_true ha0

/-- One pass of the flush loop under the conditions of `clean_flush_events`:
the loop is not left, the read index moves one slot on, and the rest is as the
events leave it. -/
theorem clean_flush_body (enc : Encoder) (hq : file_event_quiet enc)
    (hh : file_handle_protocol enc) (N : Int) (start_tick : Nat) (v : flush_vars) (t : PcmRec)
    (he : t.errors = 0)
    (hfl : (t.chunks t.enc_rd_index).flags &&& CHUNKF_ERROR = 0)
    (hst : (t.chunks t.enc_rd_index).flags &&& CHUNKF_START_FILE ≠ 0 →
      pcmrec_fnq_is_empty t = false ∧ t.rec_fdata.rec_file < 0) :
    (pcmrec_flush_body enc N start_tick v t).1 = false ∧
    (pcmrec_flush_body enc N start_tick v t).2.2.errors = 0 ∧
    ring3 (pcmrec_flush_body enc N start_tick v t).2.2 =
      (INC_ENC_INDEX t.enc_num_chunks t.enc_rd_index, t.enc_wr_index, t.enc_num_chunks) ∧
    fnq3 (pcmrec_flush_body enc N start_tick v t).2.2 =
      (if (t.chunks t.enc_rd_index).flags &&& CHUNKF_START_FILE ≠ 0
       then (fnq_advance t.fnq_size t.fnq_rd_pos, t.fnq_wr_pos, t.fnq_size) else fnq3 t) ∧
    (∀ j, j ≠ t.enc_rd_index →
      ((pcmrec_flush_body enc N start_tick v t).2.2.chunks j).flags = (t.chunks j).flags) ∧
    (0 ≤ (pcmrec_flush_body enc N start_tick v t).2.2.rec_fdata.rec_file →
      file_open_after (decide (0 ≤ t.rec_fdata.rec_file))
        (t.chunks t.enc_rd_index).flags = true) := by
  obtain ⟨p1, p2, p3, p4, p5, p6⟩ := prepare_frame start_tick v t
  obtain ⟨q1, q2, q3⟩ := fnq3_fields _ _ p4
  have hemp : pcmrec_fnq_is_empty (flush_pass_prepare start_tick v t) = pcmrec_fnq_is_empty t :=
    (fnq3_count _ _ p4).2.2.1
  obtain ⟨e1, e2, e3, e4, e5⟩ := clean_flush_events enc hq hh (flush_pass_prepare start_tick v t)
    (p2.trans he) (by rw [p5, p1]; exact hfl)
    (by rw [p5, p1, hemp, p6]; exact hst)
  rw [p5, p1] at e3 e4 e5
  rw [q1, q2, q3, p4] at e3
  rw [p6] at e5
  obtain ⟨r1, r2, r3⟩ := ring3_fields _ _ (e2.trans p3)
  rw [flush_body_break, flush_body_state]
  generalize flush_pass_events enc (flush_pass_prepare start_tick v t) = e
    at e1 e2 e3 e4 e5 r1 r2 r3 ⊢
  refine ⟨by simp [e1], e1, ?_, e3, e4, e5⟩
  show (INC_ENC_INDEX e.enc_num_chunks e.enc_rd_index, e.enc_wr_index, e.enc_num_chunks) = _
  rw [r1, r2, r3]

theorem emod_shift_ne (n i d : Int) (hi : 0 ≤ i ∧ i < n) (hd : 0 < d ∧ d < n) :
    (i + d) % n ≠ i := by
  by_cases h : i + d < n
  · rw [Int.emod_eq_of_lt (by omega) h]
    omega
  · rw [show i + d = (i + d - n) + n by omega, Int.add_emod_self,
      Int.emod_eq_of_lt (by omega) (by omega)]
    omega

/-- The slots that follow a slot `i` in ring order, fewer than the ring has
besides `i`, differ from `i`. -/
theorem ready_slots_not_mem (n i : Int) (k : Nat) (hi : 0 ≤ i ∧ i < n) (hk : (k : Int) + 1 < n)
    (j : Int) (hj : j ∈ ready_slots n k (INC_ENC_INDEX n i)) : j ≠ i := by
  have hr := INC_ENC_INDEX_range n i (by omega) hi.1
  rw [ready_slots_eq_range n k _ hr.1 hr.2] at hj
  obtain ⟨m, hm, rfl⟩ := List.mem_map.mp hj
  have hm2 : m < k := List.mem_range.mp hm
  have := INC_ENC_INDEX_add_emod n i ((m : Int) + 1) hi
  rw [show (m : Int) + 1 - 1 = (m : Int) by omega] at this
  show (INC_ENC_INDEX n i + (m : Int)) % n ≠ i
  rw [this]
  exact emod_shift_ne n i _ hi ⟨by omega, by omega⟩

theorem ready_flags_cons (t : PcmRec) (h1 : 1 ≤ num_ready t) :
    ready_flags t = (t.chunks t.enc_rd_index).flags ::
      (ready_slots t.enc_num_chunks ((num_ready t).toNat - 1)
        (INC_ENC_INDEX t.enc_num_chunks t.enc_rd_index)).map (fun j => (t.chunks j).flags) := by
  obtain ⟨k, hk⟩ : ∃ k : Nat, (num_ready t).toNat = k + 1 := ⟨(num_ready t).toNat - 1, by omega⟩
  unfold ready_flags ready_chunks
  rw [hk, List.map_map]
  rfl

theorem ready_flags_after (t u : PcmRec) (hv : ring_valid t) (h1 : 1 ≤ num_ready t)
    (hr : ring3 u =
      (INC_ENC_INDEX t.enc_num_chunks t.enc_rd_index, t.enc_wr_index, t.enc_num_chunks))
    (hfl : ∀ j, j ≠ t.enc_rd_index → (u.chunks j).flags = (t.chunks j).flags) :
    num_ready u = num_ready t - 1 ∧
    ready_flags u =
      (ready_slots t.enc_num_chunks ((num_ready t).toNat - 1)
        (INC_ENC_INDEX t.enc_num_chunks t.enc_rd_index)).map (fun j => (t.chunks j).flags) := by
  have r1 : u.enc_rd_index = INC_ENC_INDEX t.enc_num_chunks t.enc_rd_index :=
    congrArg (fun x => x.1) hr
  have r2 : u.enc_wr_index = t.enc_wr_index := congrArg (fun x => x.2.1) hr
  have r3 : u.enc_num_chunks = t.enc_num_chunks := congrArg (fun x => x.2.2) hr
  obtain ⟨hn, hn2, hrd, hwr⟩ := hv
  have hnr : num_ready u = num_ready t - 1 := by
    unfold num_ready at h1 ⊢
    rw [r1, r2, r3]
    unfold INC_ENC_INDEX
    simp only [] at h1 ⊢
    split_ifs at h1 ⊢ <;> omega
  have hlt : num_ready t < t.enc_num_chunks := by
    unfold num_ready
    simp only []
    split_ifs <;> omega
  refine ⟨hnr, ?_⟩
  unfold ready_flags ready_chunks
  rw [List.map_map, hnr, r1, r3]
  have e : (num_ready t - 1).toNat = (num_ready t).toNat - 1 := by omega
  rw [e]
  apply List.map_congr_left
  intro j hj
  exact hfl j (ready_slots_not_mem _ _ _ hrd (by omega) j hj)

theorem markers_nested_of_le (fl : List Nat) :
    ∀ (a b : Bool), (a = true → b = true) → markers_nested b fl = true →
      markers_nested a fl = true := by
  induction fl with
  | nil => intro a b _ _; rfl
  | cons f fl ih =>
    intro a b hab hb
    unfold markers_nested at hb ⊢
    rw [Bool.and_eq_true] at hb ⊢
    obtain ⟨h1, h2⟩ := hb
    refine ⟨?_, ih _ _ ?_ h2⟩
    · rw [Bool.or_eq_true] at h1 ⊢
      rcases h1 with h | h
      · exact Or.inl h
      · right
        cases a
        · rfl
        · rw [hab rfl] at h
          exact h
    · unfold file_open_after
      split_ifs
      · exact id
      · exact id
      · exact hab

theorem fnq_pull_wf (t u : PcmRec) (hwf : fnq_well_formed t)
    (hne : pcmrec_fnq_is_empty t = false)
    (hu : fnq3 u = (fnq_advance t.fnq_size t.fnq_rd_pos, t.fnq_wr_pos, t.fnq_size)) :
    fnq_well_formed u ∧ fnq_count u = fnq_count t - 1 := by
  obtain ⟨b1, b2, b3⟩ := (⟨congrArg (fun x => x.1) hu, congrArg (fun x => x.2.1) hu,
    congrArg (fun x => x.2.2) hu⟩ : u.fnq_rd_pos = _ ∧ u.fnq_wr_pos = _ ∧ u.fnq_size = _)
  obtain ⟨h1, ⟨h2, h3, h4⟩, h5, h6, h7⟩ := hwf
  rw [MAX_PATH_cast] at h1 h4 h7
  have hne2 : t.fnq_rd_pos ≠ t.fnq_wr_pos := by
    unfold pcmrec_fnq_is_empty at hne
    simpa using hne
  unfold fnq_well_formed fnq_count
  rw [b1, b2, b3, MAX_PATH_cast]
  unfold fnq_advance
  rw [MAX_PATH_cast]
  simp only []
  refine ⟨⟨h1, ⟨?_, ?_, ?_⟩, h5, h6, h7⟩, ?_⟩
  · split <;> omega
  · split <;> omega
  · split <;> omega
  · split <;> split <;> split <;> omega

theorem fnq_well_formed_congr (a b : PcmRec) (h : fnq3 a = fnq3 b) (hb : fnq_well_formed b) :
    fnq_well_formed a ∧ fnq_count a = fnq_count b := by
  obtain ⟨h1, h2, h3⟩ := fnq3_fields a b h
  unfold fnq_well_formed fnq_count
  rw [h1, h2, h3]
  exact ⟨hb, rfl⟩

theorem fnq_count_pos_not_empty (t : PcmRec) (h : 1 ≤ fnq_count t) :
    pcmrec_fnq_is_empty t = false := by
  unfold fnq_count at h
  rw [MAX_PATH_cast] at h
  simp only [] at h
  unfold pcmrec_fnq_is_empty
  rw [decide_eq_false_iff_not]
  intro he
  rw [he] at h
  simp at h

theorem start_markers_cons (f : Nat) (fl : List Nat) :
    start_markers (f :: fl) =
      (if f &&& CHUNKF_START_FILE ≠ 0 then 1 else 0) + start_markers fl := by
  unfold start_markers
  by_cases h : f &&& CHUNKF_START_FILE ≠ 0
  · rw [List.filter_cons_of_pos (by simpa using h), if_pos h, List.length_cons]
    omega
  · rw [List.filter_cons_of_neg (by simpa using h), if_neg h]
    omega

/-- One pass of the flush loop over ready chunks that are in step with the
recorder leaves no error, does not leave the loop, and leaves the remaining
ready chunks in step. -/
theorem flush_in_sync_step (enc : Encoder) (hq : file_event_quiet enc)
    (hh : file_handle_protocol enc) (N : Int) (start_tick : Nat) (v : flush_vars) (t : PcmRec)
    (hv : ring_valid t) (he : t.errors = 0) (hs : flush_in_sync t) (h1 : 1 ≤ num_ready t) :
    (pcmrec_flush_body enc N start_tick v t).1 = false ∧
    (pcmrec_flush_body enc N start_tick v t).2.2.errors = 0 ∧
    ring_valid (pcmrec_flush_body enc N start_tick v t).2.2 ∧
    flush_in_sync (pcmrec_flush_body enc N start_tick v t).2.2 ∧
    num_ready (pcmrec_flush_body enc N start_tick v t).2.2 = num_ready t - 1 := by
  obtain ⟨hwf, hne, hcnt, hnest⟩ := hs
  rw [ready_flags_cons t h1] at hne hcnt hnest
  obtain ⟨T, hT⟩ : ∃ T, T = (ready_slots t.enc_num_chunks ((num_ready t).toNat - 1)
      (INC_ENC_INDEX t.enc_num_chunks t.enc_rd_index)).map (fun j => (t.chunks j).flags) :=
    ⟨_, rfl⟩
  rw [← hT] at hne hcnt hnest
  have hfE : (t.chunks t.enc_rd_index).flags &&& CHUNKF_ERROR = 0 :=
    hne _ (List.mem_cons_self _ _)
  have hTE : no_error_flag T := fun f hf => hne f (List.mem_cons_of_mem _ hf)
  rw [start_markers_cons] at hcnt
  unfold markers_nested at hnest
  rw [Bool.and_eq_true, Bool.or_eq_true] at hnest
  obtain ⟨hn1, hn2⟩ := hnest
  have hcount0 : 0 ≤ (start_markers T : Int) := Int.ofNat_nonneg _
  have hst : (t.chunks t.enc_rd_index).flags &&& CHUNKF_START_FILE ≠ 0 →
      pcmrec_fnq_is_empty t = false ∧ t.rec_fdata.rec_file < 0 := by
    intro hS
    rw [if_pos hS] at hcnt
    refine ⟨fnq_count_pos_not_empty t (by push_cast at hcnt; omega), ?_⟩
    rcases hn1 with h | h
    · exact absurd (of_decide_eq_true h) hS
    · have : decide (0 ≤ t.rec_fdata.rec_file) = false := by simpa using h
      have := of_decide_eq_false this
      omega
  obtain ⟨b1, b2, b3, b4, b5, b6⟩ := clean_flush_body enc hq hh N start_tick v t he hfE hst
  obtain ⟨a1, a2⟩ := ready_flags_after t _ hv h1 b3 b5
  rw [← hT] at a2
  obtain ⟨hn, hnn, hrd, hwr⟩ := hv
  have hr := INC_ENC_INDEX_range t.enc_num_chunks t.enc_rd_index hn hrd.1
  generalize (pcmrec_flush_body enc N start_tick v t).2.2 = u at b2 b3 b4 b5 b6 a1 a2 ⊢
  have r1 : u.enc_rd_index = INC_ENC_INDEX t.enc_num_chunks t.enc_rd_index :=
    congrArg (fun x => x.1) b3
  have r2 : u.enc_wr_index = t.enc_wr_index := congrArg (fun x => x.2.1) b3
  have r3 : u.enc_num_chunks = t.enc_num_chunks := congrArg (fun x => x.2.2) b3
  refine ⟨b1, b2, ?_, ⟨?_, ?_, ?_, ?_⟩, a1⟩
  · unfold ring_valid
    rw [r1, r2, r3]
    exact ⟨hn, hnn, hr, hwr⟩
  · by_cases hS : (t.chunks t.enc_rd_index).flags &&& CHUNKF_START_FILE ≠ 0
    · rw [if_pos hS] at b4
      exact (fnq_pull_wf t u hwf (hst hS).1 b4).1
    · rw [if_neg hS] at b4
      exact (fnq_well_formed_congr u t b4 hwf).1
  · rw [a2]; exact hTE
  · rw [a2]
    by_cases hS : (t.chunks t.enc_rd_index).flags &&& CHUNKF_START_FILE ≠ 0
    · rw [if_pos hS] at b4 hcnt
      rw [(fnq_pull_wf t u hwf (hst hS).1 b4).2]
      push_cast at hcnt
      omega
    · rw [if_neg hS] at b4 hcnt
      rw [(fnq_well_formed_congr u t b4 hwf).2]
      push_cast at hcnt
      omega
  · rw [a2]
    refine markers_nested_of_le T _ _ ?_ hn2
    intro h0
    exact b6 (of_decide_eq_true h0)

/-- The flush loop over ready chunks that are in step with the recorder, in a
state without error, ends without error. -/
theorem flush_loop_clean (enc : Encoder) (hq : file_event_quiet enc)
    (hh : file_handle_protocol enc) (N : Int) (start_tick : Nat) (fuel : Nat) :
    ∀ (v : flush_vars) (t : PcmRec), ring_valid t → t.errors = 0 → flush_in_sync t →
      N - v.i ≤ num_ready t →
      (pcmrec_flush_loop enc N start_tick fuel v t).2.errors = 0 ∧
      ring_valid (pcmrec_flush_loop enc N start_tick fuel v t).2 ∧
      flush_in_sync (pcmrec_flush_loop enc N start_tick fuel v t).2 := by
  induction fuel with
  | zero => intro v t hv he hs _; exact ⟨he, hv, hs⟩
  | succ k ih =>
    intro v t hv he hs hN
    simp only [pcmrec_flush_loop]
    by_cases hlt : v.i < N
    · rw [if_pos hlt]
      obtain ⟨c1, c2, c3, c4, c5⟩ :=
        flush_in_sync_step enc hq hh N start_tick v t hv he hs (by omega)
      rw [if_neg (by simp [c1])]
      obtain ⟨_, hv2⟩ := flush_body_vars enc N start_tick v t c1
      have hi : v.i + 1 ≤ (pcmrec_flush_body enc N start_tick v t).2.1.i := by
        rw [hv2]
        split <;> omega
      exact ih _ _ c3 c2 c4 (by omega)
    · rw [if_neg hlt]
      exact ⟨he, hv, hs⟩

theorem flush_in_sync_congr (a b : PcmRec) (h1 : ∀ j, (a.chunks j).flags = (b.chunks j).flags)
    (h2 : ring3 a = ring3 b) (h3 : fnq3 a = fnq3 b)
    (h4 : a.rec_fdata.rec_file = b.rec_fdata.rec_file) (hb : flush_in_sync b) :
    flush_in_sync a := by
  obtain ⟨r1, r2, r3⟩ := ring3_fields _ _ h2
  have hnr : num_ready a = num_ready b := by
    unfold num_ready
    rw [r1, r2, r3]
  have hfl : ready_flags a = ready_flags b := by
    unfold ready_flags ready_chunks
    rw [List.map_map, List.map_map, hnr, r1, r3]
    apply List.map_congr_left
    intro j _
    exact h1 j
  obtain ⟨w1, w2⟩ := fnq_well_formed_congr a b h3 hb.1
  unfold flush_in_sync
  rw [hfl, w2, h4]
  exact ⟨w1, hb.2.1, hb.2.2.1, hb.2.2.2⟩

theorem flush_run_frame (enc : Encoder) (N : Int) (flush_num : Nat) (num : Int) (t : PcmRec) :
    (flush_run enc N flush_num num t).chunks =
      (pcmrec_flush_loop enc N t.current_tick N.toNat
        { i := 0, num := num, prio := -1, flush_num := flush_num } t).2.chunks ∧
    fnq3 (flush_run enc N flush_num num t) =
      fnq3 (pcmrec_flush_loop enc N t.current_tick N.toNat
        { i := 0, num := num, prio := -1, flush_num := flush_num } t).2 ∧
    (flush_run enc N flush_num num t).rec_fdata =
      (pcmrec_flush_loop enc N t.current_tick N.toNat
        { i := 0, num := num, prio := -1, flush_num := flush_num } t).2.rec_fdata := by
  unfold flush_run
  simp only []
  split_ifs <;> exact ⟨rfl, rfl, rfl⟩

/-- A forced flush of ready chunks that are in step with the recorder, entered
without error, ends without error, with the ready chunks (none is left) in
step. -/
theorem forced_flush_clean (enc : Encoder) (hq : file_event_quiet enc)
    (hh : file_handle_protocol enc) (s : PcmRec) (hv : ring_valid s) (he : s.errors = 0)
    (hs : flush_in_sync s) :
    (pcmrec_flush enc 0xFFFFFFFF s).errors = 0 ∧
    ring_valid (pcmrec_flush enc 0xFFFFFFFF s) ∧
    flush_in_sync (pcmrec_flush enc 0xFFFFFFFF s) := by
  rw [pcmrec_flush_eq, if_neg (by decide)]
  obtain ⟨f1, f2⟩ := flush_run_fields enc (num_ready s) 0xFFFFFFFF (num_ready s) s
  obtain ⟨g1, g2, g3⟩ := flush_run_frame enc (num_ready s) 0xFFFFFFFF (num_ready s) s
  obtain ⟨l1, l2, l3⟩ := flush_loop_clean enc hq hh (num_ready s) s.current_tick
    (num_ready s).toNat { i := 0, num := num_ready s, prio := -1, flush_num := 0xFFFFFFFF } s
    hv he hs (by show num_ready s - 0 ≤ _; omega)
  refine ⟨f2.trans l1, ring_valid_of_ring3 _ _ f1 l2, ?_⟩
  exact flush_in_sync_congr _ _ (fun j => by rw [g1]) f1 g2 (by rw [g3]) l3

theorem callback_congr (enc enc2 : Encoder) (h : enc2.file_event = enc.file_event)
    (ev : enc_events) (s : PcmRec) :
    enc_events_callback enc2 ev s = enc_events_callback enc ev s := by
  unfold enc_events_callback
  rw [h]

theorem flush_body_congr (enc enc2 : Encoder) (h : enc2.file_event = enc.file_event)
    (N : Int) (start_tick : Nat) (v : flush_vars) (s : PcmRec) :
    pcmrec_flush_body enc2 N start_tick v s = pcmrec_flush_body enc N start_tick v s := by
  unfold pcmrec_flush_body pcmrec_start_file pcmrec_write_chunk pcmrec_end_file
  simp only [callback_congr enc enc2 h]

theorem flush_loop_congr (enc enc2 : Encoder) (h : enc2.file_event = enc.file_event)
    (N : Int) (start_tick : Nat) (fuel : Nat) :
    ∀ (v : flush_vars) (s : PcmRec),
      pcmrec_flush_loop enc2 N start_tick fuel v s = pcmrec_flush_loop enc N start_tick fuel v s := by
  induction fuel with
  | zero => intro v s; rfl
  | succ k ih =>
    intro v s
    simp only [pcmrec_flush_loop, flush_body_congr enc enc2 h, ih]

/-- A flush raises file events only: encoders with the same file events flush
alike. -/
theorem flush_congr (enc enc2 : Encoder) (h : enc2.file_event = enc.file_event)
    (flush_num : Nat) (s : PcmRec) :
    pcmrec_flush enc2 flush_num s = pcmrec_flush enc flush_num s := by
  unfold pcmrec_flush
  simp only [flush_loop_congr enc enc2 h]

theorem file_events_only_keeps (enc : Encoder) (hq : file_event_quiet enc) :
    encoder_keeps_indices (file_events_only enc) ∧
    file_event_keeps_chunk (file_events_only enc) :=
  ⟨⟨fun ev s => ring3_fields _ _ (hq ev s).2.1, fun _ _ => ⟨rfl, rfl, rfl⟩, fun _ h => h⟩,
    fun ev s => (hq ev s).2.2.2.2⟩

theorem starved_file_encoder_quiet : file_event_quiet starved_file_encoder := by
  intro ev s
  cases ev <;> (simp only [starved_file_encoder, file_encoder]; try split_ifs) <;>
    (refine ⟨?_, ?_, ?_, ?_, ?_⟩ <;> first | trivial | rfl | (intro _; trivial))

theorem starved_file_encoder_protocol : file_handle_protocol starved_file_encoder := by
  refine ⟨fun s => ?_, fun s h => ?_⟩
  · show (-1 : Int) < 0
    decide
  · simp only [starved_file_encoder, file_encoder]
    split_ifs <;> exact h

theorem idle_encoder_quiet : file_event_quiet idle_encoder :=
  fun _ _ => ⟨fun _ => rfl, rfl, rfl, rfl, rfl⟩

theorem eager_encoder_quiet : file_event_quiet eager_encoder := by
  intro ev s
  cases ev <;> (simp only [eager_encoder, idle_encoder]; try split_ifs) <;>
    (refine ⟨?_, ?_, ?_, ?_, ?_⟩ <;> first | trivial | rfl | (intro _; trivial))

/-- C34 (as stated) fails; each part is a forced flush entered with
`errors = 0` over two or four ready chunks, with an encoder whose callbacks
leave the chunk flags and the error word alone (they report no error) and add
no chunks, that is left at the error after the first or the second chunk:
ready chunks stay undelivered and the read index does not reach the write
index. In parts (1) to (3) the encoder is the file
encoder, which also closes the file at the end-of-file event and opens none on
a chunk write, and the state meets all of `flush_in_sync` but the one
condition named.
(1) The chunk at the read index carries a start marker for which the filename
queue holds no name: `pcmrec_start_file` raises `PCMREC_E_FNQ_DESYNC`.
(2) It carries a start marker while the previous file is still open: the same
error.
(3) It carries the error flag: `pcmrec_write_chunk` raises `PCMREC_E_ENCODER`.
(4) The state is in step, the first chunk ends the open file, the second
starts the next, and the encoder does not close the file at the end-of-file
event (it opens none on a chunk write): the start finds the file open.
(5) The state is in step, no file is open, the second chunk starts a file, and
the encoder (which closes the file at the end-of-file event) opens a file on
the chunk write of the first: the start finds the file open. -/
theorem C34_counterexample :
    ((start_pending_no_name.errors = 0 ∧ ring_valid start_pending_no_name ∧
        num_ready start_pending_no_name = 2 ∧ file_event_quiet starved_file_encoder ∧
        file_handle_protocol starved_file_encoder ∧
        fnq_well_formed start_pending_no_name ∧
        no_error_flag (ready_flags start_pending_no_name) ∧
        markers_nested (decide (0 ≤ start_pending_no_name.rec_fdata.rec_file))
          (ready_flags start_pending_no_name) = true) ∧
      (write_calls (pcmrec_flush starved_file_encoder 0xFFFFFFFF start_pending_no_name).trace).map
          (fun c => c.chunk) = [0] ∧
      (pcmrec_flush starved_file_encoder 0xFFFFFFFF start_pending_no_name).enc_rd_index = 1 ∧
      (pcmrec_flush starved_file_encoder 0xFFFFFFFF start_pending_no_name).enc_wr_index = 2 ∧
      (pcmrec_flush starved_file_encoder 0xFFFFFFFF start_pending_no_name).errors
        = PCMREC_E_FNQ_DESYNC) ∧
    ((start_pending_file_open.errors = 0 ∧ ring_valid start_pending_file_open ∧
        num_ready start_pending_file_open = 2 ∧
        fnq_well_formed start_pending_file_open ∧
        no_error_flag (ready_flags start_pending_file_open) ∧
        (start_markers (ready_flags start_pending_file_open) : Int)
          ≤ fnq_count start_pending_file_open) ∧
      (pcmrec_flush starved_file_encoder 0xFFFFFFFF start_pending_file_open).enc_rd_index = 1 ∧
      (pcmrec_flush starved_file_encoder 0xFFFFFFFF start_pending_file_open).enc_wr_index = 2 ∧
      (pcmrec_flush starved_file_encoder 0xFFFFFFFF start_pending_file_open).errors
        = PCMREC_E_FNQ_DESYNC) ∧
    ((error_flagged_pending.errors = 0 ∧ ring_valid error_flagged_pending ∧
        num_ready error_flagged_pending = 2 ∧
        fnq_well_formed error_flagged_pending ∧
        (start_markers (ready_flags error_flagged_pending) : Int)
          ≤ fnq_count error_flagged_pending ∧
        markers_nested (decide (0 ≤ error_flagged_pending.rec_fdata.rec_file))
          (ready_flags error_flagged_pending) = true) ∧
      (pcmrec_flush starved_file_encoder 0xFFFFFFFF error_flagged_pending).enc_rd_index = 1 ∧
      (pcmrec_flush starved_file_encoder 0xFFFFFFFF error_flagged_pending).enc_wr_index = 2 ∧
      (pcmrec_flush starved_file_encoder 0xFFFFFFFF error_flagged_pending).errors
        = PCMREC_E_ENCODER) ∧
    (((four_ready split_pending_file_open).errors = 0 ∧
        ring_valid (four_ready split_pending_file_open) ∧
        num_ready (four_ready split_pending_file_open) = 4 ∧
        flush_in_sync (four_ready split_pending_file_open) ∧
        file_event_quiet idle_encoder ∧
        ∀ s, s.rec_fdata.rec_file < 0 →
          (idle_encoder.file_event enc_events.ENC_WRITE_CHUNK s).rec_fdata.rec_file < 0) ∧
      (write_calls (pcmrec_flush idle_encoder 0xFFFFFFFF (four_ready split_pending_file_open)).trace).map
          (fun c => c.chunk) = [0, 1] ∧
      (pcmrec_flush idle_encoder 0xFFFFFFFF (four_ready split_pending_file_open)).enc_rd_index = 2 ∧
      (pcmrec_flush idle_encoder 0xFFFFFFFF (four_ready split_pending_file_open)).enc_wr_index = 4 ∧
      (pcmrec_flush idle_encoder 0xFFFFFFFF (four_ready split_pending_file_open)).errors
        = PCMREC_E_FNQ_DESYNC) ∧
    (((four_ready plain_then_start).errors = 0 ∧ ring_valid (four_ready plain_then_start) ∧
        num_ready (four_ready plain_then_start) = 4 ∧
        flush_in_sync (four_ready plain_then_start) ∧
        file_event_quiet eager_encoder ∧
        ∀ s, (eager_encoder.file_event enc_events.ENC_END_FILE s).rec_fdata.rec_file < 0) ∧
      (write_calls (pcmrec_flush eager_encoder 0xFFFFFFFF (four_ready plain_then_start)).trace).map
          (fun c => c.chunk) = [0, 1] ∧
      (pcmrec_flush eager_encoder 0xFFFFFFFF (four_ready plain_then_start)).enc_rd_index = 2 ∧
      (pcmrec_flush eager_encoder 0xFFFFFFFF (four_ready plain_then_start)).enc_wr_index = 4 ∧
      (pcmrec_flush eager_encoder 0xFFFFFFFF (four_ready plain_then_start)).errors
        = PCMREC_E_FNQ_DESYNC) :=
  ⟨⟨⟨by decide, by decide, by decide, starved_file_encoder_quiet, starved_file_encoder_protocol,
      by decide, by decide, by decide⟩, by decide, by decide, by decide, by decide⟩,
   ⟨⟨by decide, by decide, by decide, by decide, by decide, by decide⟩,
      by decide, by decide, by decide⟩,
   ⟨⟨by decide, by decide, by decide, by decide, by decide, by decide⟩,
      by decide, by decide, by decide⟩,
   ⟨⟨by decide, by decide, by decide, by decide, idle_encoder_quiet, fun _ h => h⟩,
      by decide, by decide, by decide, by decide⟩,
   ⟨⟨by decide, by decide, by decide, by decide, eager_encoder_quiet,
      fun _ => show (-1 : Int) < 0 from by decide⟩,
      by decide, by decide, by decide, by decide⟩⟩

/-- C34 (amended): a forced flush (the drain-everything request `0xFFFFFFFF`)
entered with `errors = 0` on a ring with valid indices whose ready chunks are
in step with the recorder (the filename queue is laid out soundly, no ready
chunk carries the error flag, the queue holds a name for every start marker
among the ready chunks, and no start marker is met while a file is open), with
an encoder whose file events report no error and add no chunks (they leave the
chunk flags, the error word, the ring indices and the filename queue alone and
hand back the chunk pointer) and which closes the file at the end-of-file
event and opens none on a chunk write: the flush ends with `errors = 0`, every
one of the `(writeIndex - readIndex) mod n` ready chunks has been delivered to
the write-chunk event exactly once, in ring order from the read index (the
calls made during the flush, restricted to chunk writes, name the slots
`readIndex, readIndex + 1, ...` modulo `n`); the read index ends at the write
index, and the write index is unchanged. -/
theorem C34_forced_flush_delivers (enc : Encoder) (hq : file_event_quiet enc)
    (hh : file_handle_protocol enc) (s : PcmRec) (hv : ring_valid s) (he : s.errors = 0)
    (hs : flush_in_sync s) :
    (pcmrec_flush enc 0xFFFFFFFF s).errors = 0 ∧
    ∃ delta, (pcmrec_flush enc 0xFFFFFFFF s).trace = s.trace ++ delta ∧
      (write_calls delta).map (fun c => c.chunk) =
        ready_slots s.enc_num_chunks (num_ready s).toNat s.enc_rd_index ∧
      (write_calls delta).map (fun c => c.chunk) =
        (List.range (num_ready s).toNat).map
          (fun (j : Nat) => (s.enc_rd_index + (j : Int)) % s.enc_num_chunks) ∧
      ((write_calls delta).length : Int) =
        (s.enc_wr_index - s.enc_rd_index) % s.enc_num_chunks ∧
      (pcmrec_flush enc 0xFFFFFFFF s).enc_rd_index = s.enc_wr_index ∧
      (pcmrec_flush enc 0xFFFFFFFF s).enc_wr_index = s.enc_wr_index := by
  obtain ⟨hF, -, -⟩ := forced_flush_clean enc hq hh s hv he hs
  obtain ⟨k1, k2⟩ := file_events_only_keeps enc hq
  have hc : pcmrec_flush (file_events_only enc) 0xFFFFFFFF s = pcmrec_flush enc 0xFFFFFFFF s :=
    flush_congr enc (file_events_only enc) rfl _ s
  have hd := forced_flush_delivers (file_events_only enc) k1 k2 s hv (by rw [hc]; exact hF)
  rw [hc] at hd
  exact ⟨hF, hd⟩

/-- Witness of C34: two ready chunks, the first the start of "a.wav", both
names queued, no file open, and the file encoder. -/
theorem C34_forced_flush_delivers_witness :
    file_event_quiet starved_file_encoder ∧ file_handle_protocol starved_file_encoder ∧
    ring_valid start_pending ∧ start_pending.errors = 0 ∧ flush_in_sync start_pending ∧
    (pcmrec_flush starved_file_encoder 0xFFFFFFFF start_pending).errors = 0 ∧
    ∃ delta, (pcmrec_flush starved_file_encoder 0xFFFFFFFF start_pending).trace =
        start_pending.trace ++ delta ∧
      (write_calls delta).map (fun c => c.chunk) =
        ready_slots start_pending.enc_num_chunks (num_ready start_pending).toNat
          start_pending.enc_rd_index ∧
      (write_calls delta).map (fun c => c.chunk) =
        (List.range (num_ready start_pending).toNat).map
          (fun (j : Nat) => (start_pending.enc_rd_index + (j : Int))
            % start_pending.enc_num_chunks) ∧
      ((write_calls delta).length : Int) =
        (start_pending.enc_wr_index - start_pending.enc_rd_index)
          % start_pending.enc_num_chunks ∧
      (pcmrec_flush starved_file_encoder 0xFFFFFFFF start_pending).enc_rd_index =
        start_pending.enc_wr_index ∧
      (pcmrec_flush starved_file_encoder 0xFFFFFFFF start_pending).enc_wr_index =
        start_pending.enc_wr_index :=
  ⟨starved_file_encoder_quiet, starved_file_encoder_protocol, by decide, rfl, by decide,
   C34_forced_flush_delivers starved_file_encoder starved_file_encoder_quiet
     starved_file_encoder_protocol start_pending (by decide) rfl (by decide)⟩

theorem in_ready_congr (a b : PcmRec) (h : ring3 a = ring3 b) (j : Int) :
    in_ready a j ↔ in_ready b j := by
  obtain ⟨r1, r2, _⟩ := ring3_fields _ _ h
  unfold in_ready
  rw [r1, r2]

/-- An encoder that adds no chunk during the callbacks or when it is given the
processor is a special case. -/
theorem passive_cooperative (enc : Encoder) (hp : encoder_passive enc) :
    encoder_cooperative enc := by
  refine ⟨hp.1, fun d s => ⟨?_, ?_⟩, fun s => ?_⟩
  · exact encoder_steps.other _ _ _ (encoder_steps.refl s) (hp.2.1 d s).1
  · intro hd _ hv
    obtain ⟨q, hch⟩ := hp.2.1 d s
    rw [hch, hd]
    refine ⟨hv.2.2.2, ?_, Or.inl rfl⟩
    rw [in_ready_congr _ s (qstate_fields _ _ q).2.1]
    exact in_ready_wr s hv
  · exact encoder_steps.other _ _ _ (encoder_steps.refl s) (hp.2.2 s)

theorem ring_kept_ring3 (s t : PcmRec) (h : ring3 t = ring3 s) (hv : ring_valid s) :
    ring_kept s t :=
  ⟨ring_valid_of_ring3 _ _ h hv, (ring3_fields _ _ h).2.2⟩

theorem ring_kept_trans (s t u : PcmRec) (h1 : ring_kept s t) (h2 : ring_kept t u) :
    ring_kept s u :=
  ⟨h2.1, h2.2.trans h1.2⟩

/-- An encoder whose callbacks leave the ring indices alone keeps the ring. -/
theorem keeps_indices_keeps_ring (enc : Encoder) (hidx : encoder_keeps_indices enc)
    (hy : ∀ t, (enc.on_yield t).enc_num_chunks = t.enc_num_chunks) :
    encoder_keeps_ring enc := by
  refine ⟨fun ev s hv => ?_, fun d s hv => ?_, fun s hv => ⟨hidx.2.2 s hv, hy s⟩⟩
  · obtain ⟨h1, h2, h3⟩ := hidx.1 ev s
    refine ⟨?_, h3⟩
    unfold ring_valid
    rw [h1, h2, h3]
    exact hv
  · obtain ⟨h1, h2, h3⟩ := hidx.2.1 d s
    refine ⟨?_, h3⟩
    unfold ring_valid
    rw [h1, h2, h3]
    exact hv

/-- What the encoder does through `enc_get_chunk` and `enc_finish_chunk` keeps
the ring. -/
theorem encoder_steps_kept (s t : PcmRec) (h : encoder_steps s t) (hv : ring_valid s) :
    ring_kept s t := by
  induction h with
  | refl => exact ⟨hv, rfl⟩
  | get_chunk t _ ih =>
    exact ring_kept_trans _ _ _ ih (ring_kept_ring3 _ _ (ring3_enc_get_chunk t) ih.1)
  | finish_chunk t _ ih =>
    exact ring_kept_trans _ _ _ ih
      ⟨ring_enc_finish_chunk t ih.1, (enc_finish_chunk_indices t).1⟩
  | other t u _ hq ih =>
    exact ring_kept_trans _ _ _ ih (ring_kept_ring3 _ _ (qstate_fields _ _ hq).2.1 ih.1)

/-- An encoder that adds chunks through the interface keeps the ring. -/
theorem cooperative_keeps_ring (enc : Encoder) (hc : encoder_cooperative enc) :
    encoder_keeps_ring enc :=
  ⟨fun ev s hv => ring_kept_ring3 _ _ (qstate_fields _ _ (hc.1 ev s).1).2.1 hv,
    fun d s hv => encoder_steps_kept _ _ (hc.2.1 d s).1 hv,
    fun s hv => encoder_steps_kept _ _ (hc.2.2 s) hv⟩

/-- The condition `new_stream_hands_back` is needed: the callbacks of
`stray_encoder` leave the whole state alone and its file events hand back the
chunk pointer they were given, and a Stop on a ring of 4 chunks addresses
slot 999, the one before the chunk the new-stream callback handed back. -/
theorem stray_encoder_slot :
    encoder_keeps_ring stray_encoder ∧ file_event_keeps_chunk stray_encoder ∧
    ring_valid full_ring_recording ∧ full_ring_recording.enc_num_chunks = 4 ∧
    pcmrec_stop_slots stray_encoder 1 full_ring_recording =
      [3, 3, 3, 3, 3, 0, 0, 0, 0, 0, 1, 1, 1, 1, 1, 2, 3, 1000, 999, 2, 2, 2, 2, 2, 3] := by
  refine ⟨⟨(cooperative_keeps_ring _ (passive_cooperative _ file_encoder_passive)).1,
    fun d s hv => ⟨hv, rfl⟩,
    (cooperative_keeps_ring _ (passive_cooperative _ file_encoder_passive)).2.2⟩,
    fun ev s => ((passive_cooperative _ file_encoder_passive).1 ev s).2,
    by decide, rfl, by decide⟩

end PcmRecord
